import Mathlib

/-!
# tinywebserver: the HTTP connection (`httpConn.h`, `httpConn.cpp`)

A shallow embedding of `HTTPConn`: the request parser (`parseLine`,
`parseRequestLine`, `parseHeaders`, `parseContent`, `processRead`), resource
resolution (`doRequest`), response assembly (`addResponse`, `processWrite`)
and the non-blocking `write`.

Conventions of the embedding.
* A `char` array is a map from offsets (`Int`) to byte values (`Nat`).  The
  cells of `readBuffer` are the offsets `0 .. READ_BUFFER_SIZE - 1`; a store at
  any other offset is a store outside the array.
* A `char*` into `readBuffer` is an offset, `none` is the null pointer.
* `int` fields are `Int`; where the source converts a wider value to `int`
  the conversion is written out (`toInt32`).
* The functions of the C library are modelled on the bytes of the C string
  they are given (`cstr`).
-/

namespace TinyWeb

/-! ## Constants and enumerations (`httpConn.h`) -/

def FILENAME_LEN : Int := 200
def READ_BUFFER_SIZE : Int := 2048
def WRITE_BUFFER_SIZE : Int := 1024

inductive METHOD where
  | GET | POST | HEAD | PUT | DELETE | TRACE | OPTIONS | CONNECT
  deriving DecidableEq

inductive CHECK_STATE where
  | CHECK_STATE_REQUESTLINE | CHECK_STATE_HEADER | CHECK_STATE_CONTENT
  deriving DecidableEq

inductive HTTP_CODE where
  | NO_REQUEST | GET_REQUEST | BAD_REQUEST | NO_RESOURCE | FORBIDDEN_REQUEST
  | FILE_REQUEST | INTERNAL_ERROR | CLOSED_CONNECTION
  deriving DecidableEq

inductive LINE_STATUS where
  | LINE_OK | LINE_BAD | LINE_OPEN
  deriving DecidableEq

open METHOD CHECK_STATE HTTP_CODE LINE_STATUS

/-! ## Bytes, memory and the C library -/

/-- The bytes of a string literal. -/
def bytes (s : String) : List Nat := s.toList.map Char.toNat

/-- Store of one byte: `m[i] = v`. -/
def setByte (m : Int → Nat) (i : Int) (v : Nat) : Int → Nat :=
  fun j => if j = i then v else m j

/-- Store of consecutive bytes starting at offset `p`. -/
def setBytes (m : Int → Nat) (p : Int) : List Nat → Int → Nat
  | [] => m
  | b :: bs => setBytes (setByte m p b) (p + 1) bs

/-- Library `bzero(m, n)`: the `n` bytes at offsets `0 .. n - 1` become zero. -/
def bzero (m : Int → Nat) (n : Int) : Int → Nat :=
  fun j => if 0 ≤ j ∧ j < n then 0 else m j

/-- The `n` bytes read from offset `p` on. -/
def readBytes (m : Int → Nat) (p : Int) : Nat → List Nat
  | 0 => []
  | n + 1 => m p :: readBytes m (p + 1) n

/-- Scan of a C string: the bytes from offset `p` up to the first NUL, at most
`n` of them. -/
def cstrFuel (m : Int → Nat) : Nat → Int → List Nat
  | 0, _ => []
  | n + 1, p => if m p = 0 then [] else m p :: cstrFuel m n (p + 1)

/-- The C string at offset `p` of an array of `size` bytes. -/
def cstr (m : Int → Nat) (size : Int) (p : Int) : List Nat :=
  cstrFuel m (size - p).toNat p

/-- Library `tolower` in the C locale. -/
def tolower (b : Nat) : Nat := if 65 ≤ b ∧ b ≤ 90 then b + 32 else b

/-- Library `strcasecmp` on the bytes of two C strings; the end of a string
compares as the NUL byte. -/
def strcasecmp : List Nat → List Nat → Int
  | [], [] => 0
  | [], b :: _ => 0 - (tolower b : Int)
  | a :: _, [] => (tolower a : Int)
  | a :: as, b :: bs =>
    if tolower a = tolower b then strcasecmp as bs else (tolower a : Int) - (tolower b : Int)

/-- Library `strncasecmp`: at most `n` bytes are compared. -/
def strncasecmp (a b : List Nat) (n : Nat) : Int :=
  strcasecmp (a.take n) (b.take n)

/-- Position of the first byte satisfying `pred`. -/
def findFirst (pred : Nat → Bool) : List Nat → Option Nat
  | [] => none
  | x :: xs => if pred x then some 0 else (findFirst pred xs).map (· + 1)

/-- The separators of the request line: space and tab (the set `" \t"`). -/
def isSpTab (b : Nat) : Bool := b = 32 || b = 9

/-- Library `strpbrk(p, " \t")` on `readBuffer`: pointer to the first space or
tab of the C string at `p`, or null. -/
def strpbrk (m : Int → Nat) (p : Int) : Option Int :=
  (findFirst isSpTab (cstr m READ_BUFFER_SIZE p)).map (fun i => p + (i : Int))

/-- Library `strchr(p, c)` on `readBuffer` for a non-NUL byte `c`. -/
def strchr (m : Int → Nat) (p : Int) (ch : Nat) : Option Int :=
  (findFirst (fun b => b == ch) (cstr m READ_BUFFER_SIZE p)).map (fun i => p + (i : Int))

/-- Library `strspn(p, " \t")`: length of the leading run of spaces and tabs. -/
def strspn (s : List Nat) : Nat := (s.takeWhile isSpTab).length

/-- Library `isspace` in the C locale. -/
def isspace (b : Nat) : Bool := b = 32 || (9 ≤ b && b ≤ 13)

def LONG_MAX : Int := 9223372036854775807
def LONG_MIN : Int := -9223372036854775808

/-- Value of the leading run of decimal digits. -/
def digitsValue : List Nat → Nat → Nat
  | [], acc => acc
  | d :: ds, acc => if 48 ≤ d ∧ d ≤ 57 then digitsValue ds (acc * 10 + (d - 48)) else acc

/-- Library `atol` (glibc: `strtol(s, 0, 10)`): leading white space, an optional
sign, decimal digits; the result saturates at the range of `long`. -/
def atol (s : List Nat) : Int :=
  match s.dropWhile isspace with
  | 45 :: r => max LONG_MIN (-(digitsValue r 0 : Int))
  | 43 :: r => min LONG_MAX (digitsValue r 0 : Int)
  | r => min LONG_MAX (digitsValue r 0 : Int)

/-- Conversion of a wider integer to `int` (two's complement, 32 bits). -/
def toInt32 (x : Int) : Int := (x + 2147483648) % 4294967296 - 2147483648

/-! ## Connection state -/

/-- The fields of `struct stat` the server reads. -/
structure Stat where
  st_mode : Nat
  st_size : Int
  deriving DecidableEq

/-- What an `iov_base` points to: the write buffer, or whatever `fileAddress`
holds (the bytes of the mapping, `none` for a null pointer). -/
inductive IovBase where
  | unset
  | writeBuffer
  | fileAddress (mapping : Option (List Nat))
  deriving DecidableEq

structure iovec where
  iov_base : IovBase
  iov_len : Int
  deriving DecidableEq

/-- The fields of `HTTPConn`.  `stores` is instrumentation: the offsets into
`readBuffer` at which the parser has stored a byte, oldest first. `armed` is
the history of event masks passed to `addfd` and `modfd` for this slot. -/
structure HTTPConn where
  socketFd : Int
  readBuffer : Int → Nat
  readIndex : Int
  checkedIndex : Int
  startLine : Int
  checkState : CHECK_STATE
  httpMethod : METHOD
  realFile : Int → Nat
  url : Option Int
  httpVersion : Option Int
  hostName : Option Int
  contentLength : Int
  linger : Bool
  writeBuffer : Int → Nat
  writeIndex : Int
  fileAddress : Option (List Nat)
  fileStat : Stat
  iv0 : iovec
  iv1 : iovec
  ivCount : Int
  stores : List Int
  armed : List Nat

/-- A store `readBuffer[i] = v` by the parser, recorded in `stores`.  The
arrays of the model are maps on all offsets.  A store at an offset outside
`0 .. READ_BUFFER_SIZE - 1` has no defined effect in C: in the object it falls
on another member, on a neighbouring element of `users`, or on memory that is
not mapped.  The model records its offset and changes nothing else, so what
it computes from there on describes the program only as long as every offset
in `stores` lies inside the array (`StoresInside`). -/
def store (c : HTTPConn) (i : Int) (v : Nat) : HTTPConn :=
  { c with readBuffer := setByte c.readBuffer i v, stores := c.stores ++ [i] }

/-! ## The object layout -/

/-- The non-static data members of `HTTPConn`, in the order in which
`httpConn.h` declares them. -/
inductive Member where
  | socketFd
  | address
  | readBuffer
  | readIndex
  | checkedIndex
  | startLine
  | checkState
  | httpMethod
  | realFile
  | url
  | httpVersion
  | hostName
  | contentLength
  | linger
  | writeBuffer
  | writeIndex
  | fileAddress
  | fileStat
  | iv
  | ivCount
  deriving DecidableEq

/-- Size of a member in bytes on x86-64 Linux: `int` and the enumerations 4,
pointers 8, `bool` 1, `sockaddr_in` 16, `struct stat` 144, `struct iovec` 16,
the arrays by their declared length. -/
def Member.size : Member → Nat
  | .socketFd => 4
  | .address => 16
  | .readBuffer => READ_BUFFER_SIZE.toNat
  | .readIndex => 4
  | .checkedIndex => 4
  | .startLine => 4
  | .checkState => 4
  | .httpMethod => 4
  | .realFile => FILENAME_LEN.toNat
  | .url => 8
  | .httpVersion => 8
  | .hostName => 8
  | .contentLength => 4
  | .linger => 1
  | .writeBuffer => WRITE_BUFFER_SIZE.toNat
  | .writeIndex => 4
  | .fileAddress => 8
  | .fileStat => 144
  | .iv => 2 * 16
  | .ivCount => 4

/-- Alignment of a member in bytes on x86-64 Linux. -/
def Member.align : Member → Nat
  | .socketFd => 4
  | .address => 4
  | .readBuffer => 1
  | .readIndex => 4
  | .checkedIndex => 4
  | .startLine => 4
  | .checkState => 4
  | .httpMethod => 4
  | .realFile => 1
  | .url => 8
  | .httpVersion => 8
  | .hostName => 8
  | .contentLength => 4
  | .linger => 1
  | .writeBuffer => 1
  | .writeIndex => 4
  | .fileAddress => 8
  | .fileStat => 8
  | .iv => 8
  | .ivCount => 4

/-- The members in declaration order. -/
def Member.all : List Member :=
  [.socketFd, .address, .readBuffer, .readIndex, .checkedIndex, .startLine, .checkState,
    .httpMethod, .realFile, .url, .httpVersion, .hostName, .contentLength, .linger,
    .writeBuffer, .writeIndex, .fileAddress, .fileStat, .iv, .ivCount]

/-- The least multiple of `a` that is not below `n`. -/
def alignUp (n a : Nat) : Nat := (n + a - 1) / a * a

/-- Offsets of members laid out one behind the other from offset `off`, each
at the next offset that has its alignment. -/
def layoutFrom : Nat → List Member → List (Member × Nat)
  | _, [] => []
  | off, m :: ms => (m, alignUp off m.align) :: layoutFrom (alignUp off m.align + m.size) ms

/-- Offset of a member in an object of class `HTTPConn`. -/
def offsetOf (m : Member) : Nat := ((layoutFrom 0 Member.all).lookup m).getD 0

/-- The value of `sizeof(HTTPConn)`: the end of the last member, rounded up to
the alignment of the class (8); it is the distance between two elements of
the array `users`. -/
def sizeofHTTPConn : Nat := alignUp (offsetOf .ivCount + Member.ivCount.size) 8

/-- Number of bytes at the start of the next element of `users` that
`bzero(writeBuffer, READ_BUFFER_SIZE)` reaches: the call covers
`READ_BUFFER_SIZE` bytes from the offset of `writeBuffer`, and the object
ends before that. -/
def overrunBytes : Nat := offsetOf .writeBuffer + READ_BUFFER_SIZE.toNat - sizeofHTTPConn

/-- `HTTPConn::init()`.  The call `bzero(writeBuffer, READ_BUFFER_SIZE)`
covers 2048 bytes from `writeBuffer`, which has 1024: with the layout above it
also zeroes the members declared behind `writeBuffer` (`writeIndex`,
`fileAddress`, `fileStat`, `iv`, `ivCount`), which the model shows in these
fields, and the first `overrunBytes` bytes of the next element of `users`,
which the model shows in `Server.apply` (a single connection has no
neighbour). -/
def init (c : HTTPConn) : HTTPConn :=
  { c with
    checkState := CHECK_STATE_REQUESTLINE
    linger := false
    httpMethod := GET
    url := none
    httpVersion := none
    contentLength := 0
    hostName := none
    startLine := 0
    checkedIndex := 0
    readIndex := 0
    writeIndex := 0
    readBuffer := bzero c.readBuffer READ_BUFFER_SIZE
    writeBuffer := bzero c.writeBuffer READ_BUFFER_SIZE
    fileAddress := none
    fileStat := ⟨0, 0⟩
    iv0 := ⟨IovBase.unset, 0⟩
    iv1 := ⟨IovBase.unset, 0⟩
    ivCount := 0
    realFile := bzero c.realFile FILENAME_LEN }

/-! ## The line scanner -/

/-- The `for` loop of `parseLine`; `n` bounds the number of bytes still to
inspect (`readIndex - checkedIndex`). -/
def parseLineLoop : Nat → HTTPConn → LINE_STATUS × HTTPConn
  | 0, c => (LINE_OPEN, c)
  | n + 1, c =>
    if c.checkedIndex < c.readIndex then
      let temp := c.readBuffer c.checkedIndex
      if temp = 13 then
        if c.checkedIndex + 1 = c.readIndex then
          (LINE_OPEN, c)
        else if c.readBuffer (c.checkedIndex + 1) = 10 then
          let c1 := store c c.checkedIndex 0
          let c2 := { c1 with checkedIndex := c1.checkedIndex + 1 }
          let c3 := store c2 c2.checkedIndex 0
          (LINE_OK, { c3 with checkedIndex := c3.checkedIndex + 1 })
        else
          (LINE_BAD, c)
      else if temp = 10 then
        if c.checkedIndex > 1 ∧ c.readBuffer (c.checkedIndex - 1) = 13 then
          let c1 := store c (c.checkedIndex - 1) 0
          let c2 := store c1 c1.checkedIndex 0
          (LINE_OK, { c2 with checkedIndex := c2.checkedIndex + 1 })
        else
          (LINE_BAD, c)
      else
        parseLineLoop n { c with checkedIndex := c.checkedIndex + 1 }
    else
      (LINE_OPEN, c)

/-- `HTTPConn::parseLine`. -/
def parseLine (c : HTTPConn) : LINE_STATUS × HTTPConn :=
  parseLineLoop (c.readIndex - c.checkedIndex).toNat c

/-! ## Request line, headers, body -/

/-- `HTTPConn::parseRequestLine(text)`; `text` is an offset into `readBuffer`. -/
def parseRequestLine (c : HTTPConn) (text : Int) : HTTP_CODE × HTTPConn :=
  match strpbrk c.readBuffer text with
  | none => (BAD_REQUEST, { c with url := none })
  | some u =>
    let c1 := { store c u 0 with url := some (u + 1) }
    if strcasecmp (cstr c1.readBuffer READ_BUFFER_SIZE text) (bytes "GET") = 0 then
      let c2 := { c1 with httpMethod := GET }
      match strpbrk c2.readBuffer (u + 1) with
      | none => (BAD_REQUEST, { c2 with httpVersion := none })
      | some v =>
        let c3 := { store c2 v 0 with httpVersion := some (v + 1) }
        if strcasecmp (cstr c3.readBuffer READ_BUFFER_SIZE (v + 1)) (bytes "HTTP/1.1") ≠ 0 then
          (BAD_REQUEST, c3)
        else
          let url4 : Option Int :=
            if strncasecmp (cstr c3.readBuffer READ_BUFFER_SIZE (u + 1)) (bytes "http://") 7 = 0 then
              strchr c3.readBuffer (u + 1 + 7) 47
            else some (u + 1)
          let c4 := { c3 with url := url4 }
          match url4 with
          | none => (BAD_REQUEST, c4)
          | some p =>
            if c4.readBuffer p ≠ 47 then (BAD_REQUEST, c4)
            else (NO_REQUEST, { c4 with checkState := CHECK_STATE_HEADER })
    else
      (BAD_REQUEST, c1)

/-- `HTTPConn::parseHeaders(text)`. -/
def parseHeaders (c : HTTPConn) (text : Int) : HTTP_CODE × HTTPConn :=
  let line := cstr c.readBuffer READ_BUFFER_SIZE text
  if c.readBuffer text = 0 then
    if c.contentLength ≠ 0 then
      (NO_REQUEST, { c with checkState := CHECK_STATE_CONTENT })
    else
      (GET_REQUEST, c)
  else if strncasecmp line (bytes "Connection:") 11 = 0 then
    let text1 := text + 11
    let text2 := text1 + (strspn (cstr c.readBuffer READ_BUFFER_SIZE text1) : Int)
    if strcasecmp (cstr c.readBuffer READ_BUFFER_SIZE text2) (bytes "keep-alive") = 0 then
      (NO_REQUEST, { c with linger := true })
    else
      (NO_REQUEST, c)
  else if strncasecmp line (bytes "Content-Length:") 15 = 0 then
    let text1 := text + 15
    let text2 := text1 + (strspn (cstr c.readBuffer READ_BUFFER_SIZE text1) : Int)
    (NO_REQUEST, { c with contentLength := toInt32 (atol (cstr c.readBuffer READ_BUFFER_SIZE text2)) })
  else if strncasecmp line (bytes "Host:") 5 = 0 then
    let text1 := text + 5
    let text2 := text1 + (strspn (cstr c.readBuffer READ_BUFFER_SIZE text1) : Int)
    (NO_REQUEST, { c with hostName := some text2 })
  else
    (NO_REQUEST, c)

/-- `HTTPConn::parseContent(text)`; the `int` sum `contentLength + checkedIndex`
wraps at 32 bits.  The store `text[contentLength] = 0` is made without a
check of the offset `text + contentLength`, which can lie before
`readBuffer` (a negative `contentLength`), at its end (offset 2048) or two
gigabytes behind it (after the sum has wrapped); see `store` for what the
model does with such a store. -/
def parseContent (c : HTTPConn) (text : Int) : HTTP_CODE × HTTPConn :=
  if c.readIndex ≥ toInt32 (c.contentLength + c.checkedIndex) then
    (GET_REQUEST, store c (text + c.contentLength) 0)
  else
    (NO_REQUEST, c)

/-! ## Resource resolution -/

/-- The answers of the file system: `stat` of a path (`none` when it fails) and
the bytes `mmap` maps for it. -/
structure FileSys where
  stat : List Nat → Option Stat
  mmap : List Nat → List Nat

def docRoot : List Nat := bytes "/home/tinywebsever/resources"

/-- Library `strncpy(dst, src, n)`: exactly `n` bytes are stored, the bytes of
`src` (at most `n`) and then NUL bytes. -/
def strncpy (m : Int → Nat) (dst : Int) (src : List Nat) (n : Nat) : Int → Nat :=
  setBytes m dst (src.take n ++ List.replicate (n - (src.take n).length) 0)

/-- The C string `url` points to.  The source dereferences `url` without a
check; every state that reaches `doRequest` from `init()` has passed
`parseRequestLine`, which leaves `url` non-null, and for a null `url` (which C
leaves undefined) the model copies nothing. -/
def urlString (c : HTTPConn) : List Nat :=
  match c.url with
  | some u => cstr c.readBuffer READ_BUFFER_SIZE u
  | none => []

def S_IROTH : Nat := 4
def S_IFMT : Nat := 61440
def S_IFDIR : Nat := 16384

/-- `HTTPConn::doRequest`. -/
def doRequest (fs : FileSys) (c : HTTPConn) : HTTP_CODE × HTTPConn :=
  let rf := setBytes c.realFile 0 (docRoot ++ [0])
  let len : Int := docRoot.length
  let rf := strncpy rf len (urlString c) (FILENAME_LEN - len - 1).toNat
  let c1 := { c with realFile := rf }
  let path := cstr rf FILENAME_LEN 0
  match fs.stat path with
  | none => (NO_RESOURCE, c1)
  | some st =>
    let c2 := { c1 with fileStat := st }
    if st.st_mode &&& S_IROTH = 0 then (FORBIDDEN_REQUEST, c2)
    else if st.st_mode &&& S_IFMT = S_IFDIR then (BAD_REQUEST, c2)
    else (FILE_REQUEST, { c2 with fileAddress := some (fs.mmap path) })

/-! ## The main state machine -/

/-- Outcome of one evaluation of the `while` condition of `processRead` and,
when it holds, of the loop body: the loop is left because the condition is
false (`exit`), the body returns a code (`ret`), or the loop goes round again
with a new `lineStatus` (`next`). -/
inductive Iter where
  | exit (c : HTTPConn)
  | ret (code : HTTP_CODE) (c : HTTPConn)
  | next (c : HTTPConn) (lineStatus : LINE_STATUS)

/-- The connection state an iteration ends in. -/
def Iter.conn : Iter → HTTPConn
  | .exit c => c
  | .ret _ c => c
  | .next c _ => c

/-- One iteration of the loop of `processRead`. -/
def processReadIter (fs : FileSys) (c : HTTPConn) (lineStatus : LINE_STATUS) : Iter :=
  let cond : Bool × HTTPConn × LINE_STATUS :=
    if c.checkState = CHECK_STATE_CONTENT ∧ lineStatus = LINE_OK then (true, c, lineStatus)
    else
      let r := parseLine c
      (decide (r.1 = LINE_OK), r.2, r.1)
  if cond.1 = false then Iter.exit cond.2.1
  else
    let c0 := cond.2.1
    let text := c0.startLine
    let c1 := { c0 with startLine := c0.checkedIndex }
    match c1.checkState with
    | CHECK_STATE_REQUESTLINE =>
      let r := parseRequestLine c1 text
      if r.1 = BAD_REQUEST then Iter.ret BAD_REQUEST r.2 else Iter.next r.2 cond.2.2
    | CHECK_STATE_HEADER =>
      let r := parseHeaders c1 text
      if r.1 = BAD_REQUEST then Iter.ret BAD_REQUEST r.2
      else if r.1 = GET_REQUEST then
        let d := doRequest fs r.2
        Iter.ret d.1 d.2
      else Iter.next r.2 cond.2.2
    | CHECK_STATE_CONTENT =>
      let r := parseContent c1 text
      if r.1 = GET_REQUEST then
        let d := doRequest fs r.2
        Iter.ret d.1 d.2
      else Iter.next r.2 LINE_OPEN

/-- The loop of `processRead`, `n` iterations at most; `none` when `n`
iterations did not leave the loop. -/
def processReadLoop (fs : FileSys) : Nat → HTTPConn → LINE_STATUS → Option (HTTP_CODE × HTTPConn)
  | 0, _, _ => none
  | n + 1, c, lineStatus =>
    match processReadIter fs c lineStatus with
    | Iter.exit c1 => some (NO_REQUEST, c1)
    | Iter.ret code c1 => some (code, c1)
    | Iter.next c1 ls => processReadLoop fs n c1 ls

/-- `HTTPConn::processRead`.  Every iteration but a first one in
`CHECK_STATE_CONTENT` follows a `parseLine` that advanced `checkedIndex`, so
`readIndex - checkedIndex + 2` iterations always leave the loop
(`processRead_returns`). -/
def processRead (fs : FileSys) (c : HTTPConn) : Option (HTTP_CODE × HTTPConn) :=
  processReadLoop fs ((c.readIndex - c.checkedIndex).toNat + 2) c LINE_OK

/-! ## Response assembly -/

/-- Decimal digits of a natural number, most significant first; `n` bounds the
number of digits. -/
def decDigits : Nat → Nat → List Nat
  | 0, _ => []
  | n + 1, x => if x < 10 then [48 + x] else decDigits n (x / 10) ++ [48 + x % 10]

/-- The text `printf` produces for `%d`. -/
def fmtD (x : Int) : List Nat :=
  if x < 0 then 45 :: decDigits (x.natAbs + 1) x.natAbs else decDigits (x.natAbs + 1) x.natAbs

/-- Library `vsnprintf(m + p, size, ...)` where the formatted text is `out`: at
most `size - 1` bytes of it are stored, then a NUL; nothing when `size` is 0. -/
def vsnprintf (m : Int → Nat) (p : Int) (size : Int) (out : List Nat) : Int → Nat :=
  if size ≤ 0 then m else setBytes m p (out.take (size - 1).toNat ++ [0])

/-- `HTTPConn::addResponse(format, ...)`; `out` is the text the format and its
arguments produce. -/
def addResponse (c : HTTPConn) (out : List Nat) : Bool × HTTPConn :=
  if c.writeIndex ≥ WRITE_BUFFER_SIZE then (false, c)
  else
    let size := WRITE_BUFFER_SIZE - 1 - c.writeIndex
    let c1 := { c with writeBuffer := vsnprintf c.writeBuffer c.writeIndex size out }
    let len : Int := out.length
    if len ≥ size then (false, c1)
    else (true, { c1 with writeIndex := c1.writeIndex + len })

def addStatusLine (c : HTTPConn) (status : Int) (title : List Nat) : Bool × HTTPConn :=
  addResponse c (bytes "HTTP/1.1" ++ [32] ++ fmtD status ++ [32] ++ title ++ bytes "\r\n")

def addContentLength (c : HTTPConn) (content_len : Int) : Bool × HTTPConn :=
  addResponse c (bytes "Content-Length: " ++ fmtD content_len ++ bytes "\r\n")

def addContentType (c : HTTPConn) : Bool × HTTPConn :=
  addResponse c (bytes "Content-Type:" ++ bytes "text/html" ++ bytes "\r\n")

def addLinger (c : HTTPConn) : Bool × HTTPConn :=
  addResponse c (bytes "Connection: " ++ (if c.linger = true then bytes "keep-alive" else bytes "close")
    ++ bytes "\r\n")

def addBlankLine (c : HTTPConn) : Bool × HTTPConn :=
  addResponse c (bytes "\r\n")

def addContent (c : HTTPConn) (content : List Nat) : Bool × HTTPConn :=
  addResponse c content

/-- `HTTPConn::addHeaders(int content_len)`: the `&&` chain stops at the first
helper that returns false. -/
def addHeaders (c : HTTPConn) (content_len : Int) : Bool × HTTPConn :=
  let r1 := addContentLength c content_len
  if r1.1 = false then (false, r1.2) else
  let r2 := addContentType r1.2
  if r2.1 = false then (false, r2.2) else
  let r3 := addLinger r2.2
  if r3.1 = false then (false, r3.2) else
  addBlankLine r3.2

def ok_200_title : List Nat := bytes "OK"
def error_400_title : List Nat := bytes "Bad Request"
def error_400_form : List Nat :=
  bytes "Your request has bad syntax or is inherently impossible to satisfy.\n"
def error_403_title : List Nat := bytes "Forbidden"
def error_403_form : List Nat := bytes "You do not have permission to get file from this server.\n"
def error_404_title : List Nat := bytes "Not Found"
def error_404_form : List Nat := bytes "The requested file was not found on this server.\n"
def error_500_title : List Nat := bytes "Internal Error"
def error_500_form : List Nat := bytes "There was an unusual problem serving the requested file.\n"

/-- The error branches of `processWrite`: status line, headers, body, then the
single scatter element. -/
def errorResponse (c : HTTPConn) (status : Int) (title form : List Nat) : Bool × HTTPConn :=
  let c1 := (addStatusLine c status title).2
  let c2 := (addHeaders c1 (toInt32 form.length)).2
  let r := addContent c2 form
  if r.1 = false then (false, r.2)
  else
    (true, { r.2 with iv0 := ⟨IovBase.writeBuffer, r.2.writeIndex⟩, ivCount := 1 })

/-- `HTTPConn::processWrite(ret)`.  The `int` parameter of `addHeaders`
receives `strlen(form)` or `fileStat.st_size` converted to `int`. -/
def processWrite (c : HTTPConn) (ret : HTTP_CODE) : Bool × HTTPConn :=
  match ret with
  | INTERNAL_ERROR => errorResponse c 500 error_500_title error_500_form
  | BAD_REQUEST => errorResponse c 400 error_400_title error_400_form
  | NO_RESOURCE => errorResponse c 404 error_404_title error_404_form
  | FORBIDDEN_REQUEST => errorResponse c 403 error_403_title error_403_form
  | FILE_REQUEST =>
    let c1 := (addStatusLine c 200 ok_200_title).2
    let c2 := (addHeaders c1 (toInt32 c1.fileStat.st_size)).2
    (true, { c2 with
      iv0 := ⟨IovBase.writeBuffer, c2.writeIndex⟩
      iv1 := ⟨IovBase.fileAddress c2.fileAddress, c2.fileStat.st_size⟩
      ivCount := 2 })
  | _ => (false, c)

/-! ## Non-blocking write -/

def EPOLLIN : Nat := 1
def EPOLLOUT : Nat := 4
def EPOLLRDHUP : Nat := 8192
def EPOLLONESHOT : Nat := 1073741824
def EPOLLET : Nat := 2147483648

/-- `modfd(epollFd, socketFd, ev)`: the registration of the socket is replaced
by `ev | EPOLLET | EPOLLONESHOT | EPOLLRDHUP`. -/
def modfd (c : HTTPConn) (ev : Nat) : HTTPConn :=
  { c with armed := c.armed ++ [ev ||| EPOLLET ||| EPOLLONESHOT ||| EPOLLRDHUP] }

/-- `HTTPConn::unmap`. -/
def unmap (c : HTTPConn) : HTTPConn :=
  match c.fileAddress with
  | some _ => { c with fileAddress := none }
  | none => c

/-- What one call of `writev` returns: a byte count, or -1 with `errno` equal
to `EAGAIN`, or -1 with another `errno`. -/
inductive WritevResult where
  | sent (n : Nat)
  | eagain
  | error
  deriving DecidableEq

/-- The `while (1)` loop of `write`, driven by the results of the successive
`writev` calls; `none` when the loop is still running after the last of them. -/
def writeLoop : List WritevResult → HTTPConn → Int → Int → Option (Bool × HTTPConn)
  | [], _, _, _ => none
  | WritevResult.eagain :: _, c, _, _ => some (true, modfd c EPOLLOUT)
  | WritevResult.error :: _, c, _, _ => some (false, unmap c)
  | WritevResult.sent n :: rs, c, bytes_to_send, bytes_have_send =>
    let bytes_to_send := bytes_to_send - (n : Int)
    let bytes_have_send := bytes_have_send + (n : Int)
    if bytes_to_send ≤ bytes_have_send then
      let c1 := unmap c
      if c1.linger = true then some (true, modfd (init c1) EPOLLIN)
      else some (false, modfd c1 EPOLLIN)
    else writeLoop rs c bytes_to_send bytes_have_send

/-- `HTTPConn::write`. -/
def write (c : HTTPConn) (results : List WritevResult) : Option (Bool × HTTPConn) :=
  let bytes_to_send := c.writeIndex
  if bytes_to_send = 0 then some (true, init (modfd c EPOLLIN))
  else writeLoop results c bytes_to_send 0

/-! ## Non-blocking read -/

/-- What one call of `recv` returns: the bytes the socket delivers (none of
them: the peer has closed, `recv` returns 0), or -1 with `errno` equal to
`EAGAIN`/`EWOULDBLOCK`, or -1 with another `errno`. -/
inductive RecvResult where
  | data (bs : List Nat)
  | eagain
  | error

/-- The `while (true)` loop of `read`, driven by the results of the successive
`recv` calls; `recv` stores at most `READ_BUFFER_SIZE - readIndex` bytes. -/
def readLoop : List RecvResult → HTTPConn → Option (Bool × HTTPConn)
  | [], _ => none
  | RecvResult.eagain :: _, c => some (true, c)
  | RecvResult.error :: _, c => some (false, c)
  | RecvResult.data bs :: rs, c =>
    let got := bs.take (READ_BUFFER_SIZE - c.readIndex).toNat
    if got.length = 0 then some (false, c)
    else
      readLoop rs { c with
        readBuffer := setBytes c.readBuffer c.readIndex got
        readIndex := c.readIndex + (got.length : Int) }

/-- `HTTPConn::read`. -/
def read (c : HTTPConn) (results : List RecvResult) : Option (Bool × HTTPConn) :=
  if c.readIndex ≥ READ_BUFFER_SIZE then some (false, c) else readLoop results c

/-! ## States and predicates used in the statements -/

/-- A connection slot before `init`: every field zero or null, no socket. -/
def blank : HTTPConn :=
  { socketFd := -1, readBuffer := fun _ => 0, readIndex := 0, checkedIndex := 0, startLine := 0,
    checkState := CHECK_STATE_REQUESTLINE, httpMethod := GET, realFile := fun _ => 0,
    url := none, httpVersion := none, hostName := none, contentLength := 0, linger := false,
    writeBuffer := fun _ => 0, writeIndex := 0, fileAddress := none,
    fileStat := ⟨0, 0⟩, iv0 := ⟨IovBase.unset, 0⟩, iv1 := ⟨IovBase.unset, 0⟩, ivCount := 0,
    stores := [], armed := [] }

/-- The state after `read` has received the bytes `seg` (and then would
block): they stand at `readIndex`, which moves past them
(`read_recvSegment`). -/
def recvSegment (c : HTTPConn) (seg : List Nat) : HTTPConn :=
  { c with
    readBuffer := setBytes c.readBuffer c.readIndex seg
    readIndex := c.readIndex + (seg.length : Int) }

/-- The bytes `l` stand in `m` from offset `p` on. -/
def At (m : Int → Nat) : Int → List Nat → Prop
  | _, [] => True
  | p, b :: bs => m p = b ∧ At m (p + 1) bs

/-- The buffer indices are ordered and within `readBuffer`. -/
def Inv (c : HTTPConn) : Prop :=
  0 ≤ c.startLine ∧ c.startLine ≤ c.checkedIndex ∧ c.checkedIndex ≤ c.readIndex ∧
    c.readIndex ≤ READ_BUFFER_SIZE

/-- Iterations of the loop of `processRead` that a state can still need. -/
def fuelNeeded (c : HTTPConn) (ls : LINE_STATUS) : Nat :=
  (c.readIndex - c.checkedIndex).toNat +
    (if c.checkState = CHECK_STATE_CONTENT ∧ ls ≠ LINE_OK then 1 else 2)

/-- What `parseLine` leaves alone, and how it moves `checkedIndex`. -/
structure LineFrame (c c' : HTTPConn) : Prop where
  readIndex : c'.readIndex = c.readIndex
  startLine : c'.startLine = c.startLine
  checkState : c'.checkState = c.checkState
  contentLength : c'.contentLength = c.contentLength
  linger : c'.linger = c.linger
  writeIndex : c'.writeIndex = c.writeIndex
  mono : c.checkedIndex ≤ c'.checkedIndex
  bound : c.checkedIndex ≤ c.readIndex → c'.checkedIndex ≤ c.readIndex

/-- Fields that the three line handlers and `doRequest` leave alone. -/
structure IdxFrame (c c' : HTTPConn) : Prop where
  readIndex : c'.readIndex = c.readIndex
  checkedIndex : c'.checkedIndex = c.checkedIndex
  startLine : c'.startLine = c.startLine
  writeIndex : c'.writeIndex = c.writeIndex

/-- The C string at offset `p` of `readBuffer` is `l`: the bytes of `l`, none
of them NUL, stand at `p`, and a NUL inside the array follows them. -/
def CStrAt (m : Int → Nat) (p : Int) (l : List Nat) : Prop :=
  At m p l ∧ (∀ b ∈ l, b ≠ 0) ∧ m (p + l.length) = 0 ∧ p + l.length < READ_BUFFER_SIZE

/-- Equality of byte strings ignoring the case of ASCII letters. -/
def eqIgnoreCase (a b : List Nat) : Prop := a.map tolower = b.map tolower

instance (a b : List Nat) : Decidable (eqIgnoreCase a b) := by
  unfold eqIgnoreCase; infer_instance

/-- A byte that is neither space nor tab. -/
def notSpTab (b : Nat) : Bool := !isSpTab b

/-! ## The request line, as the specification describes it -/

/-- The text before the first space or tab. -/
def firstToken (l : List Nat) : List Nat := l.takeWhile notSpTab

/-- The text after the first space or tab (nothing when there is none). -/
def afterToken (l : List Nat) : List Nat := (l.dropWhile notSpTab).drop 1

/-- Method token of a request line: the text before the first space or tab. -/
def methodToken (line : List Nat) : List Nat := firstToken line

/-- URL of a request line: the text between the first and the second space or
tab. -/
def urlToken (line : List Nat) : List Nat := firstToken (afterToken line)

/-- Version token of a request line: the text after the second space or tab. -/
def versionToken (line : List Nat) : List Nat := afterToken (afterToken line)

/-- A URL with an optional `http://host` in front stripped: when the URL
starts with `http://` (ignoring case) what is left starts at the first `/`
after these 7 bytes. -/
def stripHost (u : List Nat) : List Nat :=
  if eqIgnoreCase (u.take 7) (bytes "http://") then (u.drop 7).dropWhile (fun b => !(b == 47))
  else u

/-- The state `parseLine` leaves when it finds `\r\n` at offset `e`: both
bytes are overwritten with NUL and `checkedIndex` stands behind them. -/
def lineDone (c : HTTPConn) (e : Int) : HTTPConn :=
  { c with
    readBuffer := setByte (setByte c.readBuffer e 0) (e + 1) 0
    checkedIndex := e + 1 + 1
    stores := c.stores ++ [e] ++ [e + 1] }

/-- A complete line is ready at `startLine`: the bytes of `line` (no `\r`, no
`\n`) and then `\r\n` stand there, all of them received, and the scanner has
not gone past the `\r`. -/
def LineReady (c : HTTPConn) (line : List Nat) : Prop :=
  At c.readBuffer c.startLine (line ++ [13, 10]) ∧ (∀ b ∈ line, b ≠ 13 ∧ b ≠ 10) ∧
    c.checkedIndex ≤ c.startLine + line.length ∧ c.startLine + line.length + 2 ≤ c.readIndex

/-- A line as the C library sees it: cut at its first NUL byte. -/
def cline (line : List Nat) : List Nat := line.takeWhile (fun b => !(b == 0))

/-- The request line is in order: method `GET`, version `HTTP/1.1` (both
ignoring case), and the URL, an optional `http://host` stripped, begins with
`/`. -/
def requestLineOk (line : List Nat) : Prop :=
  eqIgnoreCase (methodToken line) (bytes "GET") ∧
    eqIgnoreCase (versionToken line) (bytes "HTTP/1.1") ∧
    (stripHost (urlToken line)).head? = some 47

instance (line : List Nat) : Decidable (requestLineOk line) := by
  unfold requestLineOk; infer_instance

/-! ## Response assembly, as the specification describes it -/

/-- The write buffer holds exactly the bytes `pre`: they are its first
`writeIndex` bytes. -/
def Composed (c : HTTPConn) (pre : List Nat) : Prop :=
  c.writeIndex = (pre.length : Int) ∧ At c.writeBuffer 0 pre

/-- The state `addResponse` leaves when the text `out` fits: the text and a
NUL are stored at `writeIndex`, which moves past the text. -/
def emit (c : HTTPConn) (out : List Nat) : HTTPConn :=
  { c with
    writeBuffer := setBytes c.writeBuffer c.writeIndex (out ++ [0])
    writeIndex := c.writeIndex + (out.length : Int) }

/-- The header block every response carries after its status line. -/
def headerBlock (content_len : List Nat) (keep_alive : Bool) : List Nat :=
  bytes "Content-Length: " ++ content_len ++ bytes "\r\n" ++
    bytes "Content-Type:text/html\r\n" ++
    bytes "Connection: " ++ (if keep_alive = true then bytes "keep-alive" else bytes "close") ++
    bytes "\r\n" ++ bytes "\r\n"

/-- Fields that response assembly leaves alone. -/
structure WriteFrame (c c' : HTTPConn) : Prop where
  linger : c'.linger = c.linger
  fileStat : c'.fileStat = c.fileStat
  fileAddress : c'.fileAddress = c.fileAddress

/-- The decimal text of a natural number. -/
def decimal (n : Nat) : List Nat := bytes (toString n)

/-- The status line the specification gives for each error code. -/
def errorStatusLine : HTTP_CODE → List Nat
  | BAD_REQUEST => bytes "HTTP/1.1 400 Bad Request\r\n"
  | FORBIDDEN_REQUEST => bytes "HTTP/1.1 403 Forbidden\r\n"
  | NO_RESOURCE => bytes "HTTP/1.1 404 Not Found\r\n"
  | INTERNAL_ERROR => bytes "HTTP/1.1 500 Internal Error\r\n"
  | _ => []

/-- The fixed body text of each error code (the `error_*_form` constants). -/
def errorForm : HTTP_CODE → List Nat
  | BAD_REQUEST => error_400_form
  | FORBIDDEN_REQUEST => error_403_form
  | NO_RESOURCE => error_404_form
  | INTERNAL_ERROR => error_500_form
  | _ => []

/-- A connection that holds the composed 200 response for `index.html` (11
bytes, `hello world`) without keep-alive: 82 header bytes in the write buffer
and the mapping of the file. -/
def holdingIndexHtml : HTTPConn :=
  { blank with
    socketFd := 5
    checkState := CHECK_STATE_HEADER
    writeIndex := 82
    fileStat := ⟨33188, 11⟩
    fileAddress := some (bytes "hello world")
    iv0 := ⟨IovBase.writeBuffer, 82⟩
    iv1 := ⟨IovBase.fileAddress (some (bytes "hello world")), 11⟩
    ivCount := 2 }

/-! ## Header lines, as the specification describes them -/

/-- The test `parseHeaders` makes for `Connection: keep-alive`. -/
def keepAliveTest (l : List Nat) : Prop :=
  eqIgnoreCase (l.take 11) (bytes "Connection:") ∧
    eqIgnoreCase ((l.drop 11).dropWhile isSpTab) (bytes "keep-alive")

instance (l : List Nat) : Decidable (keepAliveTest l) := by
  unfold keepAliveTest; infer_instance

/-- The line starts with `Content-Length:` (ignoring case). -/
def ContentLengthHeader (l : List Nat) : Prop :=
  eqIgnoreCase (l.take 15) (bytes "Content-Length:")

instance (l : List Nat) : Decidable (ContentLengthHeader l) := by
  unfold ContentLengthHeader; infer_instance

/-- The value `parseHeaders` stores for a `Content-Length:` line: `atol` of the
text after the prefix and its spaces and tabs, converted to `int`. -/
def contentLengthValue (l : List Nat) : Int :=
  toInt32 (atol ((l.drop 15).dropWhile isSpTab))

/-- `contentLength` after a header line. -/
def contentLengthAfter (old : Int) (l : List Nat) : Int :=
  if ContentLengthHeader l then contentLengthValue l else old

/-- The parser has consumed the buffer up to offset `q`: `checkedIndex` and
`startLine` stand at `q`, the bytes from `q` on are as they were. -/
structure Consumed (c c' : HTTPConn) (q : Int) : Prop where
  readIndex : c'.readIndex = c.readIndex
  checkedIndex : c'.checkedIndex = q
  startLine : c'.startLine = q
  buffer : ∀ j, q ≤ j → c'.readBuffer j = c.readBuffer j
  writeIndex : c'.writeIndex = c.writeIndex

/-- `k` iterations of the loop of `processRead` lead from `(c, ls)` to
`(c', ls')` without leaving the loop. -/
def Steps (fs : FileSys) (k : Nat) (c : HTTPConn) (ls : LINE_STATUS) (c' : HTTPConn)
    (ls' : LINE_STATUS) : Prop :=
  ∀ n, processReadLoop fs (n + k) c ls = processReadLoop fs n c' ls'

/-- The state in which the handler of the line ending at offset `e` runs:
`parseLine` has terminated the line and `startLine` is set to `checkedIndex`. -/
def lineStart (c : HTTPConn) (e : Int) : HTTPConn :=
  { lineDone c e with startLine := e + 1 + 1 }

/-- A file system without files: every `stat` fails. -/
def noFiles : FileSys := ⟨fun _ => none, fun _ => []⟩

/-- The request line `GET / HTTP/1.1`, a NUL byte and `X`: its version token
is `HTTP/1.1\0X`. -/
def nulRequestLine : List Nat := bytes "GET / HTTP/1.1" ++ [0, 88]

/-- Header lines as they travel: each followed by `\r\n`. -/
def wire : List (List Nat) → List Nat
  | [] => []
  | h :: t => h ++ [13, 10] ++ wire t

/-- Some header line passes the `Connection: keep-alive` test of
`parseHeaders`. -/
def anyKeepAlive (hs : List (List Nat)) : Bool :=
  hs.any (fun h => decide (keepAliveTest (cline h)))

/-- `contentLength` after the header lines `hs`, starting from `old`. -/
def contentLengthOf (old : Int) (hs : List (List Nat)) : Int :=
  hs.foldl (fun v h => contentLengthAfter v (cline h)) old

/-- The request line `GET /a\0b HTTP/1.1`: its URL `/a\0b` has a NUL byte. -/
def nulUrlLine : List Nat := bytes "GET" ++ 32 :: (bytes "/a" ++ [0, 98] ++ 32 :: bytes "HTTP/1.1")

/-! ## File lookup, as the specification describes it -/

/-- The path that `doRequest` hands to `stat`: the C string that stands in
`realFile` once `docRoot` and the URL have been copied there. -/
def requestPath (c : HTTPConn) : List Nat :=
  cstr (strncpy (setBytes c.realFile 0 (docRoot ++ [0])) (docRoot.length : Int) (urlString c)
    (FILENAME_LEN - (docRoot.length : Int) - 1).toNat) FILENAME_LEN 0

/-- A document root as in the scenarios of the specification: `index.html`
(regular, mode 0644, the 11 bytes `hello world`), `secret` (regular, mode
0600), and two directories, `docs` (mode 0755) and `private` (mode 0700);
no other path exists. -/
def siteFiles : FileSys :=
  ⟨fun path =>
      if path = docRoot ++ bytes "/index.html" then some ⟨33188, 11⟩
      else if path = docRoot ++ bytes "/secret" then some ⟨33152, 6⟩
      else if path = docRoot ++ bytes "/docs" then some ⟨16877, 4096⟩
      else if path = docRoot ++ bytes "/private" then some ⟨16832, 4096⟩
      else none,
    fun path => if path = docRoot ++ bytes "/index.html" then bytes "hello world" else []⟩

/-- A connection in the reset state whose `url` points to the C string `u`,
which stands at the start of `readBuffer`. -/
def requesting (u : List Nat) : HTTPConn :=
  { recvSegment (init blank) u with url := some 0 }

/-- The connection `holdingIndexHtml` when the request asked for keep-alive. -/
def keepAliveHolding : HTTPConn := { holdingIndexHtml with linger := true }

/-- The state in which `processWrite` starts after `doRequest` has found a
regular world-readable file of `size` bytes: the write buffer is empty and
`fileStat` is what `stat` reported. -/
def servingFile (c : HTTPConn) (size : Int) : HTTPConn :=
  { c with writeIndex := 0, fileStat := ⟨33188, size⟩ }

/-! ## Registration, opening and closing of a connection -/

/-- `addfd(epollFd, fd, one_shot)`: the socket is registered for
`EPOLLIN | EPOLLRDHUP`, and for `EPOLLONESHOT` when `one_shot` is set; the
mask is recorded in `armed`. -/
def addfd (c : HTTPConn) (one_shot : Bool) : HTTPConn :=
  { c with armed := c.armed ++
      [if one_shot = true then EPOLLIN ||| EPOLLRDHUP ||| EPOLLONESHOT else EPOLLIN ||| EPOLLRDHUP] }

/-- `HTTPConn::closeConn`; `userCount` is the static counter of the class, an
`int`. -/
def closeConn (c : HTTPConn) (userCount : Int) : HTTPConn × Int :=
  if c.socketFd ≠ -1 then ({ c with socketFd := -1 }, toInt32 (userCount - 1))
  else (c, userCount)

/-- `HTTPConn::init(int socketfd, const sockaddr_in& addr)`; the address is
not part of the model. -/
def HTTPConn.init (c : HTTPConn) (socketfd : Int) (userCount : Int) : HTTPConn × Int :=
  (TinyWeb.init (addfd { c with socketFd := socketfd } true), toInt32 (userCount + 1))

/-- `HTTPConn::process`, the entry of the worker threads. -/
def process (fs : FileSys) (c : HTTPConn) (userCount : Int) : Option (HTTPConn × Int) :=
  match processRead fs c with
  | none => none
  | some (read_ret, c1) =>
    if read_ret = NO_REQUEST then some (modfd c1 EPOLLIN, userCount)
    else
      let w := processWrite c1 read_ret
      let r := if w.1 = false then closeConn w.2 userCount else (w.2, userCount)
      some (modfd r.1 EPOLLOUT, r.2)

/-! ## The work queue -/

/-- The members of `ThreadPool<HTTPConn>` that `appendRequest` uses: the
bound, the queue (its entries are the indices `sockfd` of the queued
connections `users + sockfd`) and the count of the semaphore `queueStat`. -/
structure ThreadPool where
  maxReqNums : Int
  reqQueue : List Nat
  queueStat : Nat

/-- Conversion of an `int` to `size_t`, which the comparison with
`reqQueue.size()` applies to `maxReqNums`. -/
def toSizeT (x : Int) : Nat := (x % 18446744073709551616).toNat

/-- `ThreadPool<T>::appendRequest`. -/
def appendRequest (p : ThreadPool) (req : Nat) : Bool × ThreadPool :=
  if p.reqQueue.length > toSizeT p.maxReqNums then (false, p)
  else (true, { p with reqQueue := p.reqQueue ++ [req], queueStat := p.queueStat + 1 })

/-- Successive calls of `appendRequest` with no dequeue in between: what
each returned, and the pool afterwards. -/
def appendAll : ThreadPool → List Nat → List Bool × ThreadPool
  | p, [] => ([], p)
  | p, req :: reqs =>
    let r := appendRequest p req
    let rest := appendAll r.2 reqs
    (r.1 :: rest.1, rest.2)

/-! ## The connection table -/

def MAX_FD : Nat := 65536

/-- What the event loop of `main` works on: the array `users` (slots
`0 .. MAX_FD - 1`, indexed by descriptor), the static `userCount` and the
thread pool. -/
structure Server where
  users : Nat → HTTPConn
  userCount : Int
  pool : ThreadPool

/-- Assignment to `users[i]`. -/
def setSlot (users : Nat → HTTPConn) (i : Nat) (c : HTTPConn) : Nat → HTTPConn :=
  fun j => if j = i then c else users j

/-- The `EPOLLIN` branch of the event loop for the socket `sockfd`: `read()`,
then `appendRequest` (whose result the loop does not look at) or
`closeConn()`. -/
def onReadable (s : Server) (sockfd : Nat) (results : List RecvResult) : Option Server :=
  match read (s.users sockfd) results with
  | none => none
  | some (ok, c) =>
    if ok = true then
      some { s with users := setSlot s.users sockfd c, pool := (appendRequest s.pool sockfd).2 }
    else
      let r := closeConn c s.userCount
      some { s with users := setSlot s.users sockfd r.1, userCount := r.2 }

/-- A call on a slot of the table: `users[slot].init(socketfd, addr)` or
`users[slot].closeConn()`. -/
inductive SlotOp where
  | init (slot : Nat) (socketfd : Int)
  | closeConn (slot : Nat)

/-- What `init()` of the element below does to an element of `users`: the
call `bzero(writeBuffer, READ_BUFFER_SIZE)` there zeroes the first
`overrunBytes` bytes of this element, which hold `socketFd`, `address` (not
part of the model) and the start of `readBuffer`. -/
def zeroedFromBelow (c : HTTPConn) : HTTPConn :=
  { c with
    socketFd := 0
    readBuffer := bzero c.readBuffer ((overrunBytes : Int) - (offsetOf .readBuffer : Int)) }

/-- The effect of a call on the table.  `users[i].init(socketfd, addr)` sets up
slot `i`, and its `bzero(writeBuffer, READ_BUFFER_SIZE)` runs on into the next
element `users[i + 1]` (for the last slot these bytes lie behind the array,
outside the table). -/
def Server.apply (s : Server) : SlotOp → Server
  | SlotOp.init i fd =>
    let r := (s.users i).init fd s.userCount
    let users := setSlot s.users i r.1
    { s with
      users := if i + 1 < MAX_FD then setSlot users (i + 1) (zeroedFromBelow (users (i + 1)))
        else users
      userCount := r.2 }
  | SlotOp.closeConn i =>
    let r := closeConn (s.users i) s.userCount
    { s with users := setSlot s.users i r.1, userCount := r.2 }

/-- The call is admissible: it is made on a slot of the table, and an `init`
only on a free slot and with a descriptor (which is never -1). -/
def SlotOp.Allowed (s : Server) : SlotOp → Prop
  | SlotOp.init i fd => i < MAX_FD ∧ (s.users i).socketFd = -1 ∧ fd ≠ -1
  | SlotOp.closeConn i => i < MAX_FD

/-- Number of slots in use: those with `socketFd != -1`. -/
def slotsInUse (s : Server) : Nat :=
  ((List.range MAX_FD).filter (fun i => decide ((s.users i).socketFd ≠ -1))).length

/-- The table before any connection: every slot free, `userCount` 0, the
default pool. -/
def emptyServer : Server :=
  ⟨fun _ => blank, 0, ⟨10000, [], 0⟩⟩

/-! ## The events of one connection -/

/-- Who holds a connection slot: nobody (`free`: no socket), the readiness
facility with the socket armed for `EPOLLIN` or for `EPOLLOUT`, or the work
queue and then a worker (`queued`: the one-shot event has fired and the socket
is not armed). -/
inductive Phase where
  | free
  | armedIn
  | queued
  | armedOut
  deriving DecidableEq

/-- What the event loop and the workers do to one slot: `init(fd, addr)` for an
accepted descriptor; `closeConn()` on `EPOLLRDHUP | EPOLLHUP | EPOLLERR`;
`read()` on `EPOLLIN`, the results of `recv` given; `process()` by a worker;
`write()` on `EPOLLOUT`, the results of `writev` given.  These are the calls
made on the slot itself: what a call of `init()` on the element below does to
it (`zeroedFromBelow`) is not among them. -/
inductive Event where
  | accept (fd : Int)
  | hangup
  | readable (results : List RecvResult)
  | work
  | writable (results : List WritevResult)

/-- A slot, the phase it is in, and the static `userCount`. -/
structure SlotState where
  phase : Phase
  conn : HTTPConn
  userCount : Int

/-- The phase after a re-arm: the last mask given to `modfd` decides which
event the readiness facility delivers next; a closed slot is free. -/
def rearmed (c : HTTPConn) : Phase :=
  if c.socketFd = -1 then Phase.free
  else if (c.armed.getLast?.getD 0) &&& EPOLLOUT ≠ 0 then Phase.armedOut
  else Phase.armedIn

/-- One event on a slot, as `main` and `ThreadPool::run` handle it; `none`
when the event cannot occur in the phase (the socket is not armed for it, or
the descriptor is not one `accept` returns). -/
def slotStep (fs : FileSys) (s : SlotState) : Event → Option SlotState
  | Event.accept fd =>
    if s.phase = Phase.free ∧ 0 ≤ fd then
      let r := s.conn.init fd s.userCount
      some ⟨Phase.armedIn, r.1, r.2⟩
    else none
  | Event.hangup =>
    if s.phase = Phase.armedIn ∨ s.phase = Phase.armedOut then
      let r := closeConn s.conn s.userCount
      some ⟨Phase.free, r.1, r.2⟩
    else none
  | Event.readable results =>
    if s.phase = Phase.armedIn then
      match read s.conn results with
      | none => none
      | some (ok, c) =>
        if ok = true then some ⟨Phase.queued, c, s.userCount⟩
        else
          let r := closeConn c s.userCount
          some ⟨Phase.free, r.1, r.2⟩
    else none
  | Event.work =>
    if s.phase = Phase.queued then
      match process fs s.conn s.userCount with
      | none => none
      | some (c, userCount) => some ⟨rearmed c, c, userCount⟩
    else none
  | Event.writable results =>
    if s.phase = Phase.armedOut then
      match write s.conn results with
      | none => none
      | some (ok, c) =>
        if ok = true then some ⟨rearmed c, c, s.userCount⟩
        else
          let r := closeConn c s.userCount
          some ⟨Phase.free, r.1, r.2⟩
    else none

/-- A sequence of events on a slot. -/
def slotRun (fs : FileSys) : SlotState → List Event → Option SlotState
  | s, [] => some s
  | s, e :: es =>
    match slotStep fs s e with
    | none => none
    | some s' => slotRun fs s' es

/-- A table with the connection on descriptor 5 open and in the reset state,
and a pool with `maxReqNums = 1` whose queue holds two requests. -/
def fullServer : Server :=
  ⟨setSlot (fun _ => blank) 5 (blank.init 5 0).1, 1, ⟨1, [7, 8], 2⟩⟩

/-- What `processRead` leaves alone: the socket, the history of event masks,
`writeIndex`, and the last byte of `realFile`. -/
structure Kept (c c' : HTTPConn) : Prop where
  socketFd : c'.socketFd = c.socketFd
  armed : c'.armed = c.armed
  writeIndex : c'.writeIndex = c.writeIndex
  realFileEnd : c'.realFile (FILENAME_LEN - 1) = c.realFile (FILENAME_LEN - 1)

/-- The codes that `processRead` can return besides `NO_REQUEST`. -/
def answerCode (code : HTTP_CODE) : Prop :=
  code = BAD_REQUEST ∨ code = NO_RESOURCE ∨ code = FORBIDDEN_REQUEST ∨ code = FILE_REQUEST

/-- A slot that the readiness facility or a worker holds for reading is in
order: the buffer indices are ordered and the write buffer is empty. -/
def ReadyToParse (s : SlotState) : Prop :=
  (s.phase = Phase.armedIn ∨ s.phase = Phase.queued) → Inv s.conn ∧ s.conn.writeIndex = 0

/-! ## Lines that `parseLine` rejects -/

/-- The byte at offset `k` is one at which `parseLine` returns `LINE_BAD`
when `ri` bytes have been received: a `\r` followed by a received byte other
than `\n`, or a `\n` that does not pass the test
`checkedIndex > 1 && readBuffer[checkedIndex - 1] == '\r'`. -/
def BadAt (m : Int → Nat) (k ri : Int) : Prop :=
  k < ri ∧ ((m k = 13 ∧ k + 1 ≠ ri ∧ m (k + 1) ≠ 10) ∨
    (m k = 10 ∧ ¬ (k > 1 ∧ m (k - 1) = 13)))

/-- The scanner stands at a byte at which `parseLine` returns `LINE_BAD`. -/
def Offending (c : HTTPConn) : Prop := BadAt c.readBuffer c.checkedIndex c.readIndex

/-- The parser stands, outside `CHECK_STATE_CONTENT`, at a byte that
`parseLine` rejects. -/
def Stalled (c : HTTPConn) : Prop := c.checkState ≠ CHECK_STATE_CONTENT ∧ Offending c

def Event.isAccept : Event → Bool
  | Event.accept _ => true
  | _ => false

/-- A stalled slot: not armed for `EPOLLOUT`, the parser stalled, and
`writeIndex` equal to `w`. -/
def StalledSlot (w : Int) (s : SlotState) : Prop :=
  s.phase ≠ Phase.armedOut ∧ Stalled s.conn ∧ s.conn.writeIndex = w

/-- The connection on descriptor 5 that has received `GET / HTTP/1.1\n\n`, a
request whose lines end with a bare `\n`. -/
def bareLF : HTTPConn :=
  recvSegment (blank.init 5 0).1 (bytes "GET / HTTP/1.1" ++ [10, 10])

/-- The state `bareLF` with the scanner at the first `\n`, offset 14. -/
def bareLFStalled : HTTPConn := { bareLF with checkedIndex := 14 }

/-- The state in which the scanner has stopped at offset `e`: only
`checkedIndex` differs. -/
def scannedTo (c : HTTPConn) (e : Int) : HTTPConn := { c with checkedIndex := e }

/-- The request `POST / HTTP/1.1` without header lines and without body, with
its empty line. -/
def postRequest : List Nat := bytes "POST / HTTP/1.1" ++ [13, 10] ++ [13, 10]

/-- Every store of the parser so far went into `readBuffer`: up to this state
the run of the model is the run of the program (see `store`). -/
def StoresInside (c : HTTPConn) : Prop := ∀ i ∈ c.stores, 0 ≤ i ∧ i < READ_BUFFER_SIZE

/-! # Properties -/

theorem setByte_same (m : Int → Nat) (i : Int) (v : Nat) : setByte m i v i = v := by
  simp [setByte]

theorem setByte_other (m : Int → Nat) (i j : Int) (v : Nat) (h : j ≠ i) :
    setByte m i v j = m j := by
  simp [setByte, h]

theorem setBytes_before (l : List Nat) : ∀ (m : Int → Nat) (p j : Int), j < p →
    setBytes m p l j = m j := by
  induction l with
  | nil => intro m p j _; rfl
  | cons b bs ih =>
    intro m p j h
    rw [setBytes, ih _ _ _ (by omega), setByte_other _ _ _ _ (by omega)]

theorem setBytes_after (l : List Nat) : ∀ (m : Int → Nat) (p j : Int), p + l.length ≤ j →
    setBytes m p l j = m j := by
  induction l with
  | nil => intro m p j _; rfl
  | cons b bs ih =>
    intro m p j h
    simp only [List.length_cons, Nat.cast_add, Nat.cast_one] at h
    rw [setBytes, ih _ _ _ (by omega), setByte_other _ _ _ _ (by omega)]

theorem at_congr (l : List Nat) : ∀ (m m' : Int → Nat) (p : Int),
    (∀ j, p ≤ j → j < p + l.length → m' j = m j) → At m p l → At m' p l := by
  induction l with
  | nil => intro m m' p _ _; trivial
  | cons b bs ih =>
    intro m m' p h hat
    simp only [List.length_cons, Nat.cast_add, Nat.cast_one] at h
    refine ⟨?_, ih m m' (p + 1) (fun j h1 h2 => h j (by omega) (by omega)) hat.2⟩
    rw [h p (by omega) (by omega)]; exact hat.1

theorem at_setBytes (l : List Nat) : ∀ (m : Int → Nat) (p : Int), At (setBytes m p l) p l := by
  induction l with
  | nil => intro m p; trivial
  | cons b bs ih =>
    intro m p
    refine ⟨?_, ih _ _⟩
    rw [setBytes, setBytes_before _ _ _ _ (by omega), setByte_same]

theorem at_append (a : List Nat) : ∀ (m : Int → Nat) (p : Int) (b : List Nat),
    At m p (a ++ b) ↔ At m p a ∧ At m (p + a.length) b := by
  induction a with
  | nil => intro m p b; simp [At]
  | cons x xs ih =>
    intro m p b
    have e : p + 1 + (xs.length : Int) = p + ((xs.length : Int) + 1) := by omega
    show (m p = x ∧ At m (p + 1) (xs ++ b)) ↔ _
    rw [ih, e]
    simp only [At, List.length_cons, Nat.cast_add, Nat.cast_one, and_assoc]

theorem at_get (l : List Nat) : ∀ (m : Int → Nat) (p : Int) (i : Nat) (h : i < l.length),
    At m p l → m (p + i) = l.get ⟨i, h⟩ := by
  induction l with
  | nil => intro m p i h; simp at h
  | cons x xs ih =>
    intro m p i h hat
    cases i with
    | zero => simpa using hat.1
    | succ k =>
      have := ih m (p + 1) k (by simpa using h) hat.2
      simp only [List.get_cons_succ, Nat.cast_add, Nat.cast_one]
      rw [← this]; congr 1; omega

theorem parseLineLoop_frame : ∀ (n : Nat) (c : HTTPConn), LineFrame c (parseLineLoop n c).2 := by
  intro n
  induction n with
  | zero => intro c; exact ⟨rfl, rfl, rfl, rfl, rfl, rfl, le_refl _, fun h => h⟩
  | succ k ih =>
    intro c
    rw [parseLineLoop]
    dsimp only
    split_ifs with h1 h2 h3 h4 h5 h6
    · exact ⟨rfl, rfl, rfl, rfl, rfl, rfl, le_refl _, fun h => h⟩
    · refine ⟨rfl, rfl, rfl, rfl, rfl, rfl, ?_, fun _ => ?_⟩ <;> simp only [store] <;> omega
    · exact ⟨rfl, rfl, rfl, rfl, rfl, rfl, le_refl _, fun h => h⟩
    · refine ⟨rfl, rfl, rfl, rfl, rfl, rfl, ?_, fun _ => ?_⟩ <;> simp only [store] <;> omega
    · exact ⟨rfl, rfl, rfl, rfl, rfl, rfl, le_refl _, fun h => h⟩
    · have := ih { c with checkedIndex := c.checkedIndex + 1 }
      refine ⟨this.readIndex, this.startLine, this.checkState, this.contentLength, this.linger,
        this.writeIndex, ?_, fun _ => ?_⟩
      · have := this.mono; simp at this; omega
      · have := this.bound; simp at this; omega
    · exact ⟨rfl, rfl, rfl, rfl, rfl, rfl, le_refl _, fun h => h⟩

theorem parseLine_frame (c : HTTPConn) : LineFrame c (parseLine c).2 :=
  parseLineLoop_frame _ c

/-- A line reported complete has moved `checkedIndex` forward. -/
theorem parseLineLoop_ok_advances : ∀ (n : Nat) (c : HTTPConn),
    (parseLineLoop n c).1 = LINE_OK → c.checkedIndex < (parseLineLoop n c).2.checkedIndex := by
  intro n
  induction n with
  | zero => intro c h; simp [parseLineLoop] at h
  | succ k ih =>
    intro c
    rw [parseLineLoop]
    dsimp only
    split_ifs with h1 h2 h3 h4 h5 h6
    · intro h; simp at h
    · intro _; simp only [store]; omega
    · intro h; simp at h
    · intro _; simp only [store]; omega
    · intro h; simp at h
    · intro h
      have := ih { c with checkedIndex := c.checkedIndex + 1 } h
      simp only at this
      omega
    · intro h; simp at h

theorem parseLine_inv (c : HTTPConn) (h : Inv c) : Inv (parseLine c).2 := by
  have f := parseLine_frame c
  obtain ⟨h0, h1, h2, h3⟩ := h
  refine ⟨?_, ?_, ?_, ?_⟩
  · rw [f.startLine]; exact h0
  · rw [f.startLine]; exact le_trans h1 f.mono
  · rw [f.readIndex]; exact f.bound h2
  · rw [f.readIndex]; exact h3

theorem parseRequestLine_idx (c : HTTPConn) (text : Int) :
    IdxFrame c (parseRequestLine c text).2 := by
  unfold parseRequestLine
  dsimp only [store]
  repeat' split
  all_goals exact ⟨rfl, rfl, rfl, rfl⟩

theorem parseHeaders_idx (c : HTTPConn) (text : Int) :
    IdxFrame c (parseHeaders c text).2 := by
  unfold parseHeaders
  dsimp only
  split_ifs <;> exact ⟨rfl, rfl, rfl, rfl⟩

theorem parseContent_idx (c : HTTPConn) (text : Int) :
    IdxFrame c (parseContent c text).2 := by
  unfold parseContent
  split_ifs <;> exact ⟨rfl, rfl, rfl, rfl⟩

theorem doRequest_idx (fs : FileSys) (c : HTTPConn) : IdxFrame c (doRequest fs c).2 := by
  unfold doRequest
  dsimp only
  split
  · exact ⟨rfl, rfl, rfl, rfl⟩
  · split_ifs <;> exact ⟨rfl, rfl, rfl, rfl⟩

theorem IdxFrame.keepsInv {c c' : HTTPConn} (f : IdxFrame c c') (h : Inv c) : Inv c' := by
  unfold Inv at *
  rw [f.readIndex, f.checkedIndex, f.startLine]
  exact h

theorem processReadIter_inv (fs : FileSys) (c : HTTPConn) (ls : LINE_STATUS) (h : Inv c) :
    Inv (processReadIter fs c ls).conn := by
  unfold processReadIter
  dsimp only
  by_cases hc : c.checkState = CHECK_STATE_CONTENT ∧ ls = LINE_OK
  · rw [if_pos hc]
    simp only [Bool.true_eq_false, if_false]
    have h1 : Inv { c with startLine := c.checkedIndex } := by
      obtain ⟨a, b, d, e⟩ := h
      exact ⟨le_trans a b, le_refl _, d, e⟩
    rw [show ({ c with startLine := c.checkedIndex } : HTTPConn).checkState = CHECK_STATE_CONTENT
      from hc.1]
    dsimp only
    split_ifs
    · exact (doRequest_idx fs _).keepsInv ((parseContent_idx _ _).keepsInv h1)
    · exact (parseContent_idx _ _).keepsInv h1
  · rw [if_neg hc]
    dsimp only
    have hp := parseLine_inv c h
    by_cases hk : (parseLine c).1 = LINE_OK
    · simp only [hk, decide_True, Bool.true_eq_false, if_false]
      have h1 : Inv { (parseLine c).2 with startLine := (parseLine c).2.checkedIndex } := by
        obtain ⟨a, b, d, e⟩ := hp
        exact ⟨le_trans a b, le_refl _, d, e⟩
      split
      · split_ifs
        · exact (parseRequestLine_idx _ _).keepsInv h1
        · exact (parseRequestLine_idx _ _).keepsInv h1
      · split_ifs
        · exact (parseHeaders_idx _ _).keepsInv h1
        · exact (doRequest_idx fs _).keepsInv ((parseHeaders_idx _ _).keepsInv h1)
        · exact (parseHeaders_idx _ _).keepsInv h1
      · split_ifs
        · exact (doRequest_idx fs _).keepsInv ((parseContent_idx _ _).keepsInv h1)
        · exact (parseContent_idx _ _).keepsInv h1
    · simp only [hk, decide_False, if_true]
      exact hp

theorem init_inv (c : HTTPConn) : Inv (init c) := by
  simp [Inv, init, READ_BUFFER_SIZE]

theorem parseLine_ok_bounds (c : HTTPConn) (h : (parseLine c).1 = LINE_OK) :
    c.checkedIndex < (parseLine c).2.checkedIndex ∧ (parseLine c).2.checkedIndex ≤ c.readIndex := by
  refine ⟨parseLineLoop_ok_advances _ c h, ?_⟩
  by_cases hle : c.checkedIndex ≤ c.readIndex
  · exact (parseLine_frame c).bound hle
  · exfalso
    have : (c.readIndex - c.checkedIndex).toNat = 0 := by omega
    unfold parseLine at h
    rw [this] at h
    simp [parseLineLoop] at h

theorem parseContent_checkState (c : HTTPConn) (text : Int) :
    (parseContent c text).2.checkState = c.checkState := by
  unfold parseContent
  split_ifs <;> rfl

theorem processReadIter_next_decreases (fs : FileSys) (c c' : HTTPConn) (ls ls' : LINE_STATUS)
    (h : processReadIter fs c ls = Iter.next c' ls') : fuelNeeded c' ls' < fuelNeeded c ls := by
  unfold processReadIter at h
  dsimp only at h
  by_cases hc : c.checkState = CHECK_STATE_CONTENT ∧ ls = LINE_OK
  · rw [if_pos hc] at h
    simp only [Bool.true_eq_false, if_false] at h
    split at h
    · rename_i hst
      rw [hc.1] at hst; cases hst
    · rename_i hst
      rw [hc.1] at hst; cases hst
    · split_ifs at h
      injection h with h1 h2
      subst h1 h2
      have f := parseContent_idx { c with startLine := c.checkedIndex } c.startLine
      have g := parseContent_checkState { c with startLine := c.checkedIndex } c.startLine
      unfold fuelNeeded
      rw [f.readIndex, f.checkedIndex, g]
      simp [hc.1, hc.2]
  · rw [if_neg hc] at h
    dsimp only at h
    by_cases hk : (parseLine c).1 = LINE_OK
    · obtain ⟨b1, b2⟩ := parseLine_ok_bounds c hk
      have lf := parseLine_frame c
      simp only [hk, decide_True, Bool.true_eq_false, if_false] at h
      have key : ∀ d : HTTPConn, d.readIndex = c.readIndex →
          d.checkedIndex = (parseLine c).2.checkedIndex →
          (ls' = LINE_OK → ¬ (c.checkState = CHECK_STATE_CONTENT)) →
          (c.checkState = CHECK_STATE_CONTENT → d.checkState = CHECK_STATE_CONTENT ∧ ls' ≠ LINE_OK) →
          fuelNeeded d ls' < fuelNeeded c ls := by
        intro d e1 e2 e3 e4
        unfold fuelNeeded
        rw [e1, e2]
        by_cases hs : c.checkState = CHECK_STATE_CONTENT
        · have := e4 hs
          have hls : ls ≠ LINE_OK := fun e => hc ⟨hs, e⟩
          rw [if_pos this, if_pos ⟨hs, hls⟩]
          omega
        · have : ¬ (c.checkState = CHECK_STATE_CONTENT ∧ ls ≠ LINE_OK) := fun e => hs e.1
          rw [if_neg this]
          split_ifs <;> omega
      split at h
      · rename_i hst
        rw [lf.checkState] at hst
        split_ifs at h
        injection h with h1 h2
        subst h1 h2
        have f := parseRequestLine_idx { (parseLine c).2 with startLine := (parseLine c).2.checkedIndex }
          (parseLine c).2.startLine
        exact key _ (by rw [f.readIndex]; exact lf.readIndex) f.checkedIndex
          (fun _ e => by rw [hst] at e; cases e) (fun e => by rw [hst] at e; cases e)
      · rename_i hst
        rw [lf.checkState] at hst
        split_ifs at h
        injection h with h1 h2
        subst h1 h2
        have f := parseHeaders_idx { (parseLine c).2 with startLine := (parseLine c).2.checkedIndex }
          (parseLine c).2.startLine
        exact key _ (by rw [f.readIndex]; exact lf.readIndex) f.checkedIndex
          (fun _ e => by rw [hst] at e; cases e) (fun e => by rw [hst] at e; cases e)
      · rename_i hst
        split_ifs at h
        injection h with h1 h2
        subst h1 h2
        have f := parseContent_idx { (parseLine c).2 with startLine := (parseLine c).2.checkedIndex }
          (parseLine c).2.startLine
        have g := parseContent_checkState
          { (parseLine c).2 with startLine := (parseLine c).2.checkedIndex } (parseLine c).2.startLine
        exact key _ (by rw [f.readIndex]; exact lf.readIndex) f.checkedIndex
          (fun e => by cases e) (fun _ => ⟨by rw [g]; exact hst, by simp⟩)
    · simp only [hk, decide_False, if_true] at h
      cases h

theorem processReadLoop_returns (fs : FileSys) : ∀ (n : Nat) (c : HTTPConn) (ls : LINE_STATUS),
    fuelNeeded c ls ≤ n → ∃ r, processReadLoop fs n c ls = some r := by
  intro n
  induction n with
  | zero =>
    intro c ls h
    unfold fuelNeeded at h
    split_ifs at h <;> omega
  | succ k ih =>
    intro c ls h
    rw [processReadLoop]
    cases hi : processReadIter fs c ls with
    | exit c1 => exact ⟨_, rfl⟩
    | ret code c1 => exact ⟨_, rfl⟩
    | next c1 ls1 =>
      have := processReadIter_next_decreases fs c c1 ls ls1 hi
      exact ih c1 ls1 (by omega)

/-- The loop of `processRead` is always left within the iterations the model
allows: `processRead` returns for every state. -/
theorem processRead_returns (fs : FileSys) (c : HTTPConn) : ∃ r, processRead fs c = some r := by
  apply processReadLoop_returns
  unfold fuelNeeded
  split_ifs <;> omega

/-- More iterations than needed change nothing. -/
theorem processReadLoop_mono (fs : FileSys) : ∀ (n : Nat) (c : HTTPConn) (ls : LINE_STATUS)
    (r : HTTP_CODE × HTTPConn), processReadLoop fs n c ls = some r →
    ∀ k, processReadLoop fs (n + k) c ls = some r := by
  intro n
  induction n with
  | zero => intro c ls r h; simp [processReadLoop] at h
  | succ m ih =>
    intro c ls r h k
    rw [show m + 1 + k = (m + k) + 1 by omega, processReadLoop]
    rw [processReadLoop] at h
    cases hi : processReadIter fs c ls with
    | exit c1 => rw [hi] at h; exact h
    | ret code c1 => rw [hi] at h; exact h
    | next c1 ls1 => rw [hi] at h; exact ih c1 ls1 r h k

theorem processReadLoop_inv (fs : FileSys) : ∀ (n : Nat) (c : HTTPConn) (ls : LINE_STATUS)
    (r : HTTP_CODE × HTTPConn), Inv c → processReadLoop fs n c ls = some r → Inv r.2 := by
  intro n
  induction n with
  | zero => intro c ls r _ h; simp [processReadLoop] at h
  | succ m ih =>
    intro c ls r hc h
    rw [processReadLoop] at h
    have hi := processReadIter_inv fs c ls hc
    cases hit : processReadIter fs c ls with
    | exit c1 =>
      rw [hit] at h hi
      injection h with h; subst h; exact hi
    | ret code c1 =>
      rw [hit] at h hi
      injection h with h; subst h; exact hi
    | next c1 ls1 =>
      rw [hit] at h hi
      exact ih c1 ls1 r hi h

/-- `read` that receives `seg` (not empty, fitting into the buffer) and then
would block returns success in the state `recvSegment c seg`. -/
theorem read_recvSegment (c : HTTPConn) (seg : List Nat) (h0 : seg ≠ [])
    (h1 : c.readIndex + seg.length ≤ READ_BUFFER_SIZE) :
    read c [RecvResult.data seg, RecvResult.eagain] = some (true, recvSegment c seg) := by
  have hlen : 0 < seg.length := List.length_pos.mpr h0
  have ht : seg.take (READ_BUFFER_SIZE - c.readIndex).toNat = seg := by
    apply List.take_of_length_le
    omega
  unfold read
  rw [if_neg (by omega)]
  simp only [readLoop, ht]
  rw [if_neg (by omega)]
  rfl

/-- Ordering of the buffer indices.  From a state with
`0 ≤ startLine ≤ checkedIndex ≤ readIndex ≤ 2048`, whatever `readBuffer`
holds, a call of `parseLine`, an iteration of the loop of `processRead` (in
any `checkState`, with any `lineStatus`) and a whole call of `processRead`
end in a state of the model with the same ordering; the state `init()`
produces has it too.  The state of the model is the state of the program
when the step stores nothing outside `readBuffer` (see `store`). -/
theorem indices_stay_ordered (fs : FileSys) (c : HTTPConn) (ls : LINE_STATUS) (h : Inv c) :
    Inv (parseLine c).2 ∧ Inv (processReadIter fs c ls).conn ∧
      (∃ r, processRead fs c = some r ∧ Inv r.2) ∧ Inv (init c) := by
  refine ⟨parseLine_inv c h, processReadIter_inv fs c ls h, ?_, init_inv c⟩
  obtain ⟨r, hr⟩ := processRead_returns fs c
  exact ⟨r, hr, processReadLoop_inv fs _ c LINE_OK r h hr⟩

/-! ## C strings -/

theorem cstrFuel_eq (l : List Nat) : ∀ (m : Int → Nat) (n : Nat) (p : Int),
    At m p l → (∀ b ∈ l, b ≠ 0) → m (p + l.length) = 0 → l.length < n →
    cstrFuel m n p = l := by
  induction l with
  | nil =>
    intro m n p _ _ hz hn
    cases n with
    | zero => simp at hn
    | succ k =>
      simp only [List.length_nil, Nat.cast_zero, add_zero] at hz
      simp [cstrFuel, hz]
  | cons x xs ih =>
    intro m n p hat hnz hz hn
    cases n with
    | zero => simp at hn
    | succ k =>
      have hx : x ≠ 0 := hnz x (List.mem_cons_self _ _)
      have hp : m p = x := hat.1
      rw [cstrFuel, hp, if_neg hx]
      congr 1
      apply ih m k (p + 1) hat.2 (fun b hb => hnz b (List.mem_cons_of_mem _ hb))
      · rw [← hz]; congr 1
        simp only [List.length_cons, Nat.cast_add, Nat.cast_one]; omega
      · simp only [List.length_cons] at hn; omega

theorem cstr_eq {m : Int → Nat} {p : Int} {l : List Nat} (h : CStrAt m p l) :
    cstr m READ_BUFFER_SIZE p = l := by
  obtain ⟨h1, h2, h3, h4⟩ := h
  exact cstrFuel_eq l m _ p h1 h2 h3 (by omega)

theorem CStrAt.suffix {m : Int → Nat} {p : Int} (a b : List Nat) (h : CStrAt m p (a ++ b)) :
    CStrAt m (p + a.length) b := by
  obtain ⟨h1, h2, h3, h4⟩ := h
  simp only [List.length_append, Nat.cast_add] at h3 h4
  refine ⟨((at_append a m p b).mp h1).2, fun x hx => h2 x (List.mem_append_right _ hx), ?_, ?_⟩
  · rw [← h3]; congr 1; omega
  · omega

/-- A store before the string or after its terminator leaves the string. -/
theorem CStrAt.frame {m : Int → Nat} {p : Int} {l : List Nat} (h : CStrAt m p l) (i : Int)
    (v : Nat) (hi : i < p ∨ p + l.length < i) : CStrAt (setByte m i v) p l := by
  obtain ⟨h1, h2, h3, h4⟩ := h
  refine ⟨at_congr l m _ p (fun j hj1 hj2 => setByte_other _ _ _ _ (by omega)) h1, h2, ?_, h4⟩
  rw [setByte_other _ _ _ _ (by omega)]; exact h3

/-- A NUL stored inside a string cuts it there. -/
theorem CStrAt.cut {m : Int → Nat} {p : Int} (a : List Nat) (w : Nat) (b : List Nat)
    (h : CStrAt m p (a ++ w :: b)) : CStrAt (setByte m (p + a.length) 0) p a := by
  obtain ⟨h1, h2, h3, h4⟩ := h
  simp only [List.length_append, List.length_cons, Nat.cast_add, Nat.cast_one] at h4
  refine ⟨?_, fun x hx => h2 x (List.mem_append_left _ hx), setByte_same _ _ _, by omega⟩
  exact at_congr a m _ p (fun j hj1 hj2 => setByte_other _ _ _ _ (by omega))
    ((at_append a m p (w :: b)).mp h1).1

theorem CStrAt.tail {m : Int → Nat} {p : Int} (a : List Nat) (w : Nat) (b : List Nat)
    (h : CStrAt m p (a ++ w :: b)) (v : Nat) :
    CStrAt (setByte m (p + a.length) v) (p + a.length + 1) b := by
  have h1 : CStrAt m (p + (a ++ [w]).length) b := by
    apply CStrAt.suffix (a ++ [w]) b
    simpa using h
  have e : p + ((a ++ [w]).length : Int) = p + a.length + 1 := by
    simp only [List.length_append, List.length_singleton, Nat.cast_add, Nat.cast_one]; omega
  rw [e] at h1
  exact h1.frame _ _ (Or.inl (by omega))

theorem CStrAt.head {m : Int → Nat} {p : Int} {x : Nat} {xs : List Nat}
    (h : CStrAt m p (x :: xs)) : m p = x := h.1.1

/-! ## Searching and comparing -/

theorem findFirst_none (pred : Nat → Bool) (l : List Nat) (h : ∀ x ∈ l, pred x = false) :
    findFirst pred l = none := by
  induction l with
  | nil => rfl
  | cons x xs ih =>
    rw [findFirst, if_neg (by simp [h x (List.mem_cons_self _ _)]),
      ih (fun y hy => h y (List.mem_cons_of_mem _ hy))]
    rfl

theorem findFirst_hit (pred : Nat → Bool) (a : List Nat) (w : Nat) (b : List Nat)
    (ha : ∀ x ∈ a, pred x = false) (hw : pred w = true) :
    findFirst pred (a ++ w :: b) = some a.length := by
  induction a with
  | nil => simp [findFirst, hw]
  | cons x xs ih =>
    rw [List.cons_append, findFirst, if_neg (by simp [ha x (List.mem_cons_self _ _)]),
      ih (fun y hy => ha y (List.mem_cons_of_mem _ hy))]
    rfl

/-- A list is cut at its first byte satisfying `pred`, if it has one. -/
theorem split_first (pred : Nat → Bool) (l : List Nat) :
    (∀ x ∈ l, pred x = false) ∨
      ∃ a w b, l = a ++ w :: b ∧ (∀ x ∈ a, pred x = false) ∧ pred w = true := by
  induction l with
  | nil => left; simp
  | cons x xs ih =>
    by_cases hx : pred x = true
    · right; exact ⟨[], x, xs, rfl, by simp, hx⟩
    · rcases ih with h | ⟨a, w, b, e, ha, hw⟩
      · left
        intro y hy
        rcases List.mem_cons.mp hy with rfl | h'
        · simpa using hx
        · exact h y h'
      · right
        refine ⟨x :: a, w, b, by rw [e]; rfl, ?_, hw⟩
        intro y hy
        rcases List.mem_cons.mp hy with rfl | h'
        · simpa using hx
        · exact ha y h'

theorem tolower_ne_zero {x : Nat} (h : x ≠ 0) : tolower x ≠ 0 := by
  unfold tolower
  split_ifs <;> omega

theorem strcasecmp_eq_zero (a : List Nat) : ∀ (b : List Nat), (∀ x ∈ a, x ≠ 0) →
    (∀ x ∈ b, x ≠ 0) → (strcasecmp a b = 0 ↔ eqIgnoreCase a b) := by
  unfold eqIgnoreCase
  induction a with
  | nil =>
    intro b _ hb
    cases b with
    | nil => simp [strcasecmp]
    | cons y ys =>
      have := tolower_ne_zero (hb y (List.mem_cons_self _ _))
      simp only [strcasecmp, List.map_nil, List.map_cons]
      constructor
      · intro h; omega
      · intro h; cases h
  | cons x xs ih =>
    intro b ha hb
    cases b with
    | nil =>
      have := tolower_ne_zero (ha x (List.mem_cons_self _ _))
      simp only [strcasecmp, List.map_nil, List.map_cons]
      constructor
      · intro h; omega
      · intro h; cases h
    | cons y ys =>
      simp only [strcasecmp, List.map_cons, List.cons.injEq]
      by_cases hxy : tolower x = tolower y
      · rw [if_pos hxy, ih ys (fun z hz => ha z (List.mem_cons_of_mem _ hz))
          (fun z hz => hb z (List.mem_cons_of_mem _ hz))]
        simp [hxy]
      · rw [if_neg hxy]
        constructor
        · intro h; exfalso; apply hxy; omega
        · intro h; exact absurd h.1 hxy

theorem bytes_GET : bytes "GET" = [71, 69, 84] := by decide
theorem bytes_HTTP11 : bytes "HTTP/1.1" = [72, 84, 84, 80, 47, 49, 46, 49] := by decide
theorem bytes_http : bytes "http://" = [104, 116, 116, 112, 58, 47, 47] := by decide

theorem strpbrk_none {m : Int → Nat} {p : Int} {l : List Nat} (h : CStrAt m p l)
    (hl : ∀ x ∈ l, isSpTab x = false) : strpbrk m p = none := by
  unfold strpbrk
  rw [cstr_eq h, findFirst_none _ _ hl]
  rfl

theorem strpbrk_hit {m : Int → Nat} {p : Int} {a b : List Nat} {w : Nat}
    (h : CStrAt m p (a ++ w :: b)) (ha : ∀ x ∈ a, isSpTab x = false) (hw : isSpTab w = true) :
    strpbrk m p = some (p + a.length) := by
  unfold strpbrk
  rw [cstr_eq h, findFirst_hit _ _ _ _ ha hw]
  rfl

theorem CStrAt.nonzero {m : Int → Nat} {p : Int} {l : List Nat} (h : CStrAt m p l) :
    ∀ b ∈ l, b ≠ 0 := h.2.1

/-- `strcasecmp(text, lit) == 0` for a string in the buffer and a literal. -/
theorem strcasecmp_cstr {m : Int → Nat} {p : Int} {l : List Nat} (h : CStrAt m p l)
    (lit : List Nat) (hlit : ∀ x ∈ lit, x ≠ 0) :
    strcasecmp (cstr m READ_BUFFER_SIZE p) lit = 0 ↔ eqIgnoreCase l lit := by
  rw [cstr_eq h]
  exact strcasecmp_eq_zero l lit h.nonzero hlit

theorem strncasecmp_cstr {m : Int → Nat} {p : Int} {l : List Nat} (h : CStrAt m p l)
    (lit : List Nat) (n : Nat) (hlit : ∀ x ∈ lit, x ≠ 0) (hn : lit.length = n) :
    strncasecmp (cstr m READ_BUFFER_SIZE p) lit n = 0 ↔ eqIgnoreCase (l.take n) lit := by
  rw [cstr_eq h]
  unfold strncasecmp
  rw [List.take_of_length_le (le_of_eq hn)]
  exact strcasecmp_eq_zero _ lit (fun x hx => h.nonzero x (List.mem_of_mem_take hx)) hlit

theorem dropWhile_hit (pred : Nat → Bool) (a : List Nat) (w : Nat) (b : List Nat)
    (ha : ∀ x ∈ a, pred x = true) (hw : pred w = false) :
    (a ++ w :: b).dropWhile pred = w :: b := by
  induction a with
  | nil => simp [List.dropWhile, hw]
  | cons x xs ih =>
    rw [List.cons_append, List.dropWhile_cons, if_pos (ha x (List.mem_cons_self _ _))]
    exact ih (fun y hy => ha y (List.mem_cons_of_mem _ hy))

theorem takeWhile_hit (pred : Nat → Bool) (a : List Nat) (w : Nat) (b : List Nat)
    (ha : ∀ x ∈ a, pred x = true) (hw : pred w = false) :
    (a ++ w :: b).takeWhile pred = a := by
  induction a with
  | nil => simp [List.takeWhile, hw]
  | cons x xs ih =>
    rw [List.cons_append, List.takeWhile_cons, if_pos (ha x (List.mem_cons_self _ _))]
    rw [ih (fun y hy => ha y (List.mem_cons_of_mem _ hy))]

theorem dropWhile_all (pred : Nat → Bool) (l : List Nat) (h : ∀ x ∈ l, pred x = true) :
    l.dropWhile pred = [] := by
  induction l with
  | nil => rfl
  | cons x xs ih =>
    rw [List.dropWhile_cons, if_pos (h x (List.mem_cons_self _ _))]
    exact ih (fun y hy => h y (List.mem_cons_of_mem _ hy))

theorem takeWhile_all (pred : Nat → Bool) (l : List Nat) (h : ∀ x ∈ l, pred x = true) :
    l.takeWhile pred = l := by
  induction l with
  | nil => rfl
  | cons x xs ih =>
    rw [List.takeWhile_cons, if_pos (h x (List.mem_cons_self _ _)),
      ih (fun y hy => h y (List.mem_cons_of_mem _ hy))]

theorem http_nonzero : ∀ x ∈ bytes "http://", x ≠ 0 := by decide
theorem GET_nonzero : ∀ x ∈ bytes "GET", x ≠ 0 := by decide
theorem HTTP11_nonzero : ∀ x ∈ bytes "HTTP/1.1", x ≠ 0 := by decide

/-- The URL step of `parseRequestLine` on the URL `U` standing at `q`: the
pointer it computes, against `stripHost U`. -/
theorem url_step (m : Int → Nat) (q : Int) (U : List Nat) (h : CStrAt m q U) :
    let url4 := if strncasecmp (cstr m READ_BUFFER_SIZE q) (bytes "http://") 7 = 0 then
        strchr m (q + 7) 47 else some q
    ((stripHost U).head? = some 47 → ∃ p, url4 = some p ∧ m p = 47 ∧ CStrAt m p (stripHost U)) ∧
    ((stripHost U).head? ≠ some 47 → url4 = none ∨ ∃ p, url4 = some p ∧ m p ≠ 47) := by
  intro url4
  have hs := strncasecmp_cstr h (bytes "http://") 7 http_nonzero (by decide)
  by_cases hh : eqIgnoreCase (U.take 7) (bytes "http://")
  · have e4 : url4 = strchr m (q + 7) 47 := if_pos (hs.mpr hh)
    have hst : stripHost U = (U.drop 7).dropWhile (fun b => !(b == 47)) := if_pos hh
    have hlen : (U.take 7).length = 7 := by
      have := congrArg List.length hh
      simpa [bytes_http] using this
    have hsuf : CStrAt m (q + 7) (U.drop 7) := by
      have := CStrAt.suffix (U.take 7) (U.drop 7) (by rw [List.take_append_drop]; exact h)
      rw [hlen] at this
      exact this
    rw [e4, hst]
    unfold strchr
    rw [cstr_eq hsuf]
    rcases split_first (fun b => b == 47) (U.drop 7) with hn | ⟨a, w, b, e, ha, hw⟩
    · have hd : (U.drop 7).dropWhile (fun b => !(b == 47)) = [] :=
        dropWhile_all _ _ (fun x hx => by simp [hn x hx])
      rw [hd, findFirst_none _ _ hn]
      exact ⟨fun h => by simp at h, fun _ => Or.inl rfl⟩
    · have hw47 : w = 47 := by simpa using hw
      subst hw47
      have hd : (U.drop 7).dropWhile (fun b => !(b == 47)) = 47 :: b := by
        rw [e]
        exact dropWhile_hit _ _ _ _ (fun x hx => by simp [ha x hx]) (by simp)
      have hp : CStrAt m (q + 7 + a.length) (47 :: b) := by
        rw [e] at hsuf
        exact CStrAt.suffix a (47 :: b) hsuf
      rw [hd, e, findFirst_hit _ _ _ _ ha hw]
      refine ⟨fun _ => ⟨q + 7 + a.length, rfl, hp.head, hp⟩, fun h => ?_⟩
      simp at h
  · have e4 : url4 = some q := if_neg (fun e => hh (hs.mp e))
    have hst : stripHost U = U := if_neg hh
    rw [e4, hst]
    cases U with
    | nil =>
      refine ⟨fun h => by simp at h, fun _ => Or.inr ⟨q, rfl, ?_⟩⟩
      have := h.2.2.1
      simp only [List.length_nil, Nat.cast_zero, add_zero] at this
      rw [this]; decide
    | cons x xs =>
      have hx : m q = x := h.head
      refine ⟨fun hh => ?_, fun hh => Or.inr ⟨q, rfl, ?_⟩⟩
      · have : x = 47 := by simpa using hh
        exact ⟨q, rfl, by rw [hx, this], h⟩
      · rw [hx]; intro e; apply hh; simp [e]

theorem parseRequestLine_noSep (c : HTTPConn) (s : Int) (line : List Nat)
    (h : CStrAt c.readBuffer s line) (hl : ∀ x ∈ line, isSpTab x = false) :
    (parseRequestLine c s).1 = BAD_REQUEST := by
  unfold parseRequestLine
  rw [strpbrk_none h hl]

theorem parseRequestLine_badMethod (c : HTTPConn) (s : Int) (M r : List Nat) (w : Nat)
    (h : CStrAt c.readBuffer s (M ++ w :: r)) (hM : ∀ x ∈ M, isSpTab x = false)
    (hw : isSpTab w = true) (hbad : ¬ eqIgnoreCase M (bytes "GET")) :
    (parseRequestLine c s).1 = BAD_REQUEST := by
  have h1 := h.cut M w r
  have hc := (strcasecmp_cstr h1 (bytes "GET") GET_nonzero).not.mpr hbad
  unfold parseRequestLine
  rw [strpbrk_hit h hM hw]
  dsimp only [store]
  rw [if_neg hc]

theorem parseRequestLine_oneSep (c : HTTPConn) (s : Int) (M r : List Nat) (w : Nat)
    (h : CStrAt c.readBuffer s (M ++ w :: r)) (hM : ∀ x ∈ M, isSpTab x = false)
    (hw : isSpTab w = true) (hr : ∀ x ∈ r, isSpTab x = false) :
    (parseRequestLine c s).1 = BAD_REQUEST := by
  have h1 := h.cut M w r
  have h2 := h.tail M w r 0
  unfold parseRequestLine
  rw [strpbrk_hit h hM hw]
  dsimp only [store]
  split_ifs
  · rw [strpbrk_none h2 hr]
  · rfl

/-- `parseRequestLine` on a line with both separators, method and version in
order: the outcome is decided by the URL. -/
theorem parseRequestLine_twoSep (c : HTTPConn) (s : Int) (M U V : List Nat) (w w' : Nat)
    (h : CStrAt c.readBuffer s (M ++ w :: (U ++ w' :: V)))
    (hM : ∀ x ∈ M, isSpTab x = false) (hw : isSpTab w = true)
    (hU : ∀ x ∈ U, isSpTab x = false) (hw' : isSpTab w' = true) :
    (¬ eqIgnoreCase M (bytes "GET") ∨ ¬ eqIgnoreCase V (bytes "HTTP/1.1") ∨
        (stripHost U).head? ≠ some 47 → (parseRequestLine c s).1 = BAD_REQUEST) ∧
    (eqIgnoreCase M (bytes "GET") → eqIgnoreCase V (bytes "HTTP/1.1") →
        (stripHost U).head? = some 47 →
      ∃ c' p, parseRequestLine c s = (NO_REQUEST, c') ∧ c'.checkState = CHECK_STATE_HEADER ∧
        c'.url = some p ∧ CStrAt c'.readBuffer p (stripHost U) ∧
        c'.stores = c.stores ++ [s + M.length, s + M.length + 1 + U.length] ∧
        (∀ j, j < s ∨ s + (M ++ w :: (U ++ w' :: V)).length ≤ j →
          c'.readBuffer j = c.readBuffer j)) := by
  have h1 := h.cut M w (U ++ w' :: V)
  have h2 := h.tail M w (U ++ w' :: V) 0
  have h3 := h2.cut U w' V
  have h4 := h2.tail U w' V 0
  have h5 : CStrAt (setByte (setByte c.readBuffer (s + M.length) 0)
      (s + M.length + 1 + U.length) 0) s M :=
    h1.frame _ _ (Or.inr (by omega))
  have hget := strcasecmp_cstr h1 (bytes "GET") GET_nonzero
  have hver := strcasecmp_cstr h4 (bytes "HTTP/1.1") HTTP11_nonzero
  have hurl := url_step _ _ U h3
  have hlen : ((M ++ w :: (U ++ w' :: V)).length : Int) =
      M.length + 1 + U.length + 1 + V.length := by
    simp only [List.length_append, List.length_cons, Nat.cast_add, Nat.cast_one]; omega
  unfold parseRequestLine
  rw [strpbrk_hit h hM hw]
  dsimp only [store]
  by_cases g1 : eqIgnoreCase M (bytes "GET")
  · rw [if_pos (hget.mpr g1), strpbrk_hit h2 hU hw']
    dsimp only
    by_cases g2 : eqIgnoreCase V (bytes "HTTP/1.1")
    · rw [if_neg (not_not.mpr (hver.mpr g2))]
      by_cases g3 : (stripHost U).head? = some 47
      · obtain ⟨p, e1, e2, e3⟩ := hurl.1 g3
        refine ⟨fun hb => ?_, fun _ _ _ => ?_⟩
        · rcases hb with hb | hb | hb
          · exact absurd g1 hb
          · exact absurd g2 hb
          · exact absurd g3 hb
        · rw [e1]
          dsimp only
          rw [if_neg (not_not.mpr e2)]
          refine ⟨_, p, rfl, rfl, rfl, e3, by simp, ?_⟩
          intro j hj
          dsimp only
          rw [hlen] at hj
          rw [setByte_other _ _ _ _ (by omega), setByte_other _ _ _ _ (by omega)]
      · refine ⟨fun _ => ?_, fun _ _ hb => absurd hb g3⟩
        rcases hurl.2 g3 with e | ⟨p, e1, e2⟩
        · rw [e]
        · rw [e1]
          dsimp only
          rw [if_pos e2]
    · rw [if_pos (fun e => g2 (hver.mp e))]
      exact ⟨fun _ => rfl, fun _ hb _ => absurd hb g2⟩
  · rw [if_neg (fun e => g1 (hget.mp e))]
    exact ⟨fun _ => rfl, fun hb _ _ => absurd hb g1⟩

theorem token_split (a : List Nat) (w : Nat) (b : List Nat)
    (ha : ∀ x ∈ a, isSpTab x = false) (hw : isSpTab w = true) :
    firstToken (a ++ w :: b) = a ∧ afterToken (a ++ w :: b) = b := by
  unfold firstToken afterToken
  rw [takeWhile_hit notSpTab a w b (fun x hx => by simp [notSpTab, ha x hx]) (by simp [notSpTab, hw]),
    dropWhile_hit notSpTab a w b (fun x hx => by simp [notSpTab, ha x hx]) (by simp [notSpTab, hw])]
  exact ⟨rfl, rfl⟩

theorem token_noSep (l : List Nat) (h : ∀ x ∈ l, isSpTab x = false) :
    firstToken l = l ∧ afterToken l = [] := by
  unfold firstToken afterToken
  rw [takeWhile_all notSpTab l (fun x hx => by simp [notSpTab, h x hx]),
    dropWhile_all notSpTab l (fun x hx => by simp [notSpTab, h x hx])]
  exact ⟨rfl, rfl⟩

theorem not_eqIgnoreCase_nil_HTTP11 : ¬ eqIgnoreCase [] (bytes "HTTP/1.1") := by decide

/-- `parseRequestLine` against the description of the request line: it
rejects exactly the lines that are not in order. -/
theorem parseRequestLine_spec (c : HTTPConn) (s : Int) (line : List Nat)
    (h : CStrAt c.readBuffer s line) :
    (¬ requestLineOk line → (parseRequestLine c s).1 = BAD_REQUEST) ∧
    (requestLineOk line →
      ∃ c' p, parseRequestLine c s = (NO_REQUEST, c') ∧ c'.checkState = CHECK_STATE_HEADER ∧
        c'.url = some p ∧ CStrAt c'.readBuffer p (stripHost (urlToken line)) ∧
        (∀ j, j < s ∨ s + line.length ≤ j → c'.readBuffer j = c.readBuffer j)) := by
  unfold requestLineOk methodToken urlToken versionToken
  rcases split_first isSpTab line with h0 | ⟨M, w, r, e, hM, hw⟩
  · obtain ⟨_, t2⟩ := token_noSep line h0
    rw [t2]
    have : afterToken [] = [] := rfl
    rw [this]
    exact ⟨fun _ => parseRequestLine_noSep c s line h h0,
      fun hok => absurd hok.2.1 not_eqIgnoreCase_nil_HTTP11⟩
  · subst e
    obtain ⟨t1, t2⟩ := token_split M w r hM hw
    rw [t1, t2]
    rcases split_first isSpTab r with h0 | ⟨U, w', V, e, hU, hw'⟩
    · obtain ⟨_, t4⟩ := token_noSep r h0
      rw [t4]
      exact ⟨fun _ => parseRequestLine_oneSep c s M r w h hM hw h0,
        fun hok => absurd hok.2.1 not_eqIgnoreCase_nil_HTTP11⟩
    · subst e
      obtain ⟨t3, t4⟩ := token_split U w' V hU hw'
      rw [t3, t4]
      obtain ⟨k1, k2⟩ := parseRequestLine_twoSep c s M U V w w' h hM hw hU hw'
      refine ⟨fun hb => k1 ?_, fun hok => ?_⟩
      · by_contra hn
        push_neg at hn
        exact hb ⟨hn.1, hn.2.1, hn.2.2⟩
      · obtain ⟨c', p, e1, e2, e3, e4, _, e6⟩ := k2 hok.1 hok.2.1 hok.2.2
        exact ⟨c', p, e1, e2, e3, e4, e6⟩

/-! ## Complete lines -/

theorem parseLineLoop_scan (pre : List Nat) : ∀ (n : Nat) (c : HTTPConn),
    At c.readBuffer c.checkedIndex (pre ++ [13, 10]) → (∀ b ∈ pre, b ≠ 13 ∧ b ≠ 10) →
    c.checkedIndex + pre.length + 2 ≤ c.readIndex → pre.length < n →
    parseLineLoop n c = (LINE_OK, lineDone c (c.checkedIndex + pre.length)) := by
  induction pre with
  | nil =>
    intro n c hat _ hri hn
    cases n with
    | zero => simp at hn
    | succ k =>
      simp only [List.nil_append, At] at hat
      simp only [List.length_nil, Nat.cast_zero, add_zero] at hri ⊢
      rw [parseLineLoop]
      dsimp only
      rw [if_pos (by omega), if_pos hat.1, if_neg (by omega), if_pos hat.2.1]
      rfl
  | cons x xs ih =>
    intro n c hat hfree hri hn
    cases n with
    | zero => simp at hn
    | succ k =>
      simp only [List.length_cons, Nat.cast_add, Nat.cast_one] at hri hn ⊢
      have hx := hfree x (List.mem_cons_self _ _)
      have h0 : c.readBuffer c.checkedIndex = x := hat.1
      rw [parseLineLoop]
      dsimp only
      rw [if_pos (by omega), h0, if_neg hx.1, if_neg hx.2]
      rw [ih k { c with checkedIndex := c.checkedIndex + 1 } hat.2
        (fun b hb => hfree b (List.mem_cons_of_mem _ hb)) (by dsimp only; omega) (by omega)]
      dsimp only
      rw [show c.checkedIndex + 1 + (xs.length : Int) = c.checkedIndex + ((xs.length : Int) + 1)
        by omega]
      rfl

/-- `parseLine` on a state with a complete line ready. -/
theorem parseLine_ready (c : HTTPConn) (line : List Nat) (hs : c.startLine ≤ c.checkedIndex)
    (h : LineReady c line) :
    parseLine c = (LINE_OK, lineDone c (c.startLine + line.length)) := by
  obtain ⟨hat, hfree, hci, hri⟩ := h
  obtain ⟨k, hk⟩ : ∃ k : Nat, c.checkedIndex = c.startLine + k :=
    ⟨(c.checkedIndex - c.startLine).toNat, by omega⟩
  have hkl : k ≤ line.length := by omega
  have hsplit : line = line.take k ++ line.drop k := (List.take_append_drop k line).symm
  have hlt : (line.take k).length = k := List.length_take_of_le hkl
  have hdl : ((line.drop k).length : Int) = line.length - k := by
    rw [List.length_drop]; omega
  have hat2 : At c.readBuffer c.checkedIndex (line.drop k ++ [13, 10]) := by
    have : At c.readBuffer c.startLine (line.take k ++ (line.drop k ++ [13, 10])) := by
      rw [← List.append_assoc, List.take_append_drop]; exact hat
    have := ((at_append _ _ _ _).mp this).2
    rw [hlt, ← hk] at this
    exact this
  unfold parseLine
  rw [parseLineLoop_scan (line.drop k) _ c hat2
    (fun b hb => hfree b (List.mem_of_mem_drop hb)) (by omega) (by omega)]
  rw [show c.checkedIndex + ((line.drop k).length : Int) = c.startLine + line.length by omega]

/-- After `parseLine` has terminated the line, the C string at its start is
the line cut at its first NUL byte. -/
theorem cstrAt_line (m : Int → Nat) (s : Int) (line : List Nat)
    (hat : At m s (line ++ [13, 10])) (hb : s + line.length + 2 ≤ READ_BUFFER_SIZE) :
    CStrAt (setByte (setByte m (s + line.length) 0) (s + line.length + 1) 0) s (cline line) := by
  unfold cline
  have hat1 := ((at_append _ _ _ _).mp hat).1
  rcases split_first (fun b => b == 0) line with h0 | ⟨a, w, b, e, ha, hw⟩
  · rw [takeWhile_all _ line (fun x hx => by simp [h0 x hx])]
    refine ⟨?_, fun x hx => by simpa using h0 x hx, ?_, by omega⟩
    · exact at_congr line m _ s (fun j h1 h2 => by
        rw [setByte_other _ _ _ _ (by omega), setByte_other _ _ _ _ (by omega)]) hat1
    · rw [setByte_other _ _ _ _ (by omega), setByte_same]
  · have hw0 : w = 0 := by simpa using hw
    subst hw0 e
    rw [takeWhile_hit _ a 0 b (fun x hx => by simp [ha x hx]) (by simp)]
    have hlen : ((a ++ 0 :: b).length : Int) = a.length + 1 + b.length := by
      simp only [List.length_append, List.length_cons, Nat.cast_add, Nat.cast_one]; omega
    rw [hlen] at hb ⊢
    have hat2 := (at_append _ _ _ _).mp hat1
    refine ⟨?_, fun x hx => by simpa using ha x hx, ?_, by omega⟩
    · exact at_congr a m _ s (fun j h1 h2 => by
        rw [setByte_other _ _ _ _ (by omega), setByte_other _ _ _ _ (by omega)]) hat2.1
    · rw [setByte_other _ _ _ _ (by omega), setByte_other _ _ _ _ (by omega)]
      exact hat2.2.1

/-! ## Response assembly -/

theorem addResponse_ok (c : HTTPConn) (out : List Nat) (_h0 : 0 ≤ c.writeIndex)
    (hfit : c.writeIndex + out.length < 1023) : addResponse c out = (true, emit c out) := by
  unfold addResponse
  rw [if_neg (by unfold WRITE_BUFFER_SIZE; omega)]
  dsimp only
  rw [if_neg (by unfold WRITE_BUFFER_SIZE; omega)]
  unfold vsnprintf
  rw [if_neg (by unfold WRITE_BUFFER_SIZE; omega)]
  rw [List.take_of_length_le (by unfold WRITE_BUFFER_SIZE; omega)]
  rfl

theorem emit_composed (c : HTTPConn) (pre out : List Nat) (h : Composed c pre) :
    Composed (emit c out) (pre ++ out) := by
  obtain ⟨h1, h2⟩ := h
  refine ⟨?_, ?_⟩
  · simp only [emit, h1, List.length_append, Nat.cast_add]
  · rw [at_append]
    constructor
    · exact at_congr pre c.writeBuffer _ 0
        (fun j _ hj => setBytes_before _ _ _ _ (by rw [h1]; omega)) h2
    · have := at_setBytes (out ++ [0]) c.writeBuffer c.writeIndex
      rw [at_append] at this
      simp only [emit]
      rw [zero_add, ← h1]
      exact this.1

theorem composed_nil (c : HTTPConn) (h : c.writeIndex = 0) : Composed c [] :=
  ⟨by simpa using h, trivial⟩

theorem Composed.nonneg {c : HTTPConn} {pre : List Nat} (h : Composed c pre) :
    0 ≤ c.writeIndex := by
  rw [h.1]; exact Int.natCast_nonneg _

/-- A text that fits is appended to what the write buffer holds. -/
theorem addResponse_composed (c : HTTPConn) (pre out : List Nat) (h : Composed c pre)
    (hfit : pre.length + out.length < 1023) :
    addResponse c out = (true, emit c out) ∧ Composed (emit c out) (pre ++ out) := by
  refine ⟨addResponse_ok c out h.nonneg ?_, emit_composed c pre out h⟩
  rw [h.1]; omega

theorem decDigits_length (n : Nat) : ∀ (x k : Nat), 0 < k → x < 10 ^ k →
    (decDigits n x).length ≤ k := by
  induction n with
  | zero => intro x k _ _; simp [decDigits]
  | succ m ih =>
    intro x k hk hx
    rw [decDigits]
    split_ifs with h
    · simpa using hk
    · cases k with
      | zero => omega
      | succ j =>
        have hj : 0 < j := by
          rcases Nat.eq_zero_or_pos j with e | e
          · subst e; simp at hx; omega
          · exact e
        have : x / 10 < 10 ^ j := by
          rw [Nat.div_lt_iff_lt_mul (by norm_num)]
          rw [pow_succ] at hx; exact hx
        have := ih (x / 10) j hj this
        simp only [List.length_append, List.length_singleton]
        omega

theorem fmtD_length (x : Int) (h0 : 0 ≤ x) (h1 : x < 2147483648) : (fmtD x).length ≤ 10 := by
  unfold fmtD
  rw [if_neg (by omega)]
  apply decDigits_length _ _ 10 (by norm_num)
  omega

theorem toInt32_id (x : Int) (h0 : 0 ≤ x) (h1 : x < 2147483648) : toInt32 x = x := by
  unfold toInt32
  omega

theorem emit_frame (c : HTTPConn) (out : List Nat) : WriteFrame c (emit c out) :=
  ⟨rfl, rfl, rfl⟩

theorem WriteFrame.compose {a b c : HTTPConn} (h1 : WriteFrame a b) (h2 : WriteFrame b c) :
    WriteFrame a c :=
  ⟨h2.linger.trans h1.linger, h2.fileStat.trans h1.fileStat, h2.fileAddress.trans h1.fileAddress⟩

theorem digitChar_toNat : ∀ k, k < 10 → (Nat.digitChar k).toNat = 48 + k := by decide

theorem toDigitsCore_decDigits (n : Nat) : ∀ (x : Nat) (ds : List Char),
    (Nat.toDigitsCore 10 n x ds).map Char.toNat = decDigits n x ++ ds.map Char.toNat := by
  induction n with
  | zero => intro x ds; simp [Nat.toDigitsCore, decDigits]
  | succ m ih =>
    intro x ds
    rw [Nat.toDigitsCore, decDigits]
    by_cases h : x < 10
    · have h' : x / 10 = 0 := Nat.div_eq_of_lt h
      rw [if_pos h', if_pos h]
      simp only [List.map_cons, List.singleton_append, Nat.mod_eq_of_lt h]
      rw [digitChar_toNat x h]
    · have h' : ¬ x / 10 = 0 := by omega
      rw [if_neg h', if_neg h, ih]
      simp only [List.map_cons, List.append_assoc, List.singleton_append]
      rw [digitChar_toNat _ (Nat.mod_lt _ (by norm_num))]

/-- `%d` prints a non-negative `int` as its decimal text. -/
theorem fmtD_decimal (n : Nat) : fmtD (n : Int) = decimal n := by
  unfold fmtD decimal bytes
  rw [if_neg (by omega)]
  have : toString n = (Nat.toDigits 10 n).asString := rfl
  rw [this]
  simp only [Int.natAbs_ofNat, List.asString, Nat.toDigits]
  show _ = List.map Char.toNat (Nat.toDigitsCore 10 (n + 1) n [])
  rw [toDigitsCore_decDigits]
  simp

theorem headerBlock_length (cl : List Nat) (ka : Bool) :
    (headerBlock cl ka).length ≤ cl.length + 68 := by
  have e1 : (bytes "Content-Length: ").length = 16 := by decide
  have e2 : (bytes "\r\n").length = 2 := by decide
  have e3 : (bytes "Content-Type:text/html\r\n").length = 24 := by decide
  have e4 : (bytes "Connection: ").length = 12 := by decide
  have e5 : (bytes "keep-alive").length = 10 := by decide
  have e6 : (bytes "close").length = 5 := by decide
  unfold headerBlock
  cases ka <;> simp [e1, e2, e3, e4, e5, e6] <;> omega

/-- `addHeaders` when the header block fits: all four helpers succeed and the
block is appended. -/
theorem addHeaders_composed (c : HTTPConn) (pre : List Nat) (n : Int) (h : Composed c pre)
    (hfit : pre.length + (fmtD n).length + 68 < 1023) :
    ∃ c', addHeaders c n = (true, c') ∧ Composed c' (pre ++ headerBlock (fmtD n) c.linger) ∧
      WriteFrame c c' := by
  have e1 : (bytes "Content-Length: ").length = 16 := by decide
  have e2 : (bytes "\r\n").length = 2 := by decide
  have e3 : (bytes "Content-Type:" ++ bytes "text/html" ++ bytes "\r\n").length = 24 := by decide
  have e4 : (bytes "Connection: ").length = 12 := by decide
  have e5 : (bytes "keep-alive").length = 10 := by decide
  have e6 : (bytes "close").length = 5 := by decide
  have e7 : bytes "Content-Type:" ++ bytes "text/html" ++ bytes "\r\n"
      = bytes "Content-Type:text/html\r\n" := by decide
  obtain ⟨a1, b1⟩ := addResponse_composed c pre
    (bytes "Content-Length: " ++ fmtD n ++ bytes "\r\n") h
    (by simp only [List.length_append, e1, e2]; omega)
  obtain ⟨a2, b2⟩ := addResponse_composed _ _
    (bytes "Content-Type:" ++ bytes "text/html" ++ bytes "\r\n") b1
    (by rw [e3]; simp only [List.length_append, e1, e2]; omega)
  have hl : (if c.linger = true then bytes "keep-alive" else bytes "close").length ≤ 10 := by
    split_ifs
    · rw [e5]
    · rw [e6]; omega
  obtain ⟨a3, b3⟩ := addResponse_composed _ _
    (bytes "Connection: " ++ (if c.linger = true then bytes "keep-alive" else bytes "close")
      ++ bytes "\r\n") b2
    (by rw [e7] at e3; simp only [List.length_append, e1, e2, e3, e4, e7]; omega)
  obtain ⟨a4, b4⟩ := addResponse_composed _ _ (bytes "\r\n") b3
    (by rw [e7] at e3; simp only [List.length_append, e1, e2, e3, e4, e7]; omega)
  refine ⟨emit (emit (emit (emit c (bytes "Content-Length: " ++ fmtD n ++ bytes "\r\n"))
    (bytes "Content-Type:" ++ bytes "text/html" ++ bytes "\r\n"))
    (bytes "Connection: " ++ (if c.linger = true then bytes "keep-alive" else bytes "close")
      ++ bytes "\r\n")) (bytes "\r\n"), ?_, ?_, ?_⟩
  · unfold addHeaders addContentLength addContentType addLinger addBlankLine
    simp only [a1, Bool.true_eq_false, if_false, a2]
    have : (emit (emit c (bytes "Content-Length: " ++ fmtD n ++ bytes "\r\n"))
        (bytes "Content-Type:" ++ bytes "text/html" ++ bytes "\r\n")).linger = c.linger := rfl
    rw [this, a3]
    simp only [Bool.true_eq_false, if_false]
    exact a4
  · have : pre ++ headerBlock (fmtD n) c.linger =
        pre ++ (bytes "Content-Length: " ++ fmtD n ++ bytes "\r\n") ++
          (bytes "Content-Type:" ++ bytes "text/html" ++ bytes "\r\n") ++
          (bytes "Connection: " ++ (if c.linger = true then bytes "keep-alive" else bytes "close")
            ++ bytes "\r\n") ++ bytes "\r\n" := by
      rw [e7]; unfold headerBlock; simp only [List.append_assoc]
    rw [this]
    exact b4
  · exact ((emit_frame _ _).compose (emit_frame _ _)).compose
      ((emit_frame _ _).compose (emit_frame _ _))

/-- The error branches of `processWrite` on an empty write buffer when status
line, headers and body fit. -/
theorem errorResponse_composed (c : HTTPConn) (status : Int) (title form : List Nat)
    (h0 : c.writeIndex = 0) (hs : 0 ≤ status) (hs' : status < 1000)
    (hfit : title.length + form.length + 100 < 1023) :
    ∃ c', errorResponse c status title form = (true, c') ∧
      Composed c' (bytes "HTTP/1.1" ++ [32] ++ fmtD status ++ [32] ++ title ++ bytes "\r\n" ++
        headerBlock (decimal form.length) c.linger ++ form) ∧
      c'.ivCount = 1 ∧ c'.iv0 = ⟨IovBase.writeBuffer, c'.writeIndex⟩ ∧ WriteFrame c c' := by
  have e1 : (bytes "HTTP/1.1").length = 8 := by decide
  have e2 : (bytes "\r\n").length = 2 := by decide
  have hst := fmtD_length status hs (by omega)
  have hn : toInt32 (form.length : Int) = form.length := toInt32_id _ (by omega) (by omega)
  have hfl := fmtD_length (form.length : Int) (by omega) (by omega)
  obtain ⟨a1, b1⟩ := addResponse_composed c []
    (bytes "HTTP/1.1" ++ [32] ++ fmtD status ++ [32] ++ title ++ bytes "\r\n") (composed_nil c h0)
    (by simp only [List.length_append, List.length_nil, List.length_singleton, e1, e2]; omega)
  obtain ⟨c2, a2, b2, f2⟩ := addHeaders_composed _ _ (form.length : Int) b1
    (by simp only [List.length_append, List.length_nil, List.length_singleton, e1, e2]; omega)
  have hb := headerBlock_length (fmtD (form.length : Int))
    (emit c (bytes "HTTP/1.1" ++ [32] ++ fmtD status ++ [32] ++ title ++ bytes "\r\n")).linger
  obtain ⟨a3, b3⟩ := addResponse_composed c2 _ form b2
    (by simp only [List.length_append, List.length_nil, List.length_singleton, e1, e2]; omega)
  refine ⟨{ emit c2 form with
    iv0 := ⟨IovBase.writeBuffer, (emit c2 form).writeIndex⟩, ivCount := 1 }, ?_, ?_, rfl, rfl, ?_⟩
  · unfold errorResponse addStatusLine addContent
    simp only [a1, hn, a2, a3, Bool.true_eq_false, if_false]
  · rw [fmtD_decimal] at b3
    exact b3
  · exact ((emit_frame _ _).compose f2).compose ⟨rfl, rfl, rfl⟩

/-- C8. `processWrite(FILE_REQUEST)` on an empty write buffer, for a file of
length `L < 2^31` and either value of `linger`: it returns true, the write
buffer holds exactly the status line `HTTP/1.1 200 OK`, `Content-Length: L`
in decimal, `Content-Type:text/html`, `Connection: keep-alive` or `close`
(keep-alive iff `linger`) and the empty line; `ivCount` is 2, `iv[0]` is the
`writeIndex` bytes of the write buffer and `iv[1]` is the file mapping with
length `L`. -/
theorem C8_file_response (c : HTTPConn) (L : Nat) (hL : L < 2147483648)
    (h0 : c.writeIndex = 0) (hs : c.fileStat.st_size = (L : Int)) :
    ∃ c', processWrite c FILE_REQUEST = (true, c') ∧
      Composed c' (bytes "HTTP/1.1 200 OK\r\n" ++ headerBlock (decimal L) c.linger) ∧
      c'.ivCount = 2 ∧ c'.iv0 = ⟨IovBase.writeBuffer, c'.writeIndex⟩ ∧
      c'.iv1 = ⟨IovBase.fileAddress c.fileAddress, (L : Int)⟩ := by
  have e1 : bytes "HTTP/1.1" ++ [32] ++ fmtD 200 ++ [32] ++ ok_200_title ++ bytes "\r\n"
      = bytes "HTTP/1.1 200 OK\r\n" := by decide
  have e2 : (bytes "HTTP/1.1 200 OK\r\n").length = 17 := by decide
  have hn : toInt32 (L : Int) = L := toInt32_id _ (by omega) (by omega)
  have hfl := fmtD_length (L : Int) (by omega) (by omega)
  obtain ⟨a1, b1⟩ := addResponse_composed c [] (bytes "HTTP/1.1 200 OK\r\n")
    (composed_nil c h0) (by rw [e2]; simp)
  obtain ⟨c2, a2, b2, f2⟩ := addHeaders_composed _ _ (L : Int) b1
    (by simp only [List.nil_append, e2]; omega)
  have hst : (emit c (bytes "HTTP/1.1 200 OK\r\n")).fileStat.st_size = (L : Int) := hs
  refine ⟨{ c2 with
    iv0 := ⟨IovBase.writeBuffer, c2.writeIndex⟩
    iv1 := ⟨IovBase.fileAddress c2.fileAddress, c2.fileStat.st_size⟩
    ivCount := 2 }, ?_, ?_, rfl, rfl, ?_⟩
  · unfold processWrite addStatusLine
    simp only [e1, a1, hst, hn, a2]
  · rw [fmtD_decimal] at b2
    exact b2
  · have h1 : c2.fileAddress = c.fileAddress := f2.fileAddress
    have h2 : c2.fileStat = c.fileStat := f2.fileStat
    simp only [h1, h2, hs]

theorem C8_file_response_witness :
    ((11 : Nat) < 2147483648 ∧
      ({ blank with fileStat := ⟨33188, 11⟩, fileAddress := some (bytes "hello world") }
        : HTTPConn).writeIndex = 0 ∧
      ({ blank with fileStat := ⟨33188, 11⟩, fileAddress := some (bytes "hello world") }
        : HTTPConn).fileStat.st_size = ((11 : Nat) : Int)) ∧
    (∃ c', processWrite
        { blank with fileStat := ⟨33188, 11⟩, fileAddress := some (bytes "hello world") }
        FILE_REQUEST = (true, c') ∧
      Composed c' (bytes "HTTP/1.1 200 OK\r\n" ++ headerBlock (decimal 11) false) ∧
      c'.ivCount = 2 ∧ c'.iv0 = ⟨IovBase.writeBuffer, c'.writeIndex⟩ ∧
      c'.iv1 = ⟨IovBase.fileAddress (some (bytes "hello world")), ((11 : Nat) : Int)⟩) ∧
    bytes "HTTP/1.1 200 OK\r\n" ++ headerBlock (decimal 11) false =
      bytes ("HTTP/1.1 200 OK\r\nContent-Length: 11\r\nContent-Type:text/html\r\n" ++
        "Connection: close\r\n\r\n") :=
  ⟨⟨by decide, rfl, rfl⟩,
    C8_file_response
      { blank with fileStat := ⟨33188, 11⟩, fileAddress := some (bytes "hello world") } 11
      (by decide) rfl rfl,
    by decide⟩

/-- C9. `processWrite` for `BAD_REQUEST`, `FORBIDDEN_REQUEST`, `NO_RESOURCE`
and `INTERNAL_ERROR` on an empty write buffer: it returns true, the write
buffer holds exactly the status line of the code (400 Bad Request, 403
Forbidden, 404 Not Found, 500 Internal Error), `Content-Length` with the
length of the code's fixed body text, `Content-Type`, `Connection`, the empty
line and the body text; `ivCount` is 1 and `iv[0]` covers exactly `writeIndex`
bytes of the write buffer.  The body of 404 is
`The requested file was not found on this server.\n`. -/
theorem C9_error_response (c : HTTPConn) (code : HTTP_CODE)
    (hcode : code = BAD_REQUEST ∨ code = FORBIDDEN_REQUEST ∨ code = NO_RESOURCE ∨
      code = INTERNAL_ERROR)
    (h0 : c.writeIndex = 0) :
    (∃ c', processWrite c code = (true, c') ∧
      Composed c' (errorStatusLine code ++
        headerBlock (decimal (errorForm code).length) c.linger ++ errorForm code) ∧
      c'.ivCount = 1 ∧ c'.iv0 = ⟨IovBase.writeBuffer, c'.writeIndex⟩) ∧
    errorForm NO_RESOURCE = bytes "The requested file was not found on this server.\n" := by
  refine ⟨?_, rfl⟩
  rcases hcode with h | h | h | h <;> subst h
  · obtain ⟨c', a, b, d, e, _⟩ := errorResponse_composed c 400 error_400_title error_400_form
      h0 (by norm_num) (by norm_num) (by decide)
    have e1 : bytes "HTTP/1.1" ++ [32] ++ fmtD 400 ++ [32] ++ error_400_title ++ bytes "\r\n"
        = errorStatusLine BAD_REQUEST := by decide
    rw [e1] at b
    exact ⟨c', a, b, d, e⟩
  · obtain ⟨c', a, b, d, e, _⟩ := errorResponse_composed c 403 error_403_title error_403_form
      h0 (by norm_num) (by norm_num) (by decide)
    have e1 : bytes "HTTP/1.1" ++ [32] ++ fmtD 403 ++ [32] ++ error_403_title ++ bytes "\r\n"
        = errorStatusLine FORBIDDEN_REQUEST := by decide
    rw [e1] at b
    exact ⟨c', a, b, d, e⟩
  · obtain ⟨c', a, b, d, e, _⟩ := errorResponse_composed c 404 error_404_title error_404_form
      h0 (by norm_num) (by norm_num) (by decide)
    have e1 : bytes "HTTP/1.1" ++ [32] ++ fmtD 404 ++ [32] ++ error_404_title ++ bytes "\r\n"
        = errorStatusLine NO_RESOURCE := by decide
    rw [e1] at b
    exact ⟨c', a, b, d, e⟩
  · obtain ⟨c', a, b, d, e, _⟩ := errorResponse_composed c 500 error_500_title error_500_form
      h0 (by norm_num) (by norm_num) (by decide)
    have e1 : bytes "HTTP/1.1" ++ [32] ++ fmtD 500 ++ [32] ++ error_500_title ++ bytes "\r\n"
        = errorStatusLine INTERNAL_ERROR := by decide
    rw [e1] at b
    exact ⟨c', a, b, d, e⟩

theorem C9_error_response_witness :
    ((NO_RESOURCE = BAD_REQUEST ∨ NO_RESOURCE = FORBIDDEN_REQUEST ∨ NO_RESOURCE = NO_RESOURCE ∨
        NO_RESOURCE = INTERNAL_ERROR) ∧ blank.writeIndex = 0) ∧
    ((∃ c', processWrite blank NO_RESOURCE = (true, c') ∧
      Composed c' (errorStatusLine NO_RESOURCE ++
        headerBlock (decimal (errorForm NO_RESOURCE).length) blank.linger ++
        errorForm NO_RESOURCE) ∧
      c'.ivCount = 1 ∧ c'.iv0 = ⟨IovBase.writeBuffer, c'.writeIndex⟩) ∧
    errorForm NO_RESOURCE = bytes "The requested file was not found on this server.\n") :=
  ⟨⟨Or.inr (Or.inr (Or.inl rfl)), rfl⟩,
    C9_error_response blank NO_RESOURCE (Or.inr (Or.inr (Or.inl rfl))) rfl⟩

/-- `write` declares the response sent as soon as the bytes sent reach half of
`writeIndex`, whatever the scatter vector holds. -/
theorem write_done_at_half (c : HTTPConn) (n : Nat) (rs : List WritevResult)
    (h0 : c.writeIndex ≠ 0) (h : c.writeIndex ≤ 2 * (n : Int)) :
    ∃ c', write c (WritevResult.sent n :: rs) = some (c.linger, c') ∧ c'.fileAddress = none := by
  unfold write
  dsimp only
  rw [if_neg h0, writeLoop]
  dsimp only
  rw [if_pos (by omega)]
  have hu : (unmap c).fileAddress = none := by
    unfold unmap
    cases hf : c.fileAddress <;> simp [hf]
  have hl : (unmap c).linger = c.linger := by
    unfold unmap
    cases hf : c.fileAddress <;> rfl
  cases hc : c.linger
  · rw [hl, hc]
    exact ⟨_, rfl, hu⟩
  · rw [hl, hc]
    exact ⟨_, rfl, rfl⟩

/-- C10 (what the code does at the failing input). The connection holds the
200 response for an 11-byte file: 82 header bytes and 11 file bytes are
queued in the scatter vector.  The first `writev` sends 41 bytes.  `write`
treats the response as sent: it unmaps the file and returns false (close),
although 41 is less than the 93 bytes queued and less than the 82 header
bytes. -/
theorem C10_write_done_too_early :
    holdingIndexHtml.iv0.iov_len + holdingIndexHtml.iv1.iov_len = 93 ∧
    holdingIndexHtml.writeIndex = 82 ∧
    ∃ c', write holdingIndexHtml [WritevResult.sent 41] = some (false, c') ∧
      c'.fileAddress = none ∧ c'.armed = [EPOLLIN ||| EPOLLET ||| EPOLLONESHOT ||| EPOLLRDHUP] :=
  ⟨by decide, rfl, _, rfl, rfl, rfl⟩

theorem bytes_Connection : bytes "Connection:" = [67, 111, 110, 110, 101, 99, 116, 105, 111, 110, 58] := by
  decide
theorem bytes_ContentLength : bytes "Content-Length:" =
    [67, 111, 110, 116, 101, 110, 116, 45, 76, 101, 110, 103, 116, 104, 58] := by decide
theorem Connection_nonzero : ∀ x ∈ bytes "Connection:", x ≠ 0 := by decide
theorem ContentLength_nonzero : ∀ x ∈ bytes "Content-Length:", x ≠ 0 := by decide
theorem Host_nonzero : ∀ x ∈ bytes "Host:", x ≠ 0 := by decide
theorem keepalive_nonzero : ∀ x ∈ bytes "keep-alive", x ≠ 0 := by decide

theorem eqIgnoreCase_length {a b : List Nat} (h : eqIgnoreCase a b) : a.length = b.length := by
  have := congrArg List.length h
  simpa using this

/-- The C string behind the first `n` bytes of a string that has them. -/
theorem CStrAt.drop {m : Int → Nat} {p : Int} {l : List Nat} (h : CStrAt m p l) (n : Nat)
    (hn : n ≤ l.length) : CStrAt m (p + n) (l.drop n) := by
  have := CStrAt.suffix (l.take n) (l.drop n) (by rw [List.take_append_drop]; exact h)
  rw [List.length_take_of_le hn] at this
  exact this

/-- The C string behind the leading spaces and tabs. -/
theorem CStrAt.skip {m : Int → Nat} {p : Int} {l : List Nat} (h : CStrAt m p l) :
    CStrAt m (p + (strspn l : Int)) (l.dropWhile isSpTab) := by
  unfold strspn
  exact CStrAt.suffix (l.takeWhile isSpTab) (l.dropWhile isSpTab)
    (by rw [List.takeWhile_append_dropWhile]; exact h)

theorem not_Connection_of_ContentLength (l : List Nat) (h : ContentLengthHeader l) :
    ¬ eqIgnoreCase (l.take 11) (bytes "Connection:") := by
  unfold ContentLengthHeader eqIgnoreCase at *
  rw [bytes_ContentLength] at h
  rw [bytes_Connection]
  rcases l with _ | ⟨x0, _ | ⟨x1, _ | ⟨x2, _ | ⟨x3, t⟩⟩⟩⟩
  · simp at h
  · simp at h
  · simp at h
  · simp at h
  · intro h2
    simp only [List.take_succ_cons, List.map_cons, List.cons.injEq] at h h2
    have a := h.2.2.2.1
    have b := h2.2.2.2.1
    rw [a] at b
    revert b
    decide

/-- `parseHeaders` on a line that is not empty, against the description of
the header lines. -/
theorem parseHeaders_spec (c : HTTPConn) (text : Int) (l : List Nat)
    (h : CStrAt c.readBuffer text l) (hne : l ≠ []) :
    (parseHeaders c text).1 = NO_REQUEST ∧
      (parseHeaders c text).2.linger = (c.linger || decide (keepAliveTest l)) ∧
      (parseHeaders c text).2.contentLength = contentLengthAfter c.contentLength l ∧
      (parseHeaders c text).2.readBuffer = c.readBuffer ∧
      (parseHeaders c text).2.checkState = c.checkState ∧
      (parseHeaders c text).2.stores = c.stores := by
  have hhead : c.readBuffer text ≠ 0 := by
    cases l with
    | nil => exact absurd rfl hne
    | cons x xs => rw [h.head]; exact h.nonzero x (List.mem_cons_self _ _)
  have hconn := strncasecmp_cstr h (bytes "Connection:") 11 Connection_nonzero (by decide)
  have hclen := strncasecmp_cstr h (bytes "Content-Length:") 15 ContentLength_nonzero (by decide)
  unfold parseHeaders
  dsimp only
  rw [if_neg hhead]
  by_cases g1 : eqIgnoreCase (l.take 11) (bytes "Connection:")
  · have hlen : 11 ≤ l.length := by
      have := eqIgnoreCase_length g1
      rw [bytes_Connection] at this
      simp only [List.length_take, List.length_cons, List.length_nil] at this
      omega
    have hd := (h.drop 11 hlen)
    have hsk := hd.skip
    have hka := strcasecmp_cstr hsk (bytes "keep-alive") keepalive_nonzero
    have hncl : ¬ ContentLengthHeader l := fun e => not_Connection_of_ContentLength l e g1
    rw [if_pos (hconn.mpr g1)]
    have e11 : ((11 : Nat) : Int) = 11 := rfl
    rw [e11] at hd hsk hka
    rw [cstr_eq hd]
    unfold contentLengthAfter
    rw [if_neg hncl]
    by_cases g2 : eqIgnoreCase ((l.drop 11).dropWhile isSpTab) (bytes "keep-alive")
    · rw [if_pos (hka.mpr g2)]
      have : keepAliveTest l := ⟨g1, g2⟩
      simp [this]
    · rw [if_neg (fun e => g2 (hka.mp e))]
      have : ¬ keepAliveTest l := fun e => g2 e.2
      simp [this]
  · have hnk : ¬ keepAliveTest l := fun e => g1 e.1
    rw [if_neg (fun e => g1 (hconn.mp e))]
    unfold contentLengthAfter
    by_cases g2 : ContentLengthHeader l
    · have hlen : 15 ≤ l.length := by
        have := eqIgnoreCase_length g2
        rw [bytes_ContentLength] at this
        simp only [List.length_take, List.length_cons, List.length_nil] at this
        omega
      have hd := (h.drop 15 hlen)
      have hsk := hd.skip
      have e15 : ((15 : Nat) : Int) = 15 := rfl
      rw [e15] at hd hsk
      rw [if_pos (hclen.mpr g2), if_pos g2, cstr_eq hd, cstr_eq hsk]
      simp [hnk, contentLengthValue]
    · rw [if_neg (fun e => g2 (hclen.mp e)), if_neg g2]
      split_ifs <;> simp [hnk]

/-- `parseHeaders` on an empty line. -/
theorem parseHeaders_blank (c : HTTPConn) (text : Int) (h : c.readBuffer text = 0) :
    parseHeaders c text =
      if c.contentLength ≠ 0 then (NO_REQUEST, { c with checkState := CHECK_STATE_CONTENT })
      else (GET_REQUEST, c) := by
  unfold parseHeaders
  dsimp only
  rw [if_pos h]

/-! ## Iterations of the main loop -/

theorem Steps.refl (fs : FileSys) (c : HTTPConn) (ls : LINE_STATUS) : Steps fs 0 c ls c ls :=
  fun _ => rfl

theorem Steps.one {fs : FileSys} {c c' : HTTPConn} {ls ls' : LINE_STATUS}
    (h : processReadIter fs c ls = Iter.next c' ls') : Steps fs 1 c ls c' ls' := by
  intro n
  rw [processReadLoop, h]

theorem Steps.andThen {fs : FileSys} {j k : Nat} {a b c : HTTPConn} {la lb lc : LINE_STATUS}
    (h1 : Steps fs j a la b lb) (h2 : Steps fs k b lb c lc) : Steps fs (k + j) a la c lc := by
  intro n
  rw [← Nat.add_assoc, h1 (n + k), h2 n]

theorem processReadLoop_det (fs : FileSys) (n1 n2 : Nat) (c : HTTPConn) (ls : LINE_STATUS)
    (r1 r2 : HTTP_CODE × HTTPConn) (h1 : processReadLoop fs n1 c ls = some r1)
    (h2 : processReadLoop fs n2 c ls = some r2) : r1 = r2 := by
  have a := processReadLoop_mono fs n1 c ls r1 h1 n2
  have b := processReadLoop_mono fs n2 c ls r2 h2 n1
  rw [Nat.add_comm] at b
  rw [a] at b
  exact Option.some.inj b

/-- A result of the loop with any number of iterations allowed is the result
of `processRead`. -/
theorem processRead_of_loop (fs : FileSys) (n : Nat) (c : HTTPConn) (r : HTTP_CODE × HTTPConn)
    (h : processReadLoop fs n c LINE_OK = some r) : processRead fs c = some r := by
  obtain ⟨r', hr'⟩ := processRead_returns fs c
  rw [hr']
  exact congrArg some (processReadLoop_det fs _ n c LINE_OK r' r hr' h)

theorem parseRequestLine_keeps (c : HTTPConn) (text : Int) :
    (parseRequestLine c text).2.linger = c.linger ∧
      (parseRequestLine c text).2.contentLength = c.contentLength := by
  unfold parseRequestLine
  dsimp only [store]
  repeat' split
  all_goals exact ⟨rfl, rfl⟩

theorem cline_length (line : List Nat) : (cline line).length ≤ line.length := by
  unfold cline
  induction line with
  | nil => simp
  | cons x xs ih =>
    rw [List.takeWhile_cons]
    split_ifs
    · simp only [List.length_cons]; omega
    · simp

/-- The state in which the handler of a complete line runs. -/
theorem processReadIter_line (fs : FileSys) (c : HTTPConn) (ls : LINE_STATUS) (line : List Nat)
    (hnc : c.checkState ≠ CHECK_STATE_CONTENT) (hs : c.startLine ≤ c.checkedIndex)
    (hr : LineReady c line) :
    processReadIter fs c ls =
      match c.checkState with
      | CHECK_STATE_REQUESTLINE =>
        if (parseRequestLine (lineStart c (c.startLine + line.length)) c.startLine).1
            = BAD_REQUEST then
          Iter.ret BAD_REQUEST
            (parseRequestLine (lineStart c (c.startLine + line.length)) c.startLine).2
        else
          Iter.next (parseRequestLine (lineStart c (c.startLine + line.length)) c.startLine).2
            LINE_OK
      | CHECK_STATE_HEADER =>
        if (parseHeaders (lineStart c (c.startLine + line.length)) c.startLine).1
            = BAD_REQUEST then
          Iter.ret BAD_REQUEST
            (parseHeaders (lineStart c (c.startLine + line.length)) c.startLine).2
        else if (parseHeaders (lineStart c (c.startLine + line.length)) c.startLine).1
            = GET_REQUEST then
          Iter.ret
            (doRequest fs
              (parseHeaders (lineStart c (c.startLine + line.length)) c.startLine).2).1
            (doRequest fs
              (parseHeaders (lineStart c (c.startLine + line.length)) c.startLine).2).2
        else
          Iter.next (parseHeaders (lineStart c (c.startLine + line.length)) c.startLine).2
            LINE_OK
      | CHECK_STATE_CONTENT => Iter.exit c := by
  unfold processReadIter
  dsimp only
  have hn : ¬ (c.checkState = CHECK_STATE_CONTENT ∧ ls = LINE_OK) := fun e => hnc e.1
  rw [if_neg hn, parseLine_ready c line hs hr]
  simp only [decide_True, Bool.true_eq_false, if_false, lineStart, lineDone]
  cases hst : c.checkState with
  | CHECK_STATE_REQUESTLINE => rfl
  | CHECK_STATE_HEADER => rfl
  | CHECK_STATE_CONTENT => exact absurd hst hnc

theorem lineState_cstr (c : HTTPConn) (line : List Nat) (hinv : Inv c) (hr : LineReady c line) :
    CStrAt (lineStart c (c.startLine + line.length)).readBuffer c.startLine
      (cline line) := by
  have hb : c.startLine + line.length + 2 ≤ READ_BUFFER_SIZE := le_trans hr.2.2.2 hinv.2.2.2
  exact cstrAt_line c.readBuffer c.startLine line hr.1 hb

theorem lineState_consumed (c : HTTPConn) (line : List Nat) :
    Consumed c (lineStart c (c.startLine + line.length))
      (c.startLine + line.length + 2) := by
  refine ⟨rfl, ?_, ?_, ?_, rfl⟩
  · simp only [lineStart, lineDone]; omega
  · simp only [lineStart]; omega
  · intro j hj
    simp only [lineStart, lineDone]
    rw [setByte_other _ _ _ _ (by omega), setByte_other _ _ _ _ (by omega)]

theorem Consumed.after {c c1 c' : HTTPConn} {q : Int} (h : Consumed c c1 q) (f : IdxFrame c1 c')
    (hb : ∀ j, q ≤ j → c'.readBuffer j = c1.readBuffer j) : Consumed c c' q :=
  ⟨f.readIndex.trans h.readIndex, f.checkedIndex.trans h.checkedIndex,
    f.startLine.trans h.startLine, fun j hj => (hb j hj).trans (h.buffer j hj),
    f.writeIndex.trans h.writeIndex⟩

/-- A request line that is not in order: the iteration returns `BAD_REQUEST`. -/
theorem step_requestLine_bad (fs : FileSys) (c : HTTPConn) (ls : LINE_STATUS) (line : List Nat)
    (hst : c.checkState = CHECK_STATE_REQUESTLINE) (hinv : Inv c) (hr : LineReady c line)
    (hbad : ¬ requestLineOk (cline line)) :
    ∃ c', processReadIter fs c ls = Iter.ret BAD_REQUEST c' ∧ c'.writeIndex = c.writeIndex ∧
      c'.linger = c.linger := by
  have hc := lineState_cstr c line hinv hr
  have hb := (parseRequestLine_spec _ c.startLine (cline line) hc).1 hbad
  rw [processReadIter_line fs c ls line (by rw [hst]; decide) hinv.2.1 hr, hst]
  dsimp only
  rw [if_pos hb]
  exact ⟨_, rfl, (parseRequestLine_idx _ _).writeIndex, (parseRequestLine_keeps _ _).1⟩

/-- A request line in order: the iteration goes on in `CHECK_STATE_HEADER`
with the URL recorded. -/
theorem step_requestLine_ok (fs : FileSys) (c : HTTPConn) (ls : LINE_STATUS) (line : List Nat)
    (hst : c.checkState = CHECK_STATE_REQUESTLINE) (hinv : Inv c) (hr : LineReady c line)
    (hok : requestLineOk (cline line)) :
    ∃ c', processReadIter fs c ls = Iter.next c' LINE_OK ∧
      Consumed c c' (c.startLine + line.length + 2) ∧
      c'.checkState = CHECK_STATE_HEADER ∧ c'.linger = c.linger ∧
      c'.contentLength = c.contentLength ∧
      ∃ p, c'.url = some p ∧ CStrAt c'.readBuffer p (stripHost (urlToken (cline line))) := by
  have hc := lineState_cstr c line hinv hr
  obtain ⟨c', p, e1, e2, e3, e4, e5⟩ := (parseRequestLine_spec _ c.startLine (cline line) hc).2 hok
  have hidx := parseRequestLine_idx (lineStart c (c.startLine + line.length)) c.startLine
  have hk := parseRequestLine_keeps (lineStart c (c.startLine + line.length)) c.startLine
  rw [processReadIter_line fs c ls line (by rw [hst]; decide) hinv.2.1 hr, hst]
  dsimp only
  rw [e1] at hidx hk ⊢
  rw [if_neg (show ¬ ((NO_REQUEST, c').1 = BAD_REQUEST) by intro h; cases h)]
  have hl := cline_length line
  refine ⟨c', rfl, (lineState_consumed c line).after hidx (fun j hj => e5 j (Or.inr (by omega))),
    e2, hk.1, hk.2, p, e3, e4⟩

/-- A header line that is not empty: the iteration goes on in
`CHECK_STATE_HEADER`. -/
theorem step_header (fs : FileSys) (c : HTTPConn) (ls : LINE_STATUS) (line : List Nat)
    (hst : c.checkState = CHECK_STATE_HEADER) (hinv : Inv c) (hr : LineReady c line)
    (hne : cline line ≠ []) :
    ∃ c', processReadIter fs c ls = Iter.next c' LINE_OK ∧
      Consumed c c' (c.startLine + line.length + 2) ∧
      c'.checkState = CHECK_STATE_HEADER ∧
      c'.linger = (c.linger || decide (keepAliveTest (cline line))) ∧
      c'.contentLength = contentLengthAfter c.contentLength (cline line) ∧
      c'.url = c.url ∧ c'.stores = c.stores ++ [c.startLine + line.length] ++
        [c.startLine + line.length + 1] := by
  have hc := lineState_cstr c line hinv hr
  obtain ⟨e1, e2, e3, e4, e5, e6⟩ := parseHeaders_spec _ c.startLine (cline line) hc hne
  have hidx := parseHeaders_idx (lineStart c (c.startLine + line.length)) c.startLine
  have hurl : (parseHeaders (lineStart c (c.startLine + line.length)) c.startLine).2.url = c.url := by
    unfold parseHeaders
    dsimp only
    split_ifs <;> rfl
  rw [processReadIter_line fs c ls line (by rw [hst]; decide) hinv.2.1 hr, hst]
  dsimp only
  rw [e1, if_neg (by decide), if_neg (by decide)]
  refine ⟨_, rfl, (lineState_consumed c line).after hidx (fun j _ => by rw [e4]),
    by rw [e5]; exact hst, e2, e3, hurl, e6⟩

/-- The empty line after headers that announced a body: the iteration goes on
in `CHECK_STATE_CONTENT`. -/
theorem step_blank_content (fs : FileSys) (c : HTTPConn) (ls : LINE_STATUS) (line : List Nat)
    (hst : c.checkState = CHECK_STATE_HEADER) (hinv : Inv c) (hr : LineReady c line)
    (he : cline line = []) (hcl : c.contentLength ≠ 0) :
    ∃ c', processReadIter fs c ls = Iter.next c' LINE_OK ∧
      Consumed c c' (c.startLine + line.length + 2) ∧
      c'.checkState = CHECK_STATE_CONTENT ∧ c'.linger = c.linger ∧
      c'.contentLength = c.contentLength ∧ c'.url = c.url := by
  have hc := lineState_cstr c line hinv hr
  rw [he] at hc
  have h0 := hc.2.2.1
  simp only [List.length_nil, Nat.cast_zero, add_zero] at h0
  rw [processReadIter_line fs c ls line (by rw [hst]; decide) hinv.2.1 hr, hst]
  dsimp only
  rw [parseHeaders_blank _ _ h0]
  have hcl' : (lineStart c (c.startLine + line.length)).contentLength ≠ 0 := hcl
  rw [if_pos hcl']
  dsimp only
  rw [if_neg (by intro h; cases h), if_neg (by intro h; cases h)]
  exact ⟨_, rfl, (lineState_consumed c line).after ⟨rfl, rfl, rfl, rfl⟩ (fun _ _ => rfl),
    rfl, rfl, rfl, rfl⟩

theorem fresh_at (c0 : HTTPConn) (data : List Nat) :
    At (recvSegment (init c0) data).readBuffer 0 data :=
  at_setBytes data _ 0

theorem fresh_zero (c0 : HTTPConn) (data : List Nat) (j : Int) (h1 : (data.length : Int) ≤ j)
    (h2 : j < READ_BUFFER_SIZE) : (recvSegment (init c0) data).readBuffer j = 0 := by
  show setBytes (bzero c0.readBuffer READ_BUFFER_SIZE) 0 data j = 0
  rw [setBytes_after _ _ _ _ (by omega)]
  unfold bzero
  rw [if_pos ⟨by omega, h2⟩]

theorem fresh_inv (c0 : HTTPConn) (data : List Nat) (h : (data.length : Int) ≤ READ_BUFFER_SIZE) :
    Inv (recvSegment (init c0) data) := by
  refine ⟨le_refl _, le_refl _, ?_, ?_⟩
  · show (0 : Int) ≤ 0 + (data.length : Int); omega
  · show (0 : Int) + (data.length : Int) ≤ READ_BUFFER_SIZE; omega

theorem fresh_cstr (c0 : HTTPConn) (l : List Nat) (hnz : ∀ b ∈ l, b ≠ 0)
    (hlen : (l.length : Int) < READ_BUFFER_SIZE) :
    CStrAt (recvSegment (init c0) l).readBuffer 0 l :=
  ⟨fresh_at c0 l, hnz, fresh_zero c0 l _ (by omega) (by omega), by omega⟩

theorem fresh_lineReady (c0 : HTTPConn) (line rest : List Nat)
    (hfree : ∀ b ∈ line, b ≠ 13 ∧ b ≠ 10) :
    LineReady (recvSegment (init c0) (line ++ [13, 10] ++ rest)) line := by
  refine ⟨?_, hfree, ?_, ?_⟩
  · exact ((at_append _ _ _ _).mp (fresh_at c0 (line ++ [13, 10] ++ rest))).1
  · show (0 : Int) ≤ 0 + (line.length : Int); omega
  · show (0 : Int) + (line.length : Int) + 2 ≤ 0 + ((line ++ [13, 10] ++ rest).length : Int)
    simp only [List.length_append, List.length_cons, List.length_nil, Nat.cast_add]
    omega

theorem cline_id (line : List Nat) (h : ∀ b ∈ line, b ≠ 0) : cline line = line :=
  takeWhile_all _ line (fun x hx => by simp [h x hx])

/-- With nothing left to scan, the loop is left. -/
theorem processReadIter_at_end (fs : FileSys) (c : HTTPConn) (ls : LINE_STATUS)
    (hn : ¬ (c.checkState = CHECK_STATE_CONTENT ∧ ls = LINE_OK))
    (he : c.checkedIndex = c.readIndex) : processReadIter fs c ls = Iter.exit c := by
  have hp : parseLine c = (LINE_OPEN, c) := by
    unfold parseLine
    rw [he, sub_self]
    rfl
  unfold processReadIter
  dsimp only
  rw [if_neg hn, hp]
  rfl

/-! ## The URL of a request line -/

theorem stripHost_slash (U : List Nat) (h : U.head? = some 47) : stripHost U = U := by
  unfold stripHost
  apply if_neg
  unfold eqIgnoreCase
  rw [bytes_http]
  cases U with
  | nil => simp at h
  | cons x xs =>
    have hx : x = 47 := by simpa using h
    subst hx
    intro e
    simp only [List.take_succ_cons, List.map_cons, List.cons.injEq] at e
    exact absurd e.1 (by decide)

theorem dropWhile_head_of_mem (l : List Nat) (h : 47 ∈ l) :
    (l.dropWhile (fun b => !(b == 47))).head? = some 47 := by
  induction l with
  | nil => simp at h
  | cons x xs ih =>
    rw [List.dropWhile_cons]
    by_cases hx : x = 47
    · subst hx; simp
    · have : 47 ∈ xs := by
        rcases List.mem_cons.mp h with e | e
        · exact absurd e.symm hx
        · exact e
      have hc : (!(x == 47)) = true := by simp [hx]
      rw [if_pos hc]
      exact ih this

/-- `parseRequestLine` on the C string `M w U w' V` where `w`, `w'` are a
space or a tab, `M` and `U` contain neither, `M` is `GET` and `V` is
`HTTP/1.1` ignoring case, and `U` begins with `/` or begins with `http://`
(ignoring case) and has a `/` after these 7 bytes. -/
theorem parseRequestLine_form (c : HTTPConn) (text : Int) (M U V : List Nat) (w w' : Nat)
    (hline : CStrAt c.readBuffer text (M ++ w :: (U ++ w' :: V)))
    (hw : w = 32 ∨ w = 9) (hw' : w' = 32 ∨ w' = 9)
    (hM : ∀ x ∈ M, x ≠ 32 ∧ x ≠ 9) (hU : ∀ x ∈ U, x ≠ 32 ∧ x ≠ 9)
    (hget : eqIgnoreCase M (bytes "GET")) (hver : eqIgnoreCase V (bytes "HTTP/1.1"))
    (hurl : U.head? = some 47 ∨
      (eqIgnoreCase (U.take 7) (bytes "http://") ∧ 47 ∈ U.drop 7)) :
    ∃ c' p, parseRequestLine c text = (NO_REQUEST, c') ∧
      c'.checkState = CHECK_STATE_HEADER ∧ c'.url = some p ∧
      cstr c'.readBuffer READ_BUFFER_SIZE p =
        (if U.head? = some 47 then U else (U.drop 7).dropWhile (fun b => !(b == 47))) := by
  have hM' : ∀ x ∈ M, isSpTab x = false := fun x hx => by
    have := hM x hx; simp [isSpTab, this.1, this.2]
  have hU' : ∀ x ∈ U, isSpTab x = false := fun x hx => by
    have := hU x hx; simp [isSpTab, this.1, this.2]
  have hws : isSpTab w = true := by rcases hw with e | e <;> simp [isSpTab, e]
  have hws' : isSpTab w' = true := by rcases hw' with e | e <;> simp [isSpTab, e]
  have hstrip : stripHost U =
      (if U.head? = some 47 then U else (U.drop 7).dropWhile (fun b => !(b == 47))) := by
    by_cases h47 : U.head? = some 47
    · rw [if_pos h47]; exact stripHost_slash U h47
    · rw [if_neg h47]
      rcases hurl with e | e
      · exact absurd e h47
      · exact if_pos e.1
  have hhead : (stripHost U).head? = some 47 := by
    rcases hurl with e | e
    · rw [stripHost_slash U e]; exact e
    · have : stripHost U = (U.drop 7).dropWhile (fun b => !(b == 47)) := if_pos e.1
      rw [this]
      exact dropWhile_head_of_mem _ e.2
  obtain ⟨c', p, e1, e2, e3, e4, _, _⟩ :=
    (parseRequestLine_twoSep c text M U V w w' hline hM' hws hU' hws').2 hget hver hhead
  exact ⟨c', p, e1, e2, e3, by rw [cstr_eq e4, hstrip]⟩

theorem loop_next {fs : FileSys} {c c' : HTTPConn} {ls ls' : LINE_STATUS}
    (h : processReadIter fs c ls = Iter.next c' ls') (n : Nat) :
    processReadLoop fs (n + 1) c ls = processReadLoop fs n c' ls' := by
  rw [processReadLoop, h]

theorem loop_exit {fs : FileSys} {c c' : HTTPConn} {ls : LINE_STATUS}
    (h : processReadIter fs c ls = Iter.exit c') (n : Nat) :
    processReadLoop fs (n + 1) c ls = some (NO_REQUEST, c') := by
  rw [processReadLoop, h]

theorem loop_ret {fs : FileSys} {c c' : HTTPConn} {ls : LINE_STATUS} {code : HTTP_CODE}
    (h : processReadIter fs c ls = Iter.ret code c') (n : Nat) :
    processReadLoop fs (n + 1) c ls = some (code, c') := by
  rw [processReadLoop, h]

/-- `processRead` on a complete request line that is not in order (as the C
library sees it): `BAD_REQUEST`, write buffer untouched. -/
theorem processRead_requestLine_bad (fs : FileSys) (c : HTTPConn) (line : List Nat)
    (hst : c.checkState = CHECK_STATE_REQUESTLINE) (hinv : Inv c) (hr : LineReady c line)
    (hbad : ¬ requestLineOk (cline line)) :
    ∃ c', processRead fs c = some (BAD_REQUEST, c') ∧ c'.writeIndex = c.writeIndex ∧
      c'.linger = c.linger := by
  obtain ⟨c', e, hw, hl⟩ := step_requestLine_bad fs c LINE_OK line hst hinv hr hbad
  exact ⟨c', processRead_of_loop fs (0 + 1) c _ (loop_ret e 0), hw, hl⟩

/-- C4 (as amended). For every complete request line without a NUL byte
parsed in `CHECK_STATE_REQUESTLINE` with an empty write buffer: if the method
token is not `GET` ignoring case, or the version token is not `HTTP/1.1`
ignoring case, or the URL, an optional `http://host` stripped, does not begin
with `/`, then `processRead` returns `BAD_REQUEST` and `processWrite`
composes a response that starts with the status line
`HTTP/1.1 400 Bad Request`. -/
theorem C4_bad_request_line (fs : FileSys) (c : HTTPConn) (line : List Nat)
    (hst : c.checkState = CHECK_STATE_REQUESTLINE) (hinv : Inv c) (hw : c.writeIndex = 0)
    (hr : LineReady c line) (hnul : ∀ b ∈ line, b ≠ 0)
    (hbad : ¬ eqIgnoreCase (methodToken line) (bytes "GET") ∨
      ¬ eqIgnoreCase (versionToken line) (bytes "HTTP/1.1") ∨
      (stripHost (urlToken line)).head? ≠ some 47) :
    ∃ c', processRead fs c = some (BAD_REQUEST, c') ∧
      ∃ c'' rest, processWrite c' BAD_REQUEST = (true, c'') ∧
        Composed c'' (bytes "HTTP/1.1 400 Bad Request\r\n" ++ rest) := by
  have hnot : ¬ requestLineOk (cline line) := by
    rw [cline_id line hnul]
    intro hok
    rcases hbad with h | h | h
    · exact h hok.1
    · exact h hok.2.1
    · exact h hok.2.2
  obtain ⟨c', e, hw', _⟩ := processRead_requestLine_bad fs c line hst hinv hr hnot
  obtain ⟨c'', a, b, _, _, _⟩ := errorResponse_composed c' 400 error_400_title error_400_form
    (hw'.trans hw) (by norm_num) (by norm_num) (by decide)
  have e1 : bytes "HTTP/1.1" ++ [32] ++ fmtD 400 ++ [32] ++ error_400_title ++ bytes "\r\n"
      = bytes "HTTP/1.1 400 Bad Request\r\n" := by decide
  rw [e1, List.append_assoc] at b
  exact ⟨c', e, c'', _, a, b⟩

theorem C4_bad_request_line_witness :
    ((recvSegment (init blank) (bytes "POST / HTTP/1.1" ++ [13, 10] ++ [13, 10])).checkState
        = CHECK_STATE_REQUESTLINE ∧
      Inv (recvSegment (init blank) (bytes "POST / HTTP/1.1" ++ [13, 10] ++ [13, 10])) ∧
      (recvSegment (init blank) (bytes "POST / HTTP/1.1" ++ [13, 10] ++ [13, 10])).writeIndex = 0 ∧
      LineReady (recvSegment (init blank) (bytes "POST / HTTP/1.1" ++ [13, 10] ++ [13, 10]))
        (bytes "POST / HTTP/1.1") ∧
      ¬ eqIgnoreCase (methodToken (bytes "POST / HTTP/1.1")) (bytes "GET")) ∧
    ∃ c', processRead noFiles
        (recvSegment (init blank) (bytes "POST / HTTP/1.1" ++ [13, 10] ++ [13, 10]))
        = some (BAD_REQUEST, c') ∧
      ∃ c'' rest, processWrite c' BAD_REQUEST = (true, c'') ∧
        Composed c'' (bytes "HTTP/1.1 400 Bad Request\r\n" ++ rest) :=
  have hi : Inv (recvSegment (init blank) (bytes "POST / HTTP/1.1" ++ [13, 10] ++ [13, 10])) :=
    fresh_inv blank _ (by decide)
  have hr : LineReady (recvSegment (init blank) (bytes "POST / HTTP/1.1" ++ [13, 10] ++ [13, 10]))
      (bytes "POST / HTTP/1.1") := fresh_lineReady blank _ [13, 10] (by decide)
  ⟨⟨rfl, hi, rfl, hr, by decide⟩,
    C4_bad_request_line noFiles _ (bytes "POST / HTTP/1.1") rfl hi rfl hr (by decide)
      (Or.inl (by decide))⟩

/-- C4 (counterexample to the claim as stated). The complete request line
`GET / HTTP/1.1\0X` is received in the reset state.  Its version token
`HTTP/1.1\0X` is not `HTTP/1.1`, yet `processRead` accepts the line: it
returns `NO_REQUEST` with `checkState` moved on to `CHECK_STATE_HEADER`, not
`BAD_REQUEST`. -/
theorem C4_nul_line_accepted :
    (recvSegment (init blank) (nulRequestLine ++ [13, 10] ++ [])).checkState
        = CHECK_STATE_REQUESTLINE ∧
      Inv (recvSegment (init blank) (nulRequestLine ++ [13, 10] ++ [])) ∧
      (recvSegment (init blank) (nulRequestLine ++ [13, 10] ++ [])).writeIndex = 0 ∧
      LineReady (recvSegment (init blank) (nulRequestLine ++ [13, 10] ++ [])) nulRequestLine ∧
      versionToken nulRequestLine = bytes "HTTP/1.1" ++ [0, 88] ∧
      ¬ eqIgnoreCase (versionToken nulRequestLine) (bytes "HTTP/1.1") ∧
      ∃ c', processRead noFiles (recvSegment (init blank) (nulRequestLine ++ [13, 10] ++ []))
          = some (NO_REQUEST, c') ∧ c'.checkState = CHECK_STATE_HEADER := by
  have hi : Inv (recvSegment (init blank) (nulRequestLine ++ [13, 10] ++ [])) :=
    fresh_inv blank _ (by decide)
  have hr : LineReady (recvSegment (init blank) (nulRequestLine ++ [13, 10] ++ []))
      nulRequestLine := fresh_lineReady blank _ [] (by decide)
  refine ⟨rfl, hi, rfl, hr, by decide, by decide, ?_⟩
  obtain ⟨c', e, hc, hs, _⟩ := step_requestLine_ok noFiles _ LINE_OK nulRequestLine rfl hi hr
    (by decide)
  have hend : c'.checkedIndex = c'.readIndex := by
    rw [hc.checkedIndex, hc.readIndex]
    rfl
  refine ⟨c', processRead_of_loop noFiles (0 + 1 + 1) _ _ ?_, hs⟩
  rw [loop_next e (0 + 1)]
  exact loop_exit
    (processReadIter_at_end noFiles c' LINE_OK (by rw [hs]; intro h; cases h.1) hend) 0

theorem Consumed.toInv {c c' : HTTPConn} {q : Int} (h : Consumed c c' q) (hc : Inv c)
    (h0 : 0 ≤ q) (hq : q ≤ c.readIndex) : Inv c' := by
  refine ⟨?_, ?_, ?_, ?_⟩
  · rw [h.startLine]; exact h0
  · rw [h.startLine, h.checkedIndex]
  · rw [h.checkedIndex, h.readIndex]; exact hq
  · rw [h.readIndex]; exact hc.2.2.2

theorem Consumed.further {a b c : HTTPConn} {p q : Int} (h1 : Consumed a b p) (h2 : Consumed b c q)
    (hpq : p ≤ q) : Consumed a c q :=
  ⟨h2.readIndex.trans h1.readIndex, h2.checkedIndex, h2.startLine,
    fun j hj => (h2.buffer j hj).trans (h1.buffer j (le_trans hpq hj)),
    h2.writeIndex.trans h1.writeIndex⟩

/-- The header lines `hs` stand ready at `startLine` in `CHECK_STATE_HEADER`:
the loop handles them one per iteration and goes on behind them. -/
theorem headers_run (fs : FileSys) : ∀ (hs : List (List Nat)) (c : HTTPConn),
    c.checkState = CHECK_STATE_HEADER → Inv c → c.startLine = c.checkedIndex →
    At c.readBuffer c.startLine (wire hs) → c.startLine + (wire hs).length ≤ c.readIndex →
    (∀ h ∈ hs, (∀ b ∈ h, b ≠ 13 ∧ b ≠ 10) ∧ cline h ≠ []) →
    ∃ c', Steps fs hs.length c LINE_OK c' LINE_OK ∧
      Consumed c c' (c.startLine + (wire hs).length) ∧
      c'.checkState = CHECK_STATE_HEADER ∧
      c'.linger = (c.linger || anyKeepAlive hs) ∧
      c'.contentLength = contentLengthOf c.contentLength hs ∧ c'.url = c.url := by
  intro hs
  induction hs with
  | nil =>
    intro c hst hinv hsc _ _ _
    refine ⟨c, Steps.refl fs c LINE_OK, ?_, hst, by simp [anyKeepAlive], rfl, rfl⟩
    simp only [wire, List.length_nil, Nat.cast_zero, add_zero]
    exact ⟨rfl, hsc.symm, rfl, fun _ _ => rfl, rfl⟩
  | cons h t ih =>
    intro c hst hinv hsc hat hlen hh
    have hw : wire (h :: t) = (h ++ [13, 10]) ++ wire t := rfl
    have hwl : ((wire (h :: t)).length : Int) = h.length + 2 + (wire t).length := by
      rw [hw]
      simp only [List.length_append, List.length_cons, List.length_nil, Nat.cast_add]
      omega
    rw [hw] at hat
    obtain ⟨hat1, hat2⟩ := (at_append _ _ _ _).mp hat
    have hh1 := hh h (List.mem_cons_self _ _)
    have hr : LineReady c h := ⟨hat1, hh1.1, by omega, by omega⟩
    obtain ⟨c1, e1, k1, s1, l1, n1, u1, _⟩ := step_header fs c LINE_OK h hst hinv hr hh1.2
    have hq : ((h ++ [13, 10]).length : Int) = h.length + 2 := by
      simp only [List.length_append, List.length_cons, List.length_nil, Nat.cast_add]
      omega
    rw [hq, show c.startLine + ((h.length : Int) + 2) = c.startLine + h.length + 2 by omega]
      at hat2
    have hinv1 : Inv c1 := k1.toInv hinv (by have := hinv.1; omega) (by omega)
    have hat3 : At c1.readBuffer c1.startLine (wire t) := by
      rw [k1.startLine]
      exact at_congr _ _ _ _ (fun j hj _ => k1.buffer j hj) hat2
    obtain ⟨c2, e2, k2, s2, l2, n2, u2⟩ := ih c1 s1 hinv1
      (by rw [k1.startLine, k1.checkedIndex]) hat3
      (by rw [k1.startLine, k1.readIndex]; omega)
      (fun x hx => hh x (List.mem_cons_of_mem _ hx))
    rw [k1.startLine] at k2
    refine ⟨c2, (Steps.one e1).andThen e2, ?_, s2, ?_, ?_, u2.trans u1⟩
    · rw [hwl, show c.startLine + ((h.length : Int) + 2 + (wire t).length)
        = c.startLine + h.length + 2 + (wire t).length by omega]
      exact k1.further k2 (by omega)
    · rw [l2, l1]
      simp only [anyKeepAlive, List.any_cons, Bool.or_assoc]
    · rw [n2, n1]
      rfl

theorem doRequest_linger (fs : FileSys) (c : HTTPConn) : (doRequest fs c).2.linger = c.linger := by
  unfold doRequest
  dsimp only
  split
  · rfl
  · split_ifs <;> rfl

theorem doRequest_ne_NO_REQUEST (fs : FileSys) (c : HTTPConn) :
    (doRequest fs c).1 ≠ NO_REQUEST := by
  unfold doRequest
  dsimp only
  split
  · intro h; cases h
  · split_ifs <;> (intro h; cases h)

/-- A request line in order and header lines, freshly received after `init()`,
with more bytes `rest` behind them: the loop handles the request line and the
header lines and goes on behind them in `CHECK_STATE_HEADER`. -/
theorem request_headers_run (fs : FileSys) (c0 : HTTPConn) (reqLine : List Nat)
    (hs : List (List Nat)) (rest : List Nat)
    (hreq : requestLineOk (cline reqLine)) (hfree : ∀ b ∈ reqLine, b ≠ 13 ∧ b ≠ 10)
    (hh : ∀ h ∈ hs, (∀ b ∈ h, b ≠ 13 ∧ b ≠ 10) ∧ cline h ≠ [])
    (hlen : ((reqLine ++ [13, 10] ++ (wire hs ++ rest)).length : Int) ≤ READ_BUFFER_SIZE) :
    ∃ c', Steps fs (hs.length + 1)
        (recvSegment (init c0) (reqLine ++ [13, 10] ++ (wire hs ++ rest))) LINE_OK c' LINE_OK ∧
      Consumed (recvSegment (init c0) (reqLine ++ [13, 10] ++ (wire hs ++ rest))) c'
        ((reqLine.length : Int) + 2 + (wire hs).length) ∧
      c'.checkState = CHECK_STATE_HEADER ∧ c'.linger = anyKeepAlive hs ∧
      c'.contentLength = contentLengthOf 0 hs ∧ Inv c' ∧
      c'.readIndex = ((reqLine.length : Int) + 2 + (wire hs).length) + rest.length ∧
      c'.writeIndex = 0 ∧
      At c'.readBuffer ((reqLine.length : Int) + 2 + (wire hs).length) rest := by
  have hi := fresh_inv c0 _ hlen
  have hr := fresh_lineReady c0 reqLine (wire hs ++ rest) hfree
  have hlen' : ((reqLine ++ [13, 10] ++ (wire hs ++ rest)).length : Int)
      = reqLine.length + 2 + (wire hs).length + rest.length := by
    simp only [List.length_append, List.length_cons, List.length_nil, Nat.cast_add]
    omega
  have hri : (recvSegment (init c0) (reqLine ++ [13, 10] ++ (wire hs ++ rest))).readIndex
      = reqLine.length + 2 + (wire hs).length + rest.length := by
    rw [← hlen']
    show (0 : Int) + _ = _
    omega
  have hsl : (recvSegment (init c0) (reqLine ++ [13, 10] ++ (wire hs ++ rest))).startLine = 0 := rfl
  obtain ⟨c1, e1, k1, s1, l1, n1, _⟩ := step_requestLine_ok fs _ LINE_OK reqLine rfl hi hr hreq
  rw [hsl, zero_add] at k1
  have hinv1 : Inv c1 := k1.toInv hi (by omega) (by rw [hri]; omega)
  have hboth : At (recvSegment (init c0) (reqLine ++ [13, 10] ++ (wire hs ++ rest))).readBuffer
      ((reqLine.length : Int) + 2) (wire hs) ∧
      At (recvSegment (init c0) (reqLine ++ [13, 10] ++ (wire hs ++ rest))).readBuffer
      ((reqLine.length : Int) + 2 + (wire hs).length) rest := by
    have := ((at_append _ _ _ _).mp (fresh_at c0 (reqLine ++ [13, 10] ++ (wire hs ++ rest)))).2
    have h2 := (at_append _ _ _ _).mp this
    have hq : (0 : Int) + ((reqLine ++ [13, 10]).length : Int) = reqLine.length + 2 := by
      simp only [List.length_append, List.length_cons, List.length_nil, Nat.cast_add]
      omega
    rw [hq] at h2
    exact h2
  have hat := hboth.1
  have hat1 : At c1.readBuffer c1.startLine (wire hs) := by
    rw [k1.startLine]
    exact at_congr _ _ _ _ (fun j hj _ => k1.buffer j hj) hat
  obtain ⟨c2, e2, k2, s2, l2, n2, _⟩ := headers_run fs hs c1 s1 hinv1
    (by rw [k1.startLine, k1.checkedIndex]) hat1
    (by rw [k1.startLine, k1.readIndex, hri]; omega) hh
  rw [k1.startLine] at k2
  have k := k1.further k2 (by omega)
  refine ⟨c2, (Steps.one e1).andThen e2, k, s2, ?_, ?_, ?_, ?_, ?_, ?_⟩
  · rw [l2, l1]
    show (false || anyKeepAlive hs) = anyKeepAlive hs
    simp
  · rw [n2, n1]
    rfl
  · exact k.toInv hi (by omega) (by rw [hri]; omega)
  · rw [k.readIndex, hri]
  · rw [k.writeIndex]
    rfl
  · exact at_congr _ _ _ _ (fun j hj _ => k.buffer j hj) hboth.2

/-- `processRead` on a freshly received request line in order and header
lines, nothing behind them: `NO_REQUEST`, in `CHECK_STATE_HEADER`, with
`contentLength` as the header lines leave it. -/
theorem request_headers_result (fs : FileSys) (c0 : HTTPConn) (reqLine : List Nat)
    (hs : List (List Nat))
    (hreq : requestLineOk (cline reqLine)) (hfree : ∀ b ∈ reqLine, b ≠ 13 ∧ b ≠ 10)
    (hh : ∀ h ∈ hs, (∀ b ∈ h, b ≠ 13 ∧ b ≠ 10) ∧ cline h ≠ [])
    (hlen : ((reqLine ++ [13, 10] ++ (wire hs ++ [])).length : Int) ≤ READ_BUFFER_SIZE) :
    ∃ c', processRead fs (recvSegment (init c0) (reqLine ++ [13, 10] ++ (wire hs ++ [])))
        = some (NO_REQUEST, c') ∧ c'.checkState = CHECK_STATE_HEADER ∧
      c'.contentLength = contentLengthOf 0 hs ∧ c'.linger = anyKeepAlive hs := by
  obtain ⟨c', st, k, s, l, n, _, hri, _, _⟩ :=
    request_headers_run fs c0 reqLine hs [] hreq hfree hh hlen
  have hend : c'.checkedIndex = c'.readIndex := by
    rw [k.checkedIndex, hri]
    simp
  refine ⟨c', processRead_of_loop fs (0 + 1 + (hs.length + 1)) _ _ ?_, s, n, l⟩
  rw [st (0 + 1)]
  exact loop_exit (processReadIter_at_end fs c' LINE_OK (by rw [s]; intro h; cases h.1) hend) 0

theorem toInt32_range (x : Int) : -2147483648 ≤ toInt32 x ∧ toInt32 x < 2147483648 := by
  unfold toInt32
  omega

theorem contentLengthOf_range (hs : List (List Nat)) : ∀ (old : Int),
    -2147483648 ≤ old ∧ old < 2147483648 →
    -2147483648 ≤ contentLengthOf old hs ∧ contentLengthOf old hs < 2147483648 := by
  induction hs with
  | nil => intro old h; exact h
  | cons h t ih =>
    intro old ho
    show -2147483648 ≤ contentLengthOf (contentLengthAfter old (cline h)) t ∧ _
    apply ih
    unfold contentLengthAfter contentLengthValue
    split_ifs
    · exact toInt32_range _
    · exact ho

/-- A line has the `Content-Length:` prefix when the line cut at its first
NUL has it. -/
theorem contentLengthHeader_of_cline (h : List Nat) (hc : ContentLengthHeader (cline h)) :
    ContentLengthHeader h := by
  unfold ContentLengthHeader at *
  have hl : 15 ≤ (cline h).length := by
    have := eqIgnoreCase_length hc
    rw [bytes_ContentLength] at this
    simp only [List.length_take, List.length_cons, List.length_nil] at this
    omega
  have e : h = cline h ++ h.dropWhile (fun b => !(b == 0)) :=
    (List.takeWhile_append_dropWhile _ h).symm
  rw [e, List.take_append_of_le_length hl]
  exact hc

theorem contentLengthOf_absent (hs : List (List Nat)) (old : Int)
    (h : ∀ x ∈ hs, ¬ ContentLengthHeader x) : contentLengthOf old hs = old := by
  induction hs generalizing old with
  | nil => rfl
  | cons x t ih =>
    show contentLengthOf (contentLengthAfter old (cline x)) t = old
    have hx : ¬ ContentLengthHeader (cline x) :=
      fun e => h x (List.mem_cons_self _ _) (contentLengthHeader_of_cline x e)
    unfold contentLengthAfter
    rw [if_neg hx]
    exact ih old (fun y hy => h y (List.mem_cons_of_mem _ hy))

theorem contentLengthOf_nonneg (hs : List (List Nat)) : ∀ (old : Int), 0 ≤ old →
    (∀ x ∈ hs, ContentLengthHeader (cline x) →
      0 ≤ atol (((cline x).drop 15).dropWhile isSpTab) ∧
      atol (((cline x).drop 15).dropWhile isSpTab) < 2147483648) →
    0 ≤ contentLengthOf old hs := by
  induction hs with
  | nil => intro old h _; exact h
  | cons x t ih =>
    intro old ho h
    show 0 ≤ contentLengthOf (contentLengthAfter old (cline x)) t
    apply ih _ _ (fun y hy => h y (List.mem_cons_of_mem _ hy))
    unfold contentLengthAfter contentLengthValue
    split_ifs with hc
    · obtain ⟨a, b⟩ := h x (List.mem_cons_self _ _) hc
      rw [toInt32_id _ a b]
      exact a
    · exact ho

/-- What `parseHeaders` leaves in `contentLength`.  A request line in order and
header lines (each not empty and not starting with a NUL byte) are received in
the reset state and parsed by `processRead`.  In the state reached,
`contentLength` is the value `atol` reads from the last line with the
`Content-Length:` prefix, converted to `int` (between -2^31 and 2^31 - 1); no
check is applied to it.  It is 0 when no line has that prefix, and it is not
negative when each of these values lies between 0 and 2^31 - 1. -/
theorem contentLength_after_headers (fs : FileSys) (c0 : HTTPConn) (reqLine : List Nat)
    (hs : List (List Nat))
    (hreq : requestLineOk (cline reqLine)) (hfree : ∀ b ∈ reqLine, b ≠ 13 ∧ b ≠ 10)
    (hh : ∀ h ∈ hs, (∀ b ∈ h, b ≠ 13 ∧ b ≠ 10) ∧ cline h ≠ [])
    (hlen : ((reqLine ++ [13, 10] ++ (wire hs ++ [])).length : Int) ≤ READ_BUFFER_SIZE) :
    ∃ c', processRead fs (recvSegment (init c0) (reqLine ++ [13, 10] ++ (wire hs ++ [])))
        = some (NO_REQUEST, c') ∧
      c'.contentLength = contentLengthOf 0 hs ∧
      -2147483648 ≤ c'.contentLength ∧ c'.contentLength < 2147483648 ∧
      ((∀ h ∈ hs, ¬ ContentLengthHeader h) → c'.contentLength = 0) ∧
      ((∀ h ∈ hs, ContentLengthHeader (cline h) →
          0 ≤ atol (((cline h).drop 15).dropWhile isSpTab) ∧
          atol (((cline h).drop 15).dropWhile isSpTab) < 2147483648) →
        0 ≤ c'.contentLength) := by
  obtain ⟨c', e, _, n, _⟩ := request_headers_result fs c0 reqLine hs hreq hfree hh hlen
  have hr := contentLengthOf_range hs 0 (by norm_num)
  refine ⟨c', e, n, ?_, ?_, ?_, ?_⟩
  · rw [n]; exact hr.1
  · rw [n]; exact hr.2
  · intro h; rw [n]; exact contentLengthOf_absent hs 0 h
  · intro h; rw [n]; exact contentLengthOf_nonneg hs 0 (le_refl _) h

/-- The header lines `Host: x` and `Content-Length: 12` leave `contentLength`
at 12. -/
theorem contentLength_after_headers_example :
    (requestLineOk (cline (bytes "GET / HTTP/1.1")) ∧
      (∀ b ∈ bytes "GET / HTTP/1.1", b ≠ 13 ∧ b ≠ 10) ∧
      (∀ h ∈ [bytes "Host: x", bytes "Content-Length: 12"],
        (∀ b ∈ h, b ≠ 13 ∧ b ≠ 10) ∧ cline h ≠ []) ∧
      ((bytes "GET / HTTP/1.1" ++ [13, 10] ++
        (wire [bytes "Host: x", bytes "Content-Length: 12"] ++ [])).length : Int)
        ≤ READ_BUFFER_SIZE) ∧
    (∃ c', processRead noFiles (recvSegment (init blank) (bytes "GET / HTTP/1.1" ++ [13, 10] ++
          (wire [bytes "Host: x", bytes "Content-Length: 12"] ++ [])))
        = some (NO_REQUEST, c') ∧
      c'.contentLength = contentLengthOf 0 [bytes "Host: x", bytes "Content-Length: 12"] ∧
      -2147483648 ≤ c'.contentLength ∧ c'.contentLength < 2147483648 ∧
      ((∀ h ∈ [bytes "Host: x", bytes "Content-Length: 12"], ¬ ContentLengthHeader h) →
        c'.contentLength = 0) ∧
      ((∀ h ∈ [bytes "Host: x", bytes "Content-Length: 12"], ContentLengthHeader (cline h) →
          0 ≤ atol (((cline h).drop 15).dropWhile isSpTab) ∧
          atol (((cline h).drop 15).dropWhile isSpTab) < 2147483648) →
        0 ≤ c'.contentLength)) ∧
    contentLengthOf 0 [bytes "Host: x", bytes "Content-Length: 12"] = 12 :=
  ⟨⟨by decide, by decide, by decide, by decide⟩,
    contentLength_after_headers noFiles blank (bytes "GET / HTTP/1.1")
      [bytes "Host: x", bytes "Content-Length: 12"] (by decide) (by decide) (by decide)
      (by decide),
    by decide⟩

/-- C7 (what the code does at the failing input). The request line
`GET / HTTP/1.1` and the header line `Content-Length: -1` are received in the
reset state.  `processRead` parses both and leaves `contentLength` at -1:
`parseHeaders` assigns what `atol` returns, which accepts a minus sign, and
nothing checks the value. -/
theorem C7_negative_content_length :
    ∃ c', processRead noFiles (recvSegment (init blank)
        (bytes "GET / HTTP/1.1" ++ [13, 10] ++ (wire [bytes "Content-Length: -1"] ++ [])))
        = some (NO_REQUEST, c') ∧ c'.checkState = CHECK_STATE_HEADER ∧
      c'.contentLength = -1 ∧ ¬ (0 ≤ c'.contentLength) := by
  obtain ⟨c', e, s, n, _⟩ := request_headers_result noFiles blank (bytes "GET / HTTP/1.1")
    [bytes "Content-Length: -1"] (by decide) (by decide) (by decide) (by decide)
  have h1 : contentLengthOf 0 [bytes "Content-Length: -1"] = -1 := by decide
  refine ⟨c', e, s, by rw [n, h1], ?_⟩
  rw [n, h1]
  decide

/-! ## The body -/

theorem doRequest_stores (fs : FileSys) (c : HTTPConn) : (doRequest fs c).2.stores = c.stores := by
  unfold doRequest
  dsimp only
  split
  · rfl
  · split_ifs <;> rfl

/-- An iteration in `CHECK_STATE_CONTENT` that finds the body complete stores
the NUL at `text[contentLength]` and returns what `doRequest` returns. -/
theorem step_content_done (fs : FileSys) (c : HTTPConn) (ls : LINE_STATUS)
    (hst : c.checkState = CHECK_STATE_CONTENT) (hls : ls = LINE_OK)
    (hge : c.readIndex ≥ toInt32 (c.contentLength + c.checkedIndex)) :
    processReadIter fs c ls =
      Iter.ret
        (doRequest fs (store { c with startLine := c.checkedIndex }
          (c.startLine + c.contentLength) 0)).1
        (doRequest fs (store { c with startLine := c.checkedIndex }
          (c.startLine + c.contentLength) 0)).2 := by
  unfold processReadIter
  dsimp only
  have hc : c.checkState = CHECK_STATE_CONTENT ∧ ls = LINE_OK := ⟨hst, hls⟩
  rw [if_pos hc]
  simp only [Bool.true_eq_false, if_false]
  have hp : parseContent { c with startLine := c.checkedIndex } c.startLine =
      (GET_REQUEST, store { c with startLine := c.checkedIndex } (c.startLine + c.contentLength) 0) := by
    unfold parseContent
    rw [if_pos hge]
  split
  · rename_i h; rw [hst] at h; cases h
  · rename_i h; rw [hst] at h; cases h
  · rw [hp]
    rfl

/-- An iteration in `CHECK_STATE_CONTENT` that finds the body incomplete goes
on with `lineStatus = LINE_OPEN`. -/
theorem step_content_wait (fs : FileSys) (c : HTTPConn) (ls : LINE_STATUS)
    (hst : c.checkState = CHECK_STATE_CONTENT) (hls : ls = LINE_OK)
    (hlt : ¬ c.readIndex ≥ toInt32 (c.contentLength + c.checkedIndex)) :
    processReadIter fs c ls = Iter.next { c with startLine := c.checkedIndex } LINE_OPEN := by
  unfold processReadIter
  dsimp only
  have hc : c.checkState = CHECK_STATE_CONTENT ∧ ls = LINE_OK := ⟨hst, hls⟩
  rw [if_pos hc]
  simp only [Bool.true_eq_false, if_false]
  have hp : parseContent { c with startLine := c.checkedIndex } c.startLine =
      (NO_REQUEST, { c with startLine := c.checkedIndex }) := by
    unfold parseContent
    rw [if_neg hlt]
  split
  · rename_i h; rw [hst] at h; cases h
  · rename_i h; rw [hst] at h; cases h
  · rw [hp]
    rfl

theorem parseLineLoop_open (pre : List Nat) : ∀ (n : Nat) (c : HTTPConn),
    At c.readBuffer c.checkedIndex pre → (∀ b ∈ pre, b ≠ 13 ∧ b ≠ 10) →
    c.checkedIndex + pre.length = c.readIndex → pre.length ≤ n →
    (parseLineLoop n c).1 = LINE_OPEN ∧ (parseLineLoop n c).2.checkedIndex = c.readIndex := by
  induction pre with
  | nil =>
    intro n c _ _ hri _
    simp only [List.length_nil, Nat.cast_zero, add_zero] at hri
    cases n with
    | zero => exact ⟨rfl, hri⟩
    | succ k =>
      rw [parseLineLoop]
      dsimp only
      rw [if_neg (by omega)]
      exact ⟨rfl, hri⟩
  | cons x xs ih =>
    intro n c hat hfree hri hn
    simp only [List.length_cons, Nat.cast_add, Nat.cast_one] at hri hn
    cases n with
    | zero => omega
    | succ k =>
      have hx := hfree x (List.mem_cons_self _ _)
      have h0 : c.readBuffer c.checkedIndex = x := hat.1
      rw [parseLineLoop]
      dsimp only
      rw [if_pos (by omega), h0, if_neg hx.1, if_neg hx.2]
      exact ih k { c with checkedIndex := c.checkedIndex + 1 } hat.2
        (fun b hb => hfree b (List.mem_cons_of_mem _ hb)) (by dsimp only; omega) (by omega)

/-- `parseLine` on bytes without `\r` and `\n` up to `readIndex`: `LINE_OPEN`
with `checkedIndex` moved to `readIndex`. -/
theorem parseLine_open (c : HTTPConn) (pre : List Nat)
    (hat : At c.readBuffer c.checkedIndex pre) (hfree : ∀ b ∈ pre, b ≠ 13 ∧ b ≠ 10)
    (hri : c.checkedIndex + pre.length = c.readIndex) :
    (parseLine c).1 = LINE_OPEN ∧ (parseLine c).2.checkedIndex = c.readIndex :=
  parseLineLoop_open pre _ c hat hfree hri (by omega)

theorem step_open (fs : FileSys) (c : HTTPConn) (ls : LINE_STATUS)
    (hn : ¬ (c.checkState = CHECK_STATE_CONTENT ∧ ls = LINE_OK))
    (hp : (parseLine c).1 = LINE_OPEN) : processReadIter fs c ls = Iter.exit (parseLine c).2 := by
  unfold processReadIter
  dsimp only
  rw [if_neg hn]
  simp only [hp]
  rfl

/-- The state in `CHECK_STATE_CONTENT` behind the empty line of a freshly
received request whose headers announce a body. -/
theorem request_to_content (fs : FileSys) (c0 : HTTPConn) (reqLine : List Nat)
    (hs : List (List Nat)) (body : List Nat)
    (hreq : requestLineOk (cline reqLine)) (hfree : ∀ b ∈ reqLine, b ≠ 13 ∧ b ≠ 10)
    (hh : ∀ h ∈ hs, (∀ b ∈ h, b ≠ 13 ∧ b ≠ 10) ∧ cline h ≠ [])
    (hcl : contentLengthOf 0 hs ≠ 0)
    (hlen : ((reqLine ++ [13, 10] ++ (wire hs ++ 13 :: 10 :: body)).length : Int)
      ≤ READ_BUFFER_SIZE) :
    ∃ c1, Steps fs (1 + (hs.length + 1))
        (recvSegment (init c0) (reqLine ++ [13, 10] ++ (wire hs ++ 13 :: 10 :: body))) LINE_OK
        c1 LINE_OK ∧
      c1.checkState = CHECK_STATE_CONTENT ∧ c1.contentLength = contentLengthOf 0 hs ∧
      c1.startLine = (reqLine.length : Int) + 2 + (wire hs).length + 2 ∧
      c1.checkedIndex = (reqLine.length : Int) + 2 + (wire hs).length + 2 ∧
      c1.readIndex = (reqLine.length : Int) + 2 + (wire hs).length + 2 + body.length ∧
      At c1.readBuffer ((reqLine.length : Int) + 2 + (wire hs).length + 2) body := by
  obtain ⟨c', st, k, s, _, n, hinv, hri, _, hat⟩ :=
    request_headers_run fs c0 reqLine hs (13 :: 10 :: body) hreq hfree hh hlen
  simp only [List.length_cons, Nat.cast_add, Nat.cast_one] at hri
  have hr' : LineReady c' [] := by
    refine ⟨?_, by simp, ?_, ?_⟩
    · rw [k.startLine]
      exact ⟨hat.1, hat.2.1, trivial⟩
    · rw [k.checkedIndex, k.startLine]; simp
    · rw [k.startLine, hri]
      simp only [List.length_nil, Nat.cast_zero]
      omega
  obtain ⟨c1, e1, k1, s1, _, n1, _⟩ :=
    step_blank_content fs c' LINE_OK [] s hinv hr' rfl (by rw [n]; exact hcl)
  rw [k.startLine] at k1
  simp only [List.length_nil, Nat.cast_zero, add_zero] at k1
  refine ⟨c1, st.andThen (Steps.one e1), s1, n1.trans n, k1.startLine, k1.checkedIndex, ?_, ?_⟩
  · rw [k1.readIndex, hri]; omega
  · have h2 : At c'.readBuffer ((reqLine.length : Int) + 2 + (wire hs).length + 1 + 1) body :=
      hat.2.2
    rw [show (reqLine.length : Int) + 2 + (wire hs).length + 1 + 1
      = (reqLine.length : Int) + 2 + (wire hs).length + 2 by omega] at h2
    exact at_congr _ _ _ _ (fun j hj _ => k1.buffer j hj) h2

/-- A freshly received request with its whole body: `processRead` stores the
NUL of `parseContent` at the offset of the body plus `contentLength` and
returns what `doRequest` returns, never `NO_REQUEST`. -/
theorem request_with_body (fs : FileSys) (c0 : HTTPConn) (reqLine : List Nat)
    (hs : List (List Nat)) (body : List Nat)
    (hreq : requestLineOk (cline reqLine)) (hfree : ∀ b ∈ reqLine, b ≠ 13 ∧ b ≠ 10)
    (hh : ∀ h ∈ hs, (∀ b ∈ h, b ≠ 13 ∧ b ≠ 10) ∧ cline h ≠ [])
    (hcl : contentLengthOf 0 hs ≠ 0)
    (hlen : ((reqLine ++ [13, 10] ++ (wire hs ++ 13 :: 10 :: body)).length : Int)
      ≤ READ_BUFFER_SIZE)
    (hge : (reqLine.length : Int) + 2 + (wire hs).length + 2 + body.length ≥
      toInt32 (contentLengthOf 0 hs + ((reqLine.length : Int) + 2 + (wire hs).length + 2))) :
    ∃ r, processRead fs
        (recvSegment (init c0) (reqLine ++ [13, 10] ++ (wire hs ++ 13 :: 10 :: body))) = some r ∧
      r.1 ≠ NO_REQUEST ∧
      ((reqLine.length : Int) + 2 + (wire hs).length + 2 + contentLengthOf 0 hs) ∈ r.2.stores := by
  obtain ⟨c1, st, s1, n1, a1, b1, r1, _⟩ :=
    request_to_content fs c0 reqLine hs body hreq hfree hh hcl hlen
  have e := step_content_done fs c1 LINE_OK s1 rfl (by rw [r1, n1, b1]; exact hge)
  refine ⟨doRequest fs (store { c1 with startLine := c1.checkedIndex }
      (c1.startLine + c1.contentLength) 0),
    processRead_of_loop fs (0 + 1 + (1 + (hs.length + 1))) _ _ ?_,
    doRequest_ne_NO_REQUEST fs _, ?_⟩
  · rw [st (0 + 1)]
    exact loop_ret e 0
  · show _ ∈ (doRequest fs _).2.stores
    rw [doRequest_stores, a1, n1]
    simp [store]

/-- A freshly received request with a part of its body (no `\r`, no `\n` in
it) that `parseContent` finds too short: `processRead` returns `NO_REQUEST`
and has moved `checkedIndex` to `readIndex`. -/
theorem request_with_partial_body (fs : FileSys) (c0 : HTTPConn) (reqLine : List Nat)
    (hs : List (List Nat)) (body : List Nat)
    (hreq : requestLineOk (cline reqLine)) (hfree : ∀ b ∈ reqLine, b ≠ 13 ∧ b ≠ 10)
    (hh : ∀ h ∈ hs, (∀ b ∈ h, b ≠ 13 ∧ b ≠ 10) ∧ cline h ≠ [])
    (hcl : contentLengthOf 0 hs ≠ 0) (hbody : ∀ b ∈ body, b ≠ 13 ∧ b ≠ 10)
    (hlen : ((reqLine ++ [13, 10] ++ (wire hs ++ 13 :: 10 :: body)).length : Int)
      ≤ READ_BUFFER_SIZE)
    (hlt : ¬ ((reqLine.length : Int) + 2 + (wire hs).length + 2 + body.length ≥
      toInt32 (contentLengthOf 0 hs + ((reqLine.length : Int) + 2 + (wire hs).length + 2)))) :
    ∃ c3, processRead fs
        (recvSegment (init c0) (reqLine ++ [13, 10] ++ (wire hs ++ 13 :: 10 :: body)))
        = some (NO_REQUEST, c3) ∧
      c3.checkState = CHECK_STATE_CONTENT ∧ c3.contentLength = contentLengthOf 0 hs ∧
      c3.checkedIndex = (reqLine.length : Int) + 2 + (wire hs).length + 2 + body.length ∧
      c3.readIndex = (reqLine.length : Int) + 2 + (wire hs).length + 2 + body.length := by
  obtain ⟨c1, st, s1, n1, a1, b1, r1, hat⟩ :=
    request_to_content fs c0 reqLine hs body hreq hfree hh hcl hlen
  have e := step_content_wait fs c1 LINE_OK s1 rfl (by rw [r1, n1, b1]; exact hlt)
  have hat2 : At ({ c1 with startLine := c1.checkedIndex } : HTTPConn).readBuffer
      ({ c1 with startLine := c1.checkedIndex } : HTTPConn).checkedIndex body := by
    show At c1.readBuffer c1.checkedIndex body
    rw [b1]; exact hat
  obtain ⟨p1, p2⟩ := parseLine_open { c1 with startLine := c1.checkedIndex } body hat2 hbody
    (by show c1.checkedIndex + (body.length : Int) = c1.readIndex; rw [b1, r1])
  have lf := parseLine_frame { c1 with startLine := c1.checkedIndex }
  have e2 := step_open fs { c1 with startLine := c1.checkedIndex } LINE_OPEN
    (fun h => by cases h.2) p1
  refine ⟨(parseLine { c1 with startLine := c1.checkedIndex }).2,
    processRead_of_loop fs (0 + 1 + 1 + (1 + (hs.length + 1))) _ _ ?_,
    lf.checkState.trans s1, lf.contentLength.trans n1, p2.trans r1, lf.readIndex.trans r1⟩
  rw [st (0 + 1 + 1), loop_next e (0 + 1)]
  exact loop_exit e2 0

/-- More body bytes (no `\r`, no `\n`) for a connection that waits in
`CHECK_STATE_CONTENT` with everything scanned: when `parseContent` still finds
the body too short, `processRead` returns `NO_REQUEST` again. -/
theorem more_partial_body (fs : FileSys) (c3 : HTTPConn) (seg : List Nat)
    (hst : c3.checkState = CHECK_STATE_CONTENT) (hci : c3.checkedIndex = c3.readIndex)
    (hseg : ∀ b ∈ seg, b ≠ 13 ∧ b ≠ 10)
    (hlt : ¬ (c3.readIndex + (seg.length : Int) ≥
      toInt32 (c3.contentLength + c3.checkedIndex))) :
    ∃ c5, processRead fs (recvSegment c3 seg) = some (NO_REQUEST, c5) := by
  have e := step_content_wait fs (recvSegment c3 seg) LINE_OK hst rfl hlt
  have hat : At ({ recvSegment c3 seg with startLine := (recvSegment c3 seg).checkedIndex }
      : HTTPConn).readBuffer
      ({ recvSegment c3 seg with startLine := (recvSegment c3 seg).checkedIndex }
      : HTTPConn).checkedIndex seg := by
    show At (setBytes c3.readBuffer c3.readIndex seg) c3.checkedIndex seg
    rw [hci]
    exact at_setBytes seg _ _
  obtain ⟨p1, _⟩ := parseLine_open _ seg hat hseg
    (by show c3.checkedIndex + (seg.length : Int) = c3.readIndex + (seg.length : Int); rw [hci])
  have e2 := step_open fs
    { recvSegment c3 seg with startLine := (recvSegment c3 seg).checkedIndex } LINE_OPEN
    (fun h => by cases h.2) p1
  refine ⟨(parseLine
    { recvSegment c3 seg with startLine := (recvSegment c3 seg).checkedIndex }).2,
    processRead_of_loop fs (0 + 1 + 1) _ _ ?_⟩
  rw [loop_next e (0 + 1)]
  exact loop_exit e2 0

/-- C1 (what the code does at the failing input). The 46 bytes of the request
`GET / HTTP/1.1` with the header line `Content-Length: 2147483647` and the
empty line are received in the reset state.  Three iterations of the loop of
`processRead` lead to a state in `CHECK_STATE_CONTENT` with ordered indices,
all three at 46, and `contentLength = 2147483647`.  In the next iteration the
`int` sum `contentLength + checkedIndex` wraps to -2147483603, the test of
`parseContent` holds, and `parseContent` stores at offset
`46 + 2147483647 = 2147483693` of `readBuffer`, an array of 2048 bytes: the
step leaves the array by two gigabytes. -/
theorem C1_content_step_leaves_buffer (fs : FileSys) :
    ∃ c1, Steps fs 3 (recvSegment (init blank) (bytes "GET / HTTP/1.1" ++ [13, 10] ++
          (wire [bytes "Content-Length: 2147483647"] ++ 13 :: 10 :: []))) LINE_OK c1 LINE_OK ∧
      Inv c1 ∧ c1.checkState = CHECK_STATE_CONTENT ∧ c1.contentLength = 2147483647 ∧
      c1.startLine = 46 ∧ c1.checkedIndex = 46 ∧ c1.readIndex = 46 ∧
      toInt32 (c1.contentLength + c1.checkedIndex) = -2147483603 ∧
      ∃ code c2, processReadIter fs c1 LINE_OK = Iter.ret code c2 ∧
        c2.stores = c1.stores ++ [2147483693] ∧ READ_BUFFER_SIZE ≤ 2147483693 ∧
        ¬ StoresInside c2 := by
  obtain ⟨c1, st, s1, n1, a1, b1, r1, _⟩ := request_to_content fs blank (bytes "GET / HTTP/1.1")
    [bytes "Content-Length: 2147483647"] [] (by decide) (by decide) (by decide) (by decide)
    (by decide)
  have e1 : ((bytes "GET / HTTP/1.1").length : Int) + 2 +
      ((wire [bytes "Content-Length: 2147483647"]).length : Int) + 2 = 46 := by decide
  have e2 : contentLengthOf 0 [bytes "Content-Length: 2147483647"] = 2147483647 := by decide
  rw [e1] at a1 b1
  rw [e2] at n1
  have r1' : c1.readIndex = 46 := by
    rw [r1, e1]
    rfl
  have hsum : toInt32 (c1.contentLength + c1.checkedIndex) = -2147483603 := by
    rw [n1, b1]
    decide
  have e := step_content_done fs c1 LINE_OK s1 rfl (by rw [r1', hsum]; decide)
  have hst : (doRequest fs (store { c1 with startLine := c1.checkedIndex }
      (c1.startLine + c1.contentLength) 0)).2.stores = c1.stores ++ [2147483693] := by
    rw [doRequest_stores, a1, n1]
    rfl
  refine ⟨c1, st, ⟨by rw [a1]; decide, by rw [a1, b1], by rw [b1, r1'], by rw [r1']; decide⟩, s1,
    n1, a1, b1, r1', hsum, _, _, e, hst, by decide, ?_⟩
  intro h
  have := h 2147483693 (by rw [hst]; simp)
  exact absurd this.2 (by decide)

/-- C2 (what the code does at the failing input). The request
`GET / HTTP/1.1`, `Content-Length: 2`, the empty line and the body `ab`.
Received at once in the reset state, `processRead` completes the request: it
returns what `doRequest` returns, never `NO_REQUEST`, so a response is
composed.  Received as two segments, the second being the last byte `b`,
`processRead` returns `NO_REQUEST` after the first segment and `NO_REQUEST`
again after the second: the request is complete in `readBuffer`, and no
response is composed.  This holds whatever the file system answers. -/
theorem C2_split_body_never_completes :
    (∀ fs : FileSys, ∃ r, processRead fs (recvSegment (init blank)
        (bytes "GET / HTTP/1.1" ++ [13, 10] ++
          (wire [bytes "Content-Length: 2"] ++ 13 :: 10 :: [97, 98]))) = some r ∧
        r.1 ≠ NO_REQUEST) ∧
    (∀ fs : FileSys, ∃ c1 c2, processRead fs (recvSegment (init blank)
        (bytes "GET / HTTP/1.1" ++ [13, 10] ++
          (wire [bytes "Content-Length: 2"] ++ 13 :: 10 :: [97]))) = some (NO_REQUEST, c1) ∧
        processRead fs (recvSegment c1 [98]) = some (NO_REQUEST, c2)) ∧
    bytes "GET / HTTP/1.1" ++ [13, 10] ++
        (wire [bytes "Content-Length: 2"] ++ 13 :: 10 :: [97, 98])
      = bytes "GET / HTTP/1.1\r\nContent-Length: 2\r\n\r\nab" ∧
    (bytes "GET / HTTP/1.1" ++ [13, 10] ++
        (wire [bytes "Content-Length: 2"] ++ 13 :: 10 :: [97])) ++ [98]
      = bytes "GET / HTTP/1.1\r\nContent-Length: 2\r\n\r\nab" := by
  refine ⟨fun fs => ?_, fun fs => ?_, by decide, by decide⟩
  · obtain ⟨r, hr, hn, _⟩ := request_with_body fs blank (bytes "GET / HTTP/1.1")
      [bytes "Content-Length: 2"] [97, 98] (by decide) (by decide) (by decide) (by decide)
      (by decide) (by decide)
    exact ⟨r, hr, hn⟩
  · obtain ⟨c1, h1, s1, n1, i1, r1⟩ := request_with_partial_body fs blank
      (bytes "GET / HTTP/1.1") [bytes "Content-Length: 2"] [97] (by decide) (by decide)
      (by decide) (by decide) (by decide) (by decide) (by decide)
    obtain ⟨c2, h2⟩ := more_partial_body fs c1 [98] s1 (i1.trans r1.symm) (by decide)
      (by rw [r1, n1, i1]; decide)
    exact ⟨c1, c2, h1, h2⟩

/-- C3 (what the code does at two failing inputs). The request
`GET / HTTP/1.1`, `Content-Length: -100` and the empty line, received in the
reset state: `processRead` stores a byte at offset -60 of `readBuffer`.  The
request `GET / HTTP/1.1`, `Content-Length: 2008`, the empty line and 2008
body bytes, which fills the 2048 bytes of `readBuffer`: `processRead` stores a
byte at offset 2048, one past the end of the array. -/
theorem C3_store_outside_readBuffer :
    (∀ fs : FileSys, ∃ r, processRead fs (recvSegment (init blank)
        (bytes "GET / HTTP/1.1" ++ [13, 10] ++
          (wire [bytes "Content-Length: -100"] ++ 13 :: 10 :: []))) = some r ∧
        (-60 : Int) ∈ r.2.stores) ∧
    (∀ fs : FileSys, ∃ r, processRead fs (recvSegment (init blank)
        (bytes "GET / HTTP/1.1" ++ [13, 10] ++
          (wire [bytes "Content-Length: 2008"] ++ 13 :: 10 :: List.replicate 2008 97))) = some r ∧
        (2048 : Int) ∈ r.2.stores) ∧
    ((bytes "GET / HTTP/1.1" ++ [13, 10] ++
        (wire [bytes "Content-Length: 2008"] ++ 13 :: 10 :: List.replicate 2008 97)).length : Int)
      = READ_BUFFER_SIZE := by
  have hl : (bytes "GET / HTTP/1.1" ++ [13, 10] ++
      (wire [bytes "Content-Length: 2008"] ++ 13 :: 10 :: List.replicate 2008 97)).length
      = 2048 := by
    have e1 : (bytes "GET / HTTP/1.1").length = 14 := by decide
    have e2 : (wire [bytes "Content-Length: 2008"]).length = 22 := by decide
    simp only [List.length_append, List.length_cons, List.length_nil, List.length_replicate, e1,
      e2]
  have e1 : ((bytes "GET / HTTP/1.1").length : Int) = 14 := by decide
  have e2 : ((wire [bytes "Content-Length: 2008"]).length : Int) = 22 := by decide
  have e3 : contentLengthOf 0 [bytes "Content-Length: 2008"] = 2008 := by decide
  refine ⟨fun fs => ?_, fun fs => ?_, by rw [hl]; rfl⟩
  · obtain ⟨r, hr, _, hm⟩ := request_with_body fs blank (bytes "GET / HTTP/1.1")
      [bytes "Content-Length: -100"] [] (by decide) (by decide) (by decide) (by decide)
      (by decide) (by decide)
    have e : ((bytes "GET / HTTP/1.1").length : Int) + 2 +
        ((wire [bytes "Content-Length: -100"]).length : Int) + 2 +
        contentLengthOf 0 [bytes "Content-Length: -100"] = -60 := by decide
    rw [e] at hm
    exact ⟨r, hr, hm⟩
  · obtain ⟨r, hr, _, hm⟩ := request_with_body fs blank (bytes "GET / HTTP/1.1")
      [bytes "Content-Length: 2008"] (List.replicate 2008 97) (by decide) (by decide)
      (by decide) (by decide) (by rw [hl]; decide)
      (by rw [e1, e2, e3, List.length_replicate]; decide)
    rw [e1, e2, e3] at hm
    exact ⟨r, hr, hm⟩

theorem eqIgnoreCase_nonzero (a : List Nat) : ∀ (lit : List Nat), eqIgnoreCase a lit →
    (∀ x ∈ lit, x ≠ 0) → ∀ x ∈ a, x ≠ 0 := by
  unfold eqIgnoreCase
  induction a with
  | nil => intro lit _ _ x hx; simp at hx
  | cons y ys ih =>
    intro lit h hl x hx
    cases lit with
    | nil => simp at h
    | cons z zs =>
      simp only [List.map_cons, List.cons.injEq] at h
      rcases List.mem_cons.mp hx with e | e
      · subst e
        intro h0
        subst h0
        have hz := hl z (List.mem_cons_self _ _)
        have : tolower z ≠ 0 := tolower_ne_zero hz
        apply this
        rw [← h.1]
        rfl
      · exact ih zs h.2 (fun w hw => hl w (List.mem_cons_of_mem _ hw)) x e

/-- C5 (as amended). The request line `M w U w' V` stands at `text` in
`readBuffer`, followed by a NUL, where `w`, `w'` are a space or a tab, `M`
and `U` contain neither, `U` contains no NUL byte, `M` is `GET` and `V` is
`HTTP/1.1` ignoring case, and `U` begins with `/` or begins with `http://`
(ignoring case) and has a `/` after these 7 bytes.  Then `parseRequestLine`
in `CHECK_STATE_REQUESTLINE` returns `NO_REQUEST`, sets `checkState` to
`CHECK_STATE_HEADER` and records as URL (the C string `url` points to) `U`
itself in the first case, and in the second case the part of `U` from the
first `/` after the 7 bytes on. -/
theorem C5_request_line_accepted (c : HTTPConn) (text : Int) (M U V : List Nat) (w w' : Nat)
    (_hst : c.checkState = CHECK_STATE_REQUESTLINE)
    (hat : At c.readBuffer text (M ++ w :: (U ++ w' :: V)))
    (hterm : c.readBuffer (text + ((M ++ w :: (U ++ w' :: V)).length : Int)) = 0)
    (hin : text + ((M ++ w :: (U ++ w' :: V)).length : Int) < READ_BUFFER_SIZE)
    (hw : w = 32 ∨ w = 9) (hw' : w' = 32 ∨ w' = 9)
    (hM : ∀ x ∈ M, x ≠ 32 ∧ x ≠ 9) (hU : ∀ x ∈ U, x ≠ 32 ∧ x ≠ 9)
    (hnul : ∀ x ∈ U, x ≠ 0)
    (hget : eqIgnoreCase M (bytes "GET")) (hver : eqIgnoreCase V (bytes "HTTP/1.1"))
    (hurl : U.head? = some 47 ∨
      (eqIgnoreCase (U.take 7) (bytes "http://") ∧ 47 ∈ U.drop 7)) :
    ∃ c' p, parseRequestLine c text = (NO_REQUEST, c') ∧
      c'.checkState = CHECK_STATE_HEADER ∧ c'.url = some p ∧
      cstr c'.readBuffer READ_BUFFER_SIZE p =
        (if U.head? = some 47 then U else (U.drop 7).dropWhile (fun b => !(b == 47))) := by
  have hnz : ∀ b ∈ M ++ w :: (U ++ w' :: V), b ≠ 0 := by
    intro b hb
    rcases List.mem_append.mp hb with h | h
    · exact eqIgnoreCase_nonzero M _ hget GET_nonzero b h
    · rcases List.mem_cons.mp h with h | h
      · rcases hw with e | e <;> omega
      · rcases List.mem_append.mp h with h | h
        · exact hnul b h
        · rcases List.mem_cons.mp h with h | h
          · rcases hw' with e | e <;> omega
          · exact eqIgnoreCase_nonzero V _ hver HTTP11_nonzero b h
  exact parseRequestLine_form c text M U V w w' ⟨hat, hnz, hterm, hin⟩ hw hw' hM hU hget hver hurl

theorem C5_request_line_accepted_witness :
    ((recvSegment (init blank) (bytes "GET http://host/index.html HTTP/1.1")).checkState
        = CHECK_STATE_REQUESTLINE ∧
      At (recvSegment (init blank) (bytes "GET http://host/index.html HTTP/1.1")).readBuffer 0
        (bytes "GET" ++ 32 :: (bytes "http://host/index.html" ++ 32 :: bytes "HTTP/1.1")) ∧
      (recvSegment (init blank) (bytes "GET http://host/index.html HTTP/1.1")).readBuffer
        (0 + ((bytes "GET" ++ 32 :: (bytes "http://host/index.html" ++ 32 :: bytes "HTTP/1.1")).length
          : Int)) = 0) ∧
    ∃ c' p, parseRequestLine
        (recvSegment (init blank) (bytes "GET http://host/index.html HTTP/1.1")) 0
        = (NO_REQUEST, c') ∧
      c'.checkState = CHECK_STATE_HEADER ∧ c'.url = some p ∧
      cstr c'.readBuffer READ_BUFFER_SIZE p = bytes "/index.html" :=
  have h : CStrAt (recvSegment (init blank) (bytes "GET http://host/index.html HTTP/1.1")).readBuffer
      0 (bytes "GET" ++ 32 :: (bytes "http://host/index.html" ++ 32 :: bytes "HTTP/1.1")) :=
    fresh_cstr blank (bytes "GET http://host/index.html HTTP/1.1") (by decide) (by decide)
  ⟨⟨rfl, h.1, h.2.2.1⟩,
    C5_request_line_accepted _ 0 (bytes "GET") (bytes "http://host/index.html") (bytes "HTTP/1.1")
      32 32 rfl h.1 h.2.2.1 h.2.2.2 (Or.inl rfl) (Or.inl rfl) (by decide) (by decide)
      (by decide) (by decide) (by decide) (Or.inr (by decide))⟩

/-- C5 (counterexample to the claim as stated). The request line
`GET /a\0b HTTP/1.1` stands at the start of `readBuffer`, followed by a NUL.
It has the form `M w U w' V` of the claim with `U = /a\0b`, which begins with
`/` and contains no space or tab.  `parseRequestLine` returns `BAD_REQUEST`. -/
theorem C5_nul_url_rejected :
    nulUrlLine = bytes "GET" ++ 32 :: ((bytes "/a" ++ [0, 98]) ++ 32 :: bytes "HTTP/1.1") ∧
    (recvSegment (init blank) nulUrlLine).checkState = CHECK_STATE_REQUESTLINE ∧
    At (recvSegment (init blank) nulUrlLine).readBuffer 0 nulUrlLine ∧
    (recvSegment (init blank) nulUrlLine).readBuffer (0 + (nulUrlLine.length : Int)) = 0 ∧
    (∀ x ∈ bytes "/a" ++ [0, 98], x ≠ 32 ∧ x ≠ 9) ∧
    (bytes "/a" ++ [0, 98]).head? = some 47 ∧
    (parseRequestLine (recvSegment (init blank) nulUrlLine) 0).1 = BAD_REQUEST := by
  have hat := fresh_at blank nulUrlLine
  have hz := fresh_zero blank nulUrlLine (0 + (nulUrlLine.length : Int)) (by omega) (by decide)
  refine ⟨by decide, rfl, hat, hz, by decide, by decide, ?_⟩
  have e : nulUrlLine = (bytes "GET" ++ 32 :: bytes "/a") ++ (0 :: (98 :: 32 :: bytes "HTTP/1.1")) := by
    decide
  have hat2 := (at_append _ _ _ _).mp (e ▸ hat)
  have hc : CStrAt (recvSegment (init blank) nulUrlLine).readBuffer 0
      (bytes "GET" ++ 32 :: bytes "/a") :=
    ⟨hat2.1, by decide, hat2.2.1, by decide⟩
  exact parseRequestLine_oneSep _ 0 (bytes "GET") (bytes "/a") 32 hc (by decide) (by decide)
    (by decide)

theorem setBytes_append (a : List Nat) : ∀ (m : Int → Nat) (p : Int) (b : List Nat),
    setBytes m p (a ++ b) = setBytes (setBytes m p a) (p + a.length) b := by
  induction a with
  | nil => intro m p b; simp [setBytes]
  | cons x xs ih =>
    intro m p b
    show setBytes (setByte m p x) (p + 1) (xs ++ b) = _
    rw [ih]
    simp only [setBytes, List.length_cons]
    rw [show p + 1 + (xs.length : Int) = p + ((xs.length + 1 : Nat) : Int) by push_cast; omega]

theorem recvSegment_nil (c : HTTPConn) : recvSegment c [] = c := by
  cases c
  simp [recvSegment, setBytes]

theorem recvSegment_append (c : HTTPConn) (a b : List Nat) :
    recvSegment c (a ++ b) = recvSegment (recvSegment c a) b := by
  cases c
  simp only [recvSegment, setBytes_append, List.length_append]
  congr 1
  push_cast
  omega

/-- One `recv` that delivers bytes which fit: the loop stores them and goes
round again. -/
theorem readLoop_data (c : HTTPConn) (seg : List Nat) (rs : List RecvResult) (h0 : seg ≠ [])
    (h1 : c.readIndex + seg.length ≤ READ_BUFFER_SIZE) :
    readLoop (RecvResult.data seg :: rs) c = readLoop rs (recvSegment c seg) := by
  have hlen : 0 < seg.length := List.length_pos.mpr h0
  have ht : seg.take (READ_BUFFER_SIZE - c.readIndex).toNat = seg := by
    apply List.take_of_length_le
    omega
  simp only [readLoop, ht]
  rw [if_neg (by omega)]
  rfl

/-- A run of `recv` calls that deliver bytes which fit. -/
theorem readLoop_chunks (rs : List RecvResult) : ∀ (chunks : List (List Nat)) (c : HTTPConn),
    (∀ ch ∈ chunks, ch ≠ []) → c.readIndex + (chunks.flatten.length : Int) ≤ READ_BUFFER_SIZE →
    readLoop (chunks.map RecvResult.data ++ rs) c = readLoop rs (recvSegment c chunks.flatten) := by
  intro chunks
  induction chunks with
  | nil => intro c _ _; simp [recvSegment_nil]
  | cons ch chs ih =>
    intro c hne hfit
    simp only [List.flatten_cons, List.length_append] at hfit
    push_cast at hfit
    have hl : (0 : Int) ≤ (chs.flatten.length : Int) := Int.ofNat_nonneg _
    simp only [List.map_cons, List.cons_append, List.flatten_cons]
    rw [readLoop_data c ch _ (hne ch (List.mem_cons_self _ _)) (by omega), recvSegment_append]
    apply ih
    · intro x hx; exact hne x (List.mem_cons_of_mem _ hx)
    · simp only [recvSegment]; omega

/-- What `readLoop` changes: only `readBuffer` and `readIndex`; `readIndex`
grows and stays within the buffer, and the bytes are stored in
`readBuffer[readIndex .. 2048)`. -/
theorem readLoop_frame : ∀ (rs : List RecvResult) (c : HTTPConn) (ok : Bool) (c' : HTTPConn),
    readLoop rs c = some (ok, c') →
      c' = { c with readBuffer := c'.readBuffer, readIndex := c'.readIndex } ∧
      c.readIndex ≤ c'.readIndex ∧
      (c.readIndex ≤ READ_BUFFER_SIZE → c'.readIndex ≤ READ_BUFFER_SIZE) ∧
      ∀ i, i < c.readIndex ∨ READ_BUFFER_SIZE ≤ i → c'.readBuffer i = c.readBuffer i := by
  intro rs
  induction rs with
  | nil => intro c ok c' h; simp [readLoop] at h
  | cons r rs ih =>
    intro c ok c' h
    cases r with
    | eagain =>
      simp only [readLoop, Option.some.injEq, Prod.mk.injEq] at h
      obtain ⟨-, rfl⟩ := h
      exact ⟨rfl, le_refl _, fun h => h, fun _ _ => rfl⟩
    | error =>
      simp only [readLoop, Option.some.injEq, Prod.mk.injEq] at h
      obtain ⟨-, rfl⟩ := h
      exact ⟨rfl, le_refl _, fun h => h, fun _ _ => rfl⟩
    | data bs =>
      simp only [readLoop] at h
      split_ifs at h with hz
      · simp only [Option.some.injEq, Prod.mk.injEq] at h
        obtain ⟨-, rfl⟩ := h
        exact ⟨rfl, le_refl _, fun h => h, fun _ _ => rfl⟩
      · have hlen : (List.take (READ_BUFFER_SIZE - c.readIndex).toNat bs).length
            ≤ (READ_BUFFER_SIZE - c.readIndex).toNat := by
          rw [List.length_take]; exact Nat.min_le_left _ _
        have hpos : 0 < (READ_BUFFER_SIZE - c.readIndex).toNat := by omega
        obtain ⟨e, hle, hb, hfr⟩ := ih _ ok c' h
        simp only at hle hb hfr
        refine ⟨?_, by omega, fun _ => hb (by omega), ?_⟩
        · rw [e]
        · intro i hi
          rw [hfr i (by omega)]
          rcases hi with hi | hi
          · exact setBytes_before _ _ _ _ hi
          · exact setBytes_after _ _ _ _ (by omega)

/-- C13. `read()`: with `readIndex >= 2048` on entry it returns failure and
leaves the state as it is, whatever the socket would deliver.  Otherwise it
receives repeatedly: when the successive `recv` calls deliver the non-empty
chunks `chunks` (which fit in `readBuffer[readIndex .. 2048)`), these bytes
are stored from `readIndex` on and `readIndex` has moved past them when the
loop ends, with success at the first would-block result and with failure at
the first result that is 0 (no byte: the peer has closed) or another error.
Whenever `read()` returns, it has changed only `readBuffer` and `readIndex`:
`readIndex` has not decreased, does not exceed 2048 (when it did not on
entry), and no byte outside `readBuffer[readIndex .. 2048)` has changed. -/
theorem C13_read (c : HTTPConn) (rs : List RecvResult) :
    (READ_BUFFER_SIZE ≤ c.readIndex → read c rs = some (false, c)) ∧
    (c.readIndex < READ_BUFFER_SIZE → ∀ chunks : List (List Nat),
      (∀ ch ∈ chunks, ch ≠ []) → c.readIndex + (chunks.flatten.length : Int) ≤ READ_BUFFER_SIZE →
        read c (chunks.map RecvResult.data ++ RecvResult.eagain :: rs)
          = some (true, recvSegment c chunks.flatten) ∧
        read c (chunks.map RecvResult.data ++ RecvResult.error :: rs)
          = some (false, recvSegment c chunks.flatten) ∧
        read c (chunks.map RecvResult.data ++ RecvResult.data [] :: rs)
          = some (false, recvSegment c chunks.flatten)) ∧
    (∀ (ok : Bool) (c' : HTTPConn), read c rs = some (ok, c') →
      c' = { c with readBuffer := c'.readBuffer, readIndex := c'.readIndex } ∧
      c.readIndex ≤ c'.readIndex ∧
      (c.readIndex ≤ READ_BUFFER_SIZE → c'.readIndex ≤ READ_BUFFER_SIZE) ∧
      ∀ i, i < c.readIndex ∨ READ_BUFFER_SIZE ≤ i → c'.readBuffer i = c.readBuffer i) := by
  refine ⟨?_, ?_, ?_⟩
  · intro h
    unfold read
    rw [if_pos h]
  · intro h chunks hne hfit
    have hn : ¬ (c.readIndex ≥ READ_BUFFER_SIZE) := by omega
    simp only [read, if_neg hn, readLoop_chunks _ chunks c hne hfit, readLoop]
    simp
  · intro ok c' h
    unfold read at h
    split_ifs at h
    · simp only [Option.some.injEq, Prod.mk.injEq] at h
      obtain ⟨-, rfl⟩ := h
      exact ⟨rfl, le_refl _, fun h => h, fun _ _ => rfl⟩
    · exact readLoop_frame rs c ok c' h

/-- C13 at a concrete input: the reset state receives `GET / HT` and then
`TP/1.1` followed by CR LF before the socket would block. -/
theorem C13_read_witness :
    read (init blank) ([bytes "GET / HT", bytes "TP/1.1\r\n"].map RecvResult.data
        ++ RecvResult.eagain :: [])
      = some (true, recvSegment (init blank) [bytes "GET / HT", bytes "TP/1.1\r\n"].flatten) :=
  ((C13_read (init blank) []).2.1 (by decide) [bytes "GET / HT", bytes "TP/1.1\r\n"]
    (by decide) (by decide)).1

/-! ## File lookup -/

theorem cstrFuel_nonzero (m : Int → Nat) : ∀ (n : Nat) (p : Int), ∀ b ∈ cstrFuel m n p, b ≠ 0 := by
  intro n
  induction n with
  | zero => intro p b hb; simp [cstrFuel] at hb
  | succ k ih =>
    intro p b hb
    rw [cstrFuel] at hb
    split_ifs at hb with hz
    · simp at hb
    · rcases List.mem_cons.mp hb with h | h
      · rw [h]; exact hz
      · exact ih _ b h

theorem urlString_nonzero (c : HTTPConn) : ∀ b ∈ urlString c, b ≠ 0 := by
  unfold urlString
  split
  · exact cstrFuel_nonzero _ _ _
  · intro b hb; simp at hb

theorem at_replicate_zero (m : Int → Nat) (p : Int) (n : Nat)
    (h : At m p (List.replicate n 0)) (hn : 0 < n) : m p = 0 := by
  cases n with
  | zero => omega
  | succ k => exact h.1

theorem docRoot_length : docRoot.length = 28 := by decide

theorem docRoot_nonzero : ∀ b ∈ docRoot, b ≠ 0 := by decide

/-- The path is `docRoot` followed by the URL, of which at most 171 bytes are
copied (`FILENAME_LEN - strlen(docRoot) - 1`); the last byte of `realFile`,
which `doRequest` does not write, is the NUL that `init()` left there. -/
theorem requestPath_eq (c : HTTPConn) (h : c.realFile (FILENAME_LEN - 1) = 0) :
    requestPath c = docRoot ++ (urlString c).take 171 := by
  have hu : ((urlString c).take 171).length ≤ 171 := by
    rw [List.length_take]; exact Nat.min_le_left _ _
  have hnz : ∀ b ∈ docRoot ++ (urlString c).take 171, b ≠ 0 := by
    intro b hb
    rcases List.mem_append.mp hb with hb | hb
    · exact docRoot_nonzero b hb
    · exact urlString_nonzero c b (List.mem_of_mem_take hb)
  unfold requestPath cstr strncpy
  have e1 : (FILENAME_LEN - (docRoot.length : Int) - 1).toNat = 171 := by
    rw [docRoot_length]; rfl
  have e2 : (FILENAME_LEN - 0).toNat = 200 := rfl
  rw [e1, e2, docRoot_length]
  apply cstrFuel_eq
  · rw [at_append]
    constructor
    · apply at_congr docRoot (setBytes c.realFile 0 (docRoot ++ [0]))
      · intro j _ hj
        rw [docRoot_length] at hj
        exact setBytes_before _ _ _ _ (by push_cast; omega)
      · exact ((at_append _ _ _ _).mp (at_setBytes (docRoot ++ [0]) c.realFile 0)).1
    · rw [docRoot_length]
      have := at_setBytes (List.take 171 (urlString c) ++
        List.replicate (171 - (List.take 171 (urlString c)).length) 0)
        (setBytes c.realFile 0 (docRoot ++ [0])) ((28 : Nat) : Int)
      have := ((at_append _ _ _ _).mp this).1
      simpa using this
  · exact hnz
  · rw [List.length_append, docRoot_length]
    rcases Nat.lt_or_ge ((urlString c).take 171).length 171 with hlt | hge
    · have := at_setBytes (List.take 171 (urlString c) ++
        List.replicate (171 - (List.take 171 (urlString c)).length) 0)
        (setBytes c.realFile 0 (docRoot ++ [0])) ((28 : Nat) : Int)
      have h2 := ((at_append _ _ _ _).mp this).2
      have h3 := at_replicate_zero _ _ _ h2 (by omega)
      rw [show (0 : Int) + ((28 + (List.take 171 (urlString c)).length : Nat) : Int)
        = ((28 : Nat) : Int) + ((List.take 171 (urlString c)).length : Int) by push_cast; omega]
      exact h3
    · have hl : ((urlString c).take 171).length = 171 := by omega
      have b1 : ((28 : Nat) : Int) + ((List.take 171 (urlString c) ++
          List.replicate (171 - (List.take 171 (urlString c)).length) 0).length : Int)
          ≤ 0 + ((28 + (List.take 171 (urlString c)).length : Nat) : Int) := by
        simp only [List.length_append, List.length_replicate, hl]
        norm_num
      have b2 : (0 : Int) + ((docRoot ++ [0]).length : Int)
          ≤ 0 + ((28 + (List.take 171 (urlString c)).length : Nat) : Int) := by
        simp only [List.length_append, docRoot_length, List.length_cons, List.length_nil, hl]
        norm_num
      rw [setBytes_after _ _ _ _ b1, setBytes_after _ _ _ _ b2]
      rw [hl]
      exact h
  · rw [List.length_append, docRoot_length]
    omega

/-- The URL of `requesting u` is `u`, and so is what is copied of it. -/
theorem requesting_path (u : List Nat) (hnz : ∀ b ∈ u, b ≠ 0) (hlen : u.length ≤ 171) :
    requestPath (requesting u) = docRoot ++ u := by
  have hc : CStrAt (requesting u).readBuffer 0 u :=
    fresh_cstr blank u hnz (by unfold READ_BUFFER_SIZE; omega)
  have hu : urlString (requesting u) = u := by
    show cstr (requesting u).readBuffer READ_BUFFER_SIZE 0 = u
    exact cstr_eq hc
  rw [requestPath_eq _ (by rfl), hu, List.take_of_length_le hlen]

/-- C14. `doRequest`, for every answer of the file system about the path
`realFile` (which is `docRoot` followed by at most 171 bytes of the URL):
`NO_RESOURCE` if `stat` fails; if `stat` succeeds, `FORBIDDEN_REQUEST` when
the world-read bit `S_IROTH` of the mode is clear, whether or not the path is
a directory; `BAD_REQUEST` when the bit is set and the path is a directory;
and otherwise `FILE_REQUEST`, with `fileAddress` the mapping of the file and
`fileStat` what `stat` reported.  In the three other cases no mapping is
made. -/
theorem C14_doRequest_classifies (fs : FileSys) (c : HTTPConn) :
    (fs.stat (requestPath c) = none →
      (doRequest fs c).1 = NO_RESOURCE ∧ (doRequest fs c).2.fileAddress = c.fileAddress) ∧
    (∀ st : Stat, fs.stat (requestPath c) = some st →
      (st.st_mode &&& S_IROTH = 0 →
        (doRequest fs c).1 = FORBIDDEN_REQUEST ∧
          (doRequest fs c).2.fileAddress = c.fileAddress) ∧
      (st.st_mode &&& S_IROTH ≠ 0 → st.st_mode &&& S_IFMT = S_IFDIR →
        (doRequest fs c).1 = BAD_REQUEST ∧ (doRequest fs c).2.fileAddress = c.fileAddress) ∧
      (st.st_mode &&& S_IROTH ≠ 0 → st.st_mode &&& S_IFMT ≠ S_IFDIR →
        (doRequest fs c).1 = FILE_REQUEST ∧
          (doRequest fs c).2.fileAddress = some (fs.mmap (requestPath c)) ∧
          (doRequest fs c).2.fileStat = st)) ∧
    (c.realFile (FILENAME_LEN - 1) = 0 → requestPath c = docRoot ++ (urlString c).take 171) := by
  refine ⟨?_, ?_, requestPath_eq c⟩
  · intro h
    unfold requestPath at h
    unfold doRequest
    simp only [h]
    simp
  · intro st h
    unfold requestPath at h
    unfold doRequest
    simp only [h]
    refine ⟨?_, ?_, ?_⟩
    · intro h1
      rw [if_pos h1]
      exact ⟨rfl, rfl⟩
    · intro h1 h2
      rw [if_neg h1, if_pos h2]
      exact ⟨rfl, rfl⟩
    · intro h1 h2
      rw [if_neg h1, if_neg h2]
      exact ⟨rfl, rfl, rfl⟩

/-- C14 on the document root `siteFiles`: a missing file is `NO_RESOURCE`
(answered 404), the mode-0600 file and the mode-0700 directory are
`FORBIDDEN_REQUEST` (403), the world-readable directory is `BAD_REQUEST`
(400), and `index.html` is `FILE_REQUEST` with its 11 bytes mapped. -/
theorem C14_doRequest_classifies_witness :
    (doRequest siteFiles (requesting (bytes "/missing"))).1 = NO_RESOURCE ∧
    (doRequest siteFiles (requesting (bytes "/secret"))).1 = FORBIDDEN_REQUEST ∧
    (doRequest siteFiles (requesting (bytes "/private"))).1 = FORBIDDEN_REQUEST ∧
    (doRequest siteFiles (requesting (bytes "/docs"))).1 = BAD_REQUEST ∧
    (doRequest siteFiles (requesting (bytes "/index.html"))).1 = FILE_REQUEST ∧
    (doRequest siteFiles (requesting (bytes "/index.html"))).2.fileAddress
      = some (bytes "hello world") := by
  have p1 := requesting_path (bytes "/missing") (by decide) (by decide)
  have p2 := requesting_path (bytes "/secret") (by decide) (by decide)
  have p3 := requesting_path (bytes "/private") (by decide) (by decide)
  have p4 := requesting_path (bytes "/docs") (by decide) (by decide)
  have p5 := requesting_path (bytes "/index.html") (by decide) (by decide)
  have s1 : siteFiles.stat (docRoot ++ bytes "/missing") = none := by decide
  have s2 : siteFiles.stat (docRoot ++ bytes "/secret") = some ⟨33152, 6⟩ := by decide
  have s3 : siteFiles.stat (docRoot ++ bytes "/private") = some ⟨16832, 4096⟩ := by decide
  have s4 : siteFiles.stat (docRoot ++ bytes "/docs") = some ⟨16877, 4096⟩ := by decide
  have s5 : siteFiles.stat (docRoot ++ bytes "/index.html") = some ⟨33188, 11⟩ := by decide
  have m5 : siteFiles.mmap (docRoot ++ bytes "/index.html") = bytes "hello world" := by decide
  refine ⟨?_, ?_, ?_, ?_, ?_, ?_⟩
  · exact ((C14_doRequest_classifies siteFiles _).1 (by rw [p1]; exact s1)).1
  · exact (((C14_doRequest_classifies siteFiles _).2.1 _ (by rw [p2]; exact s2)).1
      (by decide)).1
  · exact (((C14_doRequest_classifies siteFiles _).2.1 _ (by rw [p3]; exact s3)).1
      (by decide)).1
  · exact (((C14_doRequest_classifies siteFiles _).2.1 _ (by rw [p4]; exact s4)).2.1
      (by decide) (by decide)).1
  · exact (((C14_doRequest_classifies siteFiles _).2.1 _ (by rw [p5]; exact s5)).2.2
      (by decide) (by decide)).1
  · rw [(((C14_doRequest_classifies siteFiles _).2.1 _ (by rw [p5]; exact s5)).2.2
      (by decide) (by decide)).2.1, p5, m5]

/-! ## Completion of `write` -/

/-- Calls of `writev` that send bytes without reaching the test
`bytes_to_send <= bytes_have_send`: the loop goes on with the counters moved
by the bytes sent. -/
theorem writeLoop_sent (rs : List WritevResult) : ∀ (ns : List Nat) (c : HTTPConn) (ts hs : Int),
    (ns = [] ∨ hs + (ns.sum : Int) < ts - (ns.sum : Int)) →
    writeLoop (ns.map WritevResult.sent ++ rs) c ts hs
      = writeLoop rs c (ts - (ns.sum : Int)) (hs + (ns.sum : Int)) := by
  intro ns
  induction ns with
  | nil => intro c ts hs _; simp
  | cons x xs ih =>
    intro c ts hs h
    have hx : hs + ((x : Int) + (xs.sum : Int)) < ts - ((x : Int) + (xs.sum : Int)) := by
      rcases h with h | h
      · cases h
      · simpa only [List.sum_cons, Nat.cast_add] using h
    have hsum : (0 : Int) ≤ (xs.sum : Int) := Int.ofNat_nonneg _
    show writeLoop (WritevResult.sent x :: (xs.map WritevResult.sent ++ rs)) c ts hs = _
    rw [writeLoop]
    dsimp only
    rw [if_neg (by omega), ih c _ _ (by right; omega)]
    simp only [List.sum_cons, Nat.cast_add]
    rw [show ts - (x : Int) - (xs.sum : Int) = ts - ((x : Int) + (xs.sum : Int)) by omega,
      show hs + (x : Int) + (xs.sum : Int) = hs + ((x : Int) + (xs.sum : Int)) by omega]

theorem modfd_init_unmap (c : HTTPConn) (ev : Nat) :
    modfd (init (unmap c)) ev = { init c with
      fileAddress := none
      armed := c.armed ++ [ev ||| EPOLLET ||| EPOLLONESHOT ||| EPOLLRDHUP] } := by
  unfold unmap
  cases hf : c.fileAddress <;> simp [modfd, init, hf]

theorem init_modfd (c : HTTPConn) (ev : Nat) :
    init (modfd c ev) = { init c with
      armed := c.armed ++ [ev ||| EPOLLET ||| EPOLLONESHOT ||| EPOLLRDHUP] } := rfl

theorem unmap_fileAddress (c : HTTPConn) : (unmap c).fileAddress = none := by
  unfold unmap
  cases hf : c.fileAddress <;> simp [hf]

theorem unmap_frame (c : HTTPConn) :
    unmap c = { c with fileAddress := none } := by
  unfold unmap
  cases hf : c.fileAddress
  · cases c
    simp only at hf
    subst hf
    rfl
  · rfl

/-- The branch of `write` that finds the response sent. -/
theorem write_completes (c : HTTPConn) (ns : List Nat) (n : Nat) (rest : List WritevResult)
    (h0 : c.writeIndex ≠ 0) (hpre : ns = [] ∨ 2 * (ns.sum : Int) < c.writeIndex)
    (hn : c.writeIndex ≤ 2 * ((ns.sum + n : Nat) : Int)) :
    write c (ns.map WritevResult.sent ++ WritevResult.sent n :: rest)
      = some (c.linger,
          if c.linger = true then modfd (init (unmap c)) EPOLLIN else modfd (unmap c) EPOLLIN) := by
  unfold write
  dsimp only
  rw [if_neg h0, writeLoop_sent _ ns c _ _ (by rcases hpre with h | h; exact Or.inl h; right; omega),
    writeLoop]
  dsimp only
  simp only [Nat.cast_add] at hn
  rw [if_pos (by omega)]
  have hl : (unmap c).linger = c.linger := by rw [unmap_frame]
  rw [hl]
  cases hc : c.linger <;> simp

/-- C17. `write()` when it finds the response sent (the `writev` calls before
the last one have not met the test `bytes_to_send <= bytes_have_send`, the
last one meets it): it returns `linger`, true for keep-alive and false
otherwise, and it does not close the socket.  With `linger` set the state
afterwards is the state `init()` produces from the state on entry, but for
the released mapping (`fileAddress` is null) and the re-arm for `EPOLLIN`:
indices, `checkState`, `httpMethod`, `contentLength`, `linger` and the
buffers are those of the reset.  Without `linger` the state is the state on
entry with the mapping released and the same re-arm.  With `writeIndex = 0`
on entry `write()` returns true in the reset state, re-armed for `EPOLLIN`,
whatever `writev` would return: no `writev` is issued. -/
theorem C17_write_completion (c : HTTPConn) (ns : List Nat) (n : Nat) (rest : List WritevResult)
    (h0 : c.writeIndex ≠ 0) (hpre : ns = [] ∨ 2 * (ns.sum : Int) < c.writeIndex)
    (hn : c.writeIndex ≤ 2 * ((ns.sum + n : Nat) : Int)) :
    (∃ c', write c (ns.map WritevResult.sent ++ WritevResult.sent n :: rest)
        = some (c.linger, c') ∧
      c'.socketFd = c.socketFd ∧ c'.fileAddress = none ∧
      (c.linger = true → c' = { init c with
        fileAddress := none
        armed := c.armed ++ [EPOLLIN ||| EPOLLET ||| EPOLLONESHOT ||| EPOLLRDHUP] }) ∧
      (c.linger = false → c' = { c with
        fileAddress := none
        armed := c.armed ++ [EPOLLIN ||| EPOLLET ||| EPOLLONESHOT ||| EPOLLRDHUP] })) ∧
    (∀ (c0 : HTTPConn) (results : List WritevResult), c0.writeIndex = 0 →
      write c0 results = some (true, { init c0 with
        armed := c0.armed ++ [EPOLLIN ||| EPOLLET ||| EPOLLONESHOT ||| EPOLLRDHUP] })) := by
  refine ⟨⟨_, write_completes c ns n rest h0 hpre hn, ?_, ?_, ?_, ?_⟩, ?_⟩
  · split_ifs
    · rw [modfd_init_unmap]; rfl
    · rw [unmap_frame]; rfl
  · split_ifs
    · rw [modfd_init_unmap]
    · exact unmap_fileAddress c
  · intro hl
    rw [if_pos hl, modfd_init_unmap]
  · intro hl
    rw [if_neg (by rw [hl]; decide), unmap_frame]
    rfl
  · intro c0 results h
    unfold write
    dsimp only
    rw [if_pos h, init_modfd]

/-- C17 on the connection that holds the response for `index.html` with
keep-alive: one `writev` sends all 93 bytes. -/
theorem C17_write_completion_witness :
    write keepAliveHolding [WritevResult.sent 93] = some (true, { init keepAliveHolding with
      fileAddress := none
      armed := [EPOLLIN ||| EPOLLET ||| EPOLLONESHOT ||| EPOLLRDHUP] }) := by
  obtain ⟨⟨c', h1, _, _, h2, _⟩, _⟩ :=
    C17_write_completion keepAliveHolding [] 93 [] (by decide) (Or.inl rfl) (by decide)
  rw [h2 rfl] at h1
  exact h1

/-! ## The `Content-Length` of a file response -/

theorem fmtD_length32 (x : Int) (h0 : -2147483648 ≤ x) (h1 : x < 2147483648) :
    (fmtD x).length ≤ 11 := by
  unfold fmtD
  have hd : (decDigits (x.natAbs + 1) x.natAbs).length ≤ 10 :=
    decDigits_length _ _ 10 (by norm_num) (by omega)
  split_ifs
  · simp only [List.length_cons]; omega
  · omega

theorem addResponse_socketFd (c : HTTPConn) (out : List Nat) :
    (addResponse c out).2.socketFd = c.socketFd := by
  unfold addResponse
  dsimp only
  split_ifs <;> rfl

theorem addHeaders_socketFd (c : HTTPConn) (n : Int) :
    (addHeaders c n).2.socketFd = c.socketFd := by
  unfold addHeaders addContentLength addContentType addLinger addBlankLine
  dsimp only
  split_ifs <;> simp only [addResponse_socketFd]

/-- `processWrite(FILE_REQUEST)` on an empty write buffer, whatever size
`stat` reported: the header carries the size converted to `int`, the second
scatter element has the size itself. -/
theorem file_response (c : HTTPConn) (h0 : c.writeIndex = 0) :
    ∃ c', processWrite c FILE_REQUEST = (true, c') ∧
      Composed c' (bytes "HTTP/1.1 200 OK\r\n" ++
        headerBlock (fmtD (toInt32 c.fileStat.st_size)) c.linger) ∧
      c'.ivCount = 2 ∧ c'.iv0 = ⟨IovBase.writeBuffer, c'.writeIndex⟩ ∧
      c'.iv1 = ⟨IovBase.fileAddress c.fileAddress, c.fileStat.st_size⟩ ∧
      c'.socketFd = c.socketFd := by
  have e1 : bytes "HTTP/1.1" ++ [32] ++ fmtD 200 ++ [32] ++ ok_200_title ++ bytes "\r\n"
      = bytes "HTTP/1.1 200 OK\r\n" := by decide
  have e2 : (bytes "HTTP/1.1 200 OK\r\n").length = 17 := by decide
  have hr := toInt32_range c.fileStat.st_size
  have hfl := fmtD_length32 _ hr.1 hr.2
  obtain ⟨a1, b1⟩ := addResponse_composed c [] (bytes "HTTP/1.1 200 OK\r\n")
    (composed_nil c h0) (by rw [e2]; simp)
  obtain ⟨c2, a2, b2, f2⟩ := addHeaders_composed _ _ (toInt32 c.fileStat.st_size) b1
    (by simp only [List.nil_append, e2]; omega)
  have hsk : (addHeaders (emit c (bytes "HTTP/1.1 200 OK\r\n"))
      (toInt32 c.fileStat.st_size)).2.socketFd = c.socketFd := addHeaders_socketFd _ _
  have hst : (emit c (bytes "HTTP/1.1 200 OK\r\n")).fileStat = c.fileStat := rfl
  refine ⟨{ c2 with
    iv0 := ⟨IovBase.writeBuffer, c2.writeIndex⟩
    iv1 := ⟨IovBase.fileAddress c2.fileAddress, c2.fileStat.st_size⟩
    ivCount := 2 }, ?_, ?_, rfl, rfl, ?_, ?_⟩
  · unfold processWrite addStatusLine
    simp only [e1, a1, hst, a2]
  · exact b2
  · have h1 : c2.fileAddress = c.fileAddress := f2.fileAddress
    have h2 : c2.fileStat = c.fileStat := f2.fileStat
    simp only [h1, h2]
  · rw [a2] at hsk
    exact hsk

/-- C18 (what the code does at the failing input). For a file of 2^31 bytes
`processWrite(FILE_REQUEST)` succeeds and the header it composes reads
`Content-Length: -2147483648`, while the second scatter element has the
length 2147483648: `addHeaders` takes the size as an `int`.  For a file of
2^32 + 11 bytes the header reads `Content-Length: 11`. -/
theorem C18_content_length_wraps (c : HTTPConn) :
    (∃ c', processWrite (servingFile c 2147483648) FILE_REQUEST = (true, c') ∧
      Composed c' (bytes "HTTP/1.1 200 OK\r\n" ++ bytes "Content-Length: -2147483648\r\n" ++
        bytes "Content-Type:text/html\r\n" ++ bytes "Connection: " ++
        (if c.linger = true then bytes "keep-alive" else bytes "close") ++ bytes "\r\n\r\n") ∧
      c'.iv1.iov_len = 2147483648) ∧
    (∃ c', processWrite (servingFile c 4294967307) FILE_REQUEST = (true, c') ∧
      Composed c' (bytes "HTTP/1.1 200 OK\r\n" ++ bytes "Content-Length: 11\r\n" ++
        bytes "Content-Type:text/html\r\n" ++ bytes "Connection: " ++
        (if c.linger = true then bytes "keep-alive" else bytes "close") ++ bytes "\r\n\r\n") ∧
      c'.iv1.iov_len = 4294967307) := by
  constructor
  · obtain ⟨c', h1, h2, _, _, h3, _⟩ := file_response (servingFile c 2147483648) rfl
    refine ⟨c', h1, ?_, by rw [h3]; rfl⟩
    have e : fmtD (toInt32 (servingFile c 2147483648).fileStat.st_size)
        = bytes "-2147483648" := by
      show fmtD (toInt32 2147483648) = bytes "-2147483648"
      decide
    rw [e] at h2
    have hl : (servingFile c 2147483648).linger = c.linger := rfl
    rw [hl] at h2
    unfold headerBlock at h2
    cases hc : c.linger <;> rw [hc] at h2 <;> simpa [bytes] using h2
  · obtain ⟨c', h1, h2, _, _, h3, _⟩ := file_response (servingFile c 4294967307) rfl
    refine ⟨c', h1, ?_, by rw [h3]; rfl⟩
    have e : fmtD (toInt32 (servingFile c 4294967307).fileStat.st_size)
        = bytes "11" := by
      show fmtD (toInt32 4294967307) = bytes "11"
      decide
    rw [e] at h2
    have hl : (servingFile c 4294967307).linger = c.linger := rfl
    rw [hl] at h2
    unfold headerBlock at h2
    cases hc : c.linger <;> rw [hc] at h2 <;> simpa [bytes] using h2

/-- What `read` changes: only `readBuffer` and `readIndex`; `readIndex` grows
and stays within the buffer. -/
theorem read_frame (c : HTTPConn) (rs : List RecvResult) (ok : Bool) (c' : HTTPConn)
    (h : read c rs = some (ok, c')) :
    c' = { c with readBuffer := c'.readBuffer, readIndex := c'.readIndex } ∧
      c.readIndex ≤ c'.readIndex ∧
      (c.readIndex ≤ READ_BUFFER_SIZE → c'.readIndex ≤ READ_BUFFER_SIZE) := by
  unfold read at h
  split_ifs at h
  · simp only [Option.some.injEq, Prod.mk.injEq] at h
    obtain ⟨-, rfl⟩ := h
    exact ⟨rfl, le_refl _, fun h => h⟩
  · obtain ⟨a, b, d, _⟩ := readLoop_frame rs c ok c' h
    exact ⟨a, b, d⟩

/-! ## The work queue -/

theorem toSizeT_id (m : Nat) (h : m < 2147483648) : toSizeT (m : Int) = m := by
  unfold toSizeT
  omega

/-- `appendRequest` accepts as long as the queue holds at most `maxReqNums`
requests. -/
theorem appendRequest_accepts (p : ThreadPool) (req : Nat)
    (h : p.reqQueue.length ≤ toSizeT p.maxReqNums) :
    appendRequest p req
      = (true, { p with reqQueue := p.reqQueue ++ [req], queueStat := p.queueStat + 1 }) := by
  unfold appendRequest
  rw [if_neg (by omega)]

/-- `appendRequest` rejects once the queue holds more than `maxReqNums`
requests, and leaves the pool as it is. -/
theorem appendRequest_rejects (p : ThreadPool) (req : Nat)
    (h : p.reqQueue.length > toSizeT p.maxReqNums) : appendRequest p req = (false, p) := by
  unfold appendRequest
  rw [if_pos h]

theorem appendAll_accepts : ∀ (reqs : List Nat) (p : ThreadPool),
    p.reqQueue.length + reqs.length ≤ toSizeT p.maxReqNums + 1 →
    appendAll p reqs = (List.replicate reqs.length true,
      { p with reqQueue := p.reqQueue ++ reqs, queueStat := p.queueStat + reqs.length }) := by
  intro reqs
  induction reqs with
  | nil => intro p _; cases p; simp [appendAll]
  | cons r rs ih =>
    intro p h
    simp only [List.length_cons] at h
    rw [appendAll, appendRequest_accepts p r (by omega)]
    dsimp only
    rw [ih _ (by simp only [List.length_append, List.length_singleton]; omega)]
    simp only [List.length_cons, List.replicate_succ, List.append_assoc, List.singleton_append,
      Prod.mk.injEq, true_and]
    congr 1
    omega

/-- C11 (what the code does). With `maxReqNums = m` and the queue empty,
`m + 1` calls of `appendRequest` with no dequeue in between all return true
and the queue then holds `m + 1` requests; only the call after these returns
false (and leaves the pool as it is): the test is
`reqQueue.size() > maxReqNums`. -/
theorem C11_queue_holds_one_more (m : Nat) (reqs : List Nat) (extra posted : Nat)
    (hm : m < 2147483648) (hlen : reqs.length = m + 1) :
    appendAll ⟨(m : Int), [], posted⟩ reqs
      = (List.replicate (m + 1) true, ⟨(m : Int), reqs, posted + (m + 1)⟩) ∧
    appendRequest ⟨(m : Int), reqs, posted + (m + 1)⟩ extra
      = (false, ⟨(m : Int), reqs, posted + (m + 1)⟩) := by
  constructor
  · rw [appendAll_accepts reqs _ (by
      show ([] : List Nat).length + reqs.length ≤ toSizeT (m : Int) + 1
      rw [toSizeT_id m hm, hlen]; simp)]
    simp [hlen]
  · apply appendRequest_rejects
    show reqs.length > toSizeT (m : Int)
    rw [toSizeT_id m hm, hlen]
    omega

/-- C11 for the default `maxReqNums = 10000`: the 10001st request is
accepted, the 10002nd is the first to be rejected. -/
theorem C11_queue_holds_one_more_witness :
    appendAll ⟨10000, [], 0⟩ (List.range 10001)
      = (List.replicate 10001 true, ⟨10000, List.range 10001, 10001⟩) ∧
    appendRequest ⟨10000, List.range 10001, 10001⟩ 10001
      = (false, ⟨10000, List.range 10001, 10001⟩) := by
  exact C11_queue_holds_one_more 10000 (List.range 10001) 10001 0 (by norm_num)
    (List.length_range 10001)

/-! ## A readable event when the queue is full -/

/-- C12 (what the code does). A readable event on `sockfd` whose `read()`
succeeds while the queue holds more than `maxReqNums` requests:
`appendRequest` returns false, and the event loop, which does not look at
that result, leaves the connection open: `socketFd`, `userCount` and the
queue are as before, and the socket is not armed again. -/
theorem C12_rejected_request_stays_open (s : Server) (sockfd : Nat)
    (results : List RecvResult) (c : HTTPConn)
    (hread : read (s.users sockfd) results = some (true, c))
    (hfull : s.pool.reqQueue.length > toSizeT s.pool.maxReqNums) :
    (appendRequest s.pool sockfd).1 = false ∧
    ∃ s', onReadable s sockfd results = some s' ∧ s'.userCount = s.userCount ∧
      (s'.users sockfd).socketFd = (s.users sockfd).socketFd ∧
      (s'.users sockfd).armed = (s.users sockfd).armed ∧ s'.pool = s.pool := by
  have hrej := appendRequest_rejects s.pool sockfd hfull
  have hfr := (read_frame (s.users sockfd) results true c hread).1
  refine ⟨by rw [hrej], { s with users := setSlot s.users sockfd c }, ?_, rfl, ?_, ?_, rfl⟩
  · unfold onReadable
    rw [hread]
    dsimp only
    rw [if_pos rfl, hrej]
  · show (setSlot s.users sockfd c sockfd).socketFd = _
    unfold setSlot
    rw [if_pos rfl, hfr]
  · show (setSlot s.users sockfd c sockfd).armed = _
    unfold setSlot
    rw [if_pos rfl, hfr]

/-- C12 on `fullServer`: the connection on descriptor 5 receives `GET`, the
queue is full; afterwards the connection is still open and still counted. -/
theorem C12_rejected_request_stays_open_witness :
    fullServer.userCount = 1 ∧ (fullServer.users 5).socketFd = 5 ∧
    ∃ s', onReadable fullServer 5 [RecvResult.data (bytes "GET"), RecvResult.eagain] = some s' ∧
      s'.userCount = 1 ∧ (s'.users 5).socketFd = 5 ∧ s'.pool.reqQueue = [7, 8] := by
  have hr : read (fullServer.users 5) [RecvResult.data (bytes "GET"), RecvResult.eagain]
      = some (true, recvSegment (fullServer.users 5) (bytes "GET")) :=
    read_recvSegment _ _ (by decide) (by decide)
  obtain ⟨_, s', h1, h2, h3, _, h5⟩ :=
    C12_rejected_request_stays_open fullServer 5 _ _ hr (by decide)
  exact ⟨rfl, rfl, s', h1, h2, h3, by rw [h5]; rfl⟩

/-! ## `userCount` and the slots in use -/

theorem filter_range_congr (f g : Nat → Bool) : ∀ n : Nat, (∀ j, j < n → g j = f j) →
    ((List.range n).filter g).length = ((List.range n).filter f).length := by
  intro n
  induction n with
  | zero => intro _; rfl
  | succ k ih =>
    intro h
    rw [List.range_succ, List.filter_append, List.filter_append, List.length_append,
      List.length_append, ih (fun j hj => h j (by omega))]
    simp only [List.filter_cons, List.filter_nil, h k (by omega)]

/-- Counting over `0 .. n - 1` when the predicate changes at `i` alone. -/
theorem filter_range_update (f g : Nat → Bool) (i : Nat) (hfg : ∀ j, j ≠ i → g j = f j) :
    ∀ n : Nat, i < n →
    ((List.range n).filter g).length + (if f i = true then 1 else 0)
      = ((List.range n).filter f).length + (if g i = true then 1 else 0) := by
  intro n
  induction n with
  | zero => intro h; omega
  | succ k ih =>
    intro h
    rw [List.range_succ, List.filter_append, List.filter_append, List.length_append,
      List.length_append]
    rcases Nat.lt_or_ge i k with hik | hik
    · have := ih hik
      have e : g k = f k := hfg k (by omega)
      simp only [List.filter_cons, List.filter_nil, e]
      omega
    · have e : i = k := by omega
      subst e
      rw [filter_range_congr f g i (fun j hj => hfg j (by omega))]
      simp only [List.filter_cons, List.filter_nil]
      cases f i <;> cases g i <;> simp

theorem slotsInUse_le (s : Server) : slotsInUse s ≤ MAX_FD := by
  unfold slotsInUse
  exact le_trans (List.length_filter_le _ _) (by rw [List.length_range])

/-- The count of slots in use after an assignment to slot `i`. -/
theorem slotsInUse_setSlot (s : Server) (i : Nat) (c : HTTPConn) (uc : Int) (p : ThreadPool)
    (hi : i < MAX_FD) :
    slotsInUse ⟨setSlot s.users i c, uc, p⟩ + (if (s.users i).socketFd ≠ -1 then 1 else 0)
      = slotsInUse s + (if c.socketFd ≠ -1 then 1 else 0) := by
  have h := filter_range_update (fun j => decide ((s.users j).socketFd ≠ -1))
    (fun j => decide ((setSlot s.users i c j).socketFd ≠ -1)) i
    (fun j hj => by simp only [setSlot, if_neg hj]) MAX_FD hi
  simp only [setSlot, if_pos, decide_eq_true_eq] at h
  exact h

theorem setSlot_self (users : Nat → HTTPConn) (i : Nat) : setSlot users i (users i) = users := by
  funext j
  unfold setSlot
  split_ifs with h
  · rw [h]
  · rfl

/-- `closeConn` on a closed connection changes nothing. -/
theorem closeConn_closed (c : HTTPConn) (uc : Int) (h : c.socketFd = -1) :
    closeConn c uc = (c, uc) := by
  unfold closeConn
  rw [if_neg (by rw [h]; decide)]

theorem slotsInUse_free (s : Server) (h : ∀ i, i < MAX_FD → (s.users i).socketFd = -1) :
    slotsInUse s = 0 := by
  unfold slotsInUse
  rw [List.length_eq_zero, List.filter_eq_nil_iff]
  intro i hi
  rw [List.mem_range] at hi
  simp [h i hi]

theorem offsetOf_readBuffer : offsetOf .readBuffer = 20 := by decide

theorem offsetOf_writeBuffer : offsetOf .writeBuffer = 2317 := by decide

theorem sizeofHTTPConn_eq : sizeofHTTPConn = 3544 := by decide

theorem overrunBytes_eq : overrunBytes = 821 := by decide

/-- The members declared behind `writeBuffer` lie within the 2048 bytes that
`bzero(writeBuffer, READ_BUFFER_SIZE)` covers, and so do `socketFd`, `address`
and the first 801 bytes of `readBuffer` of the next element of `users`. -/
theorem bzero_writeBuffer_covers :
    (∀ m ∈ [Member.writeIndex, Member.fileAddress, Member.fileStat, Member.iv, Member.ivCount],
      offsetOf .writeBuffer + WRITE_BUFFER_SIZE.toNat ≤ offsetOf m ∧
        offsetOf m + m.size ≤ offsetOf .writeBuffer + READ_BUFFER_SIZE.toNat) ∧
    sizeofHTTPConn + offsetOf .address + Member.address.size
      ≤ offsetOf .writeBuffer + READ_BUFFER_SIZE.toNat ∧
    sizeofHTTPConn + offsetOf .readBuffer + 801
      = offsetOf .writeBuffer + READ_BUFFER_SIZE.toNat := by decide

/-- The table after `users[i].init(fd, addr)` when slot `i + 1` exists. -/
theorem apply_init (s : Server) (i : Nat) (fd : Int) (hi : i + 1 < MAX_FD) :
    s.apply (SlotOp.init i fd)
      = ⟨setSlot (setSlot s.users i ((s.users i).init fd s.userCount).1) (i + 1)
          (zeroedFromBelow (s.users (i + 1))), toInt32 (s.userCount + 1), s.pool⟩ := by
  have e : setSlot s.users i ((s.users i).init fd s.userCount).1 (i + 1) = s.users (i + 1) := by
    unfold setSlot
    rw [if_neg (by omega)]
  show (⟨if i + 1 < MAX_FD then _ else _, _, _⟩ : Server) = _
  rw [if_pos hi, e]
  rfl

/-- C16 (what the code does at the failing input). The table counts its
connections correctly (`userCount` is the number of slots with
`socketFd != -1`) and the slots `i` and `i + 1` are free.  The call
`users[i].init(fd, addr)`, which the claim admits, increments `userCount` by
one and sets `socketFd` of slot `i`; its `bzero(writeBuffer, READ_BUFFER_SIZE)`
covers 2048 bytes from offset 2317 of an object of 3544 bytes and so zeroes
`socketFd` of slot `i + 1` as well: afterwards two more slots have
`socketFd != -1`, and `userCount` is one less than their number. -/
theorem C16_init_opens_next_slot (s : Server) (i : Nat) (fd : Int)
    (hcount : s.userCount = (slotsInUse s : Int)) (hi : i + 1 < MAX_FD)
    (hfree : (s.users i).socketFd = -1) (hnext : (s.users (i + 1)).socketFd = -1)
    (hfd : fd ≠ -1) :
    (SlotOp.init i fd).Allowed s ∧
    (s.apply (SlotOp.init i fd)).userCount = (slotsInUse s : Int) + 1 ∧
    slotsInUse (s.apply (SlotOp.init i fd)) = slotsInUse s + 2 ∧
    ((s.apply (SlotOp.init i fd)).users i).socketFd = fd ∧
    ((s.apply (SlotOp.init i fd)).users (i + 1)).socketFd = 0 ∧
    offsetOf .writeBuffer = 2317 ∧ sizeofHTTPConn = 3544 ∧
    sizeofHTTPConn + offsetOf .socketFd + Member.socketFd.size
      ≤ offsetOf .writeBuffer + READ_BUFFER_SIZE.toNat := by
  have hle := slotsInUse_le s
  have hmax : MAX_FD = 65536 := rfl
  have h1 := slotsInUse_setSlot s i ((s.users i).init fd s.userCount).1
    (toInt32 (s.userCount + 1)) s.pool (by omega)
  have hs : ((s.users i).init fd s.userCount).1.socketFd = fd := rfl
  rw [hs, if_neg (by rw [hfree]; decide), if_pos hfd] at h1
  have h2 := slotsInUse_setSlot
    ⟨setSlot s.users i ((s.users i).init fd s.userCount).1, toInt32 (s.userCount + 1), s.pool⟩
    (i + 1) (zeroedFromBelow (s.users (i + 1))) (toInt32 (s.userCount + 1)) s.pool hi
  have e : setSlot s.users i ((s.users i).init fd s.userCount).1 (i + 1) = s.users (i + 1) := by
    unfold setSlot
    rw [if_neg (by omega)]
  have hz : (zeroedFromBelow (s.users (i + 1))).socketFd = 0 := rfl
  dsimp only at h2
  rw [e, hz, if_neg (by rw [hnext]; decide), if_pos (by decide)] at h2
  rw [apply_init s i fd hi]
  refine ⟨⟨by omega, hfree, hfd⟩, ?_, by omega, ?_, ?_, by decide, by decide, by decide⟩
  · show toInt32 (s.userCount + 1) = _
    rw [toInt32_id _ (by omega) (by omega), hcount]
  · show (setSlot (setSlot s.users i ((s.users i).init fd s.userCount).1) (i + 1)
      (zeroedFromBelow (s.users (i + 1))) i).socketFd = fd
    unfold setSlot
    rw [if_neg (by omega), if_pos rfl]
    rfl
  · show (setSlot (setSlot s.users i ((s.users i).init fd s.userCount).1) (i + 1)
      (zeroedFromBelow (s.users (i + 1))) (i + 1)).socketFd = 0
    unfold setSlot
    rw [if_pos rfl]
    rfl

/-- C16 on the empty table: after `users[5].init(5, addr)` `userCount` is 1,
and two slots have `socketFd != -1`: slot 5 with the descriptor 5 and slot 6
with the descriptor 0. -/
theorem C16_init_opens_next_slot_witness :
    (emptyServer.apply (SlotOp.init 5 5)).userCount = 1 ∧
    slotsInUse (emptyServer.apply (SlotOp.init 5 5)) = 2 ∧
    ((emptyServer.apply (SlotOp.init 5 5)).users 5).socketFd = 5 ∧
    ((emptyServer.apply (SlotOp.init 5 5)).users 6).socketFd = 0 := by
  have h0 : slotsInUse emptyServer = 0 := slotsInUse_free emptyServer (fun _ _ => rfl)
  obtain ⟨_, h1, h2, h3, h4, _⟩ := C16_init_opens_next_slot emptyServer 5 5
    (by rw [h0]; rfl) (by decide) rfl rfl (by decide)
  rw [h0] at h1 h2
  exact ⟨h1, h2, h3, h4⟩

/-! ## What `processRead` leaves alone, and the codes it returns -/

theorem Kept.same (c : HTTPConn) : Kept c c := ⟨rfl, rfl, rfl, rfl⟩

theorem Kept.chain {a b c : HTTPConn} (h1 : Kept a b) (h2 : Kept b c) : Kept a c :=
  ⟨h2.socketFd.trans h1.socketFd, h2.armed.trans h1.armed, h2.writeIndex.trans h1.writeIndex,
    h2.realFileEnd.trans h1.realFileEnd⟩

theorem Kept.behind {a b c : HTTPConn} (h2 : Kept b c) (h1 : Kept a b) : Kept a c :=
  h1.chain h2

theorem parseLineLoop_kept : ∀ (n : Nat) (c : HTTPConn), Kept c (parseLineLoop n c).2 := by
  intro n
  induction n with
  | zero => intro c; exact ⟨rfl, rfl, rfl, rfl⟩
  | succ k ih =>
    intro c
    rw [parseLineLoop]
    dsimp only
    split_ifs
    · exact ⟨rfl, rfl, rfl, rfl⟩
    · exact ⟨rfl, rfl, rfl, rfl⟩
    · exact ⟨rfl, rfl, rfl, rfl⟩
    · exact ⟨rfl, rfl, rfl, rfl⟩
    · exact ⟨rfl, rfl, rfl, rfl⟩
    · exact (ih { c with checkedIndex := c.checkedIndex + 1 }).behind ⟨rfl, rfl, rfl, rfl⟩
    · exact ⟨rfl, rfl, rfl, rfl⟩

theorem parseLine_kept (c : HTTPConn) : Kept c (parseLine c).2 :=
  parseLineLoop_kept _ c

theorem parseRequestLine_kept (c : HTTPConn) (text : Int) :
    Kept c (parseRequestLine c text).2 := by
  unfold parseRequestLine
  dsimp only [store]
  repeat' split
  all_goals exact ⟨rfl, rfl, rfl, rfl⟩

theorem parseHeaders_kept (c : HTTPConn) (text : Int) : Kept c (parseHeaders c text).2 := by
  unfold parseHeaders
  dsimp only
  split_ifs <;> exact ⟨rfl, rfl, rfl, rfl⟩

theorem parseContent_kept (c : HTTPConn) (text : Int) : Kept c (parseContent c text).2 := by
  unfold parseContent
  split_ifs <;> exact ⟨rfl, rfl, rfl, rfl⟩

/-- `doRequest` writes the bytes 0 to 198 of `realFile`: the last byte stays. -/
theorem doRequest_realFile (fs : FileSys) (c : HTTPConn) :
    (doRequest fs c).2.realFile (FILENAME_LEN - 1) = c.realFile (FILENAME_LEN - 1) := by
  have e : (doRequest fs c).2.realFile
      = strncpy (setBytes c.realFile 0 (docRoot ++ [0])) (docRoot.length : Int) (urlString c)
        (FILENAME_LEN - (docRoot.length : Int) - 1).toNat := by
    unfold doRequest
    dsimp only
    split
    · rfl
    · split_ifs <;> rfl
  have e1 : (FILENAME_LEN - (docRoot.length : Int) - 1).toNat = 171 := by
    rw [docRoot_length]; rfl
  have hu : ((urlString c).take 171).length ≤ 171 := by
    rw [List.length_take]; exact Nat.min_le_left _ _
  rw [e, e1]
  unfold strncpy
  rw [setBytes_after _ _ _ _ (by
      simp only [List.length_append, List.length_replicate, docRoot_length]
      have : FILENAME_LEN = 200 := rfl
      push_cast
      omega),
    setBytes_after _ _ _ _ (by
      simp only [List.length_append, docRoot_length, List.length_cons, List.length_nil]
      have : FILENAME_LEN = 200 := rfl
      push_cast
      omega)]

theorem doRequest_kept (fs : FileSys) (c : HTTPConn) : Kept c (doRequest fs c).2 := by
  refine ⟨?_, ?_, ?_, doRequest_realFile fs c⟩
  all_goals
    unfold doRequest
    dsimp only
    split
    · rfl
    · split_ifs <;> rfl

theorem doRequest_codes (fs : FileSys) (c : HTTPConn) : answerCode (doRequest fs c).1 := by
  unfold doRequest answerCode
  dsimp only
  split
  · exact Or.inr (Or.inl rfl)
  · split_ifs
    · exact Or.inr (Or.inr (Or.inl rfl))
    · exact Or.inl rfl
    · exact Or.inr (Or.inr (Or.inr rfl))

theorem processReadIter_kept (fs : FileSys) (c : HTTPConn) (ls : LINE_STATUS) :
    Kept c (processReadIter fs c ls).conn ∧
      ∀ code c', processReadIter fs c ls = Iter.ret code c' → answerCode code := by
  have hs : ∀ d : HTTPConn, Kept d { d with startLine := d.checkedIndex } :=
    fun d => ⟨rfl, rfl, rfl, rfl⟩
  unfold processReadIter
  dsimp only
  by_cases hc : c.checkState = CHECK_STATE_CONTENT ∧ ls = LINE_OK
  · rw [if_pos hc]
    simp only [Bool.true_eq_false, if_false]
    rw [show ({ c with startLine := c.checkedIndex } : HTTPConn).checkState = CHECK_STATE_CONTENT
      from hc.1]
    dsimp only
    split_ifs
    · refine ⟨(doRequest_kept fs _).behind ((parseContent_kept _ _).behind ⟨rfl, rfl, rfl, rfl⟩), ?_⟩
      intro code c' h
      injection h with h1 h2
      rw [← h1]
      exact doRequest_codes fs _
    · refine ⟨(parseContent_kept _ _).behind ⟨rfl, rfl, rfl, rfl⟩, ?_⟩
      intro code c' h
      cases h
  · rw [if_neg hc]
    dsimp only
    have hp := parseLine_kept c
    by_cases hk : (parseLine c).1 = LINE_OK
    · simp only [hk, decide_True, Bool.true_eq_false, if_false]
      have h1 : Kept c { (parseLine c).2 with startLine := (parseLine c).2.checkedIndex } :=
        (hs (parseLine c).2).behind hp
      split
      · split_ifs
        · refine ⟨(parseRequestLine_kept _ _).behind h1, ?_⟩
          intro code c' h
          injection h with h1 h2
          exact Or.inl h1.symm
        · refine ⟨(parseRequestLine_kept _ _).behind h1, ?_⟩
          intro code c' h
          cases h
      · split_ifs
        · refine ⟨(parseHeaders_kept _ _).behind h1, ?_⟩
          intro code c' h
          injection h with h1 h2
          exact Or.inl h1.symm
        · refine ⟨(doRequest_kept fs _).behind ((parseHeaders_kept _ _).behind h1), ?_⟩
          intro code c' h
          injection h with h1 h2
          rw [← h1]
          exact doRequest_codes fs _
        · refine ⟨(parseHeaders_kept _ _).behind h1, ?_⟩
          intro code c' h
          cases h
      · split_ifs
        · refine ⟨(doRequest_kept fs _).behind ((parseContent_kept _ _).behind h1), ?_⟩
          intro code c' h
          injection h with h1 h2
          rw [← h1]
          exact doRequest_codes fs _
        · refine ⟨(parseContent_kept _ _).behind h1, ?_⟩
          intro code c' h
          cases h
    · simp only [hk, decide_False, if_true]
      refine ⟨hp, ?_⟩
      intro code c' h
      cases h

theorem processReadLoop_kept (fs : FileSys) : ∀ (n : Nat) (c : HTTPConn) (ls : LINE_STATUS)
    (r : HTTP_CODE × HTTPConn), processReadLoop fs n c ls = some r →
    Kept c r.2 ∧ (r.1 = NO_REQUEST ∨ answerCode r.1) := by
  intro n
  induction n with
  | zero => intro c ls r h; simp [processReadLoop] at h
  | succ m ih =>
    intro c ls r h
    rw [processReadLoop] at h
    obtain ⟨hi, hcode⟩ := processReadIter_kept fs c ls
    cases hit : processReadIter fs c ls with
    | exit c1 =>
      rw [hit] at h hi
      injection h with h; subst h; exact ⟨hi, Or.inl rfl⟩
    | ret code c1 =>
      rw [hit] at h hi
      injection h with h; subst h; exact ⟨hi, Or.inr (hcode code c1 hit)⟩
    | next c1 ls1 =>
      rw [hit] at h hi
      obtain ⟨a, b⟩ := ih c1 ls1 r h
      exact ⟨hi.chain a, b⟩

/-- `processRead` keeps the socket, the event masks, `writeIndex` and the end
of `realFile`, and returns `NO_REQUEST`, `BAD_REQUEST` or a code of
`doRequest`. -/
theorem processRead_kept (fs : FileSys) (c : HTTPConn) (r : HTTP_CODE × HTTPConn)
    (h : processRead fs c = some r) : Kept c r.2 ∧ (r.1 = NO_REQUEST ∨ answerCode r.1) :=
  processReadLoop_kept fs _ c LINE_OK r h

/-! ## The worker entry -/

theorem addResponse_sock (c : HTTPConn) (out : List Nat) :
    (addResponse c out).2.socketFd = c.socketFd ∧ (addResponse c out).2.armed = c.armed ∧
      (addResponse c out).2.fileAddress = c.fileAddress := by
  unfold addResponse
  dsimp only
  split_ifs <;> exact ⟨rfl, rfl, rfl⟩

theorem addHeaders_sock (c : HTTPConn) (n : Int) :
    (addHeaders c n).2.socketFd = c.socketFd ∧ (addHeaders c n).2.armed = c.armed ∧
      (addHeaders c n).2.fileAddress = c.fileAddress := by
  unfold addHeaders addContentLength addContentType addLinger addBlankLine
  dsimp only
  split_ifs <;> simp only [addResponse_sock, and_self]

theorem errorResponse_sock (c : HTTPConn) (status : Int) (title form : List Nat) :
    (errorResponse c status title form).2.socketFd = c.socketFd ∧
      (errorResponse c status title form).2.armed = c.armed ∧
      (errorResponse c status title form).2.fileAddress = c.fileAddress := by
  have a := addResponse_sock c
    (bytes "HTTP/1.1" ++ [32] ++ fmtD status ++ [32] ++ title ++ bytes "\r\n")
  have b := addHeaders_sock (addStatusLine c status title).2 (toInt32 form.length)
  have d := addResponse_sock (addHeaders (addStatusLine c status title).2
    (toInt32 form.length)).2 form
  have e : (addContent (addHeaders (addStatusLine c status title).2 (toInt32 form.length)).2
      form).2.socketFd = c.socketFd ∧
      (addContent (addHeaders (addStatusLine c status title).2 (toInt32 form.length)).2
        form).2.armed = c.armed ∧
      (addContent (addHeaders (addStatusLine c status title).2 (toInt32 form.length)).2
        form).2.fileAddress = c.fileAddress :=
    ⟨d.1.trans (b.1.trans a.1), d.2.1.trans (b.2.1.trans a.2.1),
      d.2.2.trans (b.2.2.trans a.2.2)⟩
  unfold errorResponse
  dsimp only
  split_ifs
  · exact e
  · exact e

/-- Response assembly leaves the socket, the event masks and the mapping
alone. -/
theorem processWrite_sock (c : HTTPConn) (code : HTTP_CODE) :
    (processWrite c code).2.socketFd = c.socketFd ∧ (processWrite c code).2.armed = c.armed ∧
      (processWrite c code).2.fileAddress = c.fileAddress := by
  have a := addResponse_sock c
    (bytes "HTTP/1.1" ++ [32] ++ fmtD 200 ++ [32] ++ ok_200_title ++ bytes "\r\n")
  have b := addHeaders_sock (addStatusLine c 200 ok_200_title).2
    (toInt32 (addStatusLine c 200 ok_200_title).2.fileStat.st_size)
  have e : (addHeaders (addStatusLine c 200 ok_200_title).2
      (toInt32 (addStatusLine c 200 ok_200_title).2.fileStat.st_size)).2.socketFd = c.socketFd ∧
      (addHeaders (addStatusLine c 200 ok_200_title).2
        (toInt32 (addStatusLine c 200 ok_200_title).2.fileStat.st_size)).2.armed = c.armed ∧
      (addHeaders (addStatusLine c 200 ok_200_title).2
        (toInt32 (addStatusLine c 200 ok_200_title).2.fileStat.st_size)).2.fileAddress
        = c.fileAddress :=
    ⟨b.1.trans a.1, b.2.1.trans a.2.1, b.2.2.trans a.2.2⟩
  cases code
  · exact ⟨rfl, rfl, rfl⟩
  · exact ⟨rfl, rfl, rfl⟩
  · exact errorResponse_sock _ _ _ _
  · exact errorResponse_sock _ _ _ _
  · exact errorResponse_sock _ _ _ _
  · exact e
  · exact errorResponse_sock _ _ _ _
  · exact ⟨rfl, rfl, rfl⟩

/-- On an empty write buffer `processWrite` succeeds for every code that
`processRead` returns besides `NO_REQUEST`. -/
theorem processWrite_answers (c : HTTPConn) (code : HTTP_CODE) (hcode : answerCode code)
    (h0 : c.writeIndex = 0) : (processWrite c code).1 = true := by
  rcases hcode with h | h | h | h <;> subst h
  · obtain ⟨c', a, _⟩ := errorResponse_composed c 400 error_400_title error_400_form
      h0 (by norm_num) (by norm_num) (by decide)
    show (errorResponse c 400 error_400_title error_400_form).1 = true
    rw [a]
  · obtain ⟨c', a, _⟩ := errorResponse_composed c 404 error_404_title error_404_form
      h0 (by norm_num) (by norm_num) (by decide)
    show (errorResponse c 404 error_404_title error_404_form).1 = true
    rw [a]
  · obtain ⟨c', a, _⟩ := errorResponse_composed c 403 error_403_title error_403_form
      h0 (by norm_num) (by norm_num) (by decide)
    show (errorResponse c 403 error_403_title error_403_form).1 = true
    rw [a]
  · obtain ⟨c', a, _⟩ := file_response c h0
    rw [a]

/-- What `process` does on an empty write buffer: it returns, with the static
`userCount` as it was; either `processRead` found no complete request and the
socket is armed for `EPOLLIN`, or the response is composed and the socket is
armed for `EPOLLOUT`. -/
theorem process_spec (fs : FileSys) (c : HTTPConn) (uc : Int) (h0 : c.writeIndex = 0) :
    ∃ code c1, processRead fs c = some (code, c1) ∧ Kept c c1 ∧
      ((code = NO_REQUEST ∧ process fs c uc = some (modfd c1 EPOLLIN, uc)) ∨
        (answerCode code ∧ (processWrite c1 code).1 = true ∧
          process fs c uc = some (modfd (processWrite c1 code).2 EPOLLOUT, uc))) := by
  obtain ⟨⟨code, c1⟩, hr⟩ := processRead_returns fs c
  obtain ⟨hk, hcode⟩ := processRead_kept fs c _ hr
  dsimp only at hk hcode
  refine ⟨code, c1, hr, hk, ?_⟩
  rcases hcode with h | h
  · left
    refine ⟨h, ?_⟩
    unfold process
    rw [hr]
    dsimp only
    rw [if_pos h]
  · right
    have hne : code ≠ NO_REQUEST := by
      rcases h with h | h | h | h <;> rw [h] <;> decide
    have hw := processWrite_answers c1 code h (by rw [hk.writeIndex, h0])
    refine ⟨h, hw, ?_⟩
    unfold process
    rw [hr]
    dsimp only
    rw [if_neg hne, hw]
    rfl

theorem getLast_modfd (c : HTTPConn) (ev : Nat) :
    (modfd c ev).armed.getLast?.getD 0 = ev ||| EPOLLET ||| EPOLLONESHOT ||| EPOLLRDHUP := by
  simp [modfd]

theorem rearmed_out (c : HTTPConn) :
    rearmed (modfd c EPOLLOUT) = Phase.free ∨ rearmed (modfd c EPOLLOUT) = Phase.armedOut := by
  unfold rearmed
  rw [getLast_modfd]
  split_ifs with h1 h2
  · exact Or.inl rfl
  · exact Or.inr rfl
  · exact absurd (by decide) h2

theorem writeLoop_true : ∀ (rs : List WritevResult) (c : HTTPConn) (ts hs : Int) (c' : HTTPConn),
    writeLoop rs c ts hs = some (true, c') →
    c' = modfd c EPOLLOUT ∨ c' = modfd (init (unmap c)) EPOLLIN := by
  intro rs
  induction rs with
  | nil => intro c ts hs c' h; simp [writeLoop] at h
  | cons r rs ih =>
    intro c ts hs c' h
    cases r with
    | eagain =>
      simp only [writeLoop, Option.some.injEq, Prod.mk.injEq, true_and] at h
      exact Or.inl h.symm
    | error =>
      simp [writeLoop] at h
    | sent n =>
      rw [writeLoop] at h
      dsimp only at h
      split_ifs at h with h1 h2
      · simp only [Option.some.injEq, Prod.mk.injEq, true_and] at h
        exact Or.inr h.symm
      · simp at h
      · exact ih c _ _ c' h

theorem modfd_keeps (c : HTTPConn) (ev : Nat) :
    Inv (modfd c ev) = Inv c ∧ (modfd c ev).writeIndex = c.writeIndex ∧
      (modfd c ev).socketFd = c.socketFd := ⟨rfl, rfl, rfl⟩

/-- Every event keeps a slot that is held for reading in order. -/
theorem slotStep_ready (fs : FileSys) (s s' : SlotState) (e : Event) (hs : ReadyToParse s)
    (h : slotStep fs s e = some s') : ReadyToParse s' := by
  cases e with
  | accept fd =>
    simp only [slotStep] at h
    split_ifs at h
    injection h with h
    subst h
    intro _
    exact ⟨init_inv _, rfl⟩
  | hangup =>
    simp only [slotStep] at h
    split_ifs at h
    injection h with h
    subst h
    intro hp
    rcases hp with hp | hp <;> cases hp
  | readable results =>
    simp only [slotStep] at h
    split_ifs at h with hph
    cases hr : read s.conn results with
    | none => rw [hr] at h; cases h
    | some r =>
      obtain ⟨ok, c⟩ := r
      rw [hr] at h
      dsimp only at h
      obtain ⟨hinv, hw⟩ := hs (Or.inl hph)
      obtain ⟨e, hle, hb⟩ := read_frame s.conn results ok c hr
      split_ifs at h
      · injection h with h
        subst h
        intro _
        have e1 : c.startLine = s.conn.startLine := by rw [e]
        have e2 : c.checkedIndex = s.conn.checkedIndex := by rw [e]
        have e3 : c.writeIndex = s.conn.writeIndex := by rw [e]
        refine ⟨⟨?_, ?_, ?_, hb hinv.2.2.2⟩, by rw [e3]; exact hw⟩
        · rw [e1]; exact hinv.1
        · rw [e1, e2]; exact hinv.2.1
        · rw [e2]; exact le_trans hinv.2.2.1 hle
      · injection h with h
        subst h
        intro hp
        rcases hp with hp | hp <;> cases hp
  | work =>
    simp only [slotStep] at h
    split_ifs at h with hph
    obtain ⟨hinv, hw⟩ := hs (Or.inr hph)
    obtain ⟨code, c1, hr, hk, hcase⟩ := process_spec fs s.conn s.userCount hw
    have hinv1 : Inv c1 := processReadLoop_inv fs _ s.conn LINE_OK (code, c1) hinv hr
    rcases hcase with ⟨_, hp⟩ | ⟨_, _, hp⟩
    · rw [hp] at h
      injection h with h
      subst h
      intro _
      exact ⟨hinv1, by rw [← hw, ← hk.writeIndex]; rfl⟩
    · rw [hp] at h
      injection h with h
      subst h
      intro hph'
      rcases rearmed_out (processWrite c1 code).2 with e | e <;>
        rcases hph' with hp' | hp' <;> (dsimp only at hp'; rw [e] at hp'; cases hp')
  | writable results =>
    simp only [slotStep] at h
    split_ifs at h with hph
    cases hr : write s.conn results with
    | none => rw [hr] at h; cases h
    | some r =>
      obtain ⟨ok, c⟩ := r
      rw [hr] at h
      dsimp only at h
      split_ifs at h with hok
      · injection h with h
        subst h
        subst hok
        have hc : c = modfd s.conn EPOLLOUT ∨ (Inv c ∧ c.writeIndex = 0) := by
          unfold write at hr
          dsimp only at hr
          split_ifs at hr with hz
          · injection hr with hr
            injection hr with _ hr
            right
            rw [← hr]
            exact ⟨init_inv _, rfl⟩
          · rcases writeLoop_true _ _ _ _ _ hr with e | e
            · exact Or.inl e
            · right
              rw [e]
              exact ⟨init_inv (unmap s.conn), rfl⟩
        rcases hc with e | e
        · intro hph'
          rcases rearmed_out s.conn with e' | e' <;>
            rcases hph' with hp' | hp' <;> (dsimp only at hp'; rw [e, e'] at hp'; cases hp')
        · intro _
          exact e
      · injection h with h
        subst h
        intro hp
        rcases hp with hp | hp <;> cases hp

theorem slotRun_ready (fs : FileSys) : ∀ (events : List Event) (s s' : SlotState),
    ReadyToParse s → slotRun fs s events = some s' → ReadyToParse s' := by
  intro events
  induction events with
  | nil =>
    intro s s' hs h
    injection h with h
    rw [← h]
    exact hs
  | cons e es ih =>
    intro s s' hs h
    rw [slotRun] at h
    cases hstep : slotStep fs s e with
    | none => rw [hstep] at h; cases h
    | some s1 =>
      rw [hstep] at h
      exact ih s1 s' (slotStep_ready fs s s1 e hs hstep) h

/-- The worker entry on a slot of the model.  Take any sequence of events on a
slot, starting from the free slot with `init(fd, addr)` for an accepted
descriptor and going on with `read()`, `process()`, `write()` and
`closeConn()` as the event loop and the workers call them.  Whenever the slot
then waits for a worker, `writeIndex` is 0, `processWrite` succeeds for
whatever code other than `NO_REQUEST` `processRead` returns, and `process()`
does not call `closeConn()`: `userCount` is as it was.  When the run has
stored nothing outside `readBuffer`, `socketFd` is as it was, too. -/
theorem process_keeps_userCount (fs : FileSys) (c0 : HTTPConn) (uc0 : Int)
    (events : List Event) (s : SlotState)
    (hrun : slotRun fs ⟨Phase.free, c0, uc0⟩ events = some s) (hq : s.phase = Phase.queued) :
    s.conn.writeIndex = 0 ∧
    (∀ code c1, processRead fs s.conn = some (code, c1) → code ≠ NO_REQUEST →
      (processWrite c1 code).1 = true) ∧
    ∃ c', process fs s.conn s.userCount = some (c', s.userCount) ∧
      (StoresInside c' → c'.socketFd = s.conn.socketFd) := by
  have hready : ReadyToParse s :=
    slotRun_ready fs events _ s (fun hp => by rcases hp with hp | hp <;> cases hp) hrun
  obtain ⟨_, hw⟩ := hready (Or.inr hq)
  obtain ⟨code, c1, hr, hk, hcase⟩ := process_spec fs s.conn s.userCount hw
  refine ⟨hw, ?_, ?_⟩
  · intro code' c1' hr' hne
    rw [hr] at hr'
    injection hr' with hr'
    injection hr' with e1 e2
    subst e1
    subst e2
    rcases hcase with ⟨h, _⟩ | ⟨_, h, _⟩
    · exact absurd h hne
    · exact h
  · rcases hcase with ⟨_, hp⟩ | ⟨_, _, hp⟩
    · exact ⟨_, hp, fun _ => hk.socketFd⟩
    · exact ⟨_, hp, fun _ => (processWrite_sock c1 code).1.trans hk.socketFd⟩

theorem slotStep_readable (fs : FileSys) (s : SlotState) (results : List RecvResult)
    (c : HTTPConn) (hph : s.phase = Phase.armedIn) (hr : read s.conn results = some (true, c)) :
    slotStep fs s (Event.readable results) = some ⟨Phase.queued, c, s.userCount⟩ := by
  simp only [slotStep]
  rw [if_pos hph, hr]
  rfl

theorem slotStep_work (fs : FileSys) (s : SlotState) (c : HTTPConn) (uc : Int)
    (hph : s.phase = Phase.queued) (hp : process fs s.conn s.userCount = some (c, uc)) :
    slotStep fs s Event.work = some ⟨rearmed c, c, uc⟩ := by
  simp only [slotStep]
  rw [if_pos hph, hp]

theorem slotStep_hangup (fs : FileSys) (s : SlotState)
    (hph : s.phase = Phase.armedIn ∨ s.phase = Phase.armedOut) :
    slotStep fs s Event.hangup
      = some ⟨Phase.free, (closeConn s.conn s.userCount).1, (closeConn s.conn s.userCount).2⟩ := by
  simp only [slotStep]
  rw [if_pos hph]

/-- A concrete run: descriptor 5 is accepted and the request `GET / HTTP/1.1`
arrives; the slot waits for a worker with one connection counted, and
`process()` leaves `userCount` as it is. -/
theorem process_keeps_userCount_example :
    ∃ s, slotRun noFiles ⟨Phase.free, blank, 0⟩
        [Event.accept 5,
          Event.readable [RecvResult.data (bytes "GET / HTTP/1.1\r\n\r\n"), RecvResult.eagain]]
        = some s ∧
      s.phase = Phase.queued ∧ s.userCount = 1 ∧ s.conn.socketFd = 5 ∧ s.conn.writeIndex = 0 ∧
      ∃ c', process noFiles s.conn s.userCount = some (c', s.userCount) ∧
        (StoresInside c' → c'.socketFd = s.conn.socketFd) := by
  have h1 : slotStep noFiles ⟨Phase.free, blank, 0⟩ (Event.accept 5)
      = some ⟨Phase.armedIn, (blank.init 5 0).1, 1⟩ := rfl
  have hr := read_recvSegment (blank.init 5 0).1 (bytes "GET / HTTP/1.1\r\n\r\n")
    (by decide) (by decide)
  have h2 : slotStep noFiles ⟨Phase.armedIn, (blank.init 5 0).1, 1⟩
      (Event.readable [RecvResult.data (bytes "GET / HTTP/1.1\r\n\r\n"), RecvResult.eagain])
      = some ⟨Phase.queued, recvSegment (blank.init 5 0).1 (bytes "GET / HTTP/1.1\r\n\r\n"), 1⟩ := by
    exact slotStep_readable noFiles _ _ _ rfl hr
  have hrun : slotRun noFiles ⟨Phase.free, blank, 0⟩
      [Event.accept 5,
        Event.readable [RecvResult.data (bytes "GET / HTTP/1.1\r\n\r\n"), RecvResult.eagain]]
      = some ⟨Phase.queued, recvSegment (blank.init 5 0).1 (bytes "GET / HTTP/1.1\r\n\r\n"), 1⟩ := by
    rw [slotRun, h1]
    dsimp only
    rw [slotRun, h2]
    rfl
  obtain ⟨hw, _, hp⟩ := process_keeps_userCount noFiles blank 0 _ _ hrun rfl
  exact ⟨_, hrun, rfl, rfl, rfl, hw, hp⟩

/-! ## A request for a file, and the mapping when the peer hangs up -/

/-- A store at an offset whose byte is neither NUL nor a byte of the string
leaves the C string as it is. -/
theorem CStrAt.elsewhere {m : Int → Nat} {p : Int} {l : List Nat} (h : CStrAt m p l) (i : Int)
    (v : Nat) (h0 : m i ≠ 0) (hl : ∀ b ∈ l, b ≠ m i) : CStrAt (setByte m i v) p l := by
  apply h.frame
  by_contra hcon
  have h1 : p ≤ i := by omega
  have h2 : i ≤ p + l.length := by omega
  rcases eq_or_lt_of_le h2 with e | e
  · rw [e] at h0
    exact h0 h.2.2.1
  · have hk : (i - p).toNat < l.length := by omega
    have hg := at_get l m p (i - p).toNat hk h.1
    have hi : p + ((i - p).toNat : Int) = i := by omega
    rw [hi] at hg
    exact hl _ (List.get_mem l _ _) hg.symm

/-- The empty line that ends the header of a request without body, when the
URL recorded by the request line has no `\r` and no `\n`: the iteration
returns what `doRequest` returns in a state whose URL is still that string. -/
theorem step_blank_get (fs : FileSys) (c : HTTPConn) (ls : LINE_STATUS)
    (hst : c.checkState = CHECK_STATE_HEADER) (hinv : Inv c) (hr : LineReady c [])
    (hcl : c.contentLength = 0) (p : Int) (U : List Nat) (hu : c.url = some p)
    (hU : CStrAt c.readBuffer p U) (hfree : ∀ b ∈ U, b ≠ 13 ∧ b ≠ 10) :
    ∃ c1, processReadIter fs c ls = Iter.ret (doRequest fs c1).1 (doRequest fs c1).2 ∧
      urlString c1 = U := by
  have hc := lineState_cstr c [] hinv hr
  have h0 : (lineStart c (c.startLine + (([] : List Nat).length : Int))).readBuffer c.startLine
      = 0 := by
    have := hc.2.2.1
    simpa [cline] using this
  rw [processReadIter_line fs c ls [] (by rw [hst]; decide) hinv.2.1 hr, hst]
  dsimp only
  rw [parseHeaders_blank _ _ h0]
  have hcl' : ¬ (lineStart c (c.startLine + (([] : List Nat).length : Int))).contentLength ≠ 0 :=
    not_not.mpr hcl
  rw [if_neg hcl']
  dsimp only
  rw [if_neg (by intro h; cases h), if_pos rfl]
  refine ⟨_, rfl, ?_⟩
  have hat := hr.1
  have e13 : c.readBuffer c.startLine = 13 := hat.1
  have e10 : c.readBuffer (c.startLine + 1) = 10 := hat.2.1
  have s1 : CStrAt (setByte c.readBuffer c.startLine 0) p U :=
    hU.elsewhere _ 0 (by rw [e13]; decide) (fun b hb => by rw [e13]; exact (hfree b hb).1)
  have e10' : setByte c.readBuffer c.startLine 0 (c.startLine + 1) = 10 := by
    rw [setByte_other _ _ _ _ (by omega)]; exact e10
  have s2 : CStrAt (setByte (setByte c.readBuffer c.startLine 0) (c.startLine + 1) 0) p U :=
    s1.elsewhere _ 0 (by rw [e10']; decide) (fun b hb => by rw [e10']; exact (hfree b hb).2)
  have hurl : (lineStart c (c.startLine + (([] : List Nat).length : Int))).url = some p := hu
  have hbuf : (lineStart c (c.startLine + (([] : List Nat).length : Int))).readBuffer
      = setByte (setByte c.readBuffer c.startLine 0) (c.startLine + 1) 0 := by
    simp only [lineStart, lineDone, List.length_nil, Nat.cast_zero, add_zero]
  unfold urlString
  rw [hurl]
  dsimp only
  rw [hbuf]
  exact cstr_eq s2

/-- A freshly received request without header lines and without body whose
request line is in order: `processRead` returns what `doRequest` returns for
the URL of the request line. -/
theorem get_request (fs : FileSys) (c0 : HTTPConn) (reqLine : List Nat)
    (hreq : requestLineOk (cline reqLine)) (hfree : ∀ b ∈ reqLine, b ≠ 13 ∧ b ≠ 10)
    (hU : ∀ b ∈ stripHost (urlToken (cline reqLine)), b ≠ 13 ∧ b ≠ 10)
    (hlen : ((reqLine ++ [13, 10] ++ [13, 10]).length : Int) ≤ READ_BUFFER_SIZE) :
    ∃ c1, processRead fs (recvSegment (init c0) (reqLine ++ [13, 10] ++ [13, 10]))
        = some (doRequest fs c1) ∧
      urlString c1 = stripHost (urlToken (cline reqLine)) := by
  have hi := fresh_inv c0 _ hlen
  have hr := fresh_lineReady c0 reqLine [13, 10] hfree
  have hlen' : ((reqLine ++ [13, 10] ++ [13, 10]).length : Int) = reqLine.length + 2 + 2 := by
    simp only [List.length_append, List.length_cons, List.length_nil, Nat.cast_add]
    omega
  have hri : (recvSegment (init c0) (reqLine ++ [13, 10] ++ [13, 10])).readIndex
      = reqLine.length + 2 + 2 := by
    rw [← hlen']
    show (0 : Int) + _ = _
    omega
  have hsl : (recvSegment (init c0) (reqLine ++ [13, 10] ++ [13, 10])).startLine = 0 := rfl
  obtain ⟨c1, e1, k1, s1, _, n1, p, hp, hcs⟩ :=
    step_requestLine_ok fs _ LINE_OK reqLine rfl hi hr hreq
  rw [hsl, zero_add] at k1
  have hinv1 : Inv c1 := k1.toInv hi (by omega) (by rw [hri]; omega)
  have hat : At (recvSegment (init c0) (reqLine ++ [13, 10] ++ [13, 10])).readBuffer
      ((reqLine.length : Int) + 2) [13, 10] := by
    have := ((at_append _ _ _ _).mp (fresh_at c0 (reqLine ++ [13, 10] ++ [13, 10]))).2
    have hq : (0 : Int) + ((reqLine ++ [13, 10]).length : Int) = reqLine.length + 2 := by
      simp only [List.length_append, List.length_cons, List.length_nil, Nat.cast_add]
      omega
    rw [hq] at this
    exact this
  have hr1 : LineReady c1 [] := by
    refine ⟨?_, by simp, ?_, ?_⟩
    · rw [k1.startLine]
      exact at_congr _ _ _ _ (fun j hj _ => k1.buffer j hj) hat
    · rw [k1.checkedIndex, k1.startLine]; simp
    · rw [k1.startLine, k1.readIndex, hri]
      simp only [List.length_nil, Nat.cast_zero]
      omega
  obtain ⟨c2, e2, hu2⟩ := step_blank_get fs c1 LINE_OK s1 hinv1 hr1 (by rw [n1]; rfl) p _ hp hcs hU
  refine ⟨c2, processRead_of_loop fs (0 + 1 + 1) _ _ ?_, hu2⟩
  rw [loop_next e1 (0 + 1)]
  exact loop_ret e2 0

/-- `doRequest` on a world-readable regular file. -/
theorem doRequest_file (fs : FileSys) (c : HTTPConn) (st : Stat)
    (hs : fs.stat (requestPath c) = some st) (h1 : st.st_mode &&& S_IROTH ≠ 0)
    (h2 : st.st_mode &&& S_IFMT ≠ S_IFDIR) :
    (doRequest fs c).1 = FILE_REQUEST ∧
      (doRequest fs c).2.fileAddress = some (fs.mmap (requestPath c)) := by
  unfold requestPath at hs
  unfold doRequest
  simp only [hs]
  rw [if_neg h1, if_neg h2]
  exact ⟨rfl, rfl⟩

/-- C15 (what the code does at the failing input). Descriptor 5 is accepted,
the request `GET /index.html HTTP/1.1` arrives and a worker processes it:
the file is mapped and the socket is armed for `EPOLLOUT`.  The peer now
hangs up: the event loop calls `closeConn()`, which closes the socket and
decrements `userCount` and does not call `unmap()`: the slot is free with
`fileAddress` still pointing to the mapping, and in this state the next
connection accepted on descriptor 5 calls `init()`. -/
theorem C15_mapping_not_released :
    ∃ s1 s2 s3, slotRun siteFiles ⟨Phase.free, blank, 0⟩
        [Event.accept 5,
          Event.readable [RecvResult.data (bytes "GET /index.html HTTP/1.1\r\n\r\n"),
            RecvResult.eagain],
          Event.work] = some s1 ∧
      s1.phase = Phase.armedOut ∧ s1.conn.fileAddress = some (bytes "hello world") ∧
      slotStep siteFiles s1 Event.hangup = some s2 ∧
      s2.phase = Phase.free ∧ s2.conn.socketFd = -1 ∧ s2.userCount = 0 ∧
      s2.conn.fileAddress = some (bytes "hello world") ∧
      slotStep siteFiles s2 (Event.accept 5) = some s3 ∧ s3.phase = Phase.armedIn := by
  have h1 : slotStep siteFiles ⟨Phase.free, blank, 0⟩ (Event.accept 5)
      = some ⟨Phase.armedIn, (blank.init 5 0).1, 1⟩ := rfl
  have hr := read_recvSegment (blank.init 5 0).1 (bytes "GET /index.html HTTP/1.1\r\n\r\n")
    (by decide) (by decide)
  have h2 := slotStep_readable siteFiles ⟨Phase.armedIn, (blank.init 5 0).1, 1⟩ _ _ rfl hr
  have hdata : bytes "GET /index.html HTTP/1.1\r\n\r\n"
      = bytes "GET /index.html HTTP/1.1" ++ [13, 10] ++ [13, 10] := by decide
  have hU : stripHost (urlToken (cline (bytes "GET /index.html HTTP/1.1")))
      = bytes "/index.html" := by decide
  obtain ⟨d, hd, hud⟩ := get_request siteFiles (addfd { blank with socketFd := 5 } true)
    (bytes "GET /index.html HTTP/1.1") (by decide) (by decide) (by decide) (by decide)
  rw [hU] at hud
  obtain ⟨code, c1, hpr, hk, hcase⟩ := process_spec siteFiles
    (recvSegment (blank.init 5 0).1 (bytes "GET /index.html HTTP/1.1\r\n\r\n")) 1 rfl
  have hpr' : processRead siteFiles
      (recvSegment (blank.init 5 0).1 (bytes "GET /index.html HTTP/1.1\r\n\r\n"))
      = some (doRequest siteFiles d) := by
    rw [hdata]
    exact hd
  rw [hpr'] at hpr
  injection hpr with hpr
  have hc1 : c1 = (doRequest siteFiles d).2 := by rw [hpr]
  have hcode : code = (doRequest siteFiles d).1 := by rw [hpr]
  have hend : d.realFile (FILENAME_LEN - 1) = 0 := by
    rw [← doRequest_realFile siteFiles d, ← hc1, hk.realFileEnd]
    rfl
  have hpath : requestPath d = docRoot ++ bytes "/index.html" := by
    rw [requestPath_eq d hend, hud]
    decide
  obtain ⟨f1, f2⟩ := doRequest_file siteFiles d ⟨33188, 11⟩ (by rw [hpath]; decide)
    (by decide) (by decide)
  rw [hpath] at f2
  have hmap : siteFiles.mmap (docRoot ++ bytes "/index.html") = bytes "hello world" := by decide
  rw [hmap, ← hc1] at f2
  rw [← hcode] at f1
  have hproc : process siteFiles
      (recvSegment (blank.init 5 0).1 (bytes "GET /index.html HTTP/1.1\r\n\r\n")) 1
      = some (modfd (processWrite c1 code).2 EPOLLOUT, 1) := by
    rcases hcase with ⟨h, _⟩ | ⟨_, _, h⟩
    · rw [f1] at h; cases h
    · exact h
  have h3 := slotStep_work siteFiles
    ⟨Phase.queued, recvSegment (blank.init 5 0).1 (bytes "GET /index.html HTTP/1.1\r\n\r\n"), 1⟩
    _ _ rfl hproc
  have hsock : (modfd (processWrite c1 code).2 EPOLLOUT).socketFd = 5 := by
    show (processWrite c1 code).2.socketFd = 5
    rw [(processWrite_sock c1 code).1, hk.socketFd]
    rfl
  have hfile : (modfd (processWrite c1 code).2 EPOLLOUT).fileAddress
      = some (bytes "hello world") := by
    show (processWrite c1 code).2.fileAddress = _
    rw [(processWrite_sock c1 code).2.2, f2]
  have hphase : rearmed (modfd (processWrite c1 code).2 EPOLLOUT) = Phase.armedOut := by
    unfold rearmed
    rw [getLast_modfd, hsock, if_neg (by decide), if_pos (by decide)]
  have hrun : slotRun siteFiles ⟨Phase.free, blank, 0⟩
      [Event.accept 5,
        Event.readable [RecvResult.data (bytes "GET /index.html HTTP/1.1\r\n\r\n"),
          RecvResult.eagain],
        Event.work]
      = some ⟨Phase.armedOut, modfd (processWrite c1 code).2 EPOLLOUT, 1⟩ := by
    rw [slotRun, h1]
    dsimp only
    rw [slotRun, h2]
    dsimp only
    rw [slotRun, h3, hphase]
    rfl
  have hclose : closeConn (modfd (processWrite c1 code).2 EPOLLOUT) 1
      = ({ modfd (processWrite c1 code).2 EPOLLOUT with socketFd := -1 }, 0) := by
    unfold closeConn
    rw [if_pos (by rw [hsock]; decide)]
    rfl
  have h4 := slotStep_hangup siteFiles
    ⟨Phase.armedOut, modfd (processWrite c1 code).2 EPOLLOUT, 1⟩ (Or.inr rfl)
  dsimp only at h4
  rw [hclose] at h4
  exact ⟨_, _, _, hrun, rfl, hfile, h4, rfl, rfl, rfl, hfile, rfl, rfl⟩

/-! ## The extent of the stores of `init()` -/

/-- C24 (what the code does). `init()` zeroes `READ_BUFFER_SIZE = 2048` bytes
starting at `writeBuffer`, an array of `WRITE_BUFFER_SIZE = 1024` bytes: every
offset `0 .. 2047` from `writeBuffer` is zero afterwards, so the 1024 bytes
behind the array are written as well (a byte that was 1 at offset 1024 or
2047 is 0 afterwards).  The two other calls of `bzero` stay within their
arrays: outside the offsets `0 .. 2047` of `readBuffer` and `0 .. 199` of
`realFile` nothing is stored. -/
theorem C24_init_zeroes_behind_writeBuffer (c : HTTPConn) :
    (∀ i, 0 ≤ i → i < 2048 → (init c).writeBuffer i = 0) ∧
    WRITE_BUFFER_SIZE = 1024 ∧
    (init { c with writeBuffer := fun _ => 1 }).writeBuffer 1024 = 0 ∧
    (init { c with writeBuffer := fun _ => 1 }).writeBuffer 2047 = 0 ∧
    (∀ i, i < 0 ∨ 2048 ≤ i → (init c).writeBuffer i = c.writeBuffer i) ∧
    (∀ i, i < 0 ∨ READ_BUFFER_SIZE ≤ i → (init c).readBuffer i = c.readBuffer i) ∧
    (∀ i, i < 0 ∨ FILENAME_LEN ≤ i → (init c).realFile i = c.realFile i) := by
  have h2 : READ_BUFFER_SIZE = 2048 := rfl
  refine ⟨?_, rfl, ?_, ?_, ?_, ?_, ?_⟩
  · intro i h0 h1
    show bzero c.writeBuffer READ_BUFFER_SIZE i = 0
    unfold bzero
    rw [if_pos ⟨h0, by omega⟩]
  · show bzero (fun _ => 1) READ_BUFFER_SIZE 1024 = 0
    unfold bzero
    rw [if_pos (by decide)]
  · show bzero (fun _ => 1) READ_BUFFER_SIZE 2047 = 0
    unfold bzero
    rw [if_pos (by decide)]
  · intro i hi
    show bzero c.writeBuffer READ_BUFFER_SIZE i = c.writeBuffer i
    unfold bzero
    rw [if_neg (by omega)]
  · intro i hi
    show bzero c.readBuffer READ_BUFFER_SIZE i = c.readBuffer i
    unfold bzero
    rw [if_neg (by omega)]
  · intro i hi
    have h3 : FILENAME_LEN = 200 := rfl
    show bzero c.realFile FILENAME_LEN i = c.realFile i
    unfold bzero
    rw [if_neg (by omega)]

/-! ## Re-arming -/

theorem closeConn_armed (c : HTTPConn) (uc : Int) : (closeConn c uc).1.armed = c.armed := by
  unfold closeConn
  split_ifs <;> rfl

/-- In the model `process` always returns. -/
theorem process_returns (fs : FileSys) (c : HTTPConn) (uc : Int) :
    ∃ r, process fs c uc = some r := by
  obtain ⟨⟨code, c1⟩, hr⟩ := processRead_returns fs c
  unfold process
  rw [hr]
  dsimp only
  split_ifs <;> exact ⟨_, rfl⟩

/-- A run of `process` issues one `modfd`: for `EPOLLIN` when `processRead`
returned `NO_REQUEST`, for `EPOLLOUT` otherwise. -/
theorem process_armed (fs : FileSys) (c : HTTPConn) (uc : Int) (c' : HTTPConn) (uc' : Int)
    (h : process fs c uc = some (c', uc')) :
    ∃ code c1, processRead fs c = some (code, c1) ∧
      c'.armed = c.armed ++
        [(if code = NO_REQUEST then EPOLLIN else EPOLLOUT) ||| EPOLLET ||| EPOLLONESHOT
          ||| EPOLLRDHUP] := by
  obtain ⟨⟨code, c1⟩, hr⟩ := processRead_returns fs c
  have hk := (processRead_kept fs c _ hr).1
  dsimp only at hk
  refine ⟨code, c1, hr, ?_⟩
  unfold process at h
  rw [hr] at h
  dsimp only at h
  split_ifs at h with h1 h2
  · injection h with h
    injection h with h _
    rw [← h, if_pos h1]
    show c1.armed ++ _ = _
    rw [hk.armed]
  · injection h with h
    injection h with h _
    rw [← h, if_neg h1]
    show (closeConn (processWrite c1 code).2 uc).1.armed ++ _ = _
    rw [closeConn_armed, (processWrite_sock c1 code).2.1, hk.armed]
  · injection h with h
    injection h with h _
    rw [← h, if_neg h1]
    show (processWrite c1 code).2.armed ++ _ = _
    rw [(processWrite_sock c1 code).2.1, hk.armed]

/-- How the loop of `write` ends when `write` returns true: at a `writev`
that would block, with the re-arm for `EPOLLOUT`, or at the `writev` that
completes a keep-alive response, with the reset and the re-arm for
`EPOLLIN`. -/
theorem writeLoop_ends : ∀ (rs : List WritevResult) (c : HTTPConn) (ts hs : Int) (c' : HTTPConn),
    writeLoop rs c ts hs = some (true, c') →
    (c' = modfd c EPOLLOUT ∧
      ∃ (ns : List Nat) (rest : List WritevResult),
        rs = ns.map WritevResult.sent ++ WritevResult.eagain :: rest) ∨
    (c' = modfd (init (unmap c)) EPOLLIN ∧ c.linger = true ∧
      ∃ (ns : List Nat) (n : Nat) (rest : List WritevResult),
        rs = ns.map WritevResult.sent ++ WritevResult.sent n :: rest) := by
  intro rs
  induction rs with
  | nil => intro c ts hs c' h; simp [writeLoop] at h
  | cons r rs ih =>
    intro c ts hs c' h
    cases r with
    | eagain =>
      simp only [writeLoop, Option.some.injEq, Prod.mk.injEq, true_and] at h
      exact Or.inl ⟨h.symm, [], rs, rfl⟩
    | error =>
      simp [writeLoop] at h
    | sent n =>
      rw [writeLoop] at h
      dsimp only at h
      split_ifs at h with h1 h2
      · simp only [Option.some.injEq, Prod.mk.injEq, true_and] at h
        have hl : c.linger = true := by
          rw [unmap_frame] at h2
          exact h2
        exact Or.inr ⟨h.symm, hl, [], n, rs, rfl⟩
      · simp at h
      · rcases ih c _ _ c' h with ⟨e, ns, rest, hrs⟩ | ⟨e, hl, ns, m, rest, hrs⟩
        · exact Or.inl ⟨e, n :: ns, rest, by rw [hrs]; rfl⟩
        · exact Or.inr ⟨e, hl, n :: ns, m, rest, by rw [hrs]; rfl⟩

/-- The calls of `modfd` in the model.  A run of `process()` returns and has
issued one `modfd`: the history of masks has grown by one entry, for `EPOLLIN`
when `processRead` returned `NO_REQUEST` and for `EPOLLOUT` otherwise (the
descriptor passed is the member `socketFd`, which is the descriptor of the
connection as long as the run has stored nothing outside `readBuffer`).  A
run of `write()` that returns true issues exactly one `modfd`: for `EPOLLIN` when
`writeIndex` is 0 on entry, for `EPOLLOUT` when the loop ends at a `writev`
that would block, and for `EPOLLIN` when it ends at the `writev` that
completes a keep-alive response.  Every mask is the interest bit together
with `EPOLLET`, `EPOLLONESHOT` and `EPOLLRDHUP`, four distinct bits. -/
theorem one_rearm (fs : FileSys) (c : HTTPConn) (uc : Int) (rs : List WritevResult) :
    (∃ c' uc' code c1, process fs c uc = some (c', uc') ∧
      processRead fs c = some (code, c1) ∧
        c'.armed = c.armed ++
          [(if code = NO_REQUEST then EPOLLIN else EPOLLOUT) ||| EPOLLET ||| EPOLLONESHOT
            ||| EPOLLRDHUP]) ∧
    (∀ c', write c rs = some (true, c') →
      (c.writeIndex = 0 ∧
        c'.armed = c.armed ++ [EPOLLIN ||| EPOLLET ||| EPOLLONESHOT ||| EPOLLRDHUP]) ∨
      (c.writeIndex ≠ 0 ∧
        (∃ (ns : List Nat) (rest : List WritevResult),
          rs = ns.map WritevResult.sent ++ WritevResult.eagain :: rest) ∧
        c'.armed = c.armed ++ [EPOLLOUT ||| EPOLLET ||| EPOLLONESHOT ||| EPOLLRDHUP]) ∨
      (c.writeIndex ≠ 0 ∧ c.linger = true ∧
        (∃ (ns : List Nat) (n : Nat) (rest : List WritevResult),
          rs = ns.map WritevResult.sent ++ WritevResult.sent n :: rest) ∧
        c'.armed = c.armed ++ [EPOLLIN ||| EPOLLET ||| EPOLLONESHOT ||| EPOLLRDHUP])) ∧
    EPOLLIN ||| EPOLLET ||| EPOLLONESHOT ||| EPOLLRDHUP
      = EPOLLIN + EPOLLET + EPOLLONESHOT + EPOLLRDHUP ∧
    EPOLLOUT ||| EPOLLET ||| EPOLLONESHOT ||| EPOLLRDHUP
      = EPOLLOUT + EPOLLET + EPOLLONESHOT + EPOLLRDHUP := by
  refine ⟨?_, ?_, by decide, by decide⟩
  · obtain ⟨⟨c', uc'⟩, hp⟩ := process_returns fs c uc
    obtain ⟨code, c1, hr, ha⟩ := process_armed fs c uc c' uc' hp
    exact ⟨c', uc', code, c1, hp, hr, ha⟩
  intro c' h
  unfold write at h
  dsimp only at h
  split_ifs at h with hz
  · left
    injection h with h
    injection h with _ h
    rw [← h]
    exact ⟨hz, rfl⟩
  · right
    rcases writeLoop_ends _ _ _ _ _ h with ⟨e, hrs⟩ | ⟨e, hl, hrs⟩
    · left
      rw [e]
      exact ⟨hz, hrs, rfl⟩
    · right
      rw [e, modfd_init_unmap]
      exact ⟨hz, hl, hrs, rfl⟩

/-- The connection that holds the keep-alive response for `index.html`: the
`writev` that sends all 93 bytes is followed by one re-arm for `EPOLLIN`; a
`writev` that would block is followed by one re-arm for `EPOLLOUT`. -/
theorem one_rearm_example :
    (∃ c', write keepAliveHolding [WritevResult.sent 93] = some (true, c') ∧
      c'.armed = [EPOLLIN ||| EPOLLET ||| EPOLLONESHOT ||| EPOLLRDHUP]) ∧
    (∃ c', write keepAliveHolding [WritevResult.eagain] = some (true, c') ∧
      c'.armed = [EPOLLOUT ||| EPOLLET ||| EPOLLONESHOT ||| EPOLLRDHUP]) := by
  have hw : keepAliveHolding.writeIndex ≠ 0 := by decide
  constructor
  · have h := write_completes keepAliveHolding [] 93 [] hw (Or.inl rfl) (by decide)
    refine ⟨_, h, ?_⟩
    rcases (one_rearm noFiles keepAliveHolding 0 [WritevResult.sent 93]).2.1 _ h with
      ⟨h0, _⟩ | ⟨_, ⟨ns, rest, hrs⟩, _⟩ | ⟨_, _, _, ha⟩
    · exact absurd h0 hw
    · exfalso
      cases ns with
      | nil => simp at hrs
      | cons x xs =>
        simp only [List.map_cons, List.cons_append, List.cons.injEq] at hrs
        have := congrArg List.length hrs.2
        simp at this
        omega
    · exact ha
  · have h : write keepAliveHolding [WritevResult.eagain]
        = some (true, modfd keepAliveHolding EPOLLOUT) := by
      unfold write
      dsimp only
      rw [if_neg hw]
      rfl
    refine ⟨_, h, ?_⟩
    rcases (one_rearm noFiles keepAliveHolding 0 [WritevResult.eagain]).2.1 _ h with
      ⟨h0, _⟩ | ⟨_, _, ha⟩ | ⟨_, _, ⟨ns, n, rest, hrs⟩, _⟩
    · exact absurd h0 hw
    · exact ha
    · exfalso
      cases ns with
      | nil => simp at hrs
      | cons x xs => simp at hrs

/-! ## Lines that `parseLine` rejects -/

/-- When the scanner reports `LINE_BAD` it has only moved `checkedIndex`, to
the byte it rejects. -/
theorem parseLineLoop_bad : ∀ (n : Nat) (c : HTTPConn), (parseLineLoop n c).1 = LINE_BAD →
    (parseLineLoop n c).2 = { c with checkedIndex := (parseLineLoop n c).2.checkedIndex } ∧
      Offending (parseLineLoop n c).2 ∧ c.checkedIndex ≤ (parseLineLoop n c).2.checkedIndex := by
  intro n
  induction n with
  | zero => intro c h; simp [parseLineLoop] at h
  | succ k ih =>
    intro c
    rw [parseLineLoop]
    dsimp only
    split_ifs with h1 h2 h3 h4 h5 h6
    · intro h; simp at h
    · intro h; simp at h
    · intro _
      exact ⟨rfl, ⟨h1, Or.inl ⟨h2, h3, h4⟩⟩, le_refl _⟩
    · intro h; simp at h
    · intro _
      exact ⟨rfl, ⟨h1, Or.inr ⟨h5, h6⟩⟩, le_refl _⟩
    · intro h
      obtain ⟨a, b, d⟩ := ih { c with checkedIndex := c.checkedIndex + 1 } h
      refine ⟨?_, b, ?_⟩
      · rw [a]
      · simp only at d; omega
    · intro h; simp at h

/-- At a byte that `parseLine` rejects, `parseLine` returns `LINE_BAD` and
changes nothing. -/
theorem parseLine_offending (c : HTTPConn) (h : Offending c) : parseLine c = (LINE_BAD, c) := by
  obtain ⟨h1, h2⟩ := h
  obtain ⟨k, hk⟩ : ∃ k, (c.readIndex - c.checkedIndex).toNat = k + 1 :=
    ⟨(c.readIndex - c.checkedIndex).toNat - 1, by omega⟩
  unfold parseLine
  rw [hk, parseLineLoop]
  dsimp only
  rw [if_pos h1]
  rcases h2 with ⟨a, b, d⟩ | ⟨a, b⟩
  · rw [if_pos a, if_neg b, if_neg d]
  · rw [if_neg (by rw [a]; decide), if_pos a, if_neg b]

/-- Bytes without `\r` and `\n`, then a byte that `parseLine` rejects. -/
theorem parseLineLoop_bad_scan (pre : List Nat) : ∀ (n : Nat) (c : HTTPConn),
    At c.readBuffer c.checkedIndex pre → (∀ b ∈ pre, b ≠ 13 ∧ b ≠ 10) →
    BadAt c.readBuffer (c.checkedIndex + pre.length) c.readIndex → pre.length < n →
    parseLineLoop n c = (LINE_BAD, { c with checkedIndex := c.checkedIndex + pre.length }) := by
  induction pre with
  | nil =>
    intro n c _ _ hb hn
    simp only [List.length_nil, Nat.cast_zero, add_zero] at hb ⊢
    cases n with
    | zero => simp at hn
    | succ k =>
      obtain ⟨h1, h2⟩ := hb
      rw [parseLineLoop]
      dsimp only
      rw [if_pos h1]
      rcases h2 with ⟨a, b, d⟩ | ⟨a, b⟩
      · rw [if_pos a, if_neg b, if_neg d]
      · rw [if_neg (by rw [a]; decide), if_pos a, if_neg b]
  | cons x xs ih =>
    intro n c hat hfree hb hn
    simp only [List.length_cons, Nat.cast_add, Nat.cast_one] at hb hn ⊢
    cases n with
    | zero => omega
    | succ k =>
      have hx := hfree x (List.mem_cons_self _ _)
      have h0 : c.readBuffer c.checkedIndex = x := hat.1
      have hlt : c.checkedIndex < c.readIndex := by
        have := hb.1
        have hl : (0 : Int) ≤ (xs.length : Int) := Int.ofNat_nonneg _
        omega
      rw [parseLineLoop]
      dsimp only
      rw [if_pos hlt, h0, if_neg hx.1, if_neg hx.2]
      rw [ih k { c with checkedIndex := c.checkedIndex + 1 } hat.2
        (fun b hb => hfree b (List.mem_cons_of_mem _ hb))
        (by
          show BadAt c.readBuffer (c.checkedIndex + 1 + (xs.length : Int)) c.readIndex
          rw [show c.checkedIndex + 1 + (xs.length : Int) = c.checkedIndex + ((xs.length : Int) + 1)
            by omega]
          exact hb)
        (by omega)]
      dsimp only
      rw [show c.checkedIndex + 1 + (xs.length : Int) = c.checkedIndex + ((xs.length : Int) + 1)
        by omega]

/-- An iteration whose `parseLine` reports `LINE_BAD` leaves the loop. -/
theorem step_bad (fs : FileSys) (c : HTTPConn) (ls : LINE_STATUS)
    (hn : ¬ (c.checkState = CHECK_STATE_CONTENT ∧ ls = LINE_OK))
    (hp : (parseLine c).1 = LINE_BAD) : processReadIter fs c ls = Iter.exit (parseLine c).2 := by
  unfold processReadIter
  dsimp only
  rw [if_neg hn]
  simp only [hp]
  rfl

/-- A stalled parser: `processRead` returns `NO_REQUEST` and changes nothing. -/
theorem processRead_stalled (fs : FileSys) (c : HTTPConn) (h : Stalled c) :
    processRead fs c = some (NO_REQUEST, c) := by
  have hp := parseLine_offending c h.2
  have e := step_bad fs c LINE_OK (fun hc => h.1 hc.1) (by rw [hp])
  rw [hp] at e
  exact processRead_of_loop fs (0 + 1) _ _ (loop_exit e 0)

theorem process_stalled (fs : FileSys) (c : HTTPConn) (uc : Int) (h : Stalled c) :
    process fs c uc = some (modfd c EPOLLIN, uc) := by
  unfold process
  rw [processRead_stalled fs c h]
  dsimp only
  rw [if_pos rfl]

/-- Bytes that `read` appends do not move a stalled parser. -/
theorem read_stalled (c : HTTPConn) (rs : List RecvResult) (ok : Bool) (c' : HTTPConn)
    (h : Stalled c) (hr : read c rs = some (ok, c')) :
    Stalled c' ∧ c'.writeIndex = c.writeIndex := by
  have hfr : c' = { c with readBuffer := c'.readBuffer, readIndex := c'.readIndex } ∧
      c.readIndex ≤ c'.readIndex ∧
      ∀ i, i < c.readIndex → c'.readBuffer i = c.readBuffer i := by
    unfold read at hr
    split_ifs at hr
    · simp only [Option.some.injEq, Prod.mk.injEq] at hr
      obtain ⟨-, rfl⟩ := hr
      exact ⟨rfl, le_refl _, fun _ _ => rfl⟩
    · obtain ⟨a, b, _, d⟩ := readLoop_frame rs c ok c' hr
      exact ⟨a, b, fun i hi => d i (Or.inl hi)⟩
  obtain ⟨e, hle, hb⟩ := hfr
  have e1 : c'.checkState = c.checkState := by rw [e]
  have e2 : c'.checkedIndex = c.checkedIndex := by rw [e]
  have e3 : c'.writeIndex = c.writeIndex := by rw [e]
  obtain ⟨hst, hlt, hcase⟩ := h
  refine ⟨⟨by rw [e1]; exact hst, ?_⟩, e3⟩
  show BadAt c'.readBuffer c'.checkedIndex c'.readIndex
  rw [e2]
  refine ⟨by omega, ?_⟩
  rcases hcase with ⟨a, b, d⟩ | ⟨a, b⟩
  · left
    rw [hb _ hlt, hb _ (by omega)]
    exact ⟨a, by omega, d⟩
  · right
    rw [hb _ hlt, hb _ (by omega)]
    exact ⟨a, b⟩

theorem closeConn_stalled (c : HTTPConn) (uc : Int) (h : Stalled c) :
    Stalled (closeConn c uc).1 ∧ (closeConn c uc).1.writeIndex = c.writeIndex := by
  unfold closeConn
  split_ifs
  · exact ⟨h, rfl⟩
  · exact ⟨h, rfl⟩

theorem rearmed_in (c : HTTPConn) : rearmed (modfd c EPOLLIN) ≠ Phase.armedOut := by
  unfold rearmed
  rw [getLast_modfd]
  split_ifs with h1 h2
  · intro h; cases h
  · exact absurd h2 (by decide)
  · intro h; cases h

/-- An event other than `accept` leaves a stalled slot stalled. -/
theorem slotStep_stalled (fs : FileSys) (w : Int) (s s' : SlotState) (e : Event)
    (hs : StalledSlot w s) (he : e.isAccept = false) (h : slotStep fs s e = some s') :
    StalledSlot w s' := by
  obtain ⟨hph, hst, hw⟩ := hs
  cases e with
  | accept fd => simp [Event.isAccept] at he
  | hangup =>
    simp only [slotStep] at h
    split_ifs at h
    injection h with h
    subst h
    obtain ⟨a, b⟩ := closeConn_stalled s.conn s.userCount hst
    exact ⟨(by intro hh; cases hh), a, b.trans hw⟩
  | readable results =>
    simp only [slotStep] at h
    split_ifs at h with hp
    cases hr : read s.conn results with
    | none => rw [hr] at h; cases h
    | some r =>
      obtain ⟨ok, c⟩ := r
      rw [hr] at h
      dsimp only at h
      obtain ⟨a, b⟩ := read_stalled s.conn results ok c hst hr
      split_ifs at h
      · injection h with h
        subst h
        exact ⟨(by intro hh; cases hh), a, b.trans hw⟩
      · injection h with h
        subst h
        obtain ⟨a', b'⟩ := closeConn_stalled c s.userCount a
        exact ⟨(by intro hh; cases hh), a', b'.trans (b.trans hw)⟩
  | work =>
    simp only [slotStep] at h
    split_ifs at h with hp
    rw [process_stalled fs s.conn s.userCount hst] at h
    injection h with h
    subst h
    exact ⟨rearmed_in s.conn, hst, hw⟩
  | writable results =>
    simp only [slotStep] at h
    split_ifs at h with hp
    exact absurd hp hph

theorem slotRun_stalled (fs : FileSys) (w : Int) : ∀ (events : List Event) (s s' : SlotState),
    StalledSlot w s → (∀ e ∈ events, e.isAccept = false) → slotRun fs s events = some s' →
    StalledSlot w s' := by
  intro events
  induction events with
  | nil =>
    intro s s' hs _ h
    injection h with h
    rw [← h]
    exact hs
  | cons e es ih =>
    intro s s' hs he h
    rw [slotRun] at h
    cases hstep : slotStep fs s e with
    | none => rw [hstep] at h; cases h
    | some s1 =>
      rw [hstep] at h
      exact ih s1 s' (slotStep_stalled fs w s s1 e hs (he e (List.mem_cons_self _ _)) hstep)
        (fun x hx => he x (List.mem_cons_of_mem _ hx)) h

/-- C23. In `CHECK_STATE_REQUESTLINE` or `CHECK_STATE_HEADER`, an iteration
of the loop of `processRead` in which `parseLine` reports `LINE_BAD` ends
the call with `NO_REQUEST` (so does `processRead` when it is its first
iteration); `parseLine` has only moved `checkedIndex`, to the byte it
rejects: a `\r` followed by a received byte other than `\n`, or a `\n` that
fails the test for a preceding `\r`.  From then on, whatever `read()`
appends and however often a worker runs `process()`, as long as the slot is
not closed and opened again: `processRead` returns `NO_REQUEST` and changes
nothing, `writeIndex` stays as it was (no response is composed) and the
socket is never armed for `EPOLLOUT`. -/
theorem C23_line_bad_stalls (fs : FileSys) (c : HTTPConn) (ls : LINE_STATUS) (n : Nat)
    (hst : c.checkState ≠ CHECK_STATE_CONTENT) (hbad : (parseLine c).1 = LINE_BAD) :
    processReadLoop fs (n + 1) c ls = some (NO_REQUEST, (parseLine c).2) ∧
    processRead fs c = some (NO_REQUEST, (parseLine c).2) ∧
    (parseLine c).2 = { c with checkedIndex := (parseLine c).2.checkedIndex } ∧
    Offending (parseLine c).2 ∧
    (∀ (uc : Int) (ph : Phase) (events : List Event) (s' : SlotState),
      ph = Phase.armedIn ∨ ph = Phase.queued →
      (∀ e ∈ events, e.isAccept = false) →
      slotRun fs ⟨ph, (parseLine c).2, uc⟩ events = some s' →
      processRead fs s'.conn = some (NO_REQUEST, s'.conn) ∧
        s'.conn.writeIndex = c.writeIndex ∧ s'.phase ≠ Phase.armedOut) := by
  obtain ⟨a, b, _⟩ := parseLineLoop_bad _ c hbad
  have hcs : (parseLine c).2.checkState = c.checkState := (parseLine_frame c).checkState
  have hwi : (parseLine c).2.writeIndex = c.writeIndex := (parseLine_frame c).writeIndex
  have hstalled : Stalled (parseLine c).2 := ⟨by rw [hcs]; exact hst, b⟩
  refine ⟨loop_exit (step_bad fs c ls (fun h => hst h.1) hbad) n,
    processRead_of_loop fs (0 + 1) _ _ (loop_exit (step_bad fs c LINE_OK (fun h => hst h.1) hbad) 0),
    a, b, ?_⟩
  intro uc ph events s' hph hev hrun
  have h0 : StalledSlot c.writeIndex ⟨ph, (parseLine c).2, uc⟩ :=
    ⟨(by rcases hph with h | h <;> rw [h] <;> intro hh <;> cases hh), hstalled, hwi⟩
  obtain ⟨p1, p2, p3⟩ := slotRun_stalled fs c.writeIndex events _ s' h0 hev hrun
  exact ⟨processRead_stalled fs s'.conn p2, p3, p1⟩

/-- `parseLine` on bytes without `\r` and `\n` followed by a byte that it
rejects. -/
theorem parseLine_bad_scan (c : HTTPConn) (pre : List Nat)
    (hat : At c.readBuffer c.checkedIndex pre) (hfree : ∀ b ∈ pre, b ≠ 13 ∧ b ≠ 10)
    (hb : BadAt c.readBuffer (c.checkedIndex + pre.length) c.readIndex) :
    parseLine c = (LINE_BAD, { c with checkedIndex := c.checkedIndex + pre.length }) := by
  have := hb.1
  exact parseLineLoop_bad_scan pre _ c hat hfree hb (by omega)

theorem rearmed_open_in (c : HTTPConn) (h : c.socketFd ≠ -1) :
    rearmed (modfd c EPOLLIN) = Phase.armedIn := by
  have h' : (modfd c EPOLLIN).socketFd ≠ -1 := h
  unfold rearmed
  rw [getLast_modfd, if_neg h', if_neg (by decide)]

theorem parseLine_bareLF : parseLine bareLF = (LINE_BAD, bareLFStalled) := by
  have hat0 : At bareLF.readBuffer 0 (bytes "GET / HTTP/1.1" ++ [10, 10]) :=
    fresh_at (addfd { blank with socketFd := 5 } true) _
  obtain ⟨hpre, hrest⟩ := (at_append _ _ _ _).mp hat0
  have e14 : (0 : Int) + ((bytes "GET / HTTP/1.1").length : Int) = 14 := by decide
  rw [e14] at hrest
  have h13 : bareLF.readBuffer 13 = 49 := by
    have := at_get (bytes "GET / HTTP/1.1") _ 0 13 (by decide) hpre
    rw [show (0 : Int) + ((13 : Nat) : Int) = 13 by decide] at this
    rw [this]
    decide
  have hb : BadAt bareLF.readBuffer (bareLF.checkedIndex + ((bytes "GET / HTTP/1.1").length : Int))
      bareLF.readIndex := by
    show BadAt bareLF.readBuffer ((0 : Int) + ((bytes "GET / HTTP/1.1").length : Int)) _
    rw [e14]
    refine ⟨by decide, Or.inr ⟨hrest.1, ?_⟩⟩
    intro h
    have := h.2
    rw [show (14 : Int) - 1 = 13 by decide, h13] at this
    revert this
    decide
  rw [parseLine_bad_scan bareLF (bytes "GET / HTTP/1.1") hpre (by decide) hb]
  rfl

/-- C23 on a request with bare `\n` line ends, `GET / HTTP/1.1\n\n`, received
on descriptor 5: `processRead` returns `NO_REQUEST` with `checkedIndex` at
the first `\n` (offset 14).  A worker runs `process()`, the bytes `\r\n`
arrive, a worker runs `process()` again: `processRead` still returns
`NO_REQUEST`, the write buffer is empty and the socket is not armed for
`EPOLLOUT`. -/
theorem C23_line_bad_stalls_witness :
    processRead noFiles bareLF = some (NO_REQUEST, bareLFStalled) ∧
    ∃ s', slotRun noFiles ⟨Phase.queued, bareLFStalled, 1⟩
        [Event.work, Event.readable [RecvResult.data (bytes "\r\n"), RecvResult.eagain],
          Event.work] = some s' ∧
      processRead noFiles s'.conn = some (NO_REQUEST, s'.conn) ∧
      s'.conn.writeIndex = 0 ∧ s'.phase ≠ Phase.armedOut := by
  have hp := parseLine_bareLF
  obtain ⟨_, h2, _, h4, h5⟩ := C23_line_bad_stalls noFiles bareLF LINE_OK 0
    (by intro h; cases h) (by rw [hp])
  rw [hp] at h2 h4 h5
  dsimp only at h2 h4 h5
  refine ⟨h2, ?_⟩
  have hst : Stalled bareLFStalled := ⟨(by intro h; cases h), h4⟩
  have s1 := slotStep_work noFiles ⟨Phase.queued, bareLFStalled, 1⟩
    _ _ rfl (process_stalled noFiles _ 1 hst)
  rw [rearmed_open_in _ (by decide)] at s1
  have hr := read_recvSegment (modfd bareLFStalled EPOLLIN) (bytes "\r\n")
    (by decide) (by decide)
  have s2 := slotStep_readable noFiles ⟨Phase.armedIn, modfd bareLFStalled EPOLLIN, 1⟩
    _ _ rfl hr
  have hst2 := (read_stalled _ _ _ _
    (show Stalled (modfd bareLFStalled EPOLLIN) from hst) hr).1
  have s3 := slotStep_work noFiles
    ⟨Phase.queued, recvSegment (modfd bareLFStalled EPOLLIN) (bytes "\r\n"), 1⟩
    _ _ rfl (process_stalled noFiles _ 1 hst2)
  have hrun : slotRun noFiles ⟨Phase.queued, bareLFStalled, 1⟩
      [Event.work, Event.readable [RecvResult.data (bytes "\r\n"), RecvResult.eagain],
        Event.work]
      = some ⟨rearmed (modfd (recvSegment (modfd bareLFStalled EPOLLIN) (bytes "\r\n")) EPOLLIN),
        modfd (recvSegment (modfd bareLFStalled EPOLLIN) (bytes "\r\n")) EPOLLIN, 1⟩ := by
    rw [slotRun, s1]
    dsimp only
    rw [slotRun, s2]
    dsimp only
    rw [slotRun, s3]
    rfl
  exact ⟨_, hrun, h5 1 Phase.queued _ _ (Or.inr rfl) (by decide) hrun⟩

/-! ## A request that arrives in two pieces -/

/-- The scanner on a line that is not complete: bytes without `\r` and `\n`,
then either the end of the data or a `\r` that is the last byte received.
`LINE_OPEN`, and nothing changes but `checkedIndex`, which stops at the end of
the data or at the `\r`. -/
theorem parseLineLoop_partial (pre : List Nat) : ∀ (n : Nat) (c : HTTPConn),
    At c.readBuffer c.checkedIndex pre → (∀ b ∈ pre, b ≠ 13 ∧ b ≠ 10) →
    (c.checkedIndex + pre.length = c.readIndex ∨
      (c.readBuffer (c.checkedIndex + pre.length) = 13 ∧
        c.checkedIndex + pre.length + 1 = c.readIndex)) →
    (c.readIndex - c.checkedIndex).toNat ≤ n →
    parseLineLoop n c
      = (LINE_OPEN, { c with checkedIndex := c.checkedIndex + (pre.length : Int) }) := by
  induction pre with
  | nil =>
    intro n c _ _ hri hn
    simp only [List.length_nil, Nat.cast_zero, add_zero] at hri ⊢
    cases n with
    | zero => rfl
    | succ k =>
      rw [parseLineLoop]
      dsimp only
      rcases hri with h | ⟨h13, h⟩
      · rw [if_neg (by omega)]
      · rw [if_pos (by omega), if_pos h13, if_pos h]
  | cons x xs ih =>
    intro n c hat hfree hri hn
    simp only [List.length_cons, Nat.cast_add, Nat.cast_one] at hri
    have e : c.checkedIndex + 1 + (xs.length : Int)
        = c.checkedIndex + (((x :: xs).length : Nat) : Int) := by
      simp only [List.length_cons, Nat.cast_add, Nat.cast_one]
      omega
    cases n with
    | zero => exfalso; rcases hri with h | ⟨_, h⟩ <;> omega
    | succ k =>
      have hx := hfree x (List.mem_cons_self _ _)
      have h0 : c.readBuffer c.checkedIndex = x := hat.1
      rw [parseLineLoop]
      dsimp only
      rw [if_pos (by rcases hri with h | ⟨_, h⟩ <;> omega), h0, if_neg hx.1, if_neg hx.2]
      rw [ih k { c with checkedIndex := c.checkedIndex + 1 } hat.2
        (fun b hb => hfree b (List.mem_cons_of_mem _ hb))
        (by
          dsimp only
          rcases hri with h | ⟨h13, h⟩
          · left; omega
          · right
            refine ⟨?_, by omega⟩
            rw [show c.checkedIndex + 1 + (xs.length : Int)
              = c.checkedIndex + ((xs.length : Int) + 1) by omega]
            exact h13)
        (by dsimp only; omega)]
      show (LINE_OPEN, { c with checkedIndex := c.checkedIndex + 1 + (xs.length : Int) }) = _
      rw [e]

theorem parseLine_partial (c : HTTPConn) (pre : List Nat)
    (hat : At c.readBuffer c.checkedIndex pre) (hfree : ∀ b ∈ pre, b ≠ 13 ∧ b ≠ 10)
    (hri : c.checkedIndex + pre.length = c.readIndex ∨
      (c.readBuffer (c.checkedIndex + pre.length) = 13 ∧
        c.checkedIndex + pre.length + 1 = c.readIndex)) :
    parseLine c = (LINE_OPEN, { c with checkedIndex := c.checkedIndex + (pre.length : Int) }) :=
  parseLineLoop_partial pre _ c hat hfree hri (le_refl _)

/-- `processRead` when the line being scanned is not complete:
`NO_REQUEST`, and only `checkedIndex` has moved. -/
theorem processRead_partial (fs : FileSys) (c : HTTPConn) (pre : List Nat)
    (hst : c.checkState ≠ CHECK_STATE_CONTENT)
    (hat : At c.readBuffer c.checkedIndex pre) (hfree : ∀ b ∈ pre, b ≠ 13 ∧ b ≠ 10)
    (hri : c.checkedIndex + pre.length = c.readIndex ∨
      (c.readBuffer (c.checkedIndex + pre.length) = 13 ∧
        c.checkedIndex + pre.length + 1 = c.readIndex)) :
    processRead fs c
      = some (NO_REQUEST, { c with checkedIndex := c.checkedIndex + (pre.length : Int) }) := by
  have hp := parseLine_partial c pre hat hfree hri
  have e := step_open fs c LINE_OK (fun h => hst h.1) (by rw [hp])
  rw [hp] at e
  exact processRead_of_loop fs (0 + 1) c _ (loop_exit e 0)

/-- An iteration that goes round again: `processRead` returns what it returns
from the next state. -/
theorem processRead_step {fs : FileSys} {c c' : HTTPConn} {r : HTTP_CODE × HTTPConn}
    (e : processReadIter fs c LINE_OK = Iter.next c' LINE_OK) (h : processRead fs c' = some r) :
    processRead fs c = some r := by
  unfold processRead at h
  refine processRead_of_loop fs (((c'.readIndex - c'.checkedIndex).toNat + 2) + 1) c r ?_
  rw [loop_next e]
  exact h

/-- The two NUL bytes that end a line leave a C string without `\r` and `\n`
as it is. -/
theorem lineStart_cstr (c : HTTPConn) (line : List Nat) (hr : LineReady c line) (p : Int)
    (U : List Nat) (hU : CStrAt c.readBuffer p U) (hfree : ∀ b ∈ U, b ≠ 13 ∧ b ≠ 10) :
    CStrAt (lineStart c (c.startLine + line.length)).readBuffer p U := by
  obtain ⟨_, hat⟩ := (at_append _ _ _ _).mp hr.1
  have e13 : c.readBuffer (c.startLine + line.length) = 13 := hat.1
  have e10 : c.readBuffer (c.startLine + line.length + 1) = 10 := hat.2.1
  have s1 : CStrAt (setByte c.readBuffer (c.startLine + line.length) 0) p U :=
    hU.elsewhere _ 0 (by rw [e13]; decide) (fun b hb => by rw [e13]; exact (hfree b hb).1)
  have e10' : setByte c.readBuffer (c.startLine + line.length) 0 (c.startLine + line.length + 1)
      = 10 := by
    rw [setByte_other _ _ _ _ (by omega)]; exact e10
  exact s1.elsewhere _ 0 (by rw [e10']; decide) (fun b hb => by rw [e10']; exact (hfree b hb).2)

/-- A header line that is not empty, with the URL of the request line
recorded: the URL is still there after the iteration. -/
theorem step_header_url (fs : FileSys) (c : HTTPConn) (ls : LINE_STATUS) (line : List Nat)
    (hst : c.checkState = CHECK_STATE_HEADER) (hinv : Inv c) (hr : LineReady c line)
    (hne : cline line ≠ []) (p : Int) (U : List Nat) (hU : CStrAt c.readBuffer p U)
    (hfree : ∀ b ∈ U, b ≠ 13 ∧ b ≠ 10) :
    ∃ c', processReadIter fs c ls = Iter.next c' LINE_OK ∧
      Consumed c c' (c.startLine + line.length + 2) ∧
      c'.checkState = CHECK_STATE_HEADER ∧
      c'.linger = (c.linger || decide (keepAliveTest (cline line))) ∧
      c'.contentLength = contentLengthAfter c.contentLength (cline line) ∧
      c'.url = c.url ∧ CStrAt c'.readBuffer p U := by
  have hc := lineState_cstr c line hinv hr
  obtain ⟨e1, e2, e3, e4, e5, _⟩ := parseHeaders_spec _ c.startLine (cline line) hc hne
  have hidx := parseHeaders_idx (lineStart c (c.startLine + line.length)) c.startLine
  have hurl : (parseHeaders (lineStart c (c.startLine + line.length)) c.startLine).2.url = c.url := by
    unfold parseHeaders
    dsimp only
    split_ifs <;> rfl
  have hcs := lineStart_cstr c line hr p U hU hfree
  rw [processReadIter_line fs c ls line (by rw [hst]; decide) hinv.2.1 hr, hst]
  dsimp only
  rw [e1, if_neg (by decide), if_neg (by decide)]
  refine ⟨_, rfl, (lineState_consumed c line).after hidx (fun j _ => by rw [e4]),
    by rw [e5]; exact hst, e2, e3, hurl, by rw [e4]; exact hcs⟩

/-- The empty line that ends the header of a request without body: the
iteration returns what `doRequest` returns in a state that has the URL of the
request line, the `linger` flag of the headers, and the indices behind the
empty line. -/
theorem step_blank_done (fs : FileSys) (c : HTTPConn) (ls : LINE_STATUS)
    (hst : c.checkState = CHECK_STATE_HEADER) (hinv : Inv c) (hr : LineReady c [])
    (hcl : c.contentLength = 0) (p : Int) (U : List Nat) (hu : c.url = some p)
    (hU : CStrAt c.readBuffer p U) (hfree : ∀ b ∈ U, b ≠ 13 ∧ b ≠ 10) :
    ∃ c1, processReadIter fs c ls = Iter.ret (doRequest fs c1).1 (doRequest fs c1).2 ∧
      urlString c1 = U ∧ c1.linger = c.linger ∧ c1.startLine = c.startLine + 2 ∧
      c1.checkedIndex = c.startLine + 2 ∧ c1.readIndex = c.readIndex := by
  have hc := lineState_cstr c [] hinv hr
  have h0 : (lineStart c (c.startLine + (([] : List Nat).length : Int))).readBuffer c.startLine
      = 0 := by
    have := hc.2.2.1
    simpa [cline] using this
  have hk := lineState_consumed c []
  have hcs := lineStart_cstr c [] hr p U hU hfree
  rw [processReadIter_line fs c ls [] (by rw [hst]; decide) hinv.2.1 hr, hst]
  dsimp only
  rw [parseHeaders_blank _ _ h0]
  have hcl' : ¬ (lineStart c (c.startLine + (([] : List Nat).length : Int))).contentLength ≠ 0 :=
    not_not.mpr hcl
  rw [if_neg hcl']
  dsimp only
  rw [if_neg (by intro h; cases h), if_pos rfl]
  have hurl : (lineStart c (c.startLine + (([] : List Nat).length : Int))).url = some p := hu
  refine ⟨_, rfl, ?_, rfl, ?_, ?_, hk.readIndex⟩
  · unfold urlString
    rw [hurl]
    dsimp only
    exact cstr_eq hcs
  · rw [hk.startLine]; simp
  · rw [hk.checkedIndex]; simp

theorem doRequest_url (fs : FileSys) (c : HTTPConn) :
    urlString (doRequest fs c).2 = urlString c := by
  unfold doRequest
  dsimp only
  split
  · rfl
  · split_ifs <;> rfl

theorem wire_append (a b : List (List Nat)) : wire (a ++ b) = wire a ++ wire b := by
  induction a with
  | nil => rfl
  | cons h t ih =>
    show h ++ [13, 10] ++ wire (t ++ b) = h ++ [13, 10] ++ wire t ++ wire b
    rw [ih]
    simp only [List.append_assoc]

theorem wire_cons_length (h : List Nat) (t : List (List Nat)) :
    ((wire (h :: t)).length : Int) = h.length + 2 + (wire t).length := by
  show (((h ++ [13, 10] ++ wire t).length : Nat) : Int) = _
  simp only [List.length_append, List.length_cons, List.length_nil, Nat.cast_add]
  omega

/-- In `CHECK_STATE_HEADER` with the URL recorded, the rest of a request
without body stands at `startLine` (the scanner may already be inside the first
of its lines): `processRead` handles the header lines and the empty line and
returns what `doRequest` returns. -/
theorem tail_run (fs : FileSys) (p : Int) (U : List Nat) (hfree : ∀ b ∈ U, b ≠ 13 ∧ b ≠ 10) :
    ∀ (hs : List (List Nat)) (c : HTTPConn),
    c.checkState = CHECK_STATE_HEADER → Inv c →
    (∀ cur rest, hs ++ [[]] = cur :: rest → c.checkedIndex ≤ c.startLine + cur.length) →
    At c.readBuffer c.startLine (wire hs ++ [13, 10]) →
    c.startLine + (wire hs).length + 2 ≤ c.readIndex →
    (∀ h ∈ hs, (∀ b ∈ h, b ≠ 13 ∧ b ≠ 10) ∧ cline h ≠ []) →
    contentLengthOf c.contentLength hs = 0 →
    c.url = some p → CStrAt c.readBuffer p U →
    ∃ c1, processRead fs c = some (doRequest fs c1) ∧ urlString c1 = U ∧
      c1.linger = (c.linger || anyKeepAlive hs) ∧
      c1.startLine = c.startLine + (wire hs).length + 2 ∧
      c1.checkedIndex = c.startLine + (wire hs).length + 2 ∧
      c1.readIndex = c.readIndex := by
  intro hs
  induction hs with
  | nil =>
    intro c hst hinv hci hat hlen _ hcl hu hU
    have hci0 := hci [] [] rfl
    simp only [wire, List.length_nil, Nat.cast_zero, add_zero, List.nil_append] at hat hlen hci0 ⊢
    have hr : LineReady c [] := by
      refine ⟨hat, by simp, ?_, ?_⟩
      · simpa using hci0
      · simpa using hlen
    obtain ⟨c1, e1, u1, l1, s1, k1, r1⟩ :=
      step_blank_done fs c LINE_OK hst hinv hr hcl p U hu hU hfree
    refine ⟨c1, processRead_of_loop fs (0 + 1) c _ (loop_ret e1 0), u1, ?_, s1, k1, r1⟩
    rw [l1]
    simp [anyKeepAlive]
  | cons h t ih =>
    intro c hst hinv hci hat hlen hh hcl hu hU
    have hwl := wire_cons_length h t
    have hw : wire (h :: t) ++ [13, 10] = (h ++ [13, 10]) ++ (wire t ++ [13, 10]) := by
      show h ++ [13, 10] ++ wire t ++ [13, 10] = _
      simp only [List.append_assoc]
    rw [hw] at hat
    obtain ⟨hat1, hat2⟩ := (at_append _ _ _ _).mp hat
    have hh1 := hh h (List.mem_cons_self _ _)
    have hr : LineReady c h := ⟨hat1, hh1.1, hci h (t ++ [[]]) (List.cons_append _ _ _), by omega⟩
    obtain ⟨c1, e1, k1, s1, l1, n1, u1, hU1⟩ :=
      step_header_url fs c LINE_OK h hst hinv hr hh1.2 p U hU hfree
    have hq : ((h ++ [13, 10]).length : Int) = h.length + 2 := by
      simp only [List.length_append, List.length_cons, List.length_nil, Nat.cast_add]
      omega
    rw [hq, show c.startLine + ((h.length : Int) + 2) = c.startLine + h.length + 2 by omega]
      at hat2
    have hinv1 : Inv c1 := k1.toInv hinv (by have := hinv.1; omega) (by omega)
    have hat3 : At c1.readBuffer c1.startLine (wire t ++ [13, 10]) := by
      rw [k1.startLine]
      exact at_congr _ _ _ _ (fun j hj _ => k1.buffer j hj) hat2
    obtain ⟨c2, e2, u2, l2, s2, k2, r2⟩ := ih c1 s1 hinv1
      (fun cur _ _ => by rw [k1.startLine, k1.checkedIndex]; omega) hat3
      (by rw [k1.startLine, k1.readIndex]; omega)
      (fun x hx => hh x (List.mem_cons_of_mem _ hx))
      (by rw [n1]; exact hcl) (u1.trans hu) hU1
    refine ⟨c2, processRead_step e1 e2, u2, ?_, ?_, ?_, r2.trans k1.readIndex⟩
    · rw [l2, l1]
      simp only [anyKeepAlive, List.any_cons, Bool.or_assoc]
    · rw [s2, k1.startLine, hwl]; omega
    · rw [k2, k1.startLine, hwl]; omega

/-- In `CHECK_STATE_HEADER` with the URL recorded, complete header lines and
then a line that is not complete stand at `startLine`: `processRead` handles
the complete lines and returns `NO_REQUEST`, with `startLine` at the
incomplete line, `checkedIndex` at the end of the data or at the `\r` that is
its last byte, and the URL still there. -/
theorem prefix_run (fs : FileSys) (p : Int) (U : List Nat) (hfree : ∀ b ∈ U, b ≠ 13 ∧ b ≠ 10)
    (pre crs : List Nat) (hpre : ∀ b ∈ pre, b ≠ 13 ∧ b ≠ 10) (hcrs : crs = [] ∨ crs = [13]) :
    ∀ (hs : List (List Nat)) (c : HTTPConn),
    c.checkState = CHECK_STATE_HEADER → Inv c → c.checkedIndex = c.startLine →
    At c.readBuffer c.startLine (wire hs ++ (pre ++ crs)) →
    c.startLine + (wire hs).length + pre.length + crs.length = c.readIndex →
    (∀ h ∈ hs, (∀ b ∈ h, b ≠ 13 ∧ b ≠ 10) ∧ cline h ≠ []) →
    CStrAt c.readBuffer p U →
    ∃ cP, processRead fs c = some (NO_REQUEST, cP) ∧
      cP.checkState = CHECK_STATE_HEADER ∧
      cP.startLine = c.startLine + (wire hs).length ∧
      cP.checkedIndex = c.startLine + (wire hs).length + pre.length ∧
      cP.readIndex = c.readIndex ∧
      (∀ j, c.startLine + (wire hs).length ≤ j → cP.readBuffer j = c.readBuffer j) ∧
      cP.linger = (c.linger || anyKeepAlive hs) ∧
      cP.contentLength = contentLengthOf c.contentLength hs ∧
      cP.url = c.url ∧ CStrAt cP.readBuffer p U := by
  intro hs
  induction hs with
  | nil =>
    intro c hst hinv hci hat hlen _ hU
    simp only [wire, List.length_nil, Nat.cast_zero, add_zero, List.nil_append] at hat hlen ⊢
    obtain ⟨hat1, hat2⟩ := (at_append _ _ _ _).mp hat
    have hri : c.checkedIndex + pre.length = c.readIndex ∨
        (c.readBuffer (c.checkedIndex + pre.length) = 13 ∧
          c.checkedIndex + pre.length + 1 = c.readIndex) := by
      rw [hci]
      rcases hcrs with h | h
      · left; rw [h] at hlen; simpa using hlen
      · right
        rw [h] at hlen hat2
        exact ⟨hat2.1, by simpa using hlen⟩
    have e := processRead_partial fs c pre (by rw [hst]; decide) (by rw [hci]; exact hat1) hpre hri
    refine ⟨_, e, hst, rfl, ?_, rfl, fun _ _ => rfl, by simp [anyKeepAlive], rfl, rfl, hU⟩
    show c.checkedIndex + (pre.length : Int) = _
    rw [hci]
  | cons h t ih =>
    intro c hst hinv hci hat hlen hh hU
    have hwl := wire_cons_length h t
    have hw : wire (h :: t) ++ (pre ++ crs) = (h ++ [13, 10]) ++ (wire t ++ (pre ++ crs)) := by
      show h ++ [13, 10] ++ wire t ++ (pre ++ crs) = _
      simp only [List.append_assoc]
    rw [hw] at hat
    obtain ⟨hat1, hat2⟩ := (at_append _ _ _ _).mp hat
    have hh1 := hh h (List.mem_cons_self _ _)
    have hr : LineReady c h := ⟨hat1, hh1.1, by omega, by omega⟩
    obtain ⟨c1, e1, k1, s1, l1, n1, u1, hU1⟩ :=
      step_header_url fs c LINE_OK h hst hinv hr hh1.2 p U hU hfree
    have hq : ((h ++ [13, 10]).length : Int) = h.length + 2 := by
      simp only [List.length_append, List.length_cons, List.length_nil, Nat.cast_add]
      omega
    rw [hq, show c.startLine + ((h.length : Int) + 2) = c.startLine + h.length + 2 by omega]
      at hat2
    have hinv1 : Inv c1 := k1.toInv hinv (by have := hinv.1; omega) (by omega)
    have hat3 : At c1.readBuffer c1.startLine (wire t ++ (pre ++ crs)) := by
      rw [k1.startLine]
      exact at_congr _ _ _ _ (fun j hj _ => k1.buffer j hj) hat2
    obtain ⟨cP, e2, s2, a2, k2, r2, b2, l2, n2, u2, hU2⟩ := ih c1 s1 hinv1
      (by rw [k1.startLine, k1.checkedIndex]) hat3
      (by rw [k1.startLine, k1.readIndex]; omega)
      (fun x hx => hh x (List.mem_cons_of_mem _ hx)) hU1
    refine ⟨cP, processRead_step e1 e2, s2, ?_, ?_, r2.trans k1.readIndex, ?_, ?_, ?_,
      u2.trans u1, hU2⟩
    · rw [a2, k1.startLine, hwl]; omega
    · rw [k2, k1.startLine, hwl]; omega
    · intro j hj
      rw [hwl] at hj
      rw [b2 j (by rw [k1.startLine]; omega), k1.buffer j (by omega)]
    · rw [l2, l1]
      simp only [anyKeepAlive, List.any_cons, Bool.or_assoc]
    · rw [n2, n1]
      rfl

theorem findFirst_lt (pred : Nat → Bool) : ∀ (l : List Nat) (i : Nat),
    findFirst pred l = some i → i < l.length := by
  intro l
  induction l with
  | nil => intro i h; cases h
  | cons x xs ih =>
    intro i h
    rw [findFirst] at h
    by_cases hx : pred x = true
    · rw [if_pos hx] at h
      cases h
      simp
    · rw [if_neg hx] at h
      cases hf : findFirst pred xs with
      | none => rw [hf] at h; cases h
      | some k =>
        rw [hf] at h
        cases h
        have := ih k hf
        simp only [List.length_cons]
        omega

/-- A NUL byte at or behind the start of a C string stands at or behind its
end. -/
theorem CStrAt.end_le {m : Int → Nat} {p : Int} {l : List Nat} (h : CStrAt m p l) (z : Int)
    (hz : m z = 0) (hp : p ≤ z) : p + l.length ≤ z := by
  by_contra hcon
  have hk : (z - p).toNat < l.length := by omega
  have hg := at_get l m p (z - p).toNat hk h.1
  have hi : p + ((z - p).toNat : Int) = z := by omega
  rw [hi, hz] at hg
  exact h.2.1 _ (List.get_mem l _ _) hg.symm

/-- The pointer that the URL step of `parseRequestLine` computes lies inside
the URL token. -/
theorem url_step_pos (m : Int → Nat) (q : Int) (U : List Nat) (h : CStrAt m q U) (p : Int)
    (hp : (if strncasecmp (cstr m READ_BUFFER_SIZE q) (bytes "http://") 7 = 0 then
        strchr m (q + 7) 47 else some q) = some p) :
    q ≤ p ∧ p ≤ q + U.length := by
  have hs := strncasecmp_cstr h (bytes "http://") 7 http_nonzero (by decide)
  by_cases hh : eqIgnoreCase (U.take 7) (bytes "http://")
  · rw [if_pos (hs.mpr hh)] at hp
    have hlen : (U.take 7).length = 7 := by
      have := congrArg List.length hh
      simpa [bytes_http] using this
    have hsuf : CStrAt m (q + 7) (U.drop 7) := by
      have := CStrAt.suffix (U.take 7) (U.drop 7) (by rw [List.take_append_drop]; exact h)
      rw [hlen] at this
      exact this
    unfold strchr at hp
    rw [cstr_eq hsuf] at hp
    cases hf : findFirst (fun b => b == 47) (U.drop 7) with
    | none => rw [hf] at hp; cases hp
    | some i =>
      rw [hf] at hp
      have hi := findFirst_lt _ _ _ hf
      have hd : (U.drop 7).length = U.length - 7 := List.length_drop 7 U
      have ht : (U.take 7).length = min 7 U.length := List.length_take 7 U
      have e : q + 7 + (i : Int) = p := Option.some.inj hp
      omega
  · rw [if_neg (fun e => hh (hs.mp e))] at hp
    have e : q = p := Option.some.inj hp
    omega

/-- The URL pointer that `parseRequestLine` records for a line with both
separators lies inside the line. -/
theorem parseRequestLine_twoSep_pos (c : HTTPConn) (s : Int) (M U V : List Nat) (w w' : Nat)
    (h : CStrAt c.readBuffer s (M ++ w :: (U ++ w' :: V)))
    (hM : ∀ x ∈ M, isSpTab x = false) (hw : isSpTab w = true)
    (hU : ∀ x ∈ U, isSpTab x = false) (hw' : isSpTab w' = true)
    (g1 : eqIgnoreCase M (bytes "GET")) (g2 : eqIgnoreCase V (bytes "HTTP/1.1"))
    (g3 : (stripHost U).head? = some 47) :
    ∃ c' p, parseRequestLine c s = (NO_REQUEST, c') ∧ c'.url = some p ∧ s ≤ p ∧
      p ≤ s + (M ++ w :: (U ++ w' :: V)).length := by
  have h1 := h.cut M w (U ++ w' :: V)
  have h2 := h.tail M w (U ++ w' :: V) 0
  have h3 := h2.cut U w' V
  have hget := strcasecmp_cstr h1 (bytes "GET") GET_nonzero
  have h4 := h2.tail U w' V 0
  have hver := strcasecmp_cstr h4 (bytes "HTTP/1.1") HTTP11_nonzero
  have hurl := url_step _ _ U h3
  have hlen : ((M ++ w :: (U ++ w' :: V)).length : Int) =
      M.length + 1 + U.length + 1 + V.length := by
    simp only [List.length_append, List.length_cons, Nat.cast_add, Nat.cast_one]; omega
  unfold parseRequestLine
  rw [strpbrk_hit h hM hw]
  dsimp only [store]
  rw [if_pos (hget.mpr g1), strpbrk_hit h2 hU hw']
  dsimp only
  rw [if_neg (not_not.mpr (hver.mpr g2))]
  obtain ⟨p, e1, e2, _⟩ := hurl.1 g3
  have hpos := url_step_pos _ _ U h3 p e1
  rw [e1]
  dsimp only
  rw [if_neg (not_not.mpr e2)]
  refine ⟨_, p, rfl, rfl, by omega, by omega⟩

/-- The URL pointer that `parseRequestLine` records for a request line in
order lies inside the line. -/
theorem parseRequestLine_pos (c : HTTPConn) (s : Int) (line : List Nat)
    (h : CStrAt c.readBuffer s line) (hok : requestLineOk line) :
    ∃ c' p, parseRequestLine c s = (NO_REQUEST, c') ∧ c'.url = some p ∧ s ≤ p ∧
      p ≤ s + line.length := by
  unfold requestLineOk methodToken urlToken versionToken at hok
  rcases split_first isSpTab line with h0 | ⟨M, w, r, e, hM, hw⟩
  · obtain ⟨_, t2⟩ := token_noSep line h0
    rw [t2] at hok
    have : afterToken [] = [] := rfl
    rw [this] at hok
    exact absurd hok.2.1 not_eqIgnoreCase_nil_HTTP11
  · subst e
    obtain ⟨t1, t2⟩ := token_split M w r hM hw
    rw [t1, t2] at hok
    rcases split_first isSpTab r with h0 | ⟨U, w', V, e, hU, hw'⟩
    · obtain ⟨_, t4⟩ := token_noSep r h0
      rw [t4] at hok
      exact absurd hok.2.1 not_eqIgnoreCase_nil_HTTP11
    · subst e
      obtain ⟨t3, t4⟩ := token_split U w' V hU hw'
      rw [t3, t4] at hok
      exact parseRequestLine_twoSep_pos c s M U V w w' h hM hw hU hw' hok.1 hok.2.1 hok.2.2

theorem stripHost_subset (u : List Nat) : ∀ b ∈ stripHost u, b ∈ u := by
  intro b hb
  unfold stripHost at hb
  split_ifs at hb
  · exact (List.drop_suffix 7 u).subset ((List.dropWhile_suffix _).subset hb)
  · exact hb

theorem urlToken_subset (l : List Nat) : ∀ b ∈ urlToken l, b ∈ l := by
  intro b hb
  unfold urlToken firstToken afterToken at hb
  exact (List.dropWhile_suffix _).subset ((List.drop_suffix 1 _).subset
    ((List.takeWhile_prefix _).subset hb))

/-- The URL of a request line has no `\r` and no `\n` when the line has
none. -/
theorem url_free (line : List Nat) (hfree : ∀ b ∈ line, b ≠ 13 ∧ b ≠ 10) :
    ∀ b ∈ stripHost (urlToken (cline line)), b ≠ 13 ∧ b ≠ 10 := by
  intro b hb
  apply hfree
  have h1 := urlToken_subset _ b (stripHost_subset _ b hb)
  unfold cline at h1
  exact (List.takeWhile_prefix _).subset h1

/-- A request line in order, with the position of the URL: the C string of
the URL ends before the next line. -/
theorem step_requestLine_url (fs : FileSys) (c : HTTPConn) (ls : LINE_STATUS) (line : List Nat)
    (hst : c.checkState = CHECK_STATE_REQUESTLINE) (hinv : Inv c) (hr : LineReady c line)
    (hok : requestLineOk (cline line)) :
    ∃ c', processReadIter fs c ls = Iter.next c' LINE_OK ∧
      Consumed c c' (c.startLine + line.length + 2) ∧
      c'.checkState = CHECK_STATE_HEADER ∧ c'.linger = c.linger ∧
      c'.contentLength = c.contentLength ∧
      ∃ p, c'.url = some p ∧ CStrAt c'.readBuffer p (stripHost (urlToken (cline line))) ∧
        p + ((stripHost (urlToken (cline line))).length : Int) < c.startLine + line.length + 2 := by
  have hc := lineState_cstr c line hinv hr
  obtain ⟨c', p, e1, e2, e3, e4, e5⟩ := (parseRequestLine_spec _ c.startLine (cline line) hc).2 hok
  obtain ⟨c'', p', f1, f2, f3, f4⟩ := parseRequestLine_pos _ c.startLine (cline line) hc hok
  have hcc : c'' = c' := by
    rw [e1] at f1
    exact (Prod.mk.inj f1).2.symm
  subst hcc
  have hpp : p' = p := by
    rw [e3] at f2
    exact (Option.some.inj f2).symm
  subst hpp
  have hidx := parseRequestLine_idx (lineStart c (c.startLine + line.length)) c.startLine
  have hk := parseRequestLine_keeps (lineStart c (c.startLine + line.length)) c.startLine
  have hl := cline_length line
  have hz : c''.readBuffer (c.startLine + (cline line).length) = 0 := by
    rw [e5 _ (Or.inr (le_refl _))]
    exact hc.2.2.1
  have hend := e4.end_le _ hz f4
  rw [processReadIter_line fs c ls line (by rw [hst]; decide) hinv.2.1 hr, hst]
  dsimp only
  rw [e1] at hidx hk ⊢
  rw [if_neg (show ¬ ((NO_REQUEST, c'').1 = BAD_REQUEST) by intro h; cases h)]
  refine ⟨c'', rfl, (lineState_consumed c line).after hidx (fun j hj => e5 j (Or.inr (by omega))),
    e2, hk.1, hk.2, p', e3, e4, by omega⟩

/-- Bytes received behind the data that stands at `q` extend it. -/
theorem at_recv (c : HTTPConn) (q : Int) (t seg : List Nat) (h : At c.readBuffer q t)
    (hq : q + t.length = c.readIndex) : At (recvSegment c seg).readBuffer q (t ++ seg) := by
  refine (at_append _ _ _ _).mpr ⟨?_, ?_⟩
  · exact at_congr _ _ _ _ (fun j _ hj => setBytes_before _ _ _ _ (by omega)) h
  · rw [hq]
    exact at_setBytes _ _ _

/-- Bytes received behind a C string leave it as it is. -/
theorem cstr_recv (c : HTTPConn) (p : Int) (U seg : List Nat) (h : CStrAt c.readBuffer p U)
    (hp : p + U.length < c.readIndex) : CStrAt (recvSegment c seg).readBuffer p U := by
  obtain ⟨h1, h2, h3, h4⟩ := h
  refine ⟨at_congr _ _ _ _ (fun j _ hj => setBytes_before _ _ _ _ (by omega)) h1, h2, ?_, h4⟩
  show setBytes c.readBuffer c.readIndex seg (p + U.length) = 0
  rw [setBytes_before _ _ _ _ hp]
  exact h3

/-- In `CHECK_STATE_REQUESTLINE` a request without body stands at `startLine`
(the scanner may already be inside the request line): `processRead` returns
what `doRequest` returns for the URL of the request line, with the `linger`
flag of the headers and the indices behind the empty line. -/
theorem request_tail_run (fs : FileSys) (c : HTTPConn) (reqLine : List Nat)
    (hs : List (List Nat)) (hst : c.checkState = CHECK_STATE_REQUESTLINE) (hinv : Inv c)
    (hci : c.checkedIndex ≤ c.startLine + reqLine.length)
    (hat : At c.readBuffer c.startLine (reqLine ++ [13, 10] ++ (wire hs ++ [13, 10])))
    (hlen : c.startLine + reqLine.length + 2 + (wire hs).length + 2 ≤ c.readIndex)
    (hreq : requestLineOk (cline reqLine)) (hfree : ∀ b ∈ reqLine, b ≠ 13 ∧ b ≠ 10)
    (hh : ∀ h ∈ hs, (∀ b ∈ h, b ≠ 13 ∧ b ≠ 10) ∧ cline h ≠ [])
    (hcl : contentLengthOf c.contentLength hs = 0) :
    ∃ c1, processRead fs c = some (doRequest fs c1) ∧
      urlString c1 = stripHost (urlToken (cline reqLine)) ∧
      c1.linger = (c.linger || anyKeepAlive hs) ∧
      c1.startLine = c.startLine + reqLine.length + 2 + (wire hs).length + 2 ∧
      c1.checkedIndex = c.startLine + reqLine.length + 2 + (wire hs).length + 2 ∧
      c1.readIndex = c.readIndex := by
  obtain ⟨hat1, hat2⟩ := (at_append _ _ _ _).mp hat
  have hr : LineReady c reqLine := ⟨hat1, hfree, hci, by omega⟩
  obtain ⟨c1, e1, k1, s1, l1, n1, p, hp, hcs, _⟩ :=
    step_requestLine_url fs c LINE_OK reqLine hst hinv hr hreq
  have hq : ((reqLine ++ [13, 10]).length : Int) = reqLine.length + 2 := by
    simp only [List.length_append, List.length_cons, List.length_nil, Nat.cast_add]
    omega
  rw [hq, show c.startLine + ((reqLine.length : Int) + 2) = c.startLine + reqLine.length + 2
    by omega] at hat2
  have hinv1 : Inv c1 := k1.toInv hinv (by have := hinv.1; omega) (by omega)
  have hat3 : At c1.readBuffer c1.startLine (wire hs ++ [13, 10]) := by
    rw [k1.startLine]
    exact at_congr _ _ _ _ (fun j hj _ => k1.buffer j hj) hat2
  obtain ⟨c2, e2, u2, l2, s2, k2, r2⟩ := tail_run fs p _ (url_free reqLine hfree) hs c1 s1 hinv1
    (fun cur _ _ => by rw [k1.startLine, k1.checkedIndex]; omega) hat3
    (by rw [k1.startLine, k1.readIndex]; omega) hh (by rw [n1]; exact hcl) hp hcs
  refine ⟨c2, processRead_step e1 e2, u2, by rw [l2, l1], ?_, ?_, r2.trans k1.readIndex⟩
  · rw [s2, k1.startLine]
  · rw [k2, k1.startLine]

/-- In `CHECK_STATE_REQUESTLINE` the request line, complete header lines and
then a line that is not complete stand at `startLine`: `processRead` handles
the complete lines and returns `NO_REQUEST`; the URL is recorded, and its C
string ends inside the request line. -/
theorem request_prefix_run (fs : FileSys) (c : HTTPConn) (reqLine : List Nat)
    (hs : List (List Nat)) (pre crs : List Nat)
    (hst : c.checkState = CHECK_STATE_REQUESTLINE) (hinv : Inv c)
    (hci : c.checkedIndex ≤ c.startLine + reqLine.length)
    (hat : At c.readBuffer c.startLine (reqLine ++ [13, 10] ++ (wire hs ++ (pre ++ crs))))
    (hlen : c.startLine + reqLine.length + 2 + (wire hs).length + pre.length + crs.length
      = c.readIndex)
    (hreq : requestLineOk (cline reqLine)) (hfree : ∀ b ∈ reqLine, b ≠ 13 ∧ b ≠ 10)
    (hh : ∀ h ∈ hs, (∀ b ∈ h, b ≠ 13 ∧ b ≠ 10) ∧ cline h ≠ [])
    (hpre : ∀ b ∈ pre, b ≠ 13 ∧ b ≠ 10) (hcrs : crs = [] ∨ crs = [13]) :
    ∃ cP, processRead fs c = some (NO_REQUEST, cP) ∧
      cP.checkState = CHECK_STATE_HEADER ∧
      cP.startLine = c.startLine + reqLine.length + 2 + (wire hs).length ∧
      cP.checkedIndex = c.startLine + reqLine.length + 2 + (wire hs).length + pre.length ∧
      cP.readIndex = c.readIndex ∧
      (∀ j, c.startLine + reqLine.length + 2 + (wire hs).length ≤ j →
        cP.readBuffer j = c.readBuffer j) ∧
      cP.linger = (c.linger || anyKeepAlive hs) ∧
      cP.contentLength = contentLengthOf c.contentLength hs ∧
      ∃ p, cP.url = some p ∧ CStrAt cP.readBuffer p (stripHost (urlToken (cline reqLine))) ∧
        p + ((stripHost (urlToken (cline reqLine))).length : Int)
          < c.startLine + reqLine.length + 2 := by
  obtain ⟨hat1, hat2⟩ := (at_append _ _ _ _).mp hat
  have hr : LineReady c reqLine := ⟨hat1, hfree, hci, by omega⟩
  obtain ⟨c1, e1, k1, s1, l1, n1, p, hp, hcs, hpos⟩ :=
    step_requestLine_url fs c LINE_OK reqLine hst hinv hr hreq
  have hq : ((reqLine ++ [13, 10]).length : Int) = reqLine.length + 2 := by
    simp only [List.length_append, List.length_cons, List.length_nil, Nat.cast_add]
    omega
  rw [hq, show c.startLine + ((reqLine.length : Int) + 2) = c.startLine + reqLine.length + 2
    by omega] at hat2
  have hinv1 : Inv c1 := k1.toInv hinv (by have := hinv.1; omega) (by omega)
  have hat3 : At c1.readBuffer c1.startLine (wire hs ++ (pre ++ crs)) := by
    rw [k1.startLine]
    exact at_congr _ _ _ _ (fun j hj _ => k1.buffer j hj) hat2
  obtain ⟨cP, e2, s2, a2, k2, r2, b2, l2, n2, u2, hU2⟩ :=
    prefix_run fs p _ (url_free reqLine hfree) pre crs hpre hcrs hs c1 s1 hinv1
      (by rw [k1.startLine, k1.checkedIndex]) hat3
      (by rw [k1.startLine, k1.readIndex]; omega) hh hcs
  refine ⟨cP, processRead_step e1 e2, s2, ?_, ?_, r2.trans k1.readIndex, ?_, by rw [l2, l1],
    by rw [n2, n1], p, u2.trans hp, hU2, hpos⟩
  · rw [a2, k1.startLine]
  · rw [k2, k1.startLine]
  · intro j hj
    rw [b2 j (by rw [k1.startLine]; exact hj), k1.buffer j (by omega)]

/-- A cut of lines on the wire falls into one of them: complete lines, then a
proper prefix of the line that is cut. -/
theorem wire_cut : ∀ (lines : List (List Nat)) (P R : List Nat), P ++ R = wire lines → R ≠ [] →
    ∃ l1 cur l2 t t2, lines = l1 ++ cur :: l2 ∧ P = wire l1 ++ t ∧ t ++ t2 = cur ++ [13, 10] ∧
      t2 ≠ [] ∧ R = t2 ++ wire l2 := by
  intro lines
  induction lines with
  | nil =>
    intro P R h hR
    exact absurd (List.append_eq_nil.mp h).2 hR
  | cons x rest ih =>
    intro P R h hR
    have hw : wire (x :: rest) = (x ++ [13, 10]) ++ wire rest := rfl
    rw [hw] at h
    rcases List.append_eq_append_iff.mp h with ⟨a, e1, e2⟩ | ⟨a, e1, e2⟩
    · by_cases ha : a = []
      · subst ha
        rw [List.append_nil] at e1
        rw [List.nil_append] at e2
        obtain ⟨l1, cur, l2, t, t2, f1, f2, f3, f4, f5⟩ := ih [] R (by rw [← e2]; rfl) hR
        refine ⟨x :: l1, cur, l2, t, t2, by rw [f1]; rfl, ?_, f3, f4, f5⟩
        show P = x ++ [13, 10] ++ wire l1 ++ t
        rw [List.append_assoc, ← f2, List.append_nil, e1]
      · exact ⟨[], x, rest, P, a, rfl, rfl, e1.symm, ha, e2⟩
    · obtain ⟨l1, cur, l2, t, t2, f1, f2, f3, f4, f5⟩ := ih a R e2.symm hR
      refine ⟨x :: l1, cur, l2, t, t2, by rw [f1]; rfl, ?_, f3, f4, f5⟩
      show P = x ++ [13, 10] ++ wire l1 ++ t
      rw [List.append_assoc, ← f2, e1]

/-- A proper prefix of a line with its `\r\n`: bytes of the line, or the line
and the `\r`. -/
theorem partial_line (cur t t2 : List Nat) (h : t ++ t2 = cur ++ [13, 10]) (h2 : t2 ≠ [])
    (hfree : ∀ b ∈ cur, b ≠ 13 ∧ b ≠ 10) :
    ∃ pre crs, t = pre ++ crs ∧ (crs = [] ∨ crs = [13]) ∧ (∀ b ∈ pre, b ≠ 13 ∧ b ≠ 10) ∧
      pre.length ≤ cur.length := by
  rcases List.append_eq_append_iff.mp h with ⟨a, e1, e2⟩ | ⟨a, e1, e2⟩
  · refine ⟨t, [], (List.append_nil t).symm, Or.inl rfl,
      fun b hb => hfree b (by rw [e1]; exact List.mem_append_left _ hb), ?_⟩
    rw [e1, List.length_append]
    omega
  · refine ⟨cur, a, e1, ?_, hfree, le_refl _⟩
    cases a with
    | nil => exact Or.inl rfl
    | cons y ys =>
      right
      cases ys with
      | nil =>
        have := List.head_eq_of_cons_eq e2
        rw [← this]
      | cons z zs =>
        exfalso
        have hl := congrArg List.length e2
        simp only [List.length_cons, List.length_nil, List.length_append] at hl
        have : t2.length = 0 := by omega
        exact h2 (List.length_eq_zero.mp this)

/-- The lines behind the request line end with the empty line: what stands
behind a cut inside them is header lines and the empty line. -/
theorem split_blank (hs l1 l2 : List (List Nat)) (cur : List Nat)
    (h : hs ++ [[]] = l1 ++ cur :: l2) : ∃ hs2, hs = l1 ++ hs2 ∧ cur :: l2 = hs2 ++ [[]] := by
  rcases List.append_eq_append_iff.mp h with ⟨a, e1, e2⟩ | ⟨a, e1, e2⟩
  · cases a with
    | nil =>
      rw [List.nil_append] at e2
      rw [List.append_nil] at e1
      exact ⟨[], by rw [e1, List.append_nil], by rw [e2]; rfl⟩
    | cons y ys =>
      exfalso
      have hl := congrArg List.length e2
      simp only [List.length_cons, List.length_nil, List.length_append] at hl
      omega
  · exact ⟨a, e1, e2⟩

/-- The code of `doRequest` is decided by the path it looks up. -/
theorem doRequest_code_path (fs : FileSys) (a b : HTTPConn)
    (h : requestPath a = requestPath b) : (doRequest fs a).1 = (doRequest fs b).1 := by
  have e : ∀ c, (doRequest fs c).1 = match fs.stat (requestPath c) with
      | none => NO_RESOURCE
      | some st =>
        if st.st_mode &&& S_IROTH = 0 then FORBIDDEN_REQUEST
        else if st.st_mode &&& S_IFMT = S_IFDIR then BAD_REQUEST else FILE_REQUEST := by
    intro c
    cases hst : fs.stat (requestPath c) with
    | none =>
      unfold requestPath at hst
      unfold doRequest
      simp only [hst]
    | some st =>
      unfold requestPath at hst
      unfold doRequest
      simp only [hst]
      split_ifs <;> rfl
  rw [e a, e b, h]

/-- Two states with the same URL in which `realFile` still ends with the NUL
of `init()`: `doRequest` returns the same code. -/
theorem doRequest_agree (fs : FileSys) (a b : HTTPConn)
    (ha : a.realFile (FILENAME_LEN - 1) = 0) (hb : b.realFile (FILENAME_LEN - 1) = 0)
    (hu : urlString a = urlString b) : (doRequest fs a).1 = (doRequest fs b).1 :=
  doRequest_code_path fs a b (by rw [requestPath_eq a ha, requestPath_eq b hb, hu])

/-- A line whose last byte received is its `\r`: `parseLine` returns
`LINE_OPEN` and stops at the `\r`, changing nothing else; once the `\n` has
arrived it returns `LINE_OK` for the line. -/
theorem parseLine_lone_cr (c : HTTPConn) (line rest : List Nat)
    (h1 : c.startLine ≤ c.checkedIndex) (h2 : c.checkedIndex ≤ c.startLine + line.length)
    (hfree : ∀ b ∈ line, b ≠ 13 ∧ b ≠ 10) (hat : At c.readBuffer c.startLine (line ++ [13]))
    (hri : c.readIndex = c.startLine + line.length + 1) :
    parseLine c = (LINE_OPEN, scannedTo c (c.startLine + line.length)) ∧
      parseLine (recvSegment (scannedTo c (c.startLine + line.length)) (10 :: rest))
        = (LINE_OK, lineDone (recvSegment (scannedTo c (c.startLine + line.length)) (10 :: rest))
            (c.startLine + line.length)) := by
  constructor
  · have hk : (c.checkedIndex - c.startLine).toNat ≤ line.length := by omega
    have hsplit : line ++ [13]
        = line.take (c.checkedIndex - c.startLine).toNat
          ++ (line.drop (c.checkedIndex - c.startLine).toNat ++ [13]) := by
      rw [← List.append_assoc, List.take_append_drop]
    rw [hsplit] at hat
    obtain ⟨_, hat2⟩ := (at_append _ _ _ _).mp hat
    have htl : ((line.take (c.checkedIndex - c.startLine).toNat).length : Int)
        = c.checkedIndex - c.startLine := by
      rw [List.length_take, Nat.min_eq_left hk]
      omega
    have hdl : ((line.drop (c.checkedIndex - c.startLine).toNat).length : Int)
        = c.startLine + line.length - c.checkedIndex := by
      rw [List.length_drop]
      omega
    rw [htl, show c.startLine + (c.checkedIndex - c.startLine) = c.checkedIndex by omega] at hat2
    obtain ⟨hat3, hat4⟩ := (at_append _ _ _ _).mp hat2
    have e := parseLine_partial c (line.drop (c.checkedIndex - c.startLine).toNat) hat3
      (fun b hb => hfree b (List.mem_of_mem_drop hb)) (Or.inr ⟨hat4.1, by omega⟩)
    rw [e, show c.checkedIndex + ((line.drop (c.checkedIndex - c.startLine).toNat).length : Int)
      = c.startLine + line.length by omega]
    rfl
  · have hq : c.startLine + ((line ++ [13]).length : Int)
        = (scannedTo c (c.startLine + line.length)).readIndex := by
      show _ = c.readIndex
      rw [hri]
      simp only [List.length_append, List.length_cons, List.length_nil, Nat.cast_add]
      omega
    have hat1 := at_recv (scannedTo c (c.startLine + line.length)) c.startLine (line ++ [13])
      (10 :: rest) hat hq
    have hl : line ++ [13] ++ 10 :: rest = (line ++ [13, 10]) ++ rest := by
      simp only [List.append_assoc, List.cons_append, List.nil_append]
    rw [hl] at hat1
    have hr : LineReady (recvSegment (scannedTo c (c.startLine + line.length)) (10 :: rest))
        line := by
      refine ⟨((at_append _ _ _ _).mp hat1).1, hfree, le_refl _, ?_⟩
      show c.startLine + (line.length : Int) + 2 ≤ c.readIndex + (((10 :: rest).length : Nat) : Int)
      rw [hri]
      simp only [List.length_cons, Nat.cast_add, Nat.cast_one]
      omega
    exact parseLine_ready _ line (show c.startLine ≤ c.startLine + (line.length : Int) by omega) hr

/-- C21 (counterexample to the claim as written). The request
`POST / HTTP/1.1` followed by CR LF CR LF carries no body and ends with its
empty line; on its proper prefix of 17 bytes, the request line with its CR LF,
`processRead` returns `BAD_REQUEST`, not `NO_REQUEST`. -/
theorem C21_prefix_bad_request :
    postRequest.take 17 ++ postRequest.drop 17 = postRequest ∧ postRequest.drop 17 ≠ [] ∧
      ∃ c', processRead noFiles (recvSegment (init blank) (postRequest.take 17))
        = some (BAD_REQUEST, c') := by
  refine ⟨List.take_append_drop _ _, by decide, ?_⟩
  have e : postRequest.take 17 = bytes "POST / HTTP/1.1" ++ [13, 10] ++ [] := by decide
  rw [e]
  obtain ⟨c', h, _⟩ := processRead_requestLine_bad noFiles _ (bytes "POST / HTTP/1.1") rfl
    (fresh_inv blank _ (by decide)) (fresh_lineReady blank _ [] (by decide)) (by decide)
  exact ⟨c', h⟩

theorem wire_blank (hs : List (List Nat)) : wire (hs ++ [[]]) = wire hs ++ [13, 10] := by
  rw [wire_append]
  rfl

/-- A request without body whose request line is in order, received at once
on a freshly initialised connection: `processRead` returns what `doRequest`
returns for the URL of the request line, with the `linger` flag of the
headers and all indices at the end of the request. -/
theorem whole_run (fs : FileSys) (c0 : HTTPConn) (reqLine : List Nat) (hs : List (List Nat))
    (hreq : requestLineOk (cline reqLine)) (hfree : ∀ b ∈ reqLine, b ≠ 13 ∧ b ≠ 10)
    (hh : ∀ h ∈ hs, (∀ b ∈ h, b ≠ 13 ∧ b ≠ 10) ∧ cline h ≠ [])
    (hcl : contentLengthOf 0 hs = 0)
    (hlen : ((reqLine ++ [13, 10] ++ (wire hs ++ [13, 10])).length : Int) ≤ READ_BUFFER_SIZE) :
    ∃ c1, processRead fs (recvSegment (init c0) (reqLine ++ [13, 10] ++ (wire hs ++ [13, 10])))
        = some (doRequest fs c1) ∧
      urlString c1 = stripHost (urlToken (cline reqLine)) ∧ c1.linger = anyKeepAlive hs ∧
      c1.startLine = ((reqLine ++ [13, 10] ++ (wire hs ++ [13, 10])).length : Int) ∧
      c1.checkedIndex = ((reqLine ++ [13, 10] ++ (wire hs ++ [13, 10])).length : Int) ∧
      c1.readIndex = ((reqLine ++ [13, 10] ++ (wire hs ++ [13, 10])).length : Int) ∧
      c1.realFile (FILENAME_LEN - 1) = 0 := by
  have hL : ((reqLine ++ [13, 10] ++ (wire hs ++ [13, 10])).length : Int)
      = reqLine.length + 2 + (wire hs).length + 2 := by
    simp only [List.length_append, List.length_cons, List.length_nil, Nat.cast_add]
    omega
  obtain ⟨cf, hcf, f1, f2, f3, f4, f5, f6, f7, f8⟩ : ∃ cf,
      cf = recvSegment (init c0) (reqLine ++ [13, 10] ++ (wire hs ++ [13, 10])) ∧
      cf.checkState = CHECK_STATE_REQUESTLINE ∧ cf.startLine = 0 ∧ cf.checkedIndex = 0 ∧
      cf.readIndex = 0 + ((reqLine ++ [13, 10] ++ (wire hs ++ [13, 10])).length : Int) ∧
      cf.linger = false ∧ cf.contentLength = 0 ∧ cf.realFile (FILENAME_LEN - 1) = 0 ∧
      At cf.readBuffer 0 (reqLine ++ [13, 10] ++ (wire hs ++ [13, 10])) :=
    ⟨_, rfl, rfl, rfl, rfl, rfl, rfl, rfl, rfl, fresh_at c0 _⟩
  have hinvf : Inv cf := by rw [hcf]; exact fresh_inv c0 _ hlen
  rw [← hcf]
  obtain ⟨c1, e1, u1, l1, s1, k1, r1⟩ := request_tail_run fs cf reqLine hs f1 hinvf
    (by rw [f3, f2]; omega) (by rw [f2]; exact f8) (by rw [f2, f4]; omega) hreq hfree hh
    (by rw [f6]; exact hcl)
  have hk := (processRead_kept fs cf _ e1).1.realFileEnd
  rw [doRequest_realFile] at hk
  refine ⟨c1, e1, u1, by rw [l1, f5]; rfl, by rw [s1, f2]; omega, by rw [k1, f2]; omega,
    by rw [r1, f4]; omega, hk.trans f7⟩

/-- The same request received in two pieces, the first one a proper prefix:
`processRead` returns `NO_REQUEST` on the first piece, and after the second
piece has arrived it returns what `doRequest` returns for the URL of the
request line, with the `linger` flag of the headers and all indices at the end
of the request. -/
theorem resumed_run (fs : FileSys) (c0 : HTTPConn) (reqLine : List Nat) (hs : List (List Nat))
    (P R : List Nat)
    (hreq : requestLineOk (cline reqLine)) (hfree : ∀ b ∈ reqLine, b ≠ 13 ∧ b ≠ 10)
    (hh : ∀ h ∈ hs, (∀ b ∈ h, b ≠ 13 ∧ b ≠ 10) ∧ cline h ≠ [])
    (hcl : contentLengthOf 0 hs = 0)
    (hcut : P ++ R = reqLine ++ [13, 10] ++ (wire hs ++ [13, 10])) (hR : R ≠ [])
    (hlen : ((P ++ R).length : Int) ≤ READ_BUFFER_SIZE) :
    ∃ cP c2, processRead fs (recvSegment (init c0) P) = some (NO_REQUEST, cP) ∧
      processRead fs (recvSegment cP R) = some (doRequest fs c2) ∧
      urlString c2 = stripHost (urlToken (cline reqLine)) ∧ c2.linger = anyKeepAlive hs ∧
      c2.startLine = ((P ++ R).length : Int) ∧ c2.checkedIndex = ((P ++ R).length : Int) ∧
      c2.readIndex = ((P ++ R).length : Int) ∧ c2.realFile (FILENAME_LEN - 1) = 0 := by
  have hW : wire (reqLine :: (hs ++ [[]])) = reqLine ++ [13, 10] ++ (wire hs ++ [13, 10]) := by
    show reqLine ++ [13, 10] ++ wire (hs ++ [[]]) = _
    rw [wire_blank]
  have hLW : ((P ++ R).length : Int) = reqLine.length + 2 + (wire hs).length + 2 := by
    rw [hcut]
    simp only [List.length_append, List.length_cons, List.length_nil, Nat.cast_add]
    omega
  have hLPR : ((P ++ R).length : Int) = P.length + R.length := by
    simp only [List.length_append, Nat.cast_add]
  obtain ⟨l1, cur, l2, t, t2, hl, hP, ht, ht2, hRR⟩ := wire_cut _ P R (hcut.trans hW.symm) hR
  obtain ⟨cf, hcf, f1, f2, f3, f4, f5, f6, f7, f8⟩ : ∃ cf, cf = recvSegment (init c0) P ∧
      cf.checkState = CHECK_STATE_REQUESTLINE ∧ cf.startLine = 0 ∧ cf.checkedIndex = 0 ∧
      cf.readIndex = 0 + (P.length : Int) ∧ cf.linger = false ∧ cf.contentLength = 0 ∧
      cf.realFile (FILENAME_LEN - 1) = 0 ∧ At cf.readBuffer 0 P :=
    ⟨_, rfl, rfl, rfl, rfl, rfl, rfl, rfl, rfl, fresh_at c0 P⟩
  have hinvf : Inv cf := by rw [hcf]; exact fresh_inv c0 P (by omega)
  rw [← hcf]
  cases l1 with
  | nil =>
    have hl' : reqLine :: (hs ++ [[]]) = cur :: l2 := hl
    obtain ⟨hc, _⟩ := List.cons.inj hl'
    subst hc
    have hPt : P = t := hP
    obtain ⟨pre, crs, htp, hcrs, hpre, hple⟩ := partial_line reqLine t t2 ht ht2 hfree
    have hPl : (P.length : Int) = pre.length + crs.length := by
      rw [hPt, htp]
      simp only [List.length_append, Nat.cast_add]
    have hPR := at_recv cf 0 P R f8 (by rw [f4])
    rw [hPt, htp] at f8
    obtain ⟨hat1, hat2⟩ := (at_append _ _ _ _).mp f8
    have hri : cf.checkedIndex + pre.length = cf.readIndex ∨
        (cf.readBuffer (cf.checkedIndex + pre.length) = 13 ∧
          cf.checkedIndex + pre.length + 1 = cf.readIndex) := by
      rw [f3, f4]
      rcases hcrs with h | h
      · left
        rw [h] at hPl
        simp only [List.length_nil, Nat.cast_zero] at hPl
        omega
      · right
        rw [h] at hPl hat2
        simp only [List.length_cons, List.length_nil, Nat.cast_add, Nat.cast_one,
          Nat.cast_zero] at hPl
        exact ⟨hat2.1, by omega⟩
    have run1 := processRead_partial fs cf pre (by rw [f1]; decide) (by rw [f3]; exact hat1)
      hpre hri
    obtain ⟨cP, hcP, p1, p2, p3, p4, p5, p6, p7, p8⟩ : ∃ cP,
        cP = scannedTo cf (cf.checkedIndex + pre.length) ∧ cP.checkState = cf.checkState ∧
        cP.startLine = cf.startLine ∧ cP.checkedIndex = cf.checkedIndex + pre.length ∧
        cP.readIndex = cf.readIndex ∧ cP.readBuffer = cf.readBuffer ∧ cP.linger = cf.linger ∧
        cP.contentLength = cf.contentLength ∧ cP.realFile = cf.realFile :=
      ⟨_, rfl, rfl, rfl, rfl, rfl, rfl, rfl, rfl, rfl⟩
    have run1' : processRead fs cf = some (NO_REQUEST, cP) := by rw [hcP]; exact run1
    obtain ⟨d, hd, d1, d2, d3, d4, d5, d6, d7, d8⟩ : ∃ d, d = recvSegment cP R ∧
        d.checkState = cP.checkState ∧ d.startLine = cP.startLine ∧
        d.checkedIndex = cP.checkedIndex ∧ d.readIndex = cP.readIndex + (R.length : Int) ∧
        d.readBuffer = setBytes cP.readBuffer cP.readIndex R ∧ d.linger = cP.linger ∧
        d.contentLength = cP.contentLength ∧ d.realFile = cP.realFile :=
      ⟨_, rfl, rfl, rfl, rfl, rfl, rfl, rfl, rfl, rfl⟩
    have hinvd : Inv d := by
      refine ⟨?_, ?_, ?_, ?_⟩
      · rw [d2, p2, f2]
      · rw [d2, d3, p2, p3, f2, f3]; omega
      · rw [d3, d4, p3, p4, f3, f4]; omega
      · rw [d4, p4, f4]; omega
    have hatd : At d.readBuffer d.startLine (reqLine ++ [13, 10] ++ (wire hs ++ [13, 10])) := by
      rw [d5, d2, p5, p4, p2, f2, ← hcut]
      exact hPR
    obtain ⟨c2, e2, u2, l2', s2, k2, r2⟩ := request_tail_run fs d reqLine hs
      (d1.trans (p1.trans f1)) hinvd (by rw [d3, p3, f3, d2, p2, f2]; omega) hatd
      (by rw [d2, p2, f2, d4, p4, f4]; omega) hreq hfree hh (by rw [d7, p7, f6]; exact hcl)
    have hk := (processRead_kept fs d _ e2).1.realFileEnd
    rw [doRequest_realFile] at hk
    refine ⟨cP, c2, run1', by rw [← hd]; exact e2, u2, by rw [l2', d6, p6, f5]; rfl,
      by rw [s2, d2, p2, f2]; omega, by rw [k2, d2, p2, f2]; omega,
      by rw [r2, d4, p4, f4]; omega, by rw [hk, d8, p8]; exact f7⟩
  | cons x l1' =>
    have hl' : reqLine :: (hs ++ [[]]) = x :: (l1' ++ cur :: l2) := hl
    obtain ⟨hx, hl2⟩ := List.cons.inj hl'
    subst hx
    obtain ⟨hs2, hhs, hcur⟩ := split_blank hs l1' l2 cur hl2
    have hcurfree : ∀ b ∈ cur, b ≠ 13 ∧ b ≠ 10 := by
      cases hs2 with
      | nil =>
        have : cur = [] := (List.cons.inj hcur).1
        rw [this]
        intro b hb
        cases hb
      | cons h t =>
        have : cur = h := (List.cons.inj hcur).1
        rw [this]
        exact (hh h (by rw [hhs]; simp)).1
    obtain ⟨pre, crs, htp, hcrs, hpre, hple⟩ := partial_line cur t t2 ht ht2 hcurfree
    have hPeq : P = reqLine ++ [13, 10] ++ (wire l1' ++ (pre ++ crs)) := by
      rw [hP, htp]
      show reqLine ++ [13, 10] ++ wire l1' ++ (pre ++ crs) = _
      simp only [List.append_assoc]
    have hPl : (P.length : Int)
        = reqLine.length + 2 + (wire l1').length + pre.length + crs.length := by
      rw [hPeq]
      simp only [List.length_append, List.length_cons, List.length_nil, Nat.cast_add]
      omega
    have hwl : ((wire hs).length : Int) = (wire l1').length + (wire hs2).length := by
      rw [hhs, wire_append]
      simp only [List.length_append, Nat.cast_add]
    have hrest : (pre ++ crs) ++ R = wire hs2 ++ [13, 10] := by
      rw [← htp, hRR, ← List.append_assoc, ht]
      show wire (cur :: l2) = _
      rw [hcur, wire_blank]
    have hTR : (pre.length : Int) + crs.length + R.length = (wire hs2).length + 2 := by
      have := congrArg List.length hrest
      simp only [List.length_append, List.length_cons, List.length_nil] at this
      omega
    have hh1 : ∀ h ∈ l1', (∀ b ∈ h, b ≠ 13 ∧ b ≠ 10) ∧ cline h ≠ [] :=
      fun h hm => hh h (by rw [hhs]; exact List.mem_append_left _ hm)
    have hh2 : ∀ h ∈ hs2, (∀ b ∈ h, b ≠ 13 ∧ b ≠ 10) ∧ cline h ≠ [] :=
      fun h hm => hh h (by rw [hhs]; exact List.mem_append_right _ hm)
    rw [hPeq] at f8
    obtain ⟨cP, run1, p1, p2, p3, p4, p5, p6, p7, p, pu, pcs, ppos⟩ :=
      request_prefix_run fs cf reqLine l1' pre crs f1 hinvf (by rw [f3, f2]; omega)
        (by rw [f2]; exact f8) (by rw [f2, f4]; omega) hreq hfree hh1 hpre hcrs
    rw [f2] at p2 p3 p5 ppos
    rw [f4] at p4
    rw [f5] at p6
    rw [f6] at p7
    have hkP := (processRead_kept fs cf _ run1).1.realFileEnd
    have hatt : At cP.readBuffer cP.startLine (pre ++ crs) := by
      have h1 := ((at_append _ _ _ _).mp ((at_append _ _ _ _).mp f8).2).2
      have hq1 : (0 : Int) + ((reqLine ++ [13, 10]).length : Int) + ((wire l1').length : Int)
          = cP.startLine := by
        rw [p2]
        simp only [List.length_append, List.length_cons, List.length_nil, Nat.cast_add]
        omega
      rw [hq1] at h1
      exact at_congr _ _ _ _ (fun j hj _ => p5 j (by rw [← p2]; exact hj)) h1
    have hPRt := at_recv cP cP.startLine (pre ++ crs) R hatt (by
      rw [p2, p4]
      simp only [List.length_append, Nat.cast_add]
      omega)
    rw [hrest] at hPRt
    have hcsd := cstr_recv cP p _ R pcs (by rw [p4]; omega)
    obtain ⟨d, hd, d1, d2, d3, d4, d6, d7, d8, d9⟩ : ∃ d, d = recvSegment cP R ∧
        d.checkState = cP.checkState ∧ d.startLine = cP.startLine ∧
        d.checkedIndex = cP.checkedIndex ∧ d.readIndex = cP.readIndex + (R.length : Int) ∧
        d.linger = cP.linger ∧ d.contentLength = cP.contentLength ∧
        d.realFile = cP.realFile ∧ d.url = cP.url :=
      ⟨_, rfl, rfl, rfl, rfl, rfl, rfl, rfl, rfl, rfl⟩
    rw [← hd] at hPRt hcsd
    have hinvd : Inv d := by
      refine ⟨?_, ?_, ?_, ?_⟩
      · rw [d2, p2]; omega
      · rw [d2, d3, p2, p3]; omega
      · rw [d3, d4, p3, p4]; omega
      · rw [d4, p4]; omega
    have hcid : ∀ cur' rest', hs2 ++ [[]] = cur' :: rest' →
        d.checkedIndex ≤ d.startLine + cur'.length := by
      intro cur' rest' e
      have : cur = cur' := (List.cons.inj (hcur.trans e)).1
      rw [← this, d3, d2, p3, p2]
      omega
    have hcl2 : contentLengthOf d.contentLength hs2 = 0 := by
      rw [d7, p7]
      have : contentLengthOf (contentLengthOf 0 l1') hs2 = contentLengthOf 0 (l1' ++ hs2) := by
        unfold contentLengthOf
        rw [List.foldl_append]
      rw [this, ← hhs]
      exact hcl
    obtain ⟨c2, e2, u2, l2', s2, k2, r2⟩ := tail_run fs p _ (url_free reqLine hfree) hs2 d
      (d1.trans p1) hinvd hcid (by rw [d2]; exact hPRt) (by rw [d2, p2, d4, p4]; omega) hh2
      hcl2 (d9.trans pu) hcsd
    have hk := (processRead_kept fs d _ e2).1.realFileEnd
    rw [doRequest_realFile] at hk
    refine ⟨cP, c2, run1, by rw [← hd]; exact e2, u2, ?_,
      by rw [s2, d2, p2]; omega, by rw [k2, d2, p2]; omega,
      by rw [r2, d4, p4]; omega, by rw [hk, d8, hkP]; exact f7⟩
    rw [l2', d6, p6, hhs]
    unfold anyKeepAlive
    rw [List.any_append]
    rfl

/-- C21 (as amended). A request without body is a request line that is in
order as the C library sees it, header lines none of which is empty up to its
first NUL byte, with `contentLength` 0 after the last of them, no line
containing `\r` or `\n`, and the empty line; it has at most 2048 bytes and
arrives on a freshly initialised connection.  For every cut of it into a
piece `P` and a non-empty rest `R`: `processRead` on `P` returns `NO_REQUEST`,
and `processRead` after `R` has been appended returns the same code, URL,
`linger` flag, `startLine`, `checkedIndex` and `readIndex` as `processRead` on
the whole request, which returns the code of `doRequest` for the URL of the
request line, the `linger` flag of the headers and `checkedIndex` at the end
of the request.  And for every line whose last byte received is its `\r`:
`parseLine` returns `LINE_OPEN` with nothing changed but `checkedIndex`, which
stands at the `\r`, and once the `\n` has arrived it returns `LINE_OK` for the
line. -/
theorem C21_resumable (fs : FileSys) (c0 : HTTPConn) (reqLine : List Nat) (hs : List (List Nat))
    (P R : List Nat)
    (hreq : requestLineOk (cline reqLine)) (hfree : ∀ b ∈ reqLine, b ≠ 13 ∧ b ≠ 10)
    (hh : ∀ h ∈ hs, (∀ b ∈ h, b ≠ 13 ∧ b ≠ 10) ∧ cline h ≠ [])
    (hcl : contentLengthOf 0 hs = 0)
    (hcut : P ++ R = reqLine ++ [13, 10] ++ (wire hs ++ [13, 10])) (hR : R ≠ [])
    (hlen : ((P ++ R).length : Int) ≤ READ_BUFFER_SIZE) :
    (∃ cP r2 r1, processRead fs (recvSegment (init c0) P) = some (NO_REQUEST, cP) ∧
      processRead fs (recvSegment cP R) = some r2 ∧
      processRead fs (recvSegment (init c0) (P ++ R)) = some r1 ∧
      r1.1 ≠ NO_REQUEST ∧ r2.1 = r1.1 ∧
      urlString r1.2 = stripHost (urlToken (cline reqLine)) ∧ urlString r2.2 = urlString r1.2 ∧
      r1.2.linger = anyKeepAlive hs ∧ r2.2.linger = r1.2.linger ∧
      r1.2.checkedIndex = ((P ++ R).length : Int) ∧
      r2.2.startLine = r1.2.startLine ∧ r2.2.checkedIndex = r1.2.checkedIndex ∧
      r2.2.readIndex = r1.2.readIndex) ∧
    ∀ (c : HTTPConn) (line rest : List Nat), c.startLine ≤ c.checkedIndex →
      c.checkedIndex ≤ c.startLine + line.length → (∀ b ∈ line, b ≠ 13 ∧ b ≠ 10) →
      At c.readBuffer c.startLine (line ++ [13]) → c.readIndex = c.startLine + line.length + 1 →
      parseLine c = (LINE_OPEN, scannedTo c (c.startLine + line.length)) ∧
        parseLine (recvSegment (scannedTo c (c.startLine + line.length)) (10 :: rest))
          = (LINE_OK, lineDone (recvSegment (scannedTo c (c.startLine + line.length)) (10 :: rest))
              (c.startLine + line.length)) := by
  refine ⟨?_, fun c line rest h1 h2 h3 h4 h5 => parseLine_lone_cr c line rest h1 h2 h3 h4 h5⟩
  obtain ⟨c1, e1, u1, l1, s1, k1, r1, g1⟩ := whole_run fs c0 reqLine hs hreq hfree hh hcl
    (by rw [← hcut]; exact hlen)
  rw [← hcut] at e1 s1 k1 r1
  obtain ⟨cP, c2, run1, e2, u2, l2, s2, k2, r2, g2⟩ :=
    resumed_run fs c0 reqLine hs P R hreq hfree hh hcl hcut hR hlen
  have i1 := doRequest_idx fs c1
  have i2 := doRequest_idx fs c2
  refine ⟨cP, doRequest fs c2, doRequest fs c1, run1, e2, e1, doRequest_ne_NO_REQUEST fs c1,
    doRequest_agree fs c2 c1 g2 g1 (u2.trans u1.symm), (doRequest_url fs c1).trans u1,
    by rw [doRequest_url, doRequest_url, u2, u1],
    (doRequest_linger fs c1).trans l1,
    by rw [doRequest_linger, doRequest_linger, l2, l1],
    i1.checkedIndex.trans k1,
    by rw [i2.startLine, i1.startLine, s2, s1],
    by rw [i2.checkedIndex, i1.checkedIndex, k2, k1],
    by rw [i2.readIndex, i1.readIndex, r2, r1]⟩

/-- C21 at a concrete input: the request `GET /index.html HTTP/1.1` with the
header line `Connection: keep-alive`, cut behind the `\r` of the header line;
and the line `GET / HTTP/1.1` of which the `\r` is the last byte received. -/
theorem C21_resumable_witness :
    (∃ cP r2 r1,
      processRead siteFiles (recvSegment (init blank)
          (bytes "GET /index.html HTTP/1.1\r\nConnection: keep-alive\r"))
        = some (NO_REQUEST, cP) ∧
      processRead siteFiles (recvSegment cP (bytes "\n\r\n")) = some r2 ∧
      processRead siteFiles (recvSegment (init blank)
          (bytes "GET /index.html HTTP/1.1\r\nConnection: keep-alive\r" ++ bytes "\n\r\n"))
        = some r1 ∧
      r2.1 = r1.1 ∧ urlString r2.2 = bytes "/index.html" ∧ r2.2.linger = true ∧
      r2.2.checkedIndex = 52) ∧
    parseLine (recvSegment (init blank) (bytes "GET / HTTP/1.1\r"))
      = (LINE_OPEN, scannedTo (recvSegment (init blank) (bytes "GET / HTTP/1.1\r")) 14) := by
  have h := C21_resumable siteFiles blank (bytes "GET /index.html HTTP/1.1")
    [bytes "Connection: keep-alive"] (bytes "GET /index.html HTTP/1.1\r\nConnection: keep-alive\r")
    (bytes "\n\r\n") (by decide) (by decide) (by decide) (by decide) (by decide) (by decide)
    (by decide)
  obtain ⟨⟨cP, r2, r1, a1, a2, a3, _, a5, a6, a7, a8, a9, a10, _, a12, _⟩, hcr⟩ := h
  refine ⟨⟨cP, r2, r1, a1, a2, a3, a5, ?_, ?_, ?_⟩, ?_⟩
  · rw [a7, a6]
    decide
  · rw [a9, a8]
    decide
  · rw [a12, a10]
    decide
  · have e : bytes "GET / HTTP/1.1\r" = bytes "GET / HTTP/1.1" ++ [13] := by decide
    rw [e]
    exact (hcr (recvSegment (init blank) (bytes "GET / HTTP/1.1" ++ [13]))
      (bytes "GET / HTTP/1.1") [] (le_refl _) (by decide) (by decide) (fresh_at blank _)
      (by decide)).1

/-! ## A negative `Content-Length` and the socket -/

theorem addResponse_stores (c : HTTPConn) (out : List Nat) :
    (addResponse c out).2.stores = c.stores := by
  unfold addResponse
  dsimp only
  split_ifs <;> rfl

theorem addHeaders_stores (c : HTTPConn) (n : Int) : (addHeaders c n).2.stores = c.stores := by
  unfold addHeaders addContentLength addContentType addLinger addBlankLine
  dsimp only
  split_ifs <;> simp only [addResponse_stores]

theorem errorResponse_stores (c : HTTPConn) (status : Int) (title form : List Nat) :
    (errorResponse c status title form).2.stores = c.stores := by
  have a := addResponse_stores c
    (bytes "HTTP/1.1" ++ [32] ++ fmtD status ++ [32] ++ title ++ bytes "\r\n")
  have b := addHeaders_stores (addStatusLine c status title).2 (toInt32 form.length)
  have d := addResponse_stores (addHeaders (addStatusLine c status title).2
    (toInt32 form.length)).2 form
  have e : (addContent (addHeaders (addStatusLine c status title).2 (toInt32 form.length)).2
      form).2.stores = c.stores := d.trans (b.trans a)
  unfold errorResponse
  dsimp only
  split_ifs
  · exact e
  · exact e

/-- Response assembly stores nothing in `readBuffer`. -/
theorem processWrite_stores (c : HTTPConn) (code : HTTP_CODE) :
    (processWrite c code).2.stores = c.stores := by
  have a := addResponse_stores c
    (bytes "HTTP/1.1" ++ [32] ++ fmtD 200 ++ [32] ++ ok_200_title ++ bytes "\r\n")
  have b := addHeaders_stores (addStatusLine c 200 ok_200_title).2
    (toInt32 (addStatusLine c 200 ok_200_title).2.fileStat.st_size)
  have e : (addHeaders (addStatusLine c 200 ok_200_title).2
      (toInt32 (addStatusLine c 200 ok_200_title).2.fileStat.st_size)).2.stores = c.stores :=
    b.trans a
  cases code
  · rfl
  · rfl
  · exact errorResponse_stores _ _ _ _
  · exact errorResponse_stores _ _ _ _
  · exact errorResponse_stores _ _ _ _
  · exact e
  · exact errorResponse_stores _ _ _ _
  · rfl

/-- Descriptor 5 is accepted and the 39 bytes of the request `GET / HTTP/1.1`
with the header line `Content-Length: -59` and the empty line arrive: the
slot waits for a worker.  `processRead` stores at offset -20 of `readBuffer`
and returns a code other than `NO_REQUEST`; `process()` composes the
response and calls `modfd` for `EPOLLOUT`. -/
theorem negative_length_run (fs : FileSys) :
    ∃ s code c1, slotRun fs ⟨Phase.free, blank, 0⟩
        [Event.accept 5, Event.readable
          [RecvResult.data (bytes "GET / HTTP/1.1\r\nContent-Length: -59\r\n\r\n"),
            RecvResult.eagain]] = some s ∧
      s.phase = Phase.queued ∧ s.conn.socketFd = 5 ∧ s.userCount = 1 ∧ s.conn.stores = [] ∧
      processRead fs s.conn = some (code, c1) ∧ code ≠ NO_REQUEST ∧ (-20 : Int) ∈ c1.stores ∧
      c1.armed = s.conn.armed ∧
      process fs s.conn s.userCount
        = some (modfd (processWrite c1 code).2 EPOLLOUT, s.userCount) := by
  have h1 : slotStep fs ⟨Phase.free, blank, 0⟩ (Event.accept 5)
      = some ⟨Phase.armedIn, (blank.init 5 0).1, 1⟩ := rfl
  have hr := read_recvSegment (blank.init 5 0).1
    (bytes "GET / HTTP/1.1\r\nContent-Length: -59\r\n\r\n") (by decide) (by decide)
  have h2 := slotStep_readable fs ⟨Phase.armedIn, (blank.init 5 0).1, 1⟩ _ _ rfl hr
  have hrun : slotRun fs ⟨Phase.free, blank, 0⟩
      [Event.accept 5, Event.readable
        [RecvResult.data (bytes "GET / HTTP/1.1\r\nContent-Length: -59\r\n\r\n"),
          RecvResult.eagain]]
      = some ⟨Phase.queued, recvSegment (blank.init 5 0).1
          (bytes "GET / HTTP/1.1\r\nContent-Length: -59\r\n\r\n"), 1⟩ := by
    rw [slotRun, h1]
    dsimp only
    rw [slotRun, h2]
    rfl
  have hdata : bytes "GET / HTTP/1.1\r\nContent-Length: -59\r\n\r\n"
      = bytes "GET / HTTP/1.1" ++ [13, 10] ++
        (wire [bytes "Content-Length: -59"] ++ 13 :: 10 :: []) := by decide
  obtain ⟨r, hpr, hne, hm⟩ := request_with_body fs (addfd { blank with socketFd := 5 } true)
    (bytes "GET / HTTP/1.1") [bytes "Content-Length: -59"] [] (by decide) (by decide)
    (by decide) (by decide) (by decide) (by decide)
  have e : ((bytes "GET / HTTP/1.1").length : Int) + 2 +
      ((wire [bytes "Content-Length: -59"]).length : Int) + 2 +
      contentLengthOf 0 [bytes "Content-Length: -59"] = -20 := by decide
  rw [e] at hm
  have hpr' : processRead fs (recvSegment (blank.init 5 0).1
      (bytes "GET / HTTP/1.1\r\nContent-Length: -59\r\n\r\n")) = some r := by
    rw [hdata]
    exact hpr
  obtain ⟨code, c1, hr1, hk, hcase⟩ := process_spec fs (recvSegment (blank.init 5 0).1
    (bytes "GET / HTTP/1.1\r\nContent-Length: -59\r\n\r\n")) 1 rfl
  have hrc : r = (code, c1) := by
    rw [hpr'] at hr1
    exact Option.some.inj hr1
  subst hrc
  refine ⟨_, code, c1, hrun, rfl, rfl, rfl, rfl, hr1, hne, hm, hk.armed, ?_⟩
  rcases hcase with ⟨h, _⟩ | ⟨_, _, hp⟩
  · exact absurd h hne
  · exact hp

/-- C19 (what the code does at the failing input). Descriptor 5 is accepted
and the request `GET / HTTP/1.1` with the header line `Content-Length: -59`
and the empty line arrives, 39 bytes; the slot waits for a worker, with
`socketFd = 5` and nothing stored outside `readBuffer`.  In `process()` the
test of `parseContent` holds (`39 >= -59 + 39`) and `parseContent` stores a
NUL at `text[contentLength]`, offset `39 - 59 = -20` of `readBuffer`.
`readBuffer` begins at offset 20 of the object and `socketFd` occupies the
offsets 0 to 3: the byte stored is the first byte of `socketFd`.  `process()`
goes on, composes the response and returns. -/
theorem C19_store_reaches_socketFd (fs : FileSys) :
    ∃ s c', slotRun fs ⟨Phase.free, blank, 0⟩
        [Event.accept 5, Event.readable
          [RecvResult.data (bytes "GET / HTTP/1.1\r\nContent-Length: -59\r\n\r\n"),
            RecvResult.eagain]] = some s ∧
      s.phase = Phase.queued ∧ s.conn.socketFd = 5 ∧ StoresInside s.conn ∧
      process fs s.conn s.userCount = some (c', s.userCount) ∧
      (-20 : Int) ∈ c'.stores ∧ ¬ StoresInside c' ∧
      (offsetOf .readBuffer : Int) + (-20) = offsetOf .socketFd ∧
      Member.socketFd.size = 4 := by
  obtain ⟨s, code, c1, hrun, hq, hfd, _, hst, _, _, hm, _, hp⟩ := negative_length_run fs
  have hm' : (-20 : Int) ∈ (modfd (processWrite c1 code).2 EPOLLOUT).stores := by
    show (-20 : Int) ∈ (processWrite c1 code).2.stores
    rw [processWrite_stores]
    exact hm
  refine ⟨s, _, hrun, hq, hfd, ?_, hp, hm', ?_, by decide, by decide⟩
  · intro i hi
    rw [hst] at hi
    cases hi
  · intro h
    exact absurd (h (-20) hm').1 (by decide)

/-- C22 (what the code does at the failing input). Descriptor 5 is accepted
and the request `GET / HTTP/1.1` with the header line `Content-Length: -59`
and the empty line arrives.  The worker runs `process()`: `processRead`
stores a NUL at offset -20 of `readBuffer`, the first byte of the member
`socketFd` (`readBuffer` begins at offset 20 of the object), before any
`modfd`; then the response is composed and the one `modfd` of the run, for
`EPOLLOUT`, is issued with the member `socketFd` as its descriptor. -/
theorem C22_rearm_after_store_on_socketFd (fs : FileSys) :
    ∃ s s' code c1, slotRun fs ⟨Phase.free, blank, 0⟩
        [Event.accept 5, Event.readable
          [RecvResult.data (bytes "GET / HTTP/1.1\r\nContent-Length: -59\r\n\r\n"),
            RecvResult.eagain]] = some s ∧
      s.conn.socketFd = 5 ∧
      processRead fs s.conn = some (code, c1) ∧ code ≠ NO_REQUEST ∧
      (-20 : Int) ∈ c1.stores ∧ c1.armed = s.conn.armed ∧
      slotStep fs s Event.work = some s' ∧
      s'.conn = modfd (processWrite c1 code).2 EPOLLOUT ∧
      s'.conn.armed = s.conn.armed ++ [EPOLLOUT ||| EPOLLET ||| EPOLLONESHOT ||| EPOLLRDHUP] ∧
      (offsetOf .readBuffer : Int) + (-20) = offsetOf .socketFd := by
  obtain ⟨s, code, c1, hrun, hq, hfd, _, _, hr, hne, hm, ha, hp⟩ := negative_length_run fs
  have hw := slotStep_work fs s _ _ hq hp
  refine ⟨s, _, code, c1, hrun, hfd, hr, hne, hm, ha, hw, rfl, ?_, by decide⟩
  show (processWrite c1 code).2.armed ++ _ = _
  rw [(processWrite_sock c1 code).2.1, ha]

end TinyWeb
